import Mathlib

/-!
# Pawn-Shop-LLM: the response tag parser, the generators and the negotiation session controller

A shallow embedding of `parseTags` and the validation of the two prompt builders
(`src/js/llm.js`), of the generators of `src/js/dataGenerators.js` (`generateItem`,
`generateCustomerData`, `generateBuyerData`) and of the handlers of `src/js/main.js`
(`startNewCustomerInteraction`, `processPlayerTurn`, `handleAcceptPrice`, `handleEndNegotiation`,
`handleAppraiseItem`, `finalizeDeal`, `finalizeSale`, `endCurrentInteraction`, `loadGame`),
followed by the properties proved about them.

Conventions of the embedding.
* A JavaScript string is a `List Char`.  The regular expressions of the source have no `u` flag
  and only test a character for being an ASCII digit, an ASCII letter, a punctuation mark, white
  space or a line terminator, so a character outside the Basic Multilingual Plane behaves like
  any other ordinary character.
* JavaScript numbers that hold integers are `Int`, and the arithmetic of the ledger is exact
  integer arithmetic (binary64 is exact on integers of magnitude at most `2 ^ 53`).  The value
  of a decimal literal is its exact mathematical value.
* The generators compute with exact rational numbers: a call of `Math.random()` is an argument,
  a rational `r` with `0 ≤ r < 1`, the multipliers and sensitivities are rationals, and
  `Math.round` rounds the exact product.  The rounding of binary64 is not modelled.
* A JavaScript object used as a dictionary is an association list in insertion order; the
  identity of an inventory object is a number `ref`.
* A handler is one atomic step.  The value an `await` resolves to is an argument of the step, and
  no other handler runs while a call is awaited (the source guards its handlers with
  `isLLMThinking` and disables the controls for that time).  A `setTimeout` whose callback ends
  the session is a pending timer of the state, fired by a step of its own.
* The section "The handlers with their awaits" gives a second, finer model for the property
  about outstanding calls: a handler runs up to its `await`, its call is outstanding, and other
  handlers (among them `loadGame`, which has no guard) may run before the call resolves.
* Calls to the user interface and to the model gateway are recorded in a trace, in order.
  Console output, the save and new-customer buttons, the portrait of the customer and the
  clearing of the input field are left out.

The file has two parts: the definitions, then the theorems.
-/

namespace PawnShop

/-! ## Character classes used by the regular expressions of `llm.js` -/

/-- The ECMAScript LineTerminator code points, the characters that `.` does not match. -/
def isLineTerminator (c : Char) : Bool :=
  c.toNat == 0x0A || c.toNat == 0x0D || c.toNat == 0x2028 || c.toNat == 0x2029

/-- The class `\s` of ECMAScript (WhiteSpace and LineTerminator), which is also the set of
characters removed by `String.prototype.trim`. -/
def isWhiteSpace (c : Char) : Bool :=
  c.toNat == 0x09 || c.toNat == 0x0A || c.toNat == 0x0B || c.toNat == 0x0C || c.toNat == 0x0D ||
  c.toNat == 0x20 || c.toNat == 0xA0 || c.toNat == 0x1680 ||
  (0x2000 ≤ c.toNat && c.toNat ≤ 0x200A) ||
  c.toNat == 0x2028 || c.toNat == 0x2029 || c.toNat == 0x202F || c.toNat == 0x205F ||
  c.toNat == 0x3000 || c.toNat == 0xFEFF

/-- The class `\d`: the ASCII digits. -/
def isDigit (c : Char) : Bool :=
  0x30 ≤ c.toNat && c.toNat ≤ 0x39

/-- Case canonicalisation of one character as a regular expression with the `i` flag (and no `u`
flag) performs it against an ASCII pattern, and as `toUpperCase` acts on an ASCII string: the
letters `a`..`z` go to `A`..`Z`, every other character is left alone (a non-ASCII character
never canonicalises to an ASCII one). -/
def toUpperChar (c : Char) : Char :=
  if 0x61 ≤ c.toNat && c.toNat ≤ 0x7A then Char.ofNat (c.toNat - 0x20) else c

/-- The method `toUpperCase` on a captured tag name. -/
def toUpperCase (s : List Char) : List Char :=
  s.map toUpperChar

/-- The method `trim`: white space is removed from both ends. -/
def trim (s : List Char) : List Char :=
  ((s.dropWhile isWhiteSpace).reverse.dropWhile isWhiteSpace).reverse

/-! ## The regular expression `tagRegex` -/

/-- The alternation inside the first capture group of `tagRegex`, in source order. -/
def tagNames : List (List Char) :=
  ["PRICE_ASK".toList, "ACCEPT_OFFER".toList, "ITEM_NAME".toList, "ITEM_DESC".toList,
   "REVEALED_NAME".toList, "REVEALED_AGE".toList, "REVEALED_OCCUPATION".toList,
   "PATIENCE".toList, "PRICE_OFFER".toList, "ACCEPT_PRICE".toList]

/-- The tail `.*?\]` of the pattern: the lazy star first tries to close the tag at the current
character and only otherwise consumes one character that is not a line terminator.  The result
is the text consumed by `.*?` and the text after the closing bracket. -/
def matchLazyDot : List Char → Option (List Char × List Char)
  | [] => none
  | c :: cs =>
    if c == ']' then some ([], cs)
    else if isLineTerminator c then none
    else
      match matchLazyDot cs with
      | some (v, rest) => some (c :: v, rest)
      | none => none

/-- The second capture group with the closing bracket, `([-\d\s].*?)\]`. -/
def matchValue : List Char → Option (List Char × List Char)
  | [] => none
  | c :: cs =>
    if c == '-' || isDigit c || isWhiteSpace c then
      match matchLazyDot cs with
      | some (v, rest) => some (c :: v, rest)
      | none => none
    else none

/-- The part `\s*([-\d\s].*?)\]`: the greedy star takes one more white space character when the
rest of the pattern can still match afterwards, and gives it back otherwise. -/
def matchSpacesValue : List Char → Option (List Char × List Char)
  | [] => none
  | c :: cs =>
    if isWhiteSpace c then
      match matchSpacesValue cs with
      | some r => some r
      | none => matchValue (c :: cs)
    else matchValue (c :: cs)

/-- One alternative of the name group matched case-insensitively at the head of the input: the
captured (raw) name and the text after it. -/
def matchName : List Char → List Char → Option (List Char × List Char)
  | [], input => some ([], input)
  | _ :: _, [] => none
  | p :: ps, c :: cs =>
    if toUpperChar c == p then
      match matchName ps cs with
      | some (raw, rest) => some (c :: raw, rest)
      | none => none
    else none

/-- What comes after the opening bracket for one alternative: the name, a colon, and the value
part.  The result is the raw name, the raw value and the text after the closing bracket. -/
def matchAlternative (name input : List Char) : Option (List Char × List Char × List Char) :=
  match matchName name input with
  | some (raw, c :: rest) =>
    if c == ':' then
      match matchSpacesValue rest with
      | some (v, after) => some (raw, v, after)
      | none => none
    else none
  | _ => none

/-- The alternatives are tried in order; the first that lets the whole pattern match wins. -/
def matchAlternatives : List (List Char) → List Char → Option (List Char × List Char × List Char)
  | [], _ => none
  | name :: names, input =>
    match matchAlternative name input with
    | some r => some r
    | none => matchAlternatives names input

/-- An attempt to match `tagRegex` at the very start of the input. -/
def matchTagAt : List Char → Option (List Char × List Char × List Char)
  | [] => none
  | c :: cs => if c == '[' then matchAlternatives tagNames cs else none

/-- One result of `tagRegex.exec`: the index of the match and the two capture groups. -/
structure TagMatch where
  index : Nat
  name : List Char
  value : List Char
  deriving DecidableEq, Repr

/-- The successive results of `tagRegex.exec(text)` of the `while` loop.  The regular expression
is global, so each search starts where the previous match ended: `skip` counts the characters
of the last match that are still to be passed over, `idx` is the index of the head of the
input in the whole text. -/
def execFrom : List Char → Nat → Nat → List TagMatch
  | [], _, _ => []
  | _ :: cs, skip + 1, idx => execFrom cs skip (idx + 1)
  | c :: cs, 0, idx =>
    match matchTagAt (c :: cs) with
    | some (raw, v, rest) => ⟨idx, raw, v⟩ :: execFrom cs (cs.length - rest.length) (idx + 1)
    | none => execFrom cs 0 (idx + 1)

/-- All matches of `tagRegex` in a text, in order. -/
def execAll (text : List Char) : List TagMatch :=
  execFrom text 0 0

/-! ## Numbers: `parseInt` and `parseFloat` -/

/-- The outcome of `parseInt` or `parseFloat` as far as `parseTags` inspects it: `NaN`, a number
with an integral value, or a finite number that is not an integer. -/
inductive JSNumber where
  | nan
  | integer (v : Int)
  | fraction
  deriving DecidableEq, Repr

/-- The value of a string of decimal digits. -/
def digitsValue (ds : List Char) : Nat :=
  ds.foldl (fun acc c => 10 * acc + (c.toNat - 0x30)) 0

/-- An optional sign at the head of a numeric string. -/
def takeSign : List Char → Bool × List Char
  | c :: cs => if c == '-' then (true, cs) else if c == '+' then (false, cs) else (false, c :: cs)
  | [] => (false, [])

/-- The function `parseInt(s, 10)`: leading white space, an optional sign, then the longest run
of decimal digits; `NaN` when that run is empty. -/
def parseInt (s : List Char) : JSNumber :=
  let (neg, body) := takeSign (s.dropWhile isWhiteSpace)
  let ds := body.takeWhile isDigit
  if ds.isEmpty then JSNumber.nan
  else JSNumber.integer (if neg then - (digitsValue ds : Int) else (digitsValue ds : Int))

/-- The function `parseFloat(s)` on the strings `parseTags` passes to it, which contain only
digits, dots and hyphens (so no exponent part and no `Infinity` literal can occur): an optional
sign, then the longest prefix of the form `digits`, `digits.`, `digits.digits` or `.digits`;
`NaN` when there is no such prefix. -/
def parseFloat (s : List Char) : JSNumber :=
  let (neg, body) := takeSign (s.dropWhile isWhiteSpace)
  let ip := body.takeWhile isDigit
  let afterInt := body.dropWhile isDigit
  let fp := match afterInt with
    | c :: cs => if c == '.' then cs.takeWhile isDigit else []
    | [] => []
  if ip.isEmpty && fp.isEmpty then JSNumber.nan
  else
    let scale := 10 ^ fp.length
    let mantissa := digitsValue ip * scale + digitsValue fp
    if mantissa % scale == 0 then
      JSNumber.integer (if neg then - ((mantissa / scale : Nat) : Int) else ((mantissa / scale : Nat) : Int))
    else JSNumber.fraction

/-! ## `parseTags` -/

/-- A value stored in the object returned by `parseTags`: the trimmed text of a text tag, or the
number of a numeric tag (always an integer, see the validation in `storeTag`). -/
inductive TagValue where
  | str (s : List Char)
  | num (v : Int)
  deriving DecidableEq, Repr

/-- The object `tags`: keys in insertion order. -/
abbrev Tags := List (String × TagValue)

/-- Property read `tags[key]`; `none` is `undefined`. -/
def Tags.get (tags : Tags) (key : String) : Option TagValue :=
  match tags with
  | [] => none
  | (k, v) :: rest => if k == key then some v else Tags.get rest key

/-- Property write `tags[key] = value`: an existing key keeps its place, a new key is added
last. -/
def Tags.set (tags : Tags) (key : String) (value : TagValue) : Tags :=
  match tags with
  | [] => [(key, value)]
  | (k, v) :: rest => if k == key then (k, value) :: rest else (k, v) :: Tags.set rest key value

/-- The array `numericTags` of the source. -/
def numericTags : List String :=
  ["PRICE_ASK", "ACCEPT_OFFER", "REVEALED_AGE", "PATIENCE", "PRICE_OFFER", "ACCEPT_PRICE"]

/-- The character class kept by `tagValue.replace(/[^\d.-]/g, '')`. -/
def isNumericChar (c : Char) : Bool :=
  isDigit c || c == '.' || c == '-'

/-- The numeric conversion of the loop body: `cleanedValue` and then `parseFloat` for PATIENCE,
`parseInt(.., 10)` for the other numeric tags. -/
def numValueOf (tagName : String) (tagValue : List Char) : JSNumber :=
  let cleanedValue := tagValue.filter isNumericChar
  if tagName == "PATIENCE" then parseFloat cleanedValue else parseInt cleanedValue

/-- The body of the `while` loop for one match; a `continue` of the source returns `tags`
unchanged.  Every test on `numValue` in the source is guarded by `Number.isInteger(numValue)`,
so a non-integer number takes the `continue` of whichever branch it is in. -/
def storeTag (tags : Tags) (m : TagMatch) : Tags :=
  let tagName := String.mk (toUpperCase m.name)
  let tagValue := trim m.value
  if numericTags.contains tagName then
    match numValueOf tagName tagValue with
    | JSNumber.nan => tags
    | JSNumber.fraction => tags
    | JSNumber.integer numValue =>
      if tagName == "PATIENCE" then
        if numValue ≤ -5 && numValue ≥ -30 then Tags.set tags tagName (TagValue.num numValue)
        else tags
      else
        if tagName != "REVEALED_AGE" && numValue < 0 then tags
        else if tagName == "REVEALED_AGE" && numValue ≤ 0 then tags
        else Tags.set tags tagName (TagValue.num numValue)
  else Tags.set tags tagName (TagValue.str tagValue)

/-- The function `parseTags(text)` of `llm.js`. -/
def parseTags (text : List Char) : Tags :=
  if text.isEmpty then []
  else (execAll text).foldl storeTag []

/-! ## The ledger and the negotiation session of `main.js` -/

/-- The value of `currentCustomerType`, `'seller'` or `'buyer'`. -/
inductive CustomerType where
  | seller
  | buyer
  deriving DecidableEq, Repr

/-- The object `itemData` made by `generateItem` for a seller; `name` and `description` are
`null` until the model invents them. -/
structure ItemData where
  name : Option (List Char)
  description : Option (List Char)
  baseValue : Int
  condition : String
  rarity : String
  conditionMultiplier : Rat
  rarityMultiplier : Rat
  actualValue : Int
  deriving DecidableEq

/-- An object of `shopInventory`.  `ref` is the identity of the JavaScript object: two
references are `===` exactly when they have the same `ref`. -/
structure InventoryItem where
  ref : Nat
  name : Option (List Char)
  description : Option (List Char)
  condition : String
  rarity : String
  purchasePrice : Int
  baseValue : Int
  actualValue : Int
  conditionMultiplier : Rat
  rarityMultiplier : Rat
  deriving DecidableEq

/-- The object `revealedInfo`. -/
structure RevealedInfo where
  name : Bool
  age : Bool
  occupation : Bool
  deriving DecidableEq, Repr

/-- The object `customerData`, as `generateCustomerData` or `generateBuyerData` makes it, without
the portrait address.  `name`, `age` and `occupation` hold `null` (`none`) or a tag value; a field
that the customer of the other kind does not have is `undefined` (`none`), and so is a
`personality` read outside the table. -/
structure CustomerData where
  name : Option TagValue
  age : Option TagValue
  occupation : Option TagValue
  personality : Option String
  itemThemeHint : Option String
  patience : Int
  currentPatience : Int
  priceSensitivity : Rat
  minimumAcceptablePrice : Option Int
  initialAskingPrice : Option Int
  currentAskingPrice : Option Int
  initialOffer : Option Int
  maximumAcceptablePrice : Option Int
  currentOffer : Option Int
  revealedInfo : RevealedInfo
  deriving DecidableEq

/-- The object `currentCustomer`. -/
structure Session where
  customerData : CustomerData
  itemData : Option ItemData
  itemToSell : Option InventoryItem
  systemPrompt : List Char
  type : CustomerType
  currentOffer : Option Int
  currentAskingPrice : Option Int
  deriving DecidableEq

/-- One entry of `conversationHistory`. -/
inductive Turn where
  | user (text : List Char)
  | model (text : List Char)
  deriving DecidableEq, Repr

/-- The object `appraisalResults` of `handleAppraiseItem`; `none` is `null`.  `value` holds the
two bounds of the text "Around $lowerBound - $upperBound". -/
structure AppraisalResults where
  value : Option (Int × Int)
  condition : Option String
  conditionMultiplier : Option Rat
  rarity : Option String
  rarityMultiplier : Option Rat
  deriving DecidableEq

/-- The first argument of `addDialogueLog`. -/
inductive Speaker where
  | player
  | customer (name : Option TagValue)
  | system
  deriving DecidableEq

/-- The second argument of `addDialogueLog`; the fixed sentences of the source are constructors.
`cannotAfford a` is the line "Wait, I don't actually have $a... My mistake.", `acceptPrice a` is
"Okay, I accept your price of $a.", `acceptOffer a` is "Okay, I accept your offer of $a.",
`endSeller` and `endBuyer` are the two sentences of `handleEndNegotiation`, `leftAfter` is
the system line of `endCurrentInteraction` after a purchase (`true`) or a sale (`false`), and
`appraisal r` is the line "Appraisal results: .." that `handleAppraiseItem` writes for the
results `r`. -/
inductive LogLine where
  | text (t : List Char)
  | cannotAfford (amount : Int)
  | acceptPrice (amount : Int)
  | acceptOffer (amount : Int)
  | endSeller
  | endBuyer
  | leftAfter (customerLeft : Option TagValue) (purchase : Bool)
  | appraisal (results : AppraisalResults)
  deriving DecidableEq

/-- The errors thrown inside the `try` block of `startNewCustomerInteraction`, one constructor
for each `throw new Error(..)`, in the order of the source, and `typeError` for the error of
reading a property of `null`. -/
inductive SetupError where
  | failedItem
  | failedSeller
  | failedSellerPrompt
  | inventoryEmpty
  | failedSelect
  | failedBuyer
  | failedBuyerPrompt
  | noInitialResponse
  | customerBecameNull
  | typeError
  deriving DecidableEq, Repr

/-- The texts given to `showMessage` by the handlers; `errorStarting e` is
"Error starting interaction: " followed by the message of the error, and the last four are the
messages of `handleAppraiseItem`. -/
inductive Message where
  | pleaseWait
  | generatingCustomer
  | errorStarting (error : SetupError)
  | waitingForResponse
  | customerLostPatience
  | dealAgreed (price : Int)
  | cannotAffordOffer (price : Int)
  | saleAgreed (price : Int)
  | troubleResponding
  | noValidAskingPrice
  | cannotAffordAsking (price : Int) (cash : Int)
  | noValidOffer
  | purchaseComplete (name : Option (List Char)) (price : Int)
  | saleComplete (name : Option (List Char)) (price : Int)
  | appraiseOnce
  | cannotAppraiseSelling
  | appraisalItemMissing
  | appraisalComplete
  deriving DecidableEq

/-- A call to the user interface or to the model gateway, recorded in the order it is made. -/
inductive Effect where
  | addDialogueLog (speaker : Speaker) (line : LogLine)
  | updateButtonStates (type : Option CustomerType) (canInteract canEnd canAppraise : Bool)
  | showMessage (message : Message)
  | hideMessage
  | displayCustomerInfo (customer : CustomerData)
  | displayItemInfo (priceOrOffer : Option Int) (context : CustomerType)
  | updatePatienceDisplay (value : Int)
  | updateCashDisplay (value : Int)
  | displayInventory (inventory : List InventoryItem)
  | displayAppraisalPanel (visible : Bool)
  | displayAppraisalInfo (results : AppraisalResults)
  | disableAppraiseButton
  | clearCustomerArea
  | clearDialogueLog
  | callGeminiApi (history : List Turn) (systemPrompt : List Char)
  | requestRemark (reason : String) (finalPrice : Option Int) (customerType : CustomerType)
  | scheduleUiClear (customerLeft : Option TagValue)
  deriving DecidableEq

/-- The argument `reason` of `endCurrentInteraction`, one constructor for each string the
source passes (`"deal_made_purchase"`, `"deal_made_sale"`, `"patience_zero"`, `"manual"`,
`"load_game"`, `"error_setup"`). -/
inductive EndReason where
  | dealMadePurchase
  | dealMadeSale
  | patienceZero
  | manual
  | loadGame
  | errorSetup
  deriving DecidableEq, Repr

/-- The test `reason.startsWith("deal_made")`. -/
def EndReason.wasDealOrSale : EndReason → Bool
  | EndReason.dealMadePurchase => true
  | EndReason.dealMadeSale => true
  | _ => false

/-- A pending `setTimeout` whose callback is
`if (currentCustomer) endCurrentInteraction(reason)`, with its delay in milliseconds. -/
structure EndTimer where
  reason : EndReason
  delay : Nat
  deriving DecidableEq, Repr

/-- The global variables of `main.js` that the negotiation touches, the pending timers, the
counter from which new object identities are taken, and the trace of effects. -/
structure GameState where
  playerCash : Int
  shopInventory : List InventoryItem
  currentCustomerType : Option CustomerType
  currentCustomer : Option Session
  conversationHistory : List Turn
  isLLMThinking : Bool
  appraisalUsedThisTurn : Bool
  nextRef : Nat
  timers : List EndTimer
  effects : List Effect
  deriving DecidableEq

/-- Records one effect at the end of the trace. -/
def GameState.emit (s : GameState) (e : Effect) : GameState :=
  { s with effects := s.effects ++ [e] }

/-- Truthiness of a value read from `tags` or from a `customerData` field: `undefined`, `null`,
the empty string and `0` are falsy. -/
def truthy : Option TagValue → Bool
  | none => false
  | some (TagValue.str t) => !t.isEmpty
  | some (TagValue.num v) => v != 0

/-- The test `tags.X !== undefined && typeof tags.X === 'number'`, with the number. -/
def numberTag (tags : Tags) (key : String) : Option Int :=
  match Tags.get tags key with
  | some (TagValue.num v) => some v
  | _ => none

/-- The function `endCurrentInteraction(reason)`: the session state is reset; the ledger is not
touched.  After a deal the system line is logged at once, otherwise the clearing of the
customer area is scheduled (a timer whose callback only redraws). -/
def endCurrentInteraction (s : GameState) (reason : EndReason) : GameState :=
  let customerLeft : Option TagValue :=
    match s.currentCustomer with
    | some c => if truthy c.customerData.name then c.customerData.name
                else some (TagValue.str "Customer".toList)
    | none => some (TagValue.str "Customer".toList)
  let wasDealOrSale := reason.wasDealOrSale
  let s := { s with
    currentCustomer := none
    currentCustomerType := none
    conversationHistory := []
    isLLMThinking := false
    appraisalUsedThisTurn := false }
  let s := s.emit (Effect.updateButtonStates none false false false)
  let s := s.emit Effect.hideMessage
  if reason != EndReason.loadGame then
    if !wasDealOrSale then s.emit (Effect.scheduleUiClear customerLeft)
    else
      let s := s.emit (Effect.addDialogueLog Speaker.system
        (LogLine.leftAfter customerLeft (reason == EndReason.dealMadePurchase)))
      s.emit (Effect.displayAppraisalPanel false)
  else s

/-- The function `finalizeDeal(purchasePrice)`. -/
def finalizeDeal (s : GameState) (purchasePrice : Int) : GameState :=
  match s.currentCustomer with
  | none => s.emit (Effect.updateButtonStates none false false false)
  | some c =>
    match s.currentCustomerType, c.itemData with
    | some CustomerType.seller, some item =>
      let s := { s with playerCash := s.playerCash - purchasePrice }
      let s := s.emit (Effect.updateCashDisplay s.playerCash)
      let purchasedItem : InventoryItem :=
        { ref := s.nextRef
          name := item.name
          description := item.description
          condition := item.condition
          rarity := item.rarity
          purchasePrice := purchasePrice
          baseValue := item.baseValue
          actualValue := item.actualValue
          conditionMultiplier := item.conditionMultiplier
          rarityMultiplier := item.rarityMultiplier }
      let s := { s with shopInventory := s.shopInventory ++ [purchasedItem], nextRef := s.nextRef + 1 }
      let s := s.emit (Effect.displayInventory s.shopInventory)
      let s := s.emit (Effect.showMessage (Message.purchaseComplete purchasedItem.name purchasePrice))
      endCurrentInteraction s EndReason.dealMadePurchase
    | _, _ => s.emit (Effect.updateButtonStates none false false false)

/-- The function `finalizeSale(soldItem, salePrice)`: the sold item is looked up by identity
first and by name and purchase price otherwise. -/
def finalizeSale (s : GameState) (soldItem : Option InventoryItem) (salePrice : Int) : GameState :=
  match s.currentCustomer, s.currentCustomerType, soldItem with
  | some _, some CustomerType.buyer, some sold =>
    let s := { s with playerCash := s.playerCash + salePrice }
    let s := s.emit (Effect.updateCashDisplay s.playerCash)
    let s :=
      match s.shopInventory.findIdx? (fun (item : InventoryItem) => item.ref == sold.ref) with
      | some itemIndex => { s with shopInventory := s.shopInventory.eraseIdx itemIndex }
      | none =>
        match s.shopInventory.findIdx?
            (fun (item : InventoryItem) =>
              item.name == sold.name && item.purchasePrice == sold.purchasePrice) with
        | some fallbackIndex => { s with shopInventory := s.shopInventory.eraseIdx fallbackIndex }
        | none => s
    let s := s.emit (Effect.displayInventory s.shopInventory)
    let s := s.emit (Effect.showMessage (Message.saleComplete sold.name salePrice))
    endCurrentInteraction s EndReason.dealMadeSale
  | _, _, _ => s.emit (Effect.updateButtonStates none false false false)


/-- The function `getConcludingRemark` as the controller sees it: without customer type or item
no call is made and the result is `null`; otherwise one single-turn call is made and the result
is the text `remark` it resolves to (the cleaned answer or the placeholder of the source). -/
def getConcludingRemark (s : GameState) (itemPresent : Bool) (reason : String)
    (finalPrice : Option Int) (customerType : Option CustomerType) (remark : List Char) :
    GameState × Option (List Char) :=
  match customerType with
  | some t =>
    if itemPresent then (s.emit (Effect.requestRemark reason finalPrice t), some remark)
    else (s, none)
  | none => (s, none)

/-- The guard `finalRemark && currentCustomer` followed by `addDialogueLog(name, finalRemark)`. -/
def logRemark (s : GameState) (finalRemark : Option (List Char)) : GameState :=
  match finalRemark, s.currentCustomer with
  | some r, some c =>
    if r.isEmpty then s
    else s.emit (Effect.addDialogueLog (Speaker.customer c.customerData.name) (LogLine.text r))
  | _, _ => s

/-- The three reveal statements of `processPlayerTurn`: a truthy `REVEALED_*` tag sets the flag
and the field when the flag is not set yet.  The second component is `infoRevealed`. -/
def applyReveals (cd : CustomerData) (tags : Tags) : CustomerData × Bool :=
  let r1 : CustomerData × Bool :=
    if truthy (Tags.get tags "REVEALED_NAME") && !cd.revealedInfo.name then
      ({ cd with revealedInfo := { cd.revealedInfo with name := true },
                 name := Tags.get tags "REVEALED_NAME" }, true)
    else (cd, false)
  let r2 : CustomerData × Bool :=
    if truthy (Tags.get tags "REVEALED_AGE") && !r1.1.revealedInfo.age then
      ({ r1.1 with revealedInfo := { r1.1.revealedInfo with age := true },
                   age := Tags.get tags "REVEALED_AGE" }, true)
    else r1
  if truthy (Tags.get tags "REVEALED_OCCUPATION") && !r2.1.revealedInfo.occupation then
    ({ r2.1 with revealedInfo := { r2.1.revealedInfo with occupation := true },
                 occupation := Tags.get tags "REVEALED_OCCUPATION" }, true)
  else r2

/-- The patience block of `processPlayerTurn`.  The second component is `interactionEnded`. -/
def patienceUpdate (s : GameState) (c : Session) (tags : Tags) (text remark : List Char) :
    GameState × Session × Bool :=
  match numberTag tags "PATIENCE" with
  | none => (s, c, false)
  | some delta =>
    let currentPatience := max 0 (c.customerData.currentPatience + delta)
    let c := { c with customerData := { c.customerData with currentPatience := currentPatience } }
    let s := { s with currentCustomer := some c }
    let s := s.emit (Effect.updatePatienceDisplay currentPatience)
    if currentPatience ≤ 0 then
      let s := s.emit (Effect.addDialogueLog (Speaker.customer c.customerData.name)
        (LogLine.text text))
      let s := s.emit (Effect.showMessage Message.customerLostPatience)
      let r := getConcludingRemark s (c.itemData.isSome || c.itemToSell.isSome) "patience_zero"
        none s.currentCustomerType remark
      let s := logRemark r.1 r.2
      let s := { s with timers := s.timers ++ [⟨EndReason.patienceZero, 1500⟩] }
      (s, c, true)
    else (s, c, false)

/-- The statement "Seller Asking Price Update" of the seller branch. -/
def sellerPriceUpdate (s : GameState) (c : Session) (tags : Tags) : GameState × Session :=
  match numberTag tags "PRICE_ASK" with
  | some ask =>
    let c := { c with currentAskingPrice := some ask }
    (({ s with currentCustomer := some c }).emit
      (Effect.displayItemInfo (some ask) CustomerType.seller), c)
  | none => (s, c)

/-- The statement "Seller Accepted Player's Offer" of the seller branch: the deal is finalized
only when the player has the cash.  The last component is `interactionEnded`. -/
def sellerAcceptUpdate (s : GameState) (c : Session) (tags : Tags) (text : List Char) :
    GameState × Session × Bool :=
  match numberTag tags "ACCEPT_OFFER" with
  | some acceptedOffer =>
    if s.playerCash ≥ acceptedOffer then
      let s := s.emit (Effect.addDialogueLog (Speaker.customer c.customerData.name)
        (LogLine.text text))
      let s := s.emit (Effect.showMessage (Message.dealAgreed acceptedOffer))
      (finalizeDeal s acceptedOffer, c, true)
    else
      let s := s.emit (Effect.addDialogueLog (Speaker.customer c.customerData.name)
        (LogLine.text text))
      let s := s.emit (Effect.addDialogueLog Speaker.player (LogLine.cannotAfford acceptedOffer))
      let s := s.emit (Effect.showMessage (Message.cannotAffordOffer acceptedOffer))
      (s, c, false)
  | none => (s, c, false)

/-- The seller branch of the type-specific block. -/
def sellerUpdate (s : GameState) (c : Session) (tags : Tags) (text : List Char) :
    GameState × Session × Bool :=
  let sc := sellerPriceUpdate s c tags
  sellerAcceptUpdate sc.1 sc.2 tags text

/-- The statement "Buyer Offer Update" of the buyer branch. -/
def buyerPriceUpdate (s : GameState) (c : Session) (tags : Tags) : GameState × Session :=
  match numberTag tags "PRICE_OFFER" with
  | some offer =>
    let c := { c with currentOffer := some offer }
    (({ s with currentCustomer := some c }).emit
      (Effect.displayItemInfo (some offer) CustomerType.buyer), c)
  | none => (s, c)

/-- The statement "Buyer Accepted Player's Asking Price" of the buyer branch.  The last
component is `interactionEnded`. -/
def buyerAcceptUpdate (s : GameState) (c : Session) (tags : Tags) (text : List Char) :
    GameState × Session × Bool :=
  match numberTag tags "ACCEPT_PRICE" with
  | some acceptedPrice =>
    let s := s.emit (Effect.addDialogueLog (Speaker.customer c.customerData.name)
      (LogLine.text text))
    let s := s.emit (Effect.showMessage (Message.saleAgreed acceptedPrice))
    (finalizeSale s c.itemToSell acceptedPrice, c, true)
  | none => (s, c, false)

/-- The buyer branch of the type-specific block. -/
def buyerUpdate (s : GameState) (c : Session) (tags : Tags) (text : List Char) :
    GameState × Session × Bool :=
  let sc := buyerPriceUpdate s c tags
  buyerAcceptUpdate sc.1 sc.2 tags text

/-- The reveal statements with the redraw `if (infoRevealed) displayCustomerInfo(..)`. -/
def revealUpdate (s : GameState) (c : Session) (tags : Tags) : GameState × Session :=
  let revealed := applyReveals c.customerData tags
  let c := { c with customerData := revealed.1 }
  let s := { s with currentCustomer := some c }
  (if revealed.2 then s.emit (Effect.displayCustomerInfo c.customerData) else s, c)

/-- Everything `processPlayerTurn` does with the tags of a response: the reveals, the patience
block and, when the interaction has not ended, the block of the customer type.  The last
component is `interactionEnded`. -/
def tagUpdates (s : GameState) (c : Session) (tags : Tags) (text remark : List Char) :
    GameState × Session × Bool :=
  let r := revealUpdate s c tags
  let p := patienceUpdate r.1 r.2 tags text remark
  if !p.2.2 then
    if p.1.currentCustomerType == some CustomerType.seller then sellerUpdate p.1 p.2.1 tags text
    else buyerUpdate p.1 p.2.1 tags text
  else p

/-- The first part of `processPlayerTurn`, up to the call of the model.  The test
`dependenciesMet` of the source, that the functions of the other files are defined, always
passes. -/
def processPlayerTurnSend (s : GameState) (playerTurnText : List Char) : GameState :=
  match s.currentCustomer with
  | none => s
  | some c =>
    if s.isLLMThinking then s
    else
      let s := { s with conversationHistory := s.conversationHistory ++ [Turn.user playerTurnText] }
      let s := s.emit (Effect.addDialogueLog Speaker.player (LogLine.text playerTurnText))
      let s := { s with isLLMThinking := true }
      let canAppraiseNext :=
        s.currentCustomerType == some CustomerType.seller && !s.appraisalUsedThisTurn
      let s := s.emit (Effect.updateButtonStates s.currentCustomerType false false canAppraiseNext)
      let s := s.emit (Effect.showMessage Message.waitingForResponse)
      s.emit (Effect.callGeminiApi s.conversationHistory c.systemPrompt)

/-- The end of the response branch of `processPlayerTurn`: when the interaction has not ended
the response is logged and the controls are enabled again; then `isLLMThinking` is reset. -/
def finishTurn (q : GameState × Session × Bool) (text : List Char) : GameState :=
  let s := q.1
  let c := q.2.1
  let s :=
    if !q.2.2 then
      let s := s.emit (Effect.addDialogueLog (Speaker.customer c.customerData.name)
        (LogLine.text text))
      let canAppraiseAfterTurn :=
        s.currentCustomerType == some CustomerType.seller && !s.appraisalUsedThisTurn
      let s := s.emit
        (Effect.updateButtonStates s.currentCustomerType true true canAppraiseAfterTurn)
      s.emit Effect.hideMessage
    else s
  { s with isLLMThinking := false }

/-- The second part of `processPlayerTurn`, from the moment the call of the model resolves to
`llmResponseText` (`none` is `null`, and the empty string is falsy as well); `remark` is what
`getConcludingRemark` resolves to if it is called. -/
def processPlayerTurnReceive (s : GameState) (llmResponseText : Option (List Char))
    (remark : List Char) : GameState :=
  match s.currentCustomer with
  | none => ({ s with isLLMThinking := false }).emit Effect.hideMessage
  | some c =>
    match llmResponseText with
    | some (ch :: more) =>
      let text := ch :: more
      let s := { s with conversationHistory := s.conversationHistory ++ [Turn.model text] }
      let tags := parseTags text
      finishTurn (tagUpdates s c tags text remark) text
    | _ =>
      let s := s.emit (Effect.showMessage Message.troubleResponding)
      let canAppraiseAfterError :=
        s.currentCustomerType == some CustomerType.seller && !s.appraisalUsedThisTurn
      let s := s.emit
        (Effect.updateButtonStates s.currentCustomerType true true canAppraiseAfterError)
      { s with isLLMThinking := false }

/-- The function `processPlayerTurn(playerTurnText)` run as one step: the model answers
`llmResponseText` and no other handler runs while the call is awaited.  A call that the guard
at the top rejects does nothing. -/
def processPlayerTurn (s : GameState) (playerTurnText : List Char)
    (llmResponseText : Option (List Char)) (remark : List Char) : GameState :=
  match s.currentCustomer with
  | none => s
  | some _ =>
    if s.isLLMThinking then s
    else processPlayerTurnReceive (processPlayerTurnSend s playerTurnText) llmResponseText remark

/-- The function `handleAcceptPrice()`; `remark` is what `getConcludingRemark` resolves to. -/
def handleAcceptPrice (s : GameState) (remark : List Char) : GameState :=
  match s.currentCustomer with
  | none => s
  | some c =>
    if s.isLLMThinking then s
    else if s.currentCustomerType == some CustomerType.seller then
      match c.currentAskingPrice with
      | none => s.emit (Effect.showMessage Message.noValidAskingPrice)
      | some currentAsking =>
        if currentAsking ≤ 0 then s.emit (Effect.showMessage Message.noValidAskingPrice)
        else if s.playerCash ≥ currentAsking then
          let s := s.emit (Effect.addDialogueLog Speaker.player (LogLine.acceptPrice currentAsking))
          let s := { s with isLLMThinking := true }
          let s := s.emit (Effect.updateButtonStates (some CustomerType.seller) false false false)
          let r := getConcludingRemark s c.itemData.isSome "deal_success_player_accept"
            (some currentAsking) (some CustomerType.seller) remark
          let s := logRemark r.1 r.2
          let s := { s with isLLMThinking := false }
          match s.currentCustomer with
          | some _ => finalizeDeal s currentAsking
          | none => s
        else s.emit (Effect.showMessage (Message.cannotAffordAsking currentAsking s.playerCash))
    else
      match c.currentOffer with
      | none => s.emit (Effect.showMessage Message.noValidOffer)
      | some currentOffer =>
        if currentOffer ≤ 0 then s.emit (Effect.showMessage Message.noValidOffer)
        else
          let s := s.emit (Effect.addDialogueLog Speaker.player (LogLine.acceptOffer currentOffer))
          let s := { s with isLLMThinking := true }
          let s := s.emit (Effect.updateButtonStates (some CustomerType.buyer) false false false)
          let r := getConcludingRemark s c.itemToSell.isSome "deal_success_player_accept"
            (some currentOffer) (some CustomerType.buyer) remark
          let s := logRemark r.1 r.2
          let s := { s with isLLMThinking := false }
          match s.currentCustomer with
          | some c => finalizeSale s c.itemToSell currentOffer
          | none => s

/-- The function `handleEndNegotiation()`; the end of the session itself is left to a timer. -/
def handleEndNegotiation (s : GameState) (remark : List Char) : GameState :=
  match s.currentCustomer with
  | none => s
  | some c =>
    if s.isLLMThinking then s
    else
      let s := { s with isLLMThinking := true }
      let s := s.emit (Effect.updateButtonStates s.currentCustomerType false false false)
      let s := s.emit (Effect.addDialogueLog Speaker.player
        (if s.currentCustomerType == some CustomerType.seller then LogLine.endSeller
         else LogLine.endBuyer))
      let r := getConcludingRemark s (c.itemData.isSome || c.itemToSell.isSome) "manual_leave"
        none s.currentCustomerType remark
      let s := { r.1 with isLLMThinking := false }
      let s := logRemark s r.2
      match s.currentCustomer with
      | some _ => { s with timers := s.timers ++ [⟨EndReason.manual, 500⟩] }
      | none => s

/-- The pending timer number `i` fires: it leaves the list and its callback
`if (currentCustomer) endCurrentInteraction(reason)` runs. -/
def fireTimer (s : GameState) (i : Nat) : GameState :=
  match s.timers.get? i with
  | none => s
  | some t =>
    let s := { s with timers := s.timers.eraseIdx i }
    match s.currentCustomer with
    | some _ => endCurrentInteraction s t.reason
    | none => s

/-- What can happen during a negotiation: the player sends a message and the model answers,
the player clicks the accept button, the player clicks the end button, a pending timer fires. -/
inductive NegotiationEvent where
  | playerTurn (playerTurnText : List Char) (llmResponseText : Option (List Char))
      (remark : List Char)
  | acceptClick (remark : List Char)
  | endClick (remark : List Char)
  | timerFires (i : Nat)

/-- One step of the negotiation. -/
def negotiationStep (s : GameState) : NegotiationEvent → GameState
  | NegotiationEvent.playerTurn t r k => processPlayerTurn s t r k
  | NegotiationEvent.acceptClick k => handleAcceptPrice s k
  | NegotiationEvent.endClick k => handleEndNegotiation s k
  | NegotiationEvent.timerFires i => fireTimer s i

/-- The last `updateButtonStates` call of a trace: the state the controls are left in. -/
def lastButtonStates (effects : List Effect) : Option (Option CustomerType × Bool × Bool × Bool) :=
  effects.foldl
    (fun acc e =>
      match e with
      | Effect.updateButtonStates t i n a => some (t, i, n, a)
      | _ => acc)
    none

/-! ## The generators of `dataGenerators.js`

Every call of `Math.random()` is an argument, a number `r` with `0 ≤ r < 1` (`IsDraw`).  The
arithmetic is exact rational arithmetic. -/

/-- What `Math.random()` can return. -/
def IsDraw (r : Rat) : Prop := 0 ≤ r ∧ r < 1

/-- The function `Math.round`: the nearest integer, a tie going up. -/
def mathRound (x : Rat) : Int := ⌊x + 1 / 2⌋

/-- Reading `xs[i]`: `undefined` (`none`) outside the array. -/
def index {α : Type} (xs : List α) (i : Int) : Option α :=
  if i < 0 then none else xs.get? i.toNat

/-- The table `itemConditions`, in the order of its keys. -/
def itemConditions : List (String × Rat) :=
  [("Broken", 0.25), ("Damaged", 0.40), ("Worn", 0.50), ("Regular", 0.75), ("Good", 0.90),
   ("Perfect", 1.00)]

/-- The table `itemRarities`, in the order of its keys: rarity, multiplier, weight. -/
def itemRarities : List (String × Rat × Rat) :=
  [("Common", 1.0, 40), ("Uncommon", 1.5, 30), ("Rare", 2.0, 20), ("Unique", 3.0, 8),
   ("Legendary", 5.0, 2)]

/-- The table `personalities`. -/
def personalities : List String :=
  ["Grumpy", "Cheerful", "Nervous", "Suspicious", "Friendly", "Arrogant",
   "Desperate", "Calm", "Shady", "Formal", "Enthusiastic", "Timid",
   "World-weary", "Sarcastic", "Naive", "Cunning", "Regretful", "Boastful",
   "Melancholy", "Pragmatic", "Distracted", "Curious", "Impatient",
   "Secretive", "Jovial", "Collector", "Bargain Hunter", "Wealthy Patron"]

/-- The table `itemThemes`. -/
def itemThemes : List String :=
  ["Sci-Fi", "Fantasy", "Antique", "Steampunk", "Everyday Clutter", "Post-Apocalyptic",
   "Cyberpunk", "Historical", "Noir Detective", "Magical Academy", "Gothic Horror"]

/-- The table `objectTypes`. -/
def objectTypes : List String :=
  ["Weapon", "Tool", "Coin", "Jewelry", "Clothing", "Toy", "Book/Scroll",
   "Musical Instrument", "Device/Gadget", "Container", "Art Piece",
   "Component/Part", "Utensil", "Trinket", "Relic", "Armor Piece",
   "Data Storage", "Medical Supply", "Key/Access Card", "Figurine/Statue",
   "Map/Chart"]

/-- The function `getRandomInt(min, max)` for integer bounds, with the draw `r`. -/
def getRandomInt (min max : Int) (r : Rat) : Int :=
  ⌊r * ((max - min + 1 : Int) : Rat)⌋ + min

/-- The loop of `getWeightedRandomKey`: the first key whose weight exceeds what is left of
`randomNum`; `none` when the loop ends without a key. -/
def weightedScan : List (String × Rat × Rat) → Rat → Option String
  | [], _ => none
  | (key, _, weight) :: more, randomNum =>
    if weight > 0 then
      if randomNum < weight then some key else weightedScan more (randomNum - weight)
    else weightedScan more randomNum

/-- The function `getWeightedRandomKey(weightedObject)` with the draw `r` of the weighted choice
and the draw `rFallback` of the uniform choice made when the loop ends without a key. -/
def getWeightedRandomKey (weightedObject : List (String × Rat × Rat)) (r rFallback : Rat) :
    Option String :=
  let totalWeight := (weightedObject.map (fun item => item.2.2)).sum
  if totalWeight ≤ 0 then none
  else
    match weightedScan weightedObject (r * totalWeight) with
    | some key => some key
    | none =>
      match index (weightedObject.map (fun item => item.1))
          (getRandomInt 0 ((weightedObject.length : Int) - 1) rFallback) with
      | some key => if key.isEmpty then none else some key
      | none => none

/-- The draws of `generateItem`, in the order they are made; `rarityFallback` is drawn only when
the weighted loop ends without a key. -/
structure ItemDraws where
  baseValue : Rat
  condition : Rat
  rarity : Rat
  rarityFallback : Rat

/-- The end of `generateItem`: the value is computed and the item object assembled. -/
def itemOf (baseValue : Int) (selectedCondition : String) (conditionMultiplier : Rat)
    (selectedRarity : String) (rarityMultiplier : Rat) : ItemData :=
  let actualValue := max 1 (mathRound (baseValue * conditionMultiplier * rarityMultiplier))
  { name := none
    description := none
    baseValue := baseValue
    condition := selectedCondition
    rarity := selectedRarity
    conditionMultiplier := conditionMultiplier
    rarityMultiplier := rarityMultiplier
    actualValue := actualValue }

/-- The function `generateItem()`.  A condition read outside the table, which no draw in
`[0, 1)` produces, gives `none` here. -/
def generateItem (d : ItemDraws) : Option ItemData :=
  if itemConditions.isEmpty || itemRarities.isEmpty then none
  else
    let baseValue := getRandomInt 10 500 d.baseValue
    match index itemConditions (getRandomInt 0 ((itemConditions.length : Int) - 1) d.condition) with
    | none => none
    | some (selectedCondition, conditionMultiplier) =>
      match getWeightedRandomKey itemRarities d.rarity d.rarityFallback with
      | none => none
      | some selectedRarity =>
        match itemRarities.lookup selectedRarity with
        | none => none
        | some (rarityMultiplier, _) =>
          some (itemOf baseValue selectedCondition conditionMultiplier selectedRarity
            rarityMultiplier)

/-- Step 4 of `generateCustomerData`, "Calculate SELLER Pricing": `minimumPrice` and the final
`askingPrice` for a price sensitivity. -/
def sellerPricing (actualValue baseValue : Int) (priceSensitivity : Rat) : Int × Int :=
  let low_sens_factor : Rat := 1.0 - priceSensitivity
  let minPriceMultiplier : Rat := 0.95 - (low_sens_factor * 0.5)
  let minimumPrice : Int := max 1 (mathRound (actualValue * minPriceMultiplier))
  let askMarkupMultiplier : Rat := 1.05 + (priceSensitivity * 0.45)
  let askingPrice : Int := max (minimumPrice + 1) (mathRound (minimumPrice * askMarkupMultiplier))
  let askingPrice : Int := min (min askingPrice (baseValue * 5)) (minimumPrice * 3)
  let askingPrice : Int := max askingPrice (minimumPrice + 1)
  (minimumPrice, askingPrice)

/-- The draws of `generateCustomerData`, in the order they are made (the draw of the avatar seed
is left out). -/
structure SellerDraws where
  personality : Rat
  theme : Rat
  objectType : Rat
  patience : Rat
  priceSensitivity : Rat

/-- The text a template literal gives for an array element. -/
def templateText (x : Option String) : String := x.getD "undefined"

/-- The function `generateCustomerData(itemData, avatarStyle)`; `none` is `null`.  The fields
`actualValue` and `baseValue` of an item are always defined here. -/
def generateCustomerData (itemData : Option ItemData) (d : SellerDraws) : Option CustomerData :=
  match itemData with
  | none => none
  | some itemData =>
    if personalities.isEmpty || itemThemes.isEmpty || objectTypes.isEmpty then none
    else
      let personality :=
        index personalities (getRandomInt 0 ((personalities.length : Int) - 1) d.personality)
      let selectedTheme :=
        index itemThemes (getRandomInt 0 ((itemThemes.length : Int) - 1) d.theme)
      let selectedType :=
        index objectTypes (getRandomInt 0 ((objectTypes.length : Int) - 1) d.objectType)
      let combinedItemHint := templateText selectedTheme ++ " " ++ templateText selectedType
      let patience := getRandomInt 50 100 d.patience
      let priceSensitivity : Rat := d.priceSensitivity * 0.3 + 0.7
      let prices := sellerPricing itemData.actualValue itemData.baseValue priceSensitivity
      some
        { name := none
          age := none
          occupation := none
          personality := personality
          itemThemeHint := some combinedItemHint
          patience := patience
          currentPatience := patience
          priceSensitivity := priceSensitivity
          minimumAcceptablePrice := some prices.1
          initialAskingPrice := some prices.2
          currentAskingPrice := some prices.2
          initialOffer := none
          maximumAcceptablePrice := none
          currentOffer := none
          revealedInfo := { name := false, age := false, occupation := false } }

/-- Step 3 of `generateBuyerData`, "Calculate BUYER Pricing": the final `initialOffer` and
`maximumPrice`, for a price sensitivity and the two draws of the jitters. -/
def buyerPricing (itemActualValue : Int) (priceSensitivity maxJitter offerJitter : Rat) :
    Int × Int :=
  let maxPriceMultiplier : Rat := 1.0 + ((1.0 - priceSensitivity) * 0.8) + (maxJitter * 0.1)
  let maximumPrice : Int :=
    max (itemActualValue + 1) (mathRound (itemActualValue * maxPriceMultiplier))
  let initialOfferMultiplier : Rat :=
    1.0 - ((1.0 - priceSensitivity) * 0.6) - (offerJitter * 0.15)
  let initialOffer : Int := max 1 (mathRound (itemActualValue * initialOfferMultiplier))
  let initialOffer : Int := min initialOffer (max 1 (maximumPrice - 1))
  let initialOffer : Int := max 1 initialOffer
  let initialOffer : Int :=
    if initialOffer ≥ maximumPrice then max 1 (mathRound (maximumPrice * 0.9)) else initialOffer
  (initialOffer, maximumPrice)

/-- The draws of `generateBuyerData`, in the order they are made (the draw of the avatar seed is
left out). -/
structure BuyerDraws where
  personality : Rat
  patience : Rat
  priceSensitivity : Rat
  maxJitter : Rat
  offerJitter : Rat

/-- The function `generateBuyerData(itemToSell, avatarStyle)`; `none` is `null`.  The field
`actualValue` of an item is always defined here. -/
def generateBuyerData (itemToSell : Option InventoryItem) (d : BuyerDraws) :
    Option CustomerData :=
  match itemToSell with
  | none => none
  | some itemToSell =>
    if personalities.isEmpty then none
    else
      let itemActualValue := itemToSell.actualValue
      let personality :=
        index personalities (getRandomInt 0 ((personalities.length : Int) - 1) d.personality)
      let patience := getRandomInt 50 100 d.patience
      let priceSensitivity : Rat := d.priceSensitivity * 0.4 + 0.6
      let prices := buyerPricing itemActualValue priceSensitivity d.maxJitter d.offerJitter
      some
        { name := none
          age := none
          occupation := none
          personality := personality
          itemThemeHint := none
          patience := patience
          currentPatience := patience
          priceSensitivity := priceSensitivity
          minimumAcceptablePrice := none
          initialAskingPrice := none
          currentAskingPrice := none
          initialOffer := some prices.1
          maximumAcceptablePrice := some prices.2
          currentOffer := some prices.1
          revealedInfo := { name := false, age := false, occupation := false } }

/-! ## The start of a session: `startNewCustomerInteraction` -/

/-- Truthiness of a string that may be `null`. -/
def truthyText : Option (List Char) → Bool
  | some t => !t.isEmpty
  | none => false

/-- The opening sentence of the seller prompt. -/
def sellerPromptOpening : String :=
  "You are acting as a character visiting a pawn shop. Your goal is to SELL an item to the shop owner (the player). Engage in natural conversation, negotiate the price, and adhere strictly to the persona and rules provided below."

/-- The opening sentence of the buyer prompt. -/
def buyerPromptOpening : String :=
  "You are acting as a character visiting a pawn shop. Your goal is to BUY a specific item from the shop owner (the player). Engage in natural conversation, negotiate the price, and adhere strictly to the persona and rules provided below."

/-- The function `constructCustomerPrompt(customerData, itemData)`: the empty string when an
essential field is missing.  Of the text of the prompt only the opening sentence is kept; the
rest of the template is left out (`patience`, `condition` and `rarity` are always defined
here). -/
def constructCustomerPrompt (customerData : Option CustomerData) (itemData : Option ItemData) :
    List Char :=
  match customerData, itemData with
  | some customerData, some _ =>
    if customerData.personality.isNone || customerData.initialAskingPrice.isNone ||
        customerData.minimumAcceptablePrice.isNone || customerData.itemThemeHint.isNone then []
    else trim sellerPromptOpening.toList
  | _, _ => []

/-- The function `constructBuyerPrompt(customerData, itemToSell)`: the empty string when an
essential field is missing or, for the item, falsy.  Of the text of the prompt only the opening
sentence is kept. -/
def constructBuyerPrompt (customerData : Option CustomerData) (itemToSell : Option InventoryItem) :
    List Char :=
  match customerData, itemToSell with
  | some customerData, some itemToSell =>
    if customerData.personality.isNone || customerData.initialOffer.isNone ||
        customerData.maximumAcceptablePrice.isNone then []
    else if !truthyText itemToSell.name || !truthyText itemToSell.description ||
        itemToSell.condition.isEmpty || itemToSell.rarity.isEmpty then []
    else trim buyerPromptOpening.toList
  | _, _ => []

/-- The draws of `startNewCustomerInteraction`: `customerType` is drawn only when the inventory
has two items or more, and then the draws of the branch taken. -/
structure StartDraws where
  customerType : Rat
  item : ItemDraws
  seller : SellerDraws
  itemToSell : Rat
  buyer : BuyerDraws

/-- The block "Determine Customer Type": a buyer when the inventory has two items or more and
the draw is below 0.5. -/
def chooseCustomerType (shopInventory : List InventoryItem) (r : Rat) : CustomerType :=
  if shopInventory.length ≥ 2 then
    if r < 0.5 then CustomerType.buyer else CustomerType.seller
  else CustomerType.seller

/-- The value `x || null` for a number that may be `undefined`: 0 is falsy. -/
def orNull (x : Option Int) : Option Int :=
  match x with
  | some v => if v = 0 then none else some v
  | none => none

/-- The statements of `startNewCustomerInteraction` between the guards and the `try` block:
the flag is set, the display is cleared and the customer type is chosen. -/
def startPreamble (s : GameState) (d : StartDraws) : GameState :=
  let s := { s with isLLMThinking := true }
  let s := s.emit (Effect.showMessage Message.generatingCustomer)
  let s := s.emit Effect.clearCustomerArea
  let s := s.emit Effect.clearDialogueLog
  let s := { s with appraisalUsedThisTurn := false, currentCustomerType := none }
  let customerType := chooseCustomerType s.shopInventory d.customerType
  { s with currentCustomerType := some customerType }

/-- The `try` block of `startNewCustomerInteraction` up to the first call of the model: the
data of the customer is generated, the session is stored and the call is made.  An error is
what the source throws; nothing has been changed when it does.  The second component of a
result is `customerBaseData`. -/
def prepareSession (s : GameState) (d : StartDraws) : Except SetupError (GameState × CustomerData) :=
  if s.currentCustomerType == some CustomerType.seller then
    match generateItem d.item with
    | none => Except.error SetupError.failedItem
    | some itemData =>
      match generateCustomerData (some itemData) d.seller with
      | none => Except.error SetupError.failedSeller
      | some customerBaseData =>
        let systemPrompt := constructCustomerPrompt (some customerBaseData) (some itemData)
        if systemPrompt.isEmpty then Except.error SetupError.failedSellerPrompt
        else
          let s := s.emit (Effect.displayCustomerInfo customerBaseData)
          let s := s.emit (Effect.displayItemInfo none CustomerType.seller)
          let s := s.emit (Effect.displayAppraisalPanel true)
          let s := s.emit (Effect.updateButtonStates (some CustomerType.seller) false false false)
          let currentCustomer : Session :=
            { customerData := customerBaseData
              itemData := some itemData
              itemToSell := none
              systemPrompt := systemPrompt
              type := CustomerType.seller
              currentOffer := orNull customerBaseData.initialOffer
              currentAskingPrice := orNull customerBaseData.initialAskingPrice }
          let s := { s with currentCustomer := some currentCustomer, conversationHistory := [] }
          Except.ok (s.emit (Effect.callGeminiApi [] systemPrompt), customerBaseData)
  else
    if s.shopInventory.length = 0 then Except.error SetupError.inventoryEmpty
    else
      match index s.shopInventory ⌊d.itemToSell * (s.shopInventory.length : Rat)⌋ with
      | none => Except.error SetupError.failedSelect
      | some itemToSell =>
        match generateBuyerData (some itemToSell) d.buyer with
        | none => Except.error SetupError.failedBuyer
        | some customerBaseData =>
          let systemPrompt := constructBuyerPrompt (some customerBaseData) (some itemToSell)
          if systemPrompt.isEmpty then Except.error SetupError.failedBuyerPrompt
          else
            let s := s.emit (Effect.displayCustomerInfo customerBaseData)
            let s := s.emit (Effect.displayItemInfo customerBaseData.initialOffer CustomerType.buyer)
            let s := s.emit (Effect.displayAppraisalPanel false)
            let s := s.emit (Effect.updateButtonStates (some CustomerType.buyer) false false false)
            let currentCustomer : Session :=
              { customerData := customerBaseData
                itemData := none
                itemToSell := some itemToSell
                systemPrompt := systemPrompt
                type := CustomerType.buyer
                currentOffer := orNull customerBaseData.initialOffer
                currentAskingPrice := orNull customerBaseData.initialAskingPrice }
            let s := { s with currentCustomer := some currentCustomer, conversationHistory := [] }
            Except.ok (s.emit (Effect.callGeminiApi [] systemPrompt), customerBaseData)

/-- The `catch` block of `startNewCustomerInteraction`. -/
def catchSetupError (s : GameState) (error : SetupError) : GameState :=
  let s := s.emit (Effect.showMessage (Message.errorStarting error))
  let s := { s with isLLMThinking := false }
  match s.currentCustomer with
  | some _ => endCurrentInteraction s EndReason.errorSetup
  | none => s.emit (Effect.updateButtonStates none false false false)

/-- The first part of `startNewCustomerInteraction`, for a call that passes the guard at the
top: up to the first call of the model, or through the `catch` block when the setup fails.  The
second component is `customerBaseData` when the call has been made. -/
def startNewCustomerInteractionSend (s : GameState) (d : StartDraws) :
    GameState × Option CustomerData :=
  let s := startPreamble s d
  match prepareSession s d with
  | Except.ok (s, customerBaseData) => (s, some customerBaseData)
  | Except.error error => (catchSetupError s error, none)

/-- A text tag with a truthy value; a tag of such a name is never stored as a number. -/
def textTag (tags : Tags) (key : String) : Option (List Char) :=
  match Tags.get tags key with
  | some (TagValue.str t) => if t.isEmpty then none else some t
  | _ => none

/-- The statements of the first turn that read the tags into `customerData`: a field takes a
truthy tag value and keeps its value otherwise (the name falls back to "Customer"), and each
flag of `revealedInfo` becomes the truthiness of its tag. -/
def firstTurnReveals (cd : CustomerData) (tags : Tags) : CustomerData :=
  { cd with
    name :=
      if truthy (Tags.get tags "REVEALED_NAME") then Tags.get tags "REVEALED_NAME"
      else if truthy cd.name then cd.name
      else some (TagValue.str "Customer".toList)
    age := if truthy (Tags.get tags "REVEALED_AGE") then Tags.get tags "REVEALED_AGE" else cd.age
    occupation :=
      if truthy (Tags.get tags "REVEALED_OCCUPATION") then Tags.get tags "REVEALED_OCCUPATION"
      else cd.occupation
    revealedInfo :=
      { name := truthy (Tags.get tags "REVEALED_NAME")
        age := truthy (Tags.get tags "REVEALED_AGE")
        occupation := truthy (Tags.get tags "REVEALED_OCCUPATION") } }

/-- The statements of the first turn for a seller: the asking price is the PRICE_ASK tag or else
the generated `initialAskingPrice` (a PRICE_ASK entry of `parseTags` is always a number), and
the item takes the name and the description the model gives it.  Writing to the item of a
session that has none throws; the second component is the error then. -/
def firstTurnSeller (s : GameState) (c : Session) (tags : Tags) : GameState × Option SetupError :=
  let currentAskingPrice :=
    match numberTag tags "PRICE_ASK" with
    | some ask => some ask
    | none => c.customerData.initialAskingPrice
  let c := { c with currentAskingPrice := currentAskingPrice }
  let s := { s with currentCustomer := some c }
  match c.itemData with
  | some itemData =>
    let itemData :=
      match textTag tags "ITEM_NAME" with
      | some name => { itemData with name := some name }
      | none => itemData
    let itemData :=
      match textTag tags "ITEM_DESC" with
      | some description => { itemData with description := some description }
      | none => itemData
    let c := { c with itemData := some itemData }
    let s := { s with currentCustomer := some c }
    (s.emit (Effect.displayItemInfo c.currentAskingPrice CustomerType.seller), none)
  | none =>
    if (textTag tags "ITEM_NAME").isSome || (textTag tags "ITEM_DESC").isSome then
      (s, some SetupError.typeError)
    else (s.emit (Effect.displayItemInfo c.currentAskingPrice CustomerType.seller), none)

/-- The statements of the first turn for a buyer: the offer is the PRICE_OFFER tag or else the
generated `initialOffer`. -/
def firstTurnBuyer (s : GameState) (c : Session) (customerBaseData : CustomerData) (tags : Tags) :
    GameState :=
  let currentOffer :=
    match numberTag tags "PRICE_OFFER" with
    | some offer => some offer
    | none => customerBaseData.initialOffer
  let c := { c with currentOffer := currentOffer }
  let s := { s with currentCustomer := some c }
  s.emit (Effect.displayItemInfo c.currentOffer CustomerType.buyer)

/-- The `try` block of `startNewCustomerInteraction` from the moment the first call of the model
has resolved to `firstResponse` and the flag has been reset. -/
def handleFirstResponse (s : GameState) (customerBaseData : CustomerData)
    (firstResponse : Option (List Char)) : GameState × Option SetupError :=
  match firstResponse with
  | some (ch :: more) =>
    match s.currentCustomer with
    | some c =>
      let text := ch :: more
      let tags := parseTags text
      let c := { c with customerData := firstTurnReveals c.customerData tags }
      let s := { s with
        currentCustomer := some c
        conversationHistory := s.conversationHistory ++ [Turn.model text] }
      let s := s.emit (Effect.addDialogueLog (Speaker.customer c.customerData.name)
        (LogLine.text text))
      let s := s.emit (Effect.displayCustomerInfo c.customerData)
      if s.currentCustomerType == some CustomerType.seller then
        match firstTurnSeller s c tags with
        | (s, none) =>
          let s := s.emit (Effect.updateButtonStates (some CustomerType.seller) true true true)
          (s.emit Effect.hideMessage, none)
        | (s, some error) => (s, some error)
      else
        let s := firstTurnBuyer s c customerBaseData tags
        let s := s.emit (Effect.updateButtonStates (some CustomerType.buyer) true true false)
        (s.emit Effect.hideMessage, none)
    | none => (s, some SetupError.customerBecameNull)
  | _ => (s, some SetupError.noInitialResponse)

/-- The second part of `startNewCustomerInteraction`, from the moment the first call of the
model resolves to `firstResponse` (`none` is `null`, and the empty string is falsy as well). -/
def startNewCustomerInteractionReceive (s : GameState) (customerBaseData : CustomerData)
    (firstResponse : Option (List Char)) : GameState :=
  let s := { s with isLLMThinking := false }
  match handleFirstResponse s customerBaseData firstResponse with
  | (s, none) => s
  | (s, some error) => catchSetupError s error

/-- The function `startNewCustomerInteraction()` run as one step: the draws are `d`, the first
call of the model resolves to `firstResponse`, and no other handler runs while it is awaited. -/
def startNewCustomerInteraction (s : GameState) (d : StartDraws)
    (firstResponse : Option (List Char)) : GameState :=
  if s.isLLMThinking then s.emit (Effect.showMessage Message.pleaseWait)
  else
    match startNewCustomerInteractionSend s d with
    | (s, some customerBaseData) => startNewCustomerInteractionReceive s customerBaseData firstResponse
    | (s, none) => s

/-! ## The handlers with their awaits

Here a handler is not one step: it runs up to its `await`, the call it has made is outstanding,
and other handlers may run before the call resolves and the handler resumes.  A handler that
reaches no call of the model runs to its end in its step (awaiting a resolved promise lets no
other handler in). -/

/-- A handler suspended at the `await` of a call of the model, with the local variables it
reads when it resumes: `startNewCustomerInteraction` awaiting the first response,
`processPlayerTurn` awaiting the response, `processPlayerTurn` awaiting the closing remark of
a customer who has lost patience, `handleAcceptPrice` awaiting the closing remark, and
`handleEndNegotiation` awaiting the closing remark. -/
inductive Pending where
  | firstResponse (customerBaseData : CustomerData)
  | turnResponse
  | patienceRemark
  | acceptRemark (price : Int) (customerType : CustomerType)
  | endRemark
  deriving DecidableEq

/-- The state of the page: the variables of `main.js` and the outstanding calls of the model,
each with the handler that awaits it. -/
structure AsyncState where
  game : GameState
  pending : List Pending
  deriving DecidableEq

/-- The function `loadGame()` up to its call of `proceedWithLoad`: a running session is ended
first.  There is no test of `isLLMThinking`.  The function `proceedWithLoad`, which writes the
ledger and redraws, is left out. -/
def loadGame (s : GameState) : GameState :=
  match s.currentCustomer with
  | some _ => endCurrentInteraction s EndReason.loadGame
  | none => s

/-- The patience block of `processPlayerTurn` up to the `await` of `getConcludingRemark`;
`none` when the block does not reach a call of the model. -/
def patienceBlockToRemark (s : GameState) (c : Session) (tags : Tags) (text : List Char) :
    Option GameState :=
  match numberTag tags "PATIENCE" with
  | none => none
  | some delta =>
    let currentPatience := max 0 (c.customerData.currentPatience + delta)
    let c := { c with customerData := { c.customerData with currentPatience := currentPatience } }
    let s := { s with currentCustomer := some c }
    let s := s.emit (Effect.updatePatienceDisplay currentPatience)
    if currentPatience ≤ 0 then
      let s := s.emit (Effect.addDialogueLog (Speaker.customer c.customerData.name)
        (LogLine.text text))
      let s := s.emit (Effect.showMessage Message.customerLostPatience)
      let r := getConcludingRemark s (c.itemData.isSome || c.itemToSell.isSome) "patience_zero"
        none s.currentCustomerType []
      match r.2 with
      | some _ => some r.1
      | none => none
    else none

/-- The second part of `processPlayerTurn` up to the `await` of `getConcludingRemark`; `none`
when it does not reach a call of the model. -/
def processPlayerTurnToRemark (s : GameState) (llmResponseText : Option (List Char)) :
    Option GameState :=
  match s.currentCustomer, llmResponseText with
  | some c, some (ch :: more) =>
    let text := ch :: more
    let s := { s with conversationHistory := s.conversationHistory ++ [Turn.model text] }
    let tags := parseTags text
    let r := revealUpdate s c tags
    patienceBlockToRemark r.1 r.2 tags text
  | _, _ => none

/-- The handler `processPlayerTurn` resumes with the response: it runs to the `await` of
`getConcludingRemark` if it reaches it, and to its end otherwise (the remark given to
`processPlayerTurnReceive` is not read then). -/
def resumeTurnResponse (s : GameState) (llmResponseText : Option (List Char)) :
    GameState × Option Pending :=
  match processPlayerTurnToRemark s llmResponseText with
  | some s => (s, some Pending.patienceRemark)
  | none => (processPlayerTurnReceive s llmResponseText [], none)

/-- The handler `processPlayerTurn` resumes with the closing remark of a customer who has lost
patience: the remark is logged, the end of the session is scheduled, and the flag is reset. -/
def resumePatienceRemark (s : GameState) (finalRemark : List Char) : GameState :=
  let s := logRemark s (some finalRemark)
  let s := { s with timers := s.timers ++ [(⟨EndReason.patienceZero, 1500⟩ : EndTimer)] }
  { s with isLLMThinking := false }

/-- The handler `handleAcceptPrice` up to the `await` of `getConcludingRemark`; `none` when it
does not reach a call of the model. -/
def handleAcceptPriceToRemark (s : GameState) : Option (GameState × Pending) :=
  match s.currentCustomer with
  | none => none
  | some c =>
    if s.isLLMThinking then none
    else if s.currentCustomerType == some CustomerType.seller then
      match c.currentAskingPrice with
      | none => none
      | some currentAsking =>
        if currentAsking ≤ 0 then none
        else if s.playerCash ≥ currentAsking then
          let s := s.emit (Effect.addDialogueLog Speaker.player (LogLine.acceptPrice currentAsking))
          let s := { s with isLLMThinking := true }
          let s := s.emit (Effect.updateButtonStates (some CustomerType.seller) false false false)
          let r := getConcludingRemark s c.itemData.isSome "deal_success_player_accept"
            (some currentAsking) (some CustomerType.seller) []
          match r.2 with
          | some _ => some (r.1, Pending.acceptRemark currentAsking CustomerType.seller)
          | none => none
        else none
    else
      match c.currentOffer with
      | none => none
      | some currentOffer =>
        if currentOffer ≤ 0 then none
        else
          let s := s.emit (Effect.addDialogueLog Speaker.player (LogLine.acceptOffer currentOffer))
          let s := { s with isLLMThinking := true }
          let s := s.emit (Effect.updateButtonStates (some CustomerType.buyer) false false false)
          let r := getConcludingRemark s c.itemToSell.isSome "deal_success_player_accept"
            (some currentOffer) (some CustomerType.buyer) []
          match r.2 with
          | some _ => some (r.1, Pending.acceptRemark currentOffer CustomerType.buyer)
          | none => none

/-- The handler `handleAcceptPrice` resumes with the closing remark: the remark is logged, the
flag is reset, and the deal or the sale is finalized if there is a customer. -/
def resumeAcceptRemark (s : GameState) (price : Int) (customerType : CustomerType)
    (finalRemark : List Char) : GameState :=
  let s := logRemark s (some finalRemark)
  let s := { s with isLLMThinking := false }
  match s.currentCustomer with
  | some c =>
    match customerType with
    | CustomerType.seller => finalizeDeal s price
    | CustomerType.buyer => finalizeSale s c.itemToSell price
  | none => s

/-- The handler `handleEndNegotiation` up to the `await` of `getConcludingRemark`; `none` when
it does not reach a call of the model. -/
def handleEndNegotiationToRemark (s : GameState) : Option GameState :=
  match s.currentCustomer with
  | none => none
  | some c =>
    if s.isLLMThinking then none
    else
      let s := { s with isLLMThinking := true }
      let s := s.emit (Effect.updateButtonStates s.currentCustomerType false false false)
      let s := s.emit (Effect.addDialogueLog Speaker.player
        (if s.currentCustomerType == some CustomerType.seller then LogLine.endSeller
         else LogLine.endBuyer))
      let r := getConcludingRemark s (c.itemData.isSome || c.itemToSell.isSome) "manual_leave"
        none s.currentCustomerType []
      match r.2 with
      | some _ => some r.1
      | none => none

/-- The handler `handleEndNegotiation` resumes with the closing remark, in its `finally` block:
the flag is reset, the remark is logged, and the end of the session is scheduled if there is a
customer. -/
def resumeEndRemark (s : GameState) (finalRemark : List Char) : GameState :=
  let s := { s with isLLMThinking := false }
  let s := logRemark s (some finalRemark)
  match s.currentCustomer with
  | some _ => { s with timers := s.timers ++ [(⟨EndReason.manual, 500⟩ : EndTimer)] }
  | none => s

/-- What can happen on the page: a click on the new-customer button, with the draws it will
make; a message sent; a click on the accept button, on the end button, on the load button; a
pending timer fires; the outstanding call number `i` resolves, to a response (`none` is `null`)
or, for a call of `getConcludingRemark`, to the remark. -/
inductive AsyncEvent where
  | newCustomerClick (d : StartDraws)
  | sendMessage (playerTurnText : List Char)
  | acceptClick
  | endClick
  | loadClick
  | timerFires (i : Nat)
  | responseArrives (i : Nat) (response : Option (List Char))
  | remarkArrives (i : Nat) (remark : List Char)

/-- One step of the page.  An event that resolves a call which is not outstanding, or with a
value of the wrong kind, does nothing. -/
def asyncStep (σ : AsyncState) : AsyncEvent → AsyncState
  | AsyncEvent.newCustomerClick d =>
    if σ.game.isLLMThinking then
      { σ with game := σ.game.emit (Effect.showMessage Message.pleaseWait) }
    else
      match startNewCustomerInteractionSend σ.game d with
      | (s, some customerBaseData) =>
        { game := s, pending := σ.pending ++ [Pending.firstResponse customerBaseData] }
      | (s, none) => { σ with game := s }
  | AsyncEvent.sendMessage playerTurnText =>
    match σ.game.currentCustomer with
    | none => σ
    | some _ =>
      if σ.game.isLLMThinking then σ
      else
        { game := processPlayerTurnSend σ.game playerTurnText
          pending := σ.pending ++ [Pending.turnResponse] }
  | AsyncEvent.acceptClick =>
    match handleAcceptPriceToRemark σ.game with
    | some (s, p) => { game := s, pending := σ.pending ++ [p] }
    | none => { σ with game := handleAcceptPrice σ.game [] }
  | AsyncEvent.endClick =>
    match handleEndNegotiationToRemark σ.game with
    | some s => { game := s, pending := σ.pending ++ [Pending.endRemark] }
    | none => { σ with game := handleEndNegotiation σ.game [] }
  | AsyncEvent.loadClick => { σ with game := loadGame σ.game }
  | AsyncEvent.timerFires i => { σ with game := fireTimer σ.game i }
  | AsyncEvent.responseArrives i response =>
    match σ.pending.get? i with
    | some (Pending.firstResponse customerBaseData) =>
      { game := startNewCustomerInteractionReceive σ.game customerBaseData response
        pending := σ.pending.eraseIdx i }
    | some Pending.turnResponse =>
      match resumeTurnResponse σ.game response with
      | (s, some p) => { game := s, pending := σ.pending.eraseIdx i ++ [p] }
      | (s, none) => { game := s, pending := σ.pending.eraseIdx i }
    | _ => σ
  | AsyncEvent.remarkArrives i remark =>
    match σ.pending.get? i with
    | some Pending.patienceRemark =>
      { game := resumePatienceRemark σ.game remark, pending := σ.pending.eraseIdx i }
    | some (Pending.acceptRemark price customerType) =>
      { game := resumeAcceptRemark σ.game price customerType remark
        pending := σ.pending.eraseIdx i }
    | some Pending.endRemark =>
      { game := resumeEndRemark σ.game remark, pending := σ.pending.eraseIdx i }
    | _ => σ

/-! ## The appraisal: `handleAppraiseItem` -/

/-- The draws of `handleAppraiseItem`, in the order they are made: each of the three tests
`Math.random() < 0.5 && ..` makes its draw first. -/
structure AppraisalDraws where
  value : Rat
  condition : Rat
  rarity : Rat

/-- The object `appraisalResults` that `handleAppraiseItem` fills in for the item of the seller:
each of the three parts is revealed when its draw is below 0.5 and the property of the item is
truthy (a base value other than 0, a condition or rarity other than the empty string). -/
def appraise (itemData : ItemData) (d : AppraisalDraws) : AppraisalResults :=
  let value : Option (Int × Int) :=
    if d.value < 0.5 ∧ itemData.baseValue ≠ 0 then
      let range := max 10 (mathRound (itemData.baseValue * 0.2))
      let lowerBound := max 1 (itemData.baseValue - range)
      let upperBound := itemData.baseValue + range
      some (lowerBound, upperBound)
    else none
  let condition : Option (String × Option Rat) :=
    if d.condition < 0.5 ∧ itemData.condition ≠ "" then
      some (itemData.condition, itemConditions.lookup itemData.condition)
    else none
  let rarity : Option (String × Option Rat) :=
    if d.rarity < 0.5 ∧ itemData.rarity ≠ "" then
      some (itemData.rarity, (itemRarities.lookup itemData.rarity).map (fun entry => entry.1))
    else none
  { value := value
    condition := condition.map (fun r => r.1)
    conditionMultiplier := condition.bind (fun r => r.2)
    rarity := rarity.map (fun r => r.1)
    rarityMultiplier := rarity.bind (fun r => r.2) }

/-- The branch of `handleAppraiseItem` taken when the first test rejects the click: a message
when the appraisal has been used or the customer is a buyer, and nothing else. -/
def appraisalRefused (s : GameState) : GameState :=
  if s.appraisalUsedThisTurn then s.emit (Effect.showMessage Message.appraiseOnce)
  else if s.currentCustomerType == some CustomerType.buyer then
    s.emit (Effect.showMessage Message.cannotAppraiseSelling)
  else s

/-- The function `handleAppraiseItem()`.  The test that the tables `itemConditions` and
`itemRarities` are defined always passes. -/
def handleAppraiseItem (s : GameState) (d : AppraisalDraws) : GameState :=
  match s.currentCustomer with
  | none => appraisalRefused s
  | some c =>
    if s.currentCustomerType != some CustomerType.seller || s.isLLMThinking ||
        s.appraisalUsedThisTurn then appraisalRefused s
    else
      match c.itemData with
      | none => s.emit (Effect.showMessage Message.appraisalItemMissing)
      | some itemData =>
        let s := { s with appraisalUsedThisTurn := true }
        let s := s.emit Effect.disableAppraiseButton
        let appraisalResults := appraise itemData d
        let s := s.emit (Effect.displayAppraisalInfo appraisalResults)
        let s := s.emit (Effect.addDialogueLog Speaker.system (LogLine.appraisal appraisalResults))
        let s := s.emit (Effect.showMessage Message.appraisalComplete)
        s.emit (Effect.updateButtonStates (some CustomerType.seller) (!s.isLLMThinking)
          (!s.isLLMThinking) false)

/-- What can happen during a session: an event of the negotiation, or a click on the appraise
button, with the draws the appraisal will make. -/
inductive SessionEvent where
  | negotiation (e : NegotiationEvent)
  | appraiseClick (d : AppraisalDraws)

/-- One step of a session. -/
def sessionStep (s : GameState) : SessionEvent → GameState
  | SessionEvent.negotiation e => negotiationStep s e
  | SessionEvent.appraiseClick d => handleAppraiseItem s d

/-! ## The prompt builders of `llm.js` on objects whose properties may be missing -/

/-- A property of an object as the prompt builders read it: missing (`undefined`), `null`, or a
value. -/
inductive Property (α : Type) where
  | undefined
  | null
  | value (a : α)
  deriving DecidableEq

/-- The test `typeof x === 'undefined'`. -/
def Property.isUndefined {α : Type} : Property α → Bool
  | Property.undefined => true
  | _ => false

/-- Truthiness of a property that holds a string: `undefined`, `null` and the empty string are
falsy. -/
def Property.truthy : Property (List Char) → Bool
  | Property.value t => !t.isEmpty
  | _ => false

/-- A property read from a field that is `undefined` when it is `none`. -/
def Property.ofOption {α : Type} : Option α → Property α
  | some a => Property.value a
  | none => Property.undefined

/-- A property read from a field that is `null` when it is `none`. -/
def Property.ofNullable {α : Type} : Option α → Property α
  | some a => Property.value a
  | none => Property.null

/-- The properties of `customerData` that the prompt builders test. -/
structure CustomerFields where
  personality : Property String
  itemThemeHint : Property String
  patience : Property Int
  minimumAcceptablePrice : Property Int
  initialAskingPrice : Property Int
  initialOffer : Property Int
  maximumAcceptablePrice : Property Int

/-- The properties of `itemData` or `itemToSell` that the prompt builders test. -/
structure ItemFields where
  name : Property (List Char)
  description : Property (List Char)
  condition : Property (List Char)
  rarity : Property (List Char)

/-- The function `constructCustomerPrompt(customerData, itemData)` with its two validation
tests in full: the empty string when `customerData` is falsy or one of its five properties is
`undefined`, or when `itemData` is falsy or its condition or rarity is `undefined`.  Of the text
of the prompt only the opening sentence is kept. -/
def constructCustomerPromptOn (customerData : Option CustomerFields)
    (itemData : Option ItemFields) : List Char :=
  match customerData with
  | none => []
  | some customerData =>
    if customerData.personality.isUndefined || customerData.initialAskingPrice.isUndefined ||
        customerData.minimumAcceptablePrice.isUndefined || customerData.patience.isUndefined ||
        customerData.itemThemeHint.isUndefined then []
    else
      match itemData with
      | none => []
      | some itemData =>
        if itemData.condition.isUndefined || itemData.rarity.isUndefined then []
        else trim sellerPromptOpening.toList

/-- The function `constructBuyerPrompt(customerData, itemToSell)` with its two validation tests
in full: the empty string when `customerData` is falsy or one of its four properties is
`undefined`, or when `itemToSell` is falsy or its name, description, condition or rarity is
falsy.  Of the text of the prompt only the opening sentence is kept. -/
def constructBuyerPromptOn (customerData : Option CustomerFields)
    (itemToSell : Option ItemFields) : List Char :=
  match customerData with
  | none => []
  | some customerData =>
    if customerData.personality.isUndefined || customerData.initialOffer.isUndefined ||
        customerData.maximumAcceptablePrice.isUndefined || customerData.patience.isUndefined then []
    else
      match itemToSell with
      | none => []
      | some itemToSell =>
        if !itemToSell.name.truthy || !itemToSell.description.truthy ||
            !itemToSell.condition.truthy || !itemToSell.rarity.truthy then []
        else trim buyerPromptOpening.toList

/-- The properties of a `customerData` object of the generators: `patience` is always there, a
price of the other kind of customer is missing. -/
def CustomerData.fields (customerData : CustomerData) : CustomerFields :=
  { personality := Property.ofOption customerData.personality
    itemThemeHint := Property.ofOption customerData.itemThemeHint
    patience := Property.value customerData.patience
    minimumAcceptablePrice := Property.ofOption customerData.minimumAcceptablePrice
    initialAskingPrice := Property.ofOption customerData.initialAskingPrice
    initialOffer := Property.ofOption customerData.initialOffer
    maximumAcceptablePrice := Property.ofOption customerData.maximumAcceptablePrice }

/-- The properties of an item of `generateItem`: the name and the description are `null` until
the model invents them. -/
def ItemData.fields (itemData : ItemData) : ItemFields :=
  { name := Property.ofNullable itemData.name
    description := Property.ofNullable itemData.description
    condition := Property.value itemData.condition.toList
    rarity := Property.value itemData.rarity.toList }

/-- The properties of an object of `shopInventory`. -/
def InventoryItem.fields (item : InventoryItem) : ItemFields :=
  { name := Property.ofNullable item.name
    description := Property.ofNullable item.description
    condition := Property.value item.condition.toList
    rarity := Property.value item.rarity.toList }

/-! ## The pricing of a buyer up to its safety check -/

/-- Step 3 of `generateBuyerData` up to the comment "Safety check": `initialOffer` as it stands
before the test `initialOffer >= maximumPrice`, and `maximumPrice`. -/
def buyerPricingBeforeCheck (itemActualValue : Int)
    (priceSensitivity maxJitter offerJitter : Rat) : Int × Int :=
  let maxPriceMultiplier : Rat := 1.0 + ((1.0 - priceSensitivity) * 0.8) + (maxJitter * 0.1)
  let maximumPrice : Int :=
    max (itemActualValue + 1) (mathRound (itemActualValue * maxPriceMultiplier))
  let initialOfferMultiplier : Rat :=
    1.0 - ((1.0 - priceSensitivity) * 0.6) - (offerJitter * 0.15)
  let initialOffer : Int := max 1 (mathRound (itemActualValue * initialOfferMultiplier))
  let initialOffer : Int := min initialOffer (max 1 (maximumPrice - 1))
  let initialOffer : Int := max 1 initialOffer
  (initialOffer, maximumPrice)

/-- The safety check of `generateBuyerData`: the branch taken when `initialOffer >= maximumPrice`
replaces the offer by `max(1, round(maximumPrice × 0.9))`. -/
def buyerSafetyCheck (p : Int × Int) : Int × Int :=
  (if p.1 ≥ p.2 then max 1 (mathRound (p.2 * 0.9)) else p.1, p.2)

/-! ## Definitions used to state the properties

The rules of the specification in its own words, and the intermediate states of a turn that
the proofs refer to. -/

/-- The validation rule of a numeric tag, in the words of the specification. -/
def tagRule (key : String) (v : Int) : Prop :=
  (key = "PATIENCE" → -30 ≤ v ∧ v ≤ -5) ∧
  (key = "PRICE_ASK" ∨ key = "PRICE_OFFER" ∨ key = "ACCEPT_OFFER" ∨ key = "ACCEPT_PRICE" → 0 ≤ v) ∧
  (key = "REVEALED_AGE" → 0 < v)

instance (key : String) (v : Int) : Decidable (tagRule key v) := by
  unfold tagRule; infer_instance

/-- The key under which a match is stored. -/
def TagMatch.key (m : TagMatch) : String := String.mk (toUpperCase m.name)

/-- A numeric tag occurrence that does not parse as a number or violates its rule. -/
def violatesRule (m : TagMatch) : Prop :=
  m.key ∈ numericTags ∧
    match numValueOf m.key (trim m.value) with
    | JSNumber.integer v => ¬ tagRule m.key v
    | _ => True

instance (m : TagMatch) : Decidable (violatesRule m) := by
  unfold violatesRule; 
  cases numValueOf m.key (trim m.value) <;> infer_instance

/-- A numeric entry is under a numeric key and satisfies the rule of that key; a text entry is
under a key that is not numeric. -/
def entryValid (e : String × TagValue) : Prop :=
  match e.2 with
  | TagValue.num v => e.1 ∈ numericTags ∧ tagRule e.1 v
  | TagValue.str _ => e.1 ∉ numericTags

/-- The cleaning step as the specification words it: every character that is neither a digit nor
a hyphen is removed. -/
def specCleaned (value : List Char) : List Char :=
  value.filter (fun c => isDigit c || c == '-')

/-- The number of a numeric tag as the specification words it. -/
def specNumValueOf (key : String) (value : List Char) : JSNumber :=
  if key == "PATIENCE" then parseFloat (specCleaned value) else parseInt (specCleaned value)

/-- The number of a numeric tag read from the raw captured value with dots kept. -/
def dotKeepingNumValueOf (key : String) (value : List Char) : JSNumber :=
  if key == "PATIENCE" then parseFloat (value.filter (fun c => isDigit c || c == '.' || c == '-'))
  else parseInt (value.filter (fun c => isDigit c || c == '.' || c == '-'))

/-- The ten keys a result of `parseTags` can have. -/
def tagKeys : List String :=
  ["PRICE_ASK", "PRICE_OFFER", "ACCEPT_OFFER", "ACCEPT_PRICE", "ITEM_NAME", "ITEM_DESC",
   "REVEALED_NAME", "REVEALED_AGE", "REVEALED_OCCUPATION", "PATIENCE"]

/-- Upper-casing both components of a partial match. -/
def upPair (p : List Char × List Char) : List Char × List Char :=
  (toUpperCase p.1, toUpperCase p.2)

/-- Upper-casing the three components of a match. -/
def upTriple (p : List Char × List Char × List Char) : List Char × List Char × List Char :=
  (toUpperCase p.1, toUpperCase p.2.1, toUpperCase p.2.2)

/-- What `storeTag` reads of a match: the upper-cased name and the raw value. -/
def TagMatch.content (m : TagMatch) : List Char × List Char :=
  (toUpperCase m.name, m.value)

/-- The patience a response leaves the customer with: `max(0, previous + delta)` when the
response carries an accepted PATIENCE tag, the previous value otherwise. -/
def patienceAfter (previous : Int) (tags : Tags) : Int :=
  match numberTag tags "PATIENCE" with
  | some delta => max 0 (previous + delta)
  | none => previous

/-- The bounds on the patience of the customer of a state, if there is one. -/
def PatienceWithin (start : Int) (s : GameState) : Prop :=
  ∀ c, s.currentCustomer = some c →
    c.customerData.patience = start ∧ 0 ≤ c.customerData.currentPatience ∧
      c.customerData.currentPatience ≤ start

/-- The requests for a closing remark in a trace, in order. -/
def remarkRequests : List Effect → List (String × Option Int × CustomerType)
  | [] => []
  | Effect.requestRemark reason finalPrice customerType :: rest =>
    (reason, finalPrice, customerType) :: remarkRequests rest
  | _ :: rest => remarkRequests rest

/-- The state in which the tags of a response are handled: `processPlayerTurn` has sent the
message of the player and has added the response to the history. -/
def turnStart (s : GameState) (playerTurnText text : List Char) : GameState :=
  { processPlayerTurnSend s playerTurnText with
    conversationHistory :=
      (processPlayerTurnSend s playerTurnText).conversationHistory ++ [Turn.model text] }

/-- The state and the session just before the acceptance tag of a response is looked at, in
a turn whose patience block did not end the interaction. -/
def beforeAccept (s : GameState) (c : Session) (tags : Tags) (text remark : List Char) :
    GameState × Session :=
  let r := revealUpdate s c tags
  let p := patienceUpdate r.1 r.2 tags text remark
  if p.1.currentCustomerType == some CustomerType.seller then sellerPriceUpdate p.1 p.2.1 tags
  else buyerPriceUpdate p.1 p.2.1 tags

/-- The response does not exhaust the patience of the customer: it has no accepted PATIENCE
tag, or the tag leaves a positive patience. -/
def KeepsPatience (c : Session) (tags : Tags) : Prop :=
  ∀ delta, numberTag tags "PATIENCE" = some delta → 0 < c.customerData.currentPatience + delta

/-- What the handlers of a turn leave alone until a deal is finalized: the ledger, the customer
type, the identity counter, the appraisal flag and the pending timers; the trace only grows. -/
def SameLedger (s s' : GameState) : Prop :=
  s'.playerCash = s.playerCash ∧ s'.shopInventory = s.shopInventory ∧
  s'.currentCustomerType = s.currentCustomerType ∧ s'.nextRef = s.nextRef ∧
  s'.appraisalUsedThisTurn = s.appraisalUsedThisTurn ∧ s'.timers = s.timers ∧
  ∃ added, s'.effects = s.effects ++ added ∧ remarkRequests added = []

/-- The inventory object `finalizeDeal` makes for the item of a seller. -/
def purchasedItemOf (item : ItemData) (purchasePrice : Int) (ref : Nat) : InventoryItem :=
  { ref := ref
    name := item.name
    description := item.description
    condition := item.condition
    rarity := item.rarity
    purchasePrice := purchasePrice
    baseValue := item.baseValue
    actualValue := item.actualValue
    conditionMultiplier := item.conditionMultiplier
    rarityMultiplier := item.rarityMultiplier }

/-- The clicks that start one of the four handlers that call the model. -/
def AsyncEvent.startsHandler : AsyncEvent → Bool
  | AsyncEvent.newCustomerClick _ => true
  | AsyncEvent.sendMessage _ => true
  | AsyncEvent.acceptClick => true
  | AsyncEvent.endClick => true
  | _ => false

/-- A call of the model: `callGeminiApi` or `getConcludingRemark`. -/
def Effect.isModelCall : Effect → Bool
  | Effect.callGeminiApi _ _ => true
  | Effect.requestRemark _ _ _ => true
  | _ => false

/-- The calls of the model in a trace. -/
def modelCalls (effects : List Effect) : List Effect :=
  effects.filter Effect.isModelCall

/-- At most one call is outstanding, and the flag is set while one is. -/
def OneCall (σ : AsyncState) : Prop :=
  σ.pending.length ≤ 1 ∧ (σ.pending ≠ [] → σ.game.isLLMThinking = true)

/-- The function `endCurrentInteraction` does not run while a call is outstanding: its two
callers outside the handlers, the load button and a timer, come when no call is outstanding. -/
def Undisturbed (σ : AsyncState) : AsyncEvent → Prop
  | AsyncEvent.loadClick => σ.pending = []
  | AsyncEvent.timerFires _ => σ.pending = []
  | _ => True

/-- A run in which every event is `Undisturbed` in the state it comes in. -/
def UndisturbedRun : AsyncState → List AsyncEvent → Prop
  | _, [] => True
  | σ, e :: es => Undisturbed σ e ∧ UndisturbedRun (asyncStep σ e) es

/-- What a handled response leaves in `customerData`: the reveals of `applyReveals` and the
patience of `patienceAfter`. -/
def customerDataAfter (cd : CustomerData) (tags : Tags) : CustomerData :=
  { (applyReveals cd tags).1 with currentPatience := patienceAfter cd.currentPatience tags }

/-- The customer of a state, if there is one, has the minimum price `m` and a current asking
price that is not below it. -/
def AskingAtLeast (m : Int) (s : GameState) : Prop :=
  ∀ c, s.currentCustomer = some c →
    c.customerData.minimumAcceptablePrice = some m ∧ ∃ a, c.currentAskingPrice = some a ∧ m ≤ a

/-- The PRICE_ASK value of the response of a turn, if it carries one, is not below `m`. -/
def AsksAtLeast (m : Int) : NegotiationEvent → Prop
  | NegotiationEvent.playerTurn _ r _ =>
    ∀ v, numberTag (parseTags (r.getD [])) "PRICE_ASK" = some v → m ≤ v
  | _ => True

/-- The flags of `revealedInfo` that are set in `r` are set in `r'`. -/
def FlagsKept (r r' : RevealedInfo) : Prop :=
  (r.name = true → r'.name = true) ∧ (r.age = true → r'.age = true) ∧
    (r.occupation = true → r'.occupation = true)

/-- The minimum price of a seller in the words of the specification:
`max(1, round(actualValue × (0.95 − (1 − s) × 0.5)))`. -/
def specMinimumPrice (actualValue : Int) (s : Rat) : Int :=
  max 1 (mathRound (actualValue * (0.95 - (1 - s) * 0.5)))

/-- The asking price of a seller in the words of the specification: the minimum times the
markup `0.05 + s × 0.45 + 1.0`, rounded, capped at `min(5 × baseValue, 3 × minimum)` and then
floored at `minimum + 1`. -/
def specAskingPrice (minimumPrice baseValue : Int) (s : Rat) : Int :=
  max (min (min (mathRound (minimumPrice * (0.05 + s * 0.45 + 1.0))) (5 * baseValue))
    (3 * minimumPrice)) (minimumPrice + 1)

/-- The price a first turn leaves: the tag if the response carries it, else the generated
value. -/
def tagOrInitial (tags : Tags) (key : String) (initial : Option Int) : Option Int :=
  match numberTag tags key with
  | some v => some v
  | none => initial

/-- The item of a seller after the first turn. -/
def namedItem (itemData : ItemData) (tags : Tags) : ItemData :=
  { itemData with
    name := match textTag tags "ITEM_NAME" with
      | some name => some name
      | none => itemData.name
    description := match textTag tags "ITEM_DESC" with
      | some description => some description
      | none => itemData.description }

/-- A string property that is "empty or absent": missing, `null`, or the empty string. -/
def Property.EmptyOrAbsent (p : Property (List Char)) : Prop :=
  p = Property.undefined ∨ p = Property.null ∨ p = Property.value []

/-- What an occurrence of a tag contributes when it passes validation: the number of a numeric
tag that parses as an integer satisfying the rule of its key, the trimmed text of a text tag;
`none` for an occurrence that fails validation. -/
def TagMatch.accepted (m : TagMatch) : Option TagValue :=
  if m.key ∈ numericTags then
    match numValueOf m.key (trim m.value) with
    | JSNumber.integer v => if tagRule m.key v then some (TagValue.num v) else none
    | _ => none
  else some (TagValue.str (trim m.value))

/-- The value of the last occurrence of a key, among the occurrences that pass validation. -/
def lastAccepted (ms : List TagMatch) (key : String) : Option TagValue :=
  ((ms.filter (fun m => m.key == key)).filterMap TagMatch.accepted).getLast?

/-! ## Sample data for the concrete instances -/

/-- A seller item as `generateItem` makes it: base value 100, condition Perfect (multiplier 1),
rarity Common (multiplier 1), and the name the model gave it in the first turn. -/
def sampleItem : ItemData :=
  { name := some "Brass Compass".toList
    description := some "A compass with a cracked lid".toList
    baseValue := 100
    condition := "Perfect"
    rarity := "Common"
    conditionMultiplier := 1
    rarityMultiplier := 1
    actualValue := 100 }

/-- A seller whose patience has come down from 60 to 10. -/
def sampleSellerData : CustomerData :=
  { name := some (TagValue.str "Mara".toList)
    age := none
    occupation := none
    personality := some "Grumpy"
    itemThemeHint := some "Antique Tool"
    patience := 60
    currentPatience := 10
    priceSensitivity := 1
    minimumAcceptablePrice := some 95
    initialAskingPrice := some 143
    currentAskingPrice := some 143
    initialOffer := none
    maximumAcceptablePrice := none
    currentOffer := none
    revealedInfo := { name := true, age := false, occupation := false } }

/-- The session of the sample seller. -/
def sampleSeller : Session :=
  { customerData := sampleSellerData
    itemData := some sampleItem
    itemToSell := none
    systemPrompt := "You are selling an item".toList
    type := CustomerType.seller
    currentOffer := none
    currentAskingPrice := some 143 }

/-- A state with the sample seller active, an empty inventory and the given cash. -/
def sellerState (cash : Int) : GameState :=
  { playerCash := cash
    shopInventory := []
    currentCustomerType := some CustomerType.seller
    currentCustomer := some sampleSeller
    conversationHistory := [Turn.model "Hello [PRICE_ASK: 143]".toList]
    isLLMThinking := false
    appraisalUsedThisTurn := false
    nextRef := 0
    timers := []
    effects := [] }

/-- An inventory object with the given identity, name and purchase price. -/
def stockItem (ref : Nat) (name : String) (purchasePrice : Int) : InventoryItem :=
  { ref := ref
    name := some name.toList
    description := some "Bought earlier".toList
    condition := "Perfect"
    rarity := "Common"
    purchasePrice := purchasePrice
    baseValue := 100
    actualValue := 100
    conditionMultiplier := 1
    rarityMultiplier := 1 }

/-- A buyer who wants the second item of the sample inventory. -/
def sampleBuyer : Session :=
  { customerData :=
      { name := none
        age := none
        occupation := none
        personality := some "Collector"
        itemThemeHint := none
        patience := 80
        currentPatience := 80
        priceSensitivity := 1
        minimumAcceptablePrice := none
        initialAskingPrice := none
        currentAskingPrice := none
        initialOffer := some 70
        maximumAcceptablePrice := some 120
        currentOffer := some 70
        revealedInfo := { name := false, age := false, occupation := false } }
    itemData := none
    itemToSell := some (stockItem 1 "Silver Ring" 60)
    systemPrompt := "You are buying an item".toList
    type := CustomerType.buyer
    currentOffer := some 70
    currentAskingPrice := none }

/-- A state with the sample buyer active and three items in the inventory, two of them with the
same name and purchase price. -/
def buyerState : GameState :=
  { playerCash := 50
    shopInventory :=
      [stockItem 0 "Silver Ring" 60, stockItem 1 "Silver Ring" 60, stockItem 2 "Old Map" 30]
    currentCustomerType := some CustomerType.buyer
    currentCustomer := some sampleBuyer
    conversationHistory := [Turn.model "Hello [PRICE_OFFER: 70]".toList]
    isLLMThinking := false
    appraisalUsedThisTurn := false
    nextRef := 3
    timers := []
    effects := [] }

/-- The page with the sample seller active and no call outstanding. -/
def activePage : AsyncState :=
  { game := sellerState 100, pending := [] }

/-- An inventory object whose `actualValue` is 0, as a saved game can hold it. -/
def worthlessItem : InventoryItem :=
  { ref := 0
    name := some "Bent Spoon".toList
    description := some "A spoon nobody wants".toList
    condition := "Broken"
    rarity := "Common"
    purchasePrice := 0
    baseValue := 10
    actualValue := 0
    conditionMultiplier := 0.25
    rarityMultiplier := 1 }

/-- The draws of `generateBuyerData` that are all 0. -/
def lowBuyerDraws : BuyerDraws :=
  { personality := 0, patience := 0, priceSensitivity := 0, maxJitter := 0, offerJitter := 0 }

/-- The draws of `generateItem` that are all 0. -/
def firstItemDraws : ItemDraws :=
  { baseValue := 0, condition := 0, rarity := 0, rarityFallback := 0 }

/-- A state with no session, the starting cash and an empty inventory. -/
def idleState : GameState :=
  { playerCash := 1000
    shopInventory := []
    currentCustomerType := none
    currentCustomer := none
    conversationHistory := []
    isLLMThinking := false
    appraisalUsedThisTurn := false
    nextRef := 0
    timers := []
    effects := [] }

/-- The draws that are all 0. -/
def firstStartDraws : StartDraws :=
  { customerType := 0
    item := firstItemDraws
    seller := { personality := 0, theme := 0, objectType := 0, patience := 0, priceSensitivity := 0 }
    itemToSell := 0
    buyer := lowBuyerDraws }

/-- The draws of `generateBuyerData` that are all 0 but for the draw of the price sensitivity,
which is one half. -/
def keenBuyerDraws : BuyerDraws :=
  { personality := 0, patience := 0, priceSensitivity := 1 / 2, maxJitter := 0, offerJitter := 0 }

/-- The draws of `handleAppraiseItem` that are all 0: every part of the appraisal is revealed. -/
def luckyAppraisal : AppraisalDraws :=
  { value := 0, condition := 0, rarity := 0 }

/-- The draws of `handleAppraiseItem` that are all one half: no part is revealed. -/
def unluckyAppraisal : AppraisalDraws :=
  { value := 1 / 2, condition := 1 / 2, rarity := 1 / 2 }

/-- An inventory object bought from a seller whose first response named no item: its name is
still `null`. -/
def namelessItem : InventoryItem :=
  { stockItem 0 "" 40 with name := none }

/-- A state with no session and two items in the inventory, the first without a name. -/
def namelessStock : GameState :=
  { idleState with shopInventory := [namelessItem, stockItem 1 "Old Map" 30], nextRef := 2 }

/-! # Theorems -/

theorem Tags.mem_set {tags : Tags} {key : String} {value : TagValue} {e : String × TagValue}
    (h : e ∈ Tags.set tags key value) : e ∈ tags ∨ e = (key, value) := by
  induction tags with
  | nil => simp [Tags.set] at h; exact Or.inr h
  | cons hd tl ih =>
    obtain ⟨k, v⟩ := hd
    simp only [Tags.set] at h
    split at h
    · rename_i hk
      simp only [beq_iff_eq] at hk
      rcases List.mem_cons.mp h with h | h
      · right; rw [h, hk]
      · left; exact List.mem_cons_of_mem _ h
    · rcases List.mem_cons.mp h with h | h
      · left; rw [h]; exact List.mem_cons_self _ _
      · rcases ih h with h | h
        · left; exact List.mem_cons_of_mem _ h
        · right; exact h

theorem Tags.get_set_ne {tags : Tags} {key k : String} {value : TagValue} (h : k ≠ key) :
    Tags.get (Tags.set tags k value) key = Tags.get tags key := by
  induction tags with
  | nil => simp [Tags.set, Tags.get, h]
  | cons hd tl ih =>
    obtain ⟨k', v'⟩ := hd
    simp only [Tags.set]
    split
    · rename_i hk
      simp only [beq_iff_eq] at hk
      subst hk
      simp [Tags.get, h]
    · simp only [Tags.get, ih]

theorem Tags.get_set_self (tags : Tags) (key : String) (value : TagValue) :
    Tags.get (Tags.set tags key value) key = some value := by
  induction tags with
  | nil => simp [Tags.set, Tags.get]
  | cons hd tl ih =>
    obtain ⟨k', v'⟩ := hd
    simp only [Tags.set]
    split
    · rename_i hk
      simp only [beq_iff_eq] at hk
      subst hk
      simp [Tags.get]
    · rename_i hk
      simp only [Tags.get, hk, ih]
      simp

theorem Tags.mem_of_get {tags : Tags} {key : String} {value : TagValue}
    (h : Tags.get tags key = some value) : (key, value) ∈ tags := by
  induction tags with
  | nil => simp [Tags.get] at h
  | cons hd tl ih =>
    obtain ⟨k', v'⟩ := hd
    simp only [Tags.get] at h
    split at h
    · rename_i hk
      simp only [beq_iff_eq] at hk
      simp only [Option.some.injEq] at h
      subst hk; subst h
      exact List.mem_cons_self _ _
    · exact List.mem_cons_of_mem _ (ih h)

/-- What the loop body does to `tags`, case by case. -/
theorem storeTag_eq (tags : Tags) (m : TagMatch) :
    storeTag tags m =
      if m.key ∈ numericTags then
        match numValueOf m.key (trim m.value) with
        | JSNumber.integer v =>
          if tagRule m.key v then Tags.set tags m.key (TagValue.num v) else tags
        | _ => tags
      else Tags.set tags m.key (TagValue.str (trim m.value)) := by
  unfold storeTag
  simp only [TagMatch.key]
  generalize String.mk (toUpperCase m.name) = key
  by_cases hk : key ∈ numericTags
  · have hc : numericTags.contains key = true := by simpa using hk
    simp only [hc, hk, if_true]
    cases numValueOf key (trim m.value) with
    | nan => rfl
    | fraction => rfl
    | integer v =>
      simp only [numericTags, List.mem_cons, List.mem_singleton, List.not_mem_nil, or_false] at hk
      rcases hk with h | h | h | h | h | h <;> subst h <;>
        simp [tagRule] <;> split_ifs <;> first | rfl | omega
  · have hc : numericTags.contains key = false := by simpa using hk
    simp [hc, hk]

theorem foldl_filter_of_noop {α β : Type} (f : β → α → β) (p : α → Bool)
    (h : ∀ acc a, p a = false → f acc a = acc) (l : List α) (init : β) :
    (l.filter p).foldl f init = l.foldl f init := by
  induction l generalizing init with
  | nil => rfl
  | cons a l ih =>
    by_cases hp : p a = true
    · simp [List.filter_cons, hp, ih]
    · have hp' : p a = false := by simpa using hp
      simp [List.filter_cons, hp', ih, h init a hp']

theorem storeTag_of_violatesRule (tags : Tags) (m : TagMatch) (h : violatesRule m) :
    storeTag tags m = tags := by
  rw [storeTag_eq]
  obtain ⟨hk, hv⟩ := h
  simp only [hk, if_true]
  cases hn : numValueOf m.key (trim m.value) with
  | nan => rfl
  | fraction => rfl
  | integer v =>
    rw [hn] at hv
    simp only at hv
    simp [hv]

theorem storeTag_entryValid (tags : Tags) (m : TagMatch) (h : ∀ e ∈ tags, entryValid e) :
    ∀ e ∈ storeTag tags m, entryValid e := by
  rw [storeTag_eq]
  split
  · rename_i hk
    split
    · rename_i v hv
      split
      · rename_i hr
        intro e he
        rcases Tags.mem_set he with he | he
        · exact h e he
        · subst he; exact ⟨hk, hr⟩
      · exact h
    · exact h
  · rename_i hk
    intro e he
    rcases Tags.mem_set he with he | he
    · exact h e he
    · subst he; exact hk

theorem foldl_storeTag_entryValid (ms : List TagMatch) (tags : Tags)
    (h : ∀ e ∈ tags, entryValid e) : ∀ e ∈ ms.foldl storeTag tags, entryValid e := by
  induction ms generalizing tags with
  | nil => exact h
  | cons m ms ih => exact ih _ (storeTag_entryValid tags m h)

theorem parseTags_entryValid (text : List Char) : ∀ e ∈ parseTags text, entryValid e := by
  unfold parseTags
  split
  · intro e he; simp at he
  · exact foldl_storeTag_entryValid _ _ (by intro e he; simp at he)

theorem parseTags_eq_foldl (text : List Char) : parseTags text = (execAll text).foldl storeTag [] := by
  unfold parseTags
  split
  · rename_i h
    have : text = [] := by simpa using h
    subst this
    rfl
  · rfl

/-- Claim C1.  For every input text, every numeric entry of `parseTags text` is stored under a
numeric tag and satisfies the rule of its tag (`tagRule`): a PATIENCE entry is an integer from
-30 to -5, a PRICE_ASK, PRICE_OFFER, ACCEPT_OFFER or ACCEPT_PRICE entry is a non-negative
integer, a REVEALED_AGE entry is a positive integer.  A numeric tag occurrence that does not
parse as a number or violates its rule (`violatesRule`) leaves `tags` as it was, so that the
result of `parseTags`, a total function, is the result for the occurrences that remain. -/
theorem parseTags_numeric_entries_satisfy_rule (text : List Char) :
    (∀ key v, (key, TagValue.num v) ∈ parseTags text → key ∈ numericTags ∧ tagRule key v) ∧
    (∀ tags m, violatesRule m → storeTag tags m = tags) ∧
    parseTags text = ((execAll text).filter (fun m => decide (¬ violatesRule m))).foldl storeTag [] := by
  refine ⟨fun key v h => parseTags_entryValid text _ h, storeTag_of_violatesRule, ?_⟩
  rw [parseTags_eq_foldl]
  symm
  apply foldl_filter_of_noop
  intro acc a ha
  apply storeTag_of_violatesRule
  simpa using ha

theorem parseTags_numeric_entries_satisfy_rule_witness :
    ("PATIENCE", TagValue.num (-10)) ∈ parseTags "Hi! [PRICE_ASK: 150] [PATIENCE: -10]".toList ∧
    ("PATIENCE" ∈ numericTags ∧ tagRule "PATIENCE" (-10)) ∧
    violatesRule ⟨0, "patience".toList, "-100".toList⟩ ∧
    storeTag [("PRICE_ASK", TagValue.num 150)] ⟨0, "patience".toList, "-100".toList⟩ =
      [("PRICE_ASK", TagValue.num 150)] :=
  ⟨by decide,
   (parseTags_numeric_entries_satisfy_rule "Hi! [PRICE_ASK: 150] [PATIENCE: -10]".toList).1
     "PATIENCE" (-10) (by decide),
   by decide,
   (parseTags_numeric_entries_satisfy_rule []).2.1 _ _ (by decide)⟩

theorem storeTag_get_of_key_ne (tags : Tags) (m : TagMatch) (key : String) (h : m.key ≠ key) :
    Tags.get (storeTag tags m) key = Tags.get tags key := by
  rw [storeTag_eq]
  split
  · split
    · split
      · exact Tags.get_set_ne h
      · rfl
    · rfl
  · exact Tags.get_set_ne h

theorem foldl_storeTag_get_none (key : String) (ms : List TagMatch) (tags : Tags)
    (h0 : Tags.get tags key = none)
    (h : ∀ m ∈ ms, m.key = key → violatesRule m) :
    Tags.get (ms.foldl storeTag tags) key = none := by
  induction ms generalizing tags with
  | nil => exact h0
  | cons m ms ih =>
    apply ih
    · by_cases hk : m.key = key
      · rw [storeTag_of_violatesRule tags m (h m (List.mem_cons_self _ _) hk)]
        exact h0
      · rw [storeTag_get_of_key_ne tags m key hk]
        exact h0
    · intro m' hm'
      exact h m' (List.mem_cons_of_mem _ hm')

/-- Claim C2.  The text `Hi! [PRICE_ASK: 150] [PATIENCE: -10]` is parsed to exactly the mapping
with PRICE_ASK = 150 and PATIENCE = -10; a text in which every PATIENCE tag found by the scan is
`[PATIENCE: -100]` yields no PATIENCE key; a text in which every REVEALED_AGE tag found by the
scan is `[REVEALED_AGE: -5]` yields no REVEALED_AGE key. -/
theorem parseTags_spec_examples :
    parseTags "Hi! [PRICE_ASK: 150] [PATIENCE: -10]".toList =
      [("PRICE_ASK", TagValue.num 150), ("PATIENCE", TagValue.num (-10))] ∧
    (∀ text : List Char,
      (∀ m ∈ execAll text, m.key = "PATIENCE" → m.value = "-100".toList) →
      Tags.get (parseTags text) "PATIENCE" = none) ∧
    (∀ text : List Char,
      (∀ m ∈ execAll text, m.key = "REVEALED_AGE" → m.value = "-5".toList) →
      Tags.get (parseTags text) "REVEALED_AGE" = none) := by
  refine ⟨by decide, ?_, ?_⟩
  · intro text h
    rw [parseTags_eq_foldl]
    apply foldl_storeTag_get_none "PATIENCE" _ [] rfl
    intro m hm hk
    have hn : numValueOf "PATIENCE" (trim "-100".toList) = JSNumber.integer (-100) := by decide
    unfold violatesRule
    rw [hk, h m hm hk, hn]
    decide
  · intro text h
    rw [parseTags_eq_foldl]
    apply foldl_storeTag_get_none "REVEALED_AGE" _ [] rfl
    intro m hm hk
    have hn : numValueOf "REVEALED_AGE" (trim "-5".toList) = JSNumber.integer (-5) := by decide
    unfold violatesRule
    rw [hk, h m hm hk, hn]
    decide

theorem parseTags_spec_examples_witness :
    Tags.get (parseTags "Grr. [PATIENCE: -100] [PRICE_ASK: 90]".toList) "PATIENCE" = none ∧
    Tags.get (parseTags "I am [REVEALED_AGE: -5] years old".toList) "REVEALED_AGE" = none :=
  ⟨parseTags_spec_examples.2.1 "Grr. [PATIENCE: -100] [PRICE_ASK: 90]".toList (by decide),
   parseTags_spec_examples.2.2 "I am [REVEALED_AGE: -5] years old".toList (by decide)⟩

/-- Claim C3 fails as stated.  The only tag of the text `[PRICE_ASK: $1,500.00]` is matched with
the value ` $1,500.00` and yields the number 1500, whereas the digits and hyphens of that value,
which is what the claim says is parsed, read 150000: it is not true that every number in a result
of `parseTags` is the number read that way from an occurrence found under its key. -/
theorem parseTags_keeps_dots_counterexample :
    execAll "[PRICE_ASK: $1,500.00]".toList = [⟨0, "PRICE_ASK".toList, " $1,500.00".toList⟩] ∧
    parseTags "[PRICE_ASK: $1,500.00]".toList = [("PRICE_ASK", TagValue.num 1500)] ∧
    specNumValueOf "PRICE_ASK" " $1,500.00".toList = JSNumber.integer 150000 ∧
    ¬ (∀ (text : List Char) (key : String) (v : Int),
        Tags.get (parseTags text) key = some (TagValue.num v) →
        ∃ m ∈ execAll text, m.key = key ∧ specNumValueOf key m.value = JSNumber.integer v) := by
  refine ⟨by decide, by decide, by decide, ?_⟩
  intro h
  obtain ⟨m, hm, _, hv⟩ := h "[PRICE_ASK: $1,500.00]".toList "PRICE_ASK" 1500 (by decide)
  have he : execAll "[PRICE_ASK: $1,500.00]".toList =
      [⟨0, "PRICE_ASK".toList, " $1,500.00".toList⟩] := by decide
  rw [he, List.mem_singleton] at hm
  rw [hm] at hv
  revert hv
  decide

theorem isNumericChar_not_whiteSpace (c : Char) (h : isWhiteSpace c = true) :
    isNumericChar c = false := by
  unfold isWhiteSpace at h
  unfold isNumericChar isDigit
  have h1 : c ≠ '.' := by rintro rfl; revert h; decide
  have h2 : c ≠ '-' := by rintro rfl; revert h; decide
  simp only [Bool.or_eq_true, beq_iff_eq, Bool.and_eq_true, decide_eq_true_eq] at h
  simp [h1, h2]
  omega

theorem filter_dropWhile_of_imp {α : Type} (p q : α → Bool) (h : ∀ a, q a = true → p a = false)
    (l : List α) : (l.dropWhile q).filter p = l.filter p := by
  induction l with
  | nil => rfl
  | cons a l ih =>
    by_cases hq : q a = true
    · simp [List.dropWhile_cons, hq, ih, List.filter_cons, h a hq]
    · simp [List.dropWhile_cons, hq]

theorem filter_isNumericChar_trim (value : List Char) :
    (trim value).filter isNumericChar = value.filter isNumericChar := by
  unfold trim
  rw [List.filter_reverse, filter_dropWhile_of_imp _ _ isNumericChar_not_whiteSpace,
    List.filter_reverse, List.reverse_reverse,
    filter_dropWhile_of_imp _ _ isNumericChar_not_whiteSpace]

theorem numValueOf_eq_dotKeeping (key : String) (value : List Char) :
    numValueOf key (trim value) = dotKeepingNumValueOf key value := by
  unfold numValueOf dotKeepingNumValueOf
  simp only [filter_isNumericChar_trim]
  rfl

theorem storeTag_numeric_cases (tags : Tags) (m : TagMatch) (hk : m.key ∈ numericTags) :
    storeTag tags m = tags ∨
      ∃ v, dotKeepingNumValueOf m.key m.value = JSNumber.integer v ∧
        storeTag tags m = Tags.set tags m.key (TagValue.num v) := by
  rw [storeTag_eq, numValueOf_eq_dotKeeping]
  simp only [hk, if_true]
  cases hn : dotKeepingNumValueOf m.key m.value with
  | nan => left; rfl
  | fraction => left; rfl
  | integer v =>
    by_cases hr : tagRule m.key v
    · right; exact ⟨v, rfl, by simp [hr]⟩
    · left; simp [hr]

theorem storeTag_num_origin (tags : Tags) (m : TagMatch) (key : String) (v : Int)
    (h : Tags.get (storeTag tags m) key = some (TagValue.num v)) :
    Tags.get tags key = some (TagValue.num v) ∨
      (m.key = key ∧ dotKeepingNumValueOf key m.value = JSNumber.integer v) := by
  by_cases hk : m.key = key
  · by_cases hnum : m.key ∈ numericTags
    · rcases storeTag_numeric_cases tags m hnum with h' | ⟨w, hw, h'⟩
      · left; rw [h'] at h; exact h
      · right
        rw [h', hk, Tags.get_set_self] at h
        simp only [Option.some.injEq, TagValue.num.injEq] at h
        subst h
        exact ⟨hk, hk ▸ hw⟩
    · rw [storeTag_eq] at h
      rw [if_neg hnum, hk, Tags.get_set_self] at h
      cases h
  · left
    rw [storeTag_get_of_key_ne tags m key hk] at h
    exact h

theorem foldl_storeTag_num_origin (all ms : List TagMatch) (hsub : ∀ m ∈ ms, m ∈ all)
    (tags : Tags) (key : String) (v : Int)
    (htags : Tags.get tags key = some (TagValue.num v) →
      ∃ m ∈ all, m.key = key ∧ dotKeepingNumValueOf key m.value = JSNumber.integer v)
    (h : Tags.get (ms.foldl storeTag tags) key = some (TagValue.num v)) :
    ∃ m ∈ all, m.key = key ∧ dotKeepingNumValueOf key m.value = JSNumber.integer v := by
  induction ms generalizing tags with
  | nil => exact htags h
  | cons m ms ih =>
    apply ih (fun m' hm' => hsub m' (List.mem_cons_of_mem _ hm')) (storeTag tags m) _ h
    intro h'
    rcases storeTag_num_origin tags m key v h' with h'' | ⟨h1, h2⟩
    · exact htags h''
    · exact ⟨m, hsub m (List.mem_cons_self _ _), h1, h2⟩

/-- Claim C3 as amended.  The number a numeric tag occurrence yields is the one obtained by
removing from the captured value every character that is neither a digit, a dot nor a hyphen
and parsing what remains with `parseInt` (`parseFloat` for PATIENCE): the loop body either
leaves `tags` alone or stores that number, and every number in the result of `parseTags` is
that number for some occurrence found by the scan under the same key. -/
theorem parseTags_number_read_with_dots_kept (text : List Char) :
    (∀ tags m, m.key ∈ numericTags →
      storeTag tags m = tags ∨
        ∃ v, dotKeepingNumValueOf m.key m.value = JSNumber.integer v ∧
          storeTag tags m = Tags.set tags m.key (TagValue.num v)) ∧
    (∀ key v, Tags.get (parseTags text) key = some (TagValue.num v) →
      ∃ m ∈ execAll text, m.key = key ∧
        dotKeepingNumValueOf key m.value = JSNumber.integer v) := by
  refine ⟨storeTag_numeric_cases, ?_⟩
  intro key v h
  rw [parseTags_eq_foldl] at h
  exact foldl_storeTag_num_origin (execAll text) (execAll text) (fun _ hm => hm) [] key v
    (by intro h0; simp [Tags.get] at h0) h

theorem parseTags_number_read_with_dots_kept_witness :
    Tags.get (parseTags "[PRICE_ASK: $1,500.00]".toList) "PRICE_ASK" = some (TagValue.num 1500) ∧
    ∃ m ∈ execAll "[PRICE_ASK: $1,500.00]".toList, m.key = "PRICE_ASK" ∧
      dotKeepingNumValueOf "PRICE_ASK" m.value = JSNumber.integer 1500 :=
  ⟨by decide,
   (parseTags_number_read_with_dots_kept "[PRICE_ASK: $1,500.00]".toList).2 "PRICE_ASK" 1500
     (by decide)⟩

theorem matchName_toUpperCase {name input raw rest : List Char}
    (h : matchName name input = some (raw, rest)) : toUpperCase raw = name := by
  induction name generalizing input raw rest with
  | nil =>
    simp only [matchName, Option.some.injEq, Prod.mk.injEq] at h
    rw [← h.1]; rfl
  | cons p ps ih =>
    cases input with
    | nil => simp [matchName] at h
    | cons c cs =>
      simp only [matchName] at h
      split at h
      · rename_i hc
        split at h
        · rename_i raw' rest' hm
          simp only [Option.some.injEq, Prod.mk.injEq] at h
          rw [← h.1]
          simp only [toUpperCase, List.map_cons, List.cons.injEq]
          exact ⟨by simpa using hc, ih hm⟩
        · simp at h
      · simp at h

theorem matchName_append {name input raw rest : List Char}
    (h : matchName name input = some (raw, rest)) : input = raw ++ rest := by
  induction name generalizing input raw rest with
  | nil =>
    simp only [matchName, Option.some.injEq, Prod.mk.injEq] at h
    rw [← h.1, ← h.2]; rfl
  | cons p ps ih =>
    cases input with
    | nil => simp [matchName] at h
    | cons c cs =>
      simp only [matchName] at h
      split at h
      · split at h
        · rename_i raw' rest' hm
          simp only [Option.some.injEq, Prod.mk.injEq] at h
          rw [← h.1, ← h.2, List.cons_append, ← ih hm]
        · simp at h
      · simp at h

theorem matchAlternative_toUpperCase {name input raw v rest : List Char}
    (h : matchAlternative name input = some (raw, v, rest)) : toUpperCase raw = name := by
  unfold matchAlternative at h
  split at h
  · rename_i raw' c rest' hm
    split at h
    · split at h
      · simp only [Option.some.injEq, Prod.mk.injEq] at h
        rw [← h.1]; exact matchName_toUpperCase hm
      · simp at h
    · simp at h
  · simp at h

theorem matchAlternatives_toUpperCase {names : List (List Char)} {input raw v rest : List Char}
    (h : matchAlternatives names input = some (raw, v, rest)) : toUpperCase raw ∈ names := by
  induction names with
  | nil => simp [matchAlternatives] at h
  | cons name names ih =>
    simp only [matchAlternatives] at h
    split at h
    · rename_i r hr
      simp only [Option.some.injEq] at h
      subst h
      rw [matchAlternative_toUpperCase hr]
      exact List.mem_cons_self _ _
    · exact List.mem_cons_of_mem _ (ih h)

theorem matchTagAt_toUpperCase {input raw v rest : List Char}
    (h : matchTagAt input = some (raw, v, rest)) : toUpperCase raw ∈ tagNames := by
  cases input with
  | nil => simp [matchTagAt] at h
  | cons c cs =>
    simp only [matchTagAt] at h
    split at h
    · exact matchAlternatives_toUpperCase h
    · simp at h

theorem execFrom_name_mem (text : List Char) (skip idx : Nat) :
    ∀ m ∈ execFrom text skip idx, toUpperCase m.name ∈ tagNames := by
  induction text generalizing skip idx with
  | nil => intro m hm; simp [execFrom] at hm
  | cons c cs ih =>
    cases skip with
    | succ k => simp only [execFrom]; exact ih k (idx + 1)
    | zero =>
      simp only [execFrom]
      split
      · rename_i raw v rest hm
        intro m hmem
        rcases List.mem_cons.mp hmem with h | h
        · subst h; exact matchTagAt_toUpperCase hm
        · exact ih _ _ m h
      · exact ih 0 (idx + 1)

theorem key_mem_tagKeys (m : TagMatch) (h : toUpperCase m.name ∈ tagNames) : m.key ∈ tagKeys := by
  unfold TagMatch.key
  simp only [tagNames, List.mem_cons, List.mem_singleton, List.not_mem_nil, or_false] at h
  rcases h with h | h | h | h | h | h | h | h | h | h <;> rw [h] <;> decide

theorem storeTag_keys (tags : Tags) (m : TagMatch) (S : List String) (hm : m.key ∈ S)
    (h : ∀ e ∈ tags, e.1 ∈ S) : ∀ e ∈ storeTag tags m, e.1 ∈ S := by
  rw [storeTag_eq]
  have hset : ∀ val, ∀ e ∈ Tags.set tags m.key val, e.1 ∈ S := by
    intro val e he
    rcases Tags.mem_set he with he | he
    · exact h e he
    · subst he; exact hm
  split
  · split
    · split
      · exact hset _
      · exact h
    · exact h
  · exact hset _

theorem foldl_storeTag_keys (ms : List TagMatch) (S : List String) (hms : ∀ m ∈ ms, m.key ∈ S)
    (tags : Tags) (h : ∀ e ∈ tags, e.1 ∈ S) : ∀ e ∈ ms.foldl storeTag tags, e.1 ∈ S := by
  induction ms generalizing tags with
  | nil => exact h
  | cons m ms ih =>
    exact ih (fun m' hm' => hms m' (List.mem_cons_of_mem _ hm')) _
      (storeTag_keys tags m S (hms m (List.mem_cons_self _ _)) h)

theorem parseTags_keys (text : List Char) : ∀ e ∈ parseTags text, e.1 ∈ tagKeys := by
  rw [parseTags_eq_foldl]
  apply foldl_storeTag_keys
  · intro m hm
    exact key_mem_tagKeys m (execFrom_name_mem text 0 0 m hm)
  · intro e he; simp at he

theorem char_eq_iff_toNat (c d : Char) : c = d ↔ c.toNat = d.toNat := by
  constructor
  · intro h; rw [h]
  · intro h
    rw [← Char.ofNat_toNat c, ← Char.ofNat_toNat d, h]

theorem toNat_ofNat_of_lt (n : Nat) (h : n < 0xd800) : (Char.ofNat n).toNat = n := by
  unfold Char.ofNat
  rw [dif_pos (Or.inl h)]
  simp only [Char.ofNatAux, Char.toNat]
  show (UInt32.ofNat' n _).toNat = n
  simp [UInt32.ofNat', UInt32.toNat]

theorem toNat_toUpperChar (c : Char) :
    (toUpperChar c).toNat = if 0x61 ≤ c.toNat ∧ c.toNat ≤ 0x7A then c.toNat - 0x20 else c.toNat := by
  unfold toUpperChar
  by_cases h : 0x61 ≤ c.toNat ∧ c.toNat ≤ 0x7A
  · have h' : (decide (0x61 ≤ c.toNat) && decide (c.toNat ≤ 0x7A)) = true := by simpa using h
    rw [if_pos h', if_pos h]
    exact toNat_ofNat_of_lt _ (by omega)
  · have h' : ¬ (decide (0x61 ≤ c.toNat) && decide (c.toNat ≤ 0x7A)) = true := by simpa using h
    rw [if_neg h', if_neg h]

theorem beq_char_toNat (c d : Char) : (c == d) = (c.toNat == d.toNat) := by
  rw [Bool.eq_iff_iff]
  simp [char_eq_iff_toNat]

theorem isWhiteSpace_toUpperChar (c : Char) : isWhiteSpace (toUpperChar c) = isWhiteSpace c := by
  unfold isWhiteSpace
  rw [toNat_toUpperChar]
  split
  · rename_i h
    rw [Bool.eq_iff_iff]
    simp
    omega
  · rfl

theorem isLineTerminator_toUpperChar (c : Char) :
    isLineTerminator (toUpperChar c) = isLineTerminator c := by
  unfold isLineTerminator
  rw [toNat_toUpperChar]
  split
  · rename_i h
    rw [Bool.eq_iff_iff]
    simp
    omega
  · rfl

theorem isDigit_toUpperChar (c : Char) : isDigit (toUpperChar c) = isDigit c := by
  unfold isDigit
  rw [toNat_toUpperChar]
  split
  · rename_i h
    rw [Bool.eq_iff_iff]
    simp
    omega
  · rfl

theorem beq_toUpperChar_of_not_letter (c d : Char) (hd : d.toNat < 0x41 ∨ 0x7A < d.toNat ∨ (0x5A < d.toNat ∧ d.toNat < 0x61)) :
    (toUpperChar c == d) = (c == d) := by
  rw [beq_char_toNat, beq_char_toNat, toNat_toUpperChar]
  split
  · rename_i h
    rw [Bool.eq_iff_iff]
    simp
    omega
  · rfl

theorem toUpperChar_idem (c : Char) : toUpperChar (toUpperChar c) = toUpperChar c := by
  rw [char_eq_iff_toNat, toNat_toUpperChar (toUpperChar c)]
  have h := toNat_toUpperChar c
  split_ifs at h ⊢ <;> omega

theorem matchLazyDot_toUpperCase (cs : List Char) :
    matchLazyDot (toUpperCase cs) = (matchLazyDot cs).map upPair := by
  induction cs with
  | nil => rfl
  | cons c cs ih =>
    simp only [toUpperCase, List.map_cons, matchLazyDot] at ih ⊢
    rw [beq_toUpperChar_of_not_letter c ']' (by decide), isLineTerminator_toUpperChar, ih]
    by_cases h1 : (c == ']') = true
    · simp [h1, upPair, toUpperCase]
    · by_cases h2 : isLineTerminator c = true
      · simp [h1, h2]
      · simp only [h1, h2, if_false, Bool.false_eq_true]
        cases matchLazyDot cs with
        | none => rfl
        | some p => rfl

theorem matchValue_toUpperCase (cs : List Char) :
    matchValue (toUpperCase cs) = (matchValue cs).map upPair := by
  cases cs with
  | nil => rfl
  | cons c cs =>
    have ih := matchLazyDot_toUpperCase cs
    simp only [toUpperCase, List.map_cons, matchValue] at ih ⊢
    rw [beq_toUpperChar_of_not_letter c '-' (by decide), isDigit_toUpperChar,
      isWhiteSpace_toUpperChar, ih]
    by_cases h1 : (c == '-' || isDigit c || isWhiteSpace c) = true
    · simp only [h1, if_true]
      cases matchLazyDot cs with
      | none => rfl
      | some p => rfl
    · simp [h1]

theorem matchSpacesValue_toUpperCase (cs : List Char) :
    matchSpacesValue (toUpperCase cs) = (matchSpacesValue cs).map upPair := by
  induction cs with
  | nil => rfl
  | cons c cs ih =>
    have hv := matchValue_toUpperCase (c :: cs)
    simp only [toUpperCase, List.map_cons, matchSpacesValue] at ih hv ⊢
    rw [isWhiteSpace_toUpperChar, ih, hv]
    by_cases h1 : isWhiteSpace c = true
    · simp only [h1, if_true]
      cases matchSpacesValue cs with
      | none => rfl
      | some p => rfl
    · simp [h1]

theorem matchName_toUpperCase_input (name input : List Char) :
    matchName name (toUpperCase input) = (matchName name input).map upPair := by
  induction name generalizing input with
  | nil => rfl
  | cons p ps ih =>
    cases input with
    | nil => rfl
    | cons c cs =>
      have ih' := ih cs
      simp only [toUpperCase, List.map_cons, matchName] at ih' ⊢
      rw [toUpperChar_idem, ih']
      by_cases h1 : (toUpperChar c == p) = true
      · simp only [h1, if_true]
        cases matchName ps cs with
        | none => rfl
        | some q => rfl
      · simp [h1]

theorem matchAlternative_toUpperCase_input (name input : List Char) :
    matchAlternative name (toUpperCase input) = (matchAlternative name input).map upTriple := by
  unfold matchAlternative
  rw [matchName_toUpperCase_input]
  cases matchName name input with
  | none => rfl
  | some q =>
    obtain ⟨raw, rest⟩ := q
    cases rest with
    | nil => rfl
    | cons c rest =>
      have hv := matchSpacesValue_toUpperCase rest
      simp only [Option.map_some', upPair, toUpperCase, List.map_cons] at hv ⊢
      rw [beq_toUpperChar_of_not_letter c ':' (by decide), hv]
      by_cases h1 : (c == ':') = true
      · simp only [h1, if_true]
        cases matchSpacesValue rest with
        | none => rfl
        | some p => rfl
      · simp [h1]

theorem matchAlternatives_toUpperCase_input (names : List (List Char)) (input : List Char) :
    matchAlternatives names (toUpperCase input) = (matchAlternatives names input).map upTriple := by
  induction names with
  | nil => rfl
  | cons name names ih =>
    simp only [matchAlternatives]
    rw [matchAlternative_toUpperCase_input, ih]
    cases matchAlternative name input with
    | none => rfl
    | some p => rfl

theorem matchTagAt_toUpperCase_input (input : List Char) :
    matchTagAt (toUpperCase input) = (matchTagAt input).map upTriple := by
  cases input with
  | nil => rfl
  | cons c cs =>
    have h := matchAlternatives_toUpperCase_input tagNames cs
    simp only [toUpperCase, List.map_cons, matchTagAt] at h ⊢
    rw [beq_toUpperChar_of_not_letter c '[' (by decide), h]
    by_cases h1 : (c == '[') = true
    · simp [h1]
    · simp [h1]

theorem matchLazyDot_append {cs v rest : List Char} (h : matchLazyDot cs = some (v, rest)) :
    cs = v ++ ']' :: rest := by
  induction cs generalizing v rest with
  | nil => simp [matchLazyDot] at h
  | cons c cs ih =>
    simp only [matchLazyDot] at h
    split at h
    · rename_i hc
      simp only [Option.some.injEq, Prod.mk.injEq] at h
      have hc' : c = ']' := by simpa using hc
      rw [← h.1, ← h.2, hc']; rfl
    · split at h
      · simp at h
      · split at h
        · rename_i v' rest' hm
          simp only [Option.some.injEq, Prod.mk.injEq] at h
          rw [← h.1, ← h.2, List.cons_append, ← ih hm]
        · simp at h

theorem matchValue_append {cs v rest : List Char} (h : matchValue cs = some (v, rest)) :
    cs = v ++ ']' :: rest := by
  cases cs with
  | nil => simp [matchValue] at h
  | cons c cs =>
    simp only [matchValue] at h
    split at h
    · split at h
      · rename_i v' rest' hm
        simp only [Option.some.injEq, Prod.mk.injEq] at h
        rw [← h.1, ← h.2, List.cons_append, ← matchLazyDot_append hm]
      · simp at h
    · simp at h

theorem matchSpacesValue_append {cs v rest : List Char} (h : matchSpacesValue cs = some (v, rest)) :
    ∃ ws, cs = ws ++ (v ++ ']' :: rest) := by
  induction cs with
  | nil => simp [matchSpacesValue] at h
  | cons c cs ih =>
    simp only [matchSpacesValue] at h
    split at h
    · split at h
      · rename_i r hr
        simp only [Option.some.injEq] at h
        subst h
        obtain ⟨ws, hws⟩ := ih hr
        exact ⟨c :: ws, by rw [hws]; rfl⟩
      · exact ⟨[], matchValue_append h⟩
    · exact ⟨[], matchValue_append h⟩

theorem matchAlternative_append {name input raw v rest : List Char}
    (h : matchAlternative name input = some (raw, v, rest)) :
    ∃ ws, input = raw ++ ':' :: (ws ++ (v ++ ']' :: rest)) := by
  unfold matchAlternative at h
  split at h
  · rename_i raw' c rest' hm
    split at h
    · rename_i hc
      have hc' : c = ':' := by simpa using hc
      split at h
      · rename_i v' after hv
        simp only [Option.some.injEq, Prod.mk.injEq] at h
        obtain ⟨ws, hws⟩ := matchSpacesValue_append hv
        refine ⟨ws, ?_⟩
        rw [matchName_append hm, hws, hc', ← h.1, ← h.2.1, ← h.2.2]
      · simp at h
    · simp at h
  · simp at h

theorem matchAlternatives_append {names : List (List Char)} {input raw v rest : List Char}
    (h : matchAlternatives names input = some (raw, v, rest)) :
    ∃ ws, input = raw ++ ':' :: (ws ++ (v ++ ']' :: rest)) := by
  induction names with
  | nil => simp [matchAlternatives] at h
  | cons name names ih =>
    simp only [matchAlternatives] at h
    split at h
    · rename_i r hr
      simp only [Option.some.injEq] at h
      subst h
      exact matchAlternative_append hr
    · exact ih h

/-- A successful match spells out the text it was found in. -/
theorem matchTagAt_append {input raw v rest : List Char}
    (h : matchTagAt input = some (raw, v, rest)) :
    ∃ ws, input = '[' :: (raw ++ ':' :: (ws ++ (v ++ ']' :: rest))) := by
  cases input with
  | nil => simp [matchTagAt] at h
  | cons c cs =>
    simp only [matchTagAt] at h
    split at h
    · rename_i hc
      have hc' : c = '[' := by simpa using hc
      obtain ⟨ws, hws⟩ := matchAlternatives_append h
      exact ⟨ws, by rw [hc', hws]⟩
    · simp at h

theorem length_toUpperCase (s : List Char) : (toUpperCase s).length = s.length := by
  simp [toUpperCase]

/-- Two texts that differ only in letter case are matched alike: both fail, or both succeed with
captures of the same lengths. -/
theorem matchTagAt_case_variant {t t' : List Char} (h : toUpperCase t' = toUpperCase t) :
    (matchTagAt t = none → matchTagAt t' = none) ∧
    (∀ raw v rest, matchTagAt t = some (raw, v, rest) →
      ∃ raw' v' rest', matchTagAt t' = some (raw', v', rest') ∧
        raw'.length = raw.length ∧ v'.length = v.length ∧ rest'.length = rest.length) := by
  have hE : (matchTagAt t').map upTriple = (matchTagAt t).map upTriple := by
    rw [← matchTagAt_toUpperCase_input, ← matchTagAt_toUpperCase_input, h]
  constructor
  · intro hn
    rw [hn] at hE
    cases h' : matchTagAt t' with
    | none => rfl
    | some p => rw [h'] at hE; simp at hE
  · intro raw v rest hs
    rw [hs] at hE
    cases h' : matchTagAt t' with
    | none => rw [h'] at hE; simp at hE
    | some p =>
      obtain ⟨raw', v', rest'⟩ := p
      rw [h'] at hE
      simp only [Option.map_some', upTriple, Option.some.injEq, Prod.mk.injEq] at hE
      refine ⟨raw', v', rest', rfl, ?_, ?_, ?_⟩
      · rw [← length_toUpperCase raw', hE.1, length_toUpperCase]
      · rw [← length_toUpperCase v', hE.2.1, length_toUpperCase]
      · rw [← length_toUpperCase rest', hE.2.2, length_toUpperCase]

theorem value_rest_inj {ws v rest ws' v' rest' : List Char}
    (h : ws ++ (v ++ ']' :: rest) = ws' ++ (v' ++ ']' :: rest'))
    (hv : v.length = v'.length) (hr : rest.length = rest'.length) : v = v' ∧ rest = rest' := by
  have h1 : (ws ++ v) ++ ']' :: rest = (ws' ++ v') ++ ']' :: rest' := by
    simpa [List.append_assoc] using h
  have h2 := List.append_inj' h1 (by simp [hr])
  have h3 := List.append_inj' h2.1 hv
  exact ⟨h3.2, by simpa using h2.2⟩

/-- A tag name can be replaced by a case variant of it at the place where it was matched. -/
theorem matchTagAt_rename {nm nm' post v rest : List Char}
    (h : matchTagAt ('[' :: (nm ++ post)) = some (nm, v, rest))
    (hcase : toUpperCase nm' = toUpperCase nm) :
    matchTagAt ('[' :: (nm' ++ post)) = some (nm', v, rest) := by
  have hlen : nm'.length = nm.length := by
    rw [← length_toUpperCase nm', hcase, length_toUpperCase]
  have hup : toUpperCase ('[' :: (nm' ++ post)) = toUpperCase ('[' :: (nm ++ post)) := by
    simp only [toUpperCase, List.map_cons, List.map_append] at hcase ⊢
    rw [hcase]
  obtain ⟨raw', v', rest', h', hl1, hl2, hl3⟩ := (matchTagAt_case_variant hup).2 nm v rest h
  obtain ⟨ws, hws⟩ := matchTagAt_append h
  obtain ⟨ws', hws'⟩ := matchTagAt_append h'
  have e1 : post = ':' :: (ws ++ (v ++ ']' :: rest)) := by
    have := List.cons.inj hws
    exact List.append_cancel_left this.2
  have e2 := List.append_inj (List.cons.inj hws').2 (by rw [hlen, hl1])
  rw [e1] at e2
  have e3 := value_rest_inj (List.cons.inj e2.2).2 hl2.symm hl3.symm
  rw [h', ← e2.1, ← e3.1, ← e3.2]

/-- A match that ends before a given suffix of the text does not depend on the letter case of
that suffix. -/
theorem matchTagAt_before_suffix (a b b' : List Char) {raw v rest : List Char}
    (h : matchTagAt (a ++ b) = some (raw, v, rest)) (hb : b.length ≤ rest.length)
    (hcase : toUpperCase b' = toUpperCase b) :
    ∃ rest', matchTagAt (a ++ b') = some (raw, v, rest') ∧ rest'.length = rest.length := by
  have hlen : b'.length = b.length := by
    rw [← length_toUpperCase b', hcase, length_toUpperCase]
  have hup : toUpperCase (a ++ b') = toUpperCase (a ++ b) := by
    simp only [toUpperCase, List.map_append] at hcase ⊢
    rw [hcase]
  obtain ⟨raw', v', rest', h', hl1, hl2, hl3⟩ := (matchTagAt_case_variant hup).2 raw v rest h
  obtain ⟨ws, hws⟩ := matchTagAt_append h
  obtain ⟨ws', hws'⟩ := matchTagAt_append h'
  refine ⟨rest', ?_, hl3⟩
  -- the two texts agree on their first `a.length` characters, which contain both matches
  have hlen1 : (a ++ b).length = 1 + raw.length + 1 + ws.length + v.length + 1 + rest.length := by
    rw [hws]; simp; omega
  have hlen2 : (a ++ b').length = 1 + raw'.length + 1 + ws'.length + v'.length + 1 + rest'.length := by
    rw [hws']; simp; omega
  simp only [List.length_append] at hlen1 hlen2
  have hk : 1 + raw.length + 1 + ws.length + v.length + 1 ≤ a.length := by omega
  have t1 : (a ++ b).take (1 + raw.length + 1 + ws.length + v.length + 1) =
      '[' :: (raw ++ ':' :: (ws ++ (v ++ [']']))) := by
    rw [hws]
    have : '[' :: (raw ++ ':' :: (ws ++ (v ++ ']' :: rest))) =
        ('[' :: (raw ++ ':' :: (ws ++ (v ++ [']'])))) ++ rest := by simp
    rw [this, List.take_left']
    simp; omega
  have t2 : (a ++ b').take (1 + raw.length + 1 + ws.length + v.length + 1) =
      '[' :: (raw' ++ ':' :: (ws' ++ (v' ++ [']']))) := by
    rw [hws']
    have : '[' :: (raw' ++ ':' :: (ws' ++ (v' ++ ']' :: rest'))) =
        ('[' :: (raw' ++ ':' :: (ws' ++ (v' ++ [']'])))) ++ rest' := by simp
    rw [this, List.take_left']
    simp; omega
  rw [List.take_append_of_le_length hk] at t1 t2
  have e := t1.symm.trans t2
  have e2 := List.append_inj (List.cons.inj e).2 hl1.symm
  have e3 : ws ++ (v ++ ']' :: ([] : List Char)) = ws' ++ (v' ++ ']' :: ([] : List Char)) :=
    (List.cons.inj e2.2).2
  have e4 := value_rest_inj e3 hl2.symm rfl
  rw [h', ← e2.1, ← e4.1]

theorem execFrom_index_ge (text : List Char) (skip idx : Nat) :
    ∀ m ∈ execFrom text skip idx, idx + skip ≤ m.index := by
  induction text generalizing skip idx with
  | nil => intro m hm; simp [execFrom] at hm
  | cons c cs ih =>
    cases skip with
    | succ k =>
      simp only [execFrom]
      intro m hm
      have := ih k (idx + 1) m hm
      omega
    | zero =>
      simp only [execFrom]
      split
      · intro m hm
        rcases List.mem_cons.mp hm with h | h
        · subst h; simp
        · have := ih _ (idx + 1) m h
          omega
      · intro m hm
        have := ih 0 (idx + 1) m hm
        omega

theorem execFrom_skip_append (a b : List Char) (k idx : Nat) :
    execFrom (a ++ b) (a.length + k) idx = execFrom b k (idx + a.length) := by
  induction a generalizing idx with
  | nil => simp
  | cons c cs ih =>
    have : (c :: cs).length + k = (cs.length + k) + 1 := by simp; omega
    rw [List.cons_append, this, execFrom, ih]
    congr 1
    simp; omega

theorem execFrom_cons_succ (c : Char) (cs : List Char) (k idx : Nat) :
    execFrom (c :: cs) (k + 1) idx = execFrom cs k (idx + 1) := rfl

theorem execFrom_cons_zero_some {c : Char} {cs raw v rest : List Char} (idx : Nat)
    (h : matchTagAt (c :: cs) = some (raw, v, rest)) :
    execFrom (c :: cs) 0 idx =
      ⟨idx, raw, v⟩ :: execFrom cs (cs.length - rest.length) (idx + 1) := by
  simp only [execFrom, h]

theorem execFrom_cons_zero_none {c : Char} {cs : List Char} (idx : Nat)
    (h : matchTagAt (c :: cs) = none) :
    execFrom (c :: cs) 0 idx = execFrom cs 0 (idx + 1) := by
  simp only [execFrom, h]

theorem execFrom_rename (nm nm' post v : List Char) (hcase : toUpperCase nm' = toUpperCase nm) :
    ∀ (pre : List Char) (skip idx : Nat),
      (⟨idx + pre.length, nm, v⟩ : TagMatch) ∈ execFrom (pre ++ '[' :: (nm ++ post)) skip idx →
      (execFrom (pre ++ '[' :: (nm' ++ post)) skip idx).map TagMatch.content =
        (execFrom (pre ++ '[' :: (nm ++ post)) skip idx).map TagMatch.content := by
  have hlen : nm'.length = nm.length := by
    rw [← length_toUpperCase nm', hcase, length_toUpperCase]
  have hup : toUpperCase ('[' :: (nm' ++ post)) = toUpperCase ('[' :: (nm ++ post)) := by
    simp only [toUpperCase, List.map_cons, List.map_append] at hcase ⊢
    rw [hcase]
  intro pre
  induction pre with
  | nil =>
    intro skip idx hmem
    simp only [List.nil_append, List.length_nil, Nat.add_zero] at hmem ⊢
    cases skip with
    | succ k =>
      have := execFrom_index_ge _ _ _ _ hmem
      simp only at this
      omega
    | zero =>
      cases hm : matchTagAt ('[' :: (nm ++ post)) with
      | none =>
        rw [execFrom_cons_zero_none idx hm] at hmem
        have := execFrom_index_ge _ _ _ _ hmem
        simp only at this
        omega
      | some p =>
        obtain ⟨raw, v0, rest⟩ := p
        rw [execFrom_cons_zero_some idx hm] at hmem
        rcases List.mem_cons.mp hmem with h | h
        · simp only [TagMatch.mk.injEq, true_and] at h
          obtain ⟨h1, h2⟩ := h
          subst h1; subst h2
          rw [execFrom_cons_zero_some idx hm,
            execFrom_cons_zero_some idx (matchTagAt_rename hm hcase)]
          simp only [List.map_cons]
          congr 1
          · simp [TagMatch.content, hcase]
          · obtain ⟨ws, hws⟩ := matchTagAt_append hm
            have e1 : post = ':' :: (ws ++ (v ++ ']' :: rest)) :=
              List.append_cancel_left (List.cons.inj hws).2
            have hk : (nm ++ post).length - rest.length =
                nm.length + (post.length - rest.length) := by
              rw [e1]; simp; omega
            have hk' : (nm' ++ post).length - rest.length =
                nm'.length + (post.length - rest.length) := by
              rw [e1]; simp; omega
            rw [hk, hk', execFrom_skip_append, execFrom_skip_append, hlen]
        · have := execFrom_index_ge _ _ _ _ h
          simp only at this
          omega
  | cons c pre ih =>
    intro skip idx hmem
    have hidx : idx + (c :: pre).length = (idx + 1) + pre.length := by
      simp only [List.length_cons]; omega
    rw [hidx] at hmem
    rw [List.cons_append] at hmem ⊢
    rw [List.cons_append]
    cases skip with
    | succ k =>
      rw [execFrom_cons_succ] at hmem ⊢
      rw [execFrom_cons_succ]
      exact ih k (idx + 1) hmem
    | zero =>
      cases hm : matchTagAt (c :: (pre ++ '[' :: (nm ++ post))) with
      | none =>
        have hup2 : toUpperCase (c :: (pre ++ '[' :: (nm' ++ post))) =
            toUpperCase (c :: (pre ++ '[' :: (nm ++ post))) := by
          simp only [toUpperCase, List.map_cons, List.map_append] at hup ⊢
          rw [hup]
        rw [execFrom_cons_zero_none idx hm] at hmem ⊢
        rw [execFrom_cons_zero_none idx ((matchTagAt_case_variant hup2).1 hm)]
        exact ih 0 (idx + 1) hmem
      | some p =>
        obtain ⟨raw, v0, rest⟩ := p
        rw [execFrom_cons_zero_some idx hm] at hmem ⊢
        rcases List.mem_cons.mp hmem with h | h
        · simp only [TagMatch.mk.injEq] at h
          omega
        · have hge := execFrom_index_ge _ _ _ _ h
          simp only [List.length_append, List.length_cons] at hge
          obtain ⟨ws, hws⟩ := matchTagAt_append hm
          have hl := congrArg List.length hws
          simp only [List.length_append, List.length_cons] at hl
          have hb : ('[' :: (nm ++ post)).length ≤ rest.length := by
            simp only [List.length_append, List.length_cons]
            omega
          obtain ⟨rest', hm', hl'⟩ :=
            matchTagAt_before_suffix (c :: pre) ('[' :: (nm ++ post))
              ('[' :: (nm' ++ post)) hm hb hup
          rw [List.cons_append] at hm'
          rw [execFrom_cons_zero_some idx hm']
          simp only [List.map_cons]
          congr 1
          have hs : (pre ++ '[' :: (nm' ++ post)).length - rest'.length =
              (pre ++ '[' :: (nm ++ post)).length - rest.length := by
            simp [hl', hlen]
          rw [hs]
          exact ih _ (idx + 1) h

theorem storeTag_congr (tags : Tags) (m m' : TagMatch) (h : m'.content = m.content) :
    storeTag tags m' = storeTag tags m := by
  simp only [TagMatch.content, Prod.mk.injEq] at h
  unfold storeTag
  rw [h.1, h.2]

theorem foldl_storeTag_congr (ms ms' : List TagMatch)
    (h : ms'.map TagMatch.content = ms.map TagMatch.content) (tags : Tags) :
    ms'.foldl storeTag tags = ms.foldl storeTag tags := by
  induction ms generalizing ms' tags with
  | nil =>
    have : ms' = [] := by simpa using h
    rw [this]
  | cons m ms ih =>
    cases ms' with
    | nil => simp at h
    | cons m' ms' =>
      simp only [List.map_cons, List.cons.injEq] at h
      simp only [List.foldl_cons]
      rw [storeTag_congr tags m m' h.1]
      exact ih ms' h.2 _

/-- Claim C4.  For every input text every key of `parseTags text` is one of the ten upper-case
tag names, and when the scan finds a tag at some place of a text, writing the name of that tag
in another letter case does not change the mapping returned. -/
theorem parseTags_keys_fixed_and_case_insensitive :
    (∀ text : List Char, ∀ e ∈ parseTags text, e.1 ∈ tagKeys) ∧
    (∀ pre nm nm' post v : List Char,
      (⟨pre.length, nm, v⟩ : TagMatch) ∈ execAll (pre ++ '[' :: (nm ++ post)) →
      toUpperCase nm' = toUpperCase nm →
      parseTags (pre ++ '[' :: (nm' ++ post)) = parseTags (pre ++ '[' :: (nm ++ post))) := by
  refine ⟨parseTags_keys, ?_⟩
  intro pre nm nm' post v hocc hcase
  rw [parseTags_eq_foldl, parseTags_eq_foldl]
  apply foldl_storeTag_congr
  unfold execAll at hocc ⊢
  exact execFrom_rename nm nm' post v hcase pre 0 0 (by simpa using hocc)

theorem parseTags_keys_fixed_and_case_insensitive_witness :
    "PRICE_ASK" ∈ tagKeys ∧
    parseTags "Hi! [price_ask: 150] [PATIENCE: -10]".toList =
      parseTags "Hi! [PRICE_ASK: 150] [PATIENCE: -10]".toList :=
  ⟨parseTags_keys_fixed_and_case_insensitive.1 "Hi! [PRICE_ASK: 150]".toList
      ("PRICE_ASK", TagValue.num 150) (by decide),
   parseTags_keys_fixed_and_case_insensitive.2 "Hi! ".toList "PRICE_ASK".toList
      "price_ask".toList ": 150] [PATIENCE: -10]".toList "150".toList (by decide) (by decide)⟩

@[simp]
theorem emit_playerCash (s : GameState) (e : Effect) :
    (s.emit e).playerCash = s.playerCash := rfl
@[simp]
theorem emit_shopInventory (s : GameState) (e : Effect) :
    (s.emit e).shopInventory = s.shopInventory := rfl
@[simp]
theorem emit_currentCustomerType (s : GameState) (e : Effect) :
    (s.emit e).currentCustomerType = s.currentCustomerType := rfl
@[simp]
theorem emit_currentCustomer (s : GameState) (e : Effect) :
    (s.emit e).currentCustomer = s.currentCustomer := rfl
@[simp]
theorem emit_isLLMThinking (s : GameState) (e : Effect) :
    (s.emit e).isLLMThinking = s.isLLMThinking := rfl
@[simp]
theorem emit_appraisalUsedThisTurn (s : GameState) (e : Effect) :
    (s.emit e).appraisalUsedThisTurn = s.appraisalUsedThisTurn := rfl
@[simp]
theorem emit_nextRef (s : GameState) (e : Effect) :
    (s.emit e).nextRef = s.nextRef := rfl
@[simp]
theorem emit_timers (s : GameState) (e : Effect) :
    (s.emit e).timers = s.timers := rfl
@[simp]
theorem emit_conversationHistory (s : GameState) (e : Effect) :
    (s.emit e).conversationHistory = s.conversationHistory := rfl
@[simp]
theorem emit_effects (s : GameState) (e : Effect) :
    (s.emit e).effects = s.effects ++ [e] := rfl

/-! ### `endCurrentInteraction` -/

@[simp]
theorem endCurrentInteraction_currentCustomer (s : GameState) (r : EndReason) :
    (endCurrentInteraction s r).currentCustomer = none := by
  unfold endCurrentInteraction
  simp only
  split_ifs <;> rfl

@[simp]
theorem endCurrentInteraction_playerCash (s : GameState) (r : EndReason) :
    (endCurrentInteraction s r).playerCash = s.playerCash := by
  unfold endCurrentInteraction
  simp only
  split_ifs <;> rfl

@[simp]
theorem endCurrentInteraction_shopInventory (s : GameState) (r : EndReason) :
    (endCurrentInteraction s r).shopInventory = s.shopInventory := by
  unfold endCurrentInteraction
  simp only
  split_ifs <;> rfl

@[simp]
theorem endCurrentInteraction_timers (s : GameState) (r : EndReason) :
    (endCurrentInteraction s r).timers = s.timers := by
  unfold endCurrentInteraction
  simp only
  split_ifs <;> rfl

/-! ### `finalizeDeal` and `finalizeSale` -/

theorem finalizeDeal_currentCustomer (s : GameState) (p : Int) :
    (finalizeDeal s p).currentCustomer = none ∨
      (finalizeDeal s p).currentCustomer = s.currentCustomer := by
  unfold finalizeDeal
  split
  · right; rfl
  · split
    · left; simp
    · right; rfl

theorem finalizeDeal_playerCash_nonneg (s : GameState) (p : Int) (h0 : 0 ≤ s.playerCash)
    (hp : p ≤ s.playerCash) : 0 ≤ (finalizeDeal s p).playerCash := by
  unfold finalizeDeal
  split
  · simpa using h0
  · split
    · simp; omega
    · simpa using h0

theorem finalizeSale_currentCustomer (s : GameState) (sold : Option InventoryItem) (p : Int) :
    (finalizeSale s sold p).currentCustomer = none ∨
      (finalizeSale s sold p).currentCustomer = s.currentCustomer := by
  unfold finalizeSale
  split
  · left; simp
  · right; rfl

theorem finalizeSale_playerCash_nonneg (s : GameState) (sold : Option InventoryItem) (p : Int)
    (h0 : 0 ≤ s.playerCash) (hp : 0 ≤ p) : 0 ≤ (finalizeSale s sold p).playerCash := by
  unfold finalizeSale
  split
  · simp
    split <;> [skip; split] <;> simp <;> omega
  · simpa using h0

theorem numberTag_parseTags_rule {text : List Char} {key : String} {v : Int}
    (h : numberTag (parseTags text) key = some v) : key ∈ numericTags ∧ tagRule key v := by
  unfold numberTag at h
  split at h
  · rename_i w hw
    simp only [Option.some.injEq] at h
    subst h
    exact parseTags_entryValid text _ (Tags.mem_of_get hw)
  · simp at h

/-! ### Frame properties of the helpers of `processPlayerTurn` -/

@[simp]
theorem getConcludingRemark_playerCash (s : GameState) (b : Bool) (r : String)
    (fp : Option Int) (t : Option CustomerType) (k : List Char) :
    (getConcludingRemark s b r fp t k).1.playerCash = s.playerCash := by
  unfold getConcludingRemark
  split
  · split <;> rfl
  · rfl

@[simp]
theorem getConcludingRemark_shopInventory (s : GameState) (b : Bool) (r : String)
    (fp : Option Int) (t : Option CustomerType) (k : List Char) :
    (getConcludingRemark s b r fp t k).1.shopInventory = s.shopInventory := by
  unfold getConcludingRemark
  split
  · split <;> rfl
  · rfl

@[simp]
theorem getConcludingRemark_currentCustomer (s : GameState) (b : Bool) (r : String)
    (fp : Option Int) (t : Option CustomerType) (k : List Char) :
    (getConcludingRemark s b r fp t k).1.currentCustomer = s.currentCustomer := by
  unfold getConcludingRemark
  split
  · split <;> rfl
  · rfl

@[simp]
theorem getConcludingRemark_currentCustomerType (s : GameState) (b : Bool) (r : String)
    (fp : Option Int) (t : Option CustomerType) (k : List Char) :
    (getConcludingRemark s b r fp t k).1.currentCustomerType = s.currentCustomerType := by
  unfold getConcludingRemark
  split
  · split <;> rfl
  · rfl

@[simp]
theorem getConcludingRemark_timers (s : GameState) (b : Bool) (r : String)
    (fp : Option Int) (t : Option CustomerType) (k : List Char) :
    (getConcludingRemark s b r fp t k).1.timers = s.timers := by
  unfold getConcludingRemark
  split
  · split <;> rfl
  · rfl

@[simp]
theorem logRemark_playerCash (s : GameState) (r : Option (List Char)) :
    (logRemark s r).playerCash = s.playerCash := by
  unfold logRemark
  split
  · split <;> rfl
  · rfl

@[simp]
theorem logRemark_shopInventory (s : GameState) (r : Option (List Char)) :
    (logRemark s r).shopInventory = s.shopInventory := by
  unfold logRemark
  split
  · split <;> rfl
  · rfl

@[simp]
theorem logRemark_currentCustomer (s : GameState) (r : Option (List Char)) :
    (logRemark s r).currentCustomer = s.currentCustomer := by
  unfold logRemark
  split
  · split <;> rfl
  · rfl

@[simp]
theorem logRemark_currentCustomerType (s : GameState) (r : Option (List Char)) :
    (logRemark s r).currentCustomerType = s.currentCustomerType := by
  unfold logRemark
  split
  · split <;> rfl
  · rfl

@[simp]
theorem logRemark_timers (s : GameState) (r : Option (List Char)) :
    (logRemark s r).timers = s.timers := by
  unfold logRemark
  split
  · split <;> rfl
  · rfl

@[simp]
theorem patienceUpdate_playerCash (s : GameState) (c : Session) (tags : Tags)
    (text remark : List Char) :
    (patienceUpdate s c tags text remark).1.playerCash = s.playerCash := by
  unfold patienceUpdate
  split
  · rfl
  · simp only
    split <;> simp

@[simp]
theorem patienceUpdate_shopInventory (s : GameState) (c : Session) (tags : Tags)
    (text remark : List Char) :
    (patienceUpdate s c tags text remark).1.shopInventory = s.shopInventory := by
  unfold patienceUpdate
  split
  · rfl
  · simp only
    split <;> simp

@[simp]
theorem patienceUpdate_currentCustomerType (s : GameState) (c : Session) (tags : Tags)
    (text remark : List Char) :
    (patienceUpdate s c tags text remark).1.currentCustomerType = s.currentCustomerType := by
  unfold patienceUpdate
  split
  · rfl
  · simp only
    split <;> simp

@[simp]
theorem sellerPriceUpdate_playerCash (s : GameState) (c : Session) (tags : Tags) :
    (sellerPriceUpdate s c tags).1.playerCash = s.playerCash := by
  unfold sellerPriceUpdate
  split <;> rfl

@[simp]
theorem buyerPriceUpdate_playerCash (s : GameState) (c : Session) (tags : Tags) :
    (buyerPriceUpdate s c tags).1.playerCash = s.playerCash := by
  unfold buyerPriceUpdate
  split <;> rfl

@[simp]
theorem revealUpdate_playerCash (s : GameState) (c : Session) (tags : Tags) :
    (revealUpdate s c tags).1.playerCash = s.playerCash := by
  unfold revealUpdate
  simp only
  split <;> rfl

@[simp]
theorem finishTurn_playerCash (q : GameState × Session × Bool) (text : List Char) :
    (finishTurn q text).playerCash = q.1.playerCash := by
  unfold finishTurn
  simp only
  split <;> rfl

@[simp]
theorem finishTurn_shopInventory (q : GameState × Session × Bool) (text : List Char) :
    (finishTurn q text).shopInventory = q.1.shopInventory := by
  unfold finishTurn
  simp only
  split <;> rfl

@[simp]
theorem finishTurn_currentCustomer (q : GameState × Session × Bool) (text : List Char) :
    (finishTurn q text).currentCustomer = q.1.currentCustomer := by
  unfold finishTurn
  simp only
  split <;> rfl

@[simp]
theorem finishTurn_currentCustomerType (q : GameState × Session × Bool)
    (text : List Char) : (finishTurn q text).currentCustomerType = q.1.currentCustomerType := by
  unfold finishTurn
  simp only
  split <;> rfl

@[simp]
theorem finishTurn_timers (q : GameState × Session × Bool) (text : List Char) :
    (finishTurn q text).timers = q.1.timers := by
  unfold finishTurn
  simp only
  split <;> rfl

@[simp]
theorem finishTurn_isLLMThinking (q : GameState × Session × Bool) (text : List Char) :
    (finishTurn q text).isLLMThinking = false := by
  unfold finishTurn
  rfl

theorem sellerAcceptUpdate_playerCash_nonneg (s : GameState) (c : Session) (tags : Tags)
    (text : List Char) (h0 : 0 ≤ s.playerCash) :
    0 ≤ (sellerAcceptUpdate s c tags text).1.playerCash := by
  unfold sellerAcceptUpdate
  split
  · split
    · rename_i hge
      apply finalizeDeal_playerCash_nonneg
      · simpa using h0
      · simpa using hge
    · simpa using h0
  · exact h0

theorem buyerAcceptUpdate_playerCash_nonneg (s : GameState) (c : Session) (tags : Tags)
    (text : List Char) (h0 : 0 ≤ s.playerCash)
    (hp : ∀ p, numberTag tags "ACCEPT_PRICE" = some p → 0 ≤ p) :
    0 ≤ (buyerAcceptUpdate s c tags text).1.playerCash := by
  unfold buyerAcceptUpdate
  split
  · rename_i p hpt
    apply finalizeSale_playerCash_nonneg
    · simpa using h0
    · exact hp p hpt
  · exact h0

theorem tagUpdates_playerCash_nonneg (s : GameState) (c : Session) (tags : Tags)
    (text remark : List Char) (h0 : 0 ≤ s.playerCash)
    (hp : ∀ p, numberTag tags "ACCEPT_PRICE" = some p → 0 ≤ p) :
    0 ≤ (tagUpdates s c tags text remark).1.playerCash := by
  unfold tagUpdates
  simp only
  split
  · split
    · unfold sellerUpdate
      apply sellerAcceptUpdate_playerCash_nonneg
      simpa using h0
    · unfold buyerUpdate
      apply buyerAcceptUpdate_playerCash_nonneg _ _ _ _ _ hp
      simpa using h0
  · simpa using h0

@[simp]
theorem processPlayerTurnSend_playerCash (s : GameState) (t : List Char) :
    (processPlayerTurnSend s t).playerCash = s.playerCash := by
  unfold processPlayerTurnSend
  split
  · rfl
  · split <;> rfl

theorem processPlayerTurnReceive_playerCash_nonneg (s : GameState) (r : Option (List Char))
    (k : List Char) (h0 : 0 ≤ s.playerCash) :
    0 ≤ (processPlayerTurnReceive s r k).playerCash := by
  unfold processPlayerTurnReceive
  split
  · simpa using h0
  · split
    · rename_i ch more
      have h := tagUpdates_playerCash_nonneg
        { s with conversationHistory := s.conversationHistory ++ [Turn.model (ch :: more)] }
        (by assumption) (parseTags (ch :: more)) (ch :: more) k h0
        (fun p hp => (numberTag_parseTags_rule hp).2.2.1 (by simp))
      simpa using h
    · simpa using h0

theorem processPlayerTurn_playerCash_nonneg (s : GameState) (t : List Char)
    (r : Option (List Char)) (k : List Char) (h0 : 0 ≤ s.playerCash) :
    0 ≤ (processPlayerTurn s t r k).playerCash := by
  unfold processPlayerTurn
  split
  · exact h0
  · split
    · exact h0
    · exact processPlayerTurnReceive_playerCash_nonneg _ _ _ (by simpa using h0)

theorem handleAcceptPrice_playerCash_nonneg (s : GameState) (k : List Char)
    (h0 : 0 ≤ s.playerCash) : 0 ≤ (handleAcceptPrice s k).playerCash := by
  unfold handleAcceptPrice
  split
  · exact h0
  · split
    · exact h0
    · split
      · split
        · simpa using h0
        · split
          · simpa using h0
          · split
            · rename_i hge
              simp only
              split
              · apply finalizeDeal_playerCash_nonneg
                · simpa using h0
                · simpa using hge
              · simpa using h0
            · simpa using h0
      · split
        · simpa using h0
        · split
          · simpa using h0
          · rename_i hpos
            simp only
            split
            · apply finalizeSale_playerCash_nonneg
              · simpa using h0
              · omega
            · simpa using h0

@[simp]
theorem handleEndNegotiation_playerCash (s : GameState) (k : List Char) :
    (handleEndNegotiation s k).playerCash = s.playerCash := by
  unfold handleEndNegotiation
  split
  · rfl
  · split
    · rfl
    · simp only
      split <;> simp

@[simp]
theorem fireTimer_playerCash (s : GameState) (i : Nat) :
    (fireTimer s i).playerCash = s.playerCash := by
  unfold fireTimer
  split
  · rfl
  · simp only
    split <;> simp

theorem negotiationStep_playerCash_nonneg (s : GameState) (e : NegotiationEvent)
    (h0 : 0 ≤ s.playerCash) : 0 ≤ (negotiationStep s e).playerCash := by
  cases e with
  | playerTurn t r k => exact processPlayerTurn_playerCash_nonneg s t r k h0
  | acceptClick k => exact handleAcceptPrice_playerCash_nonneg s k h0
  | endClick k => simpa [negotiationStep] using h0
  | timerFires i => simpa [negotiationStep] using h0

theorem foldl_negotiationStep_playerCash_nonneg (events : List NegotiationEvent) (s : GameState)
    (h0 : 0 ≤ s.playerCash) : 0 ≤ (events.foldl negotiationStep s).playerCash := by
  induction events generalizing s with
  | nil => exact h0
  | cons e es ih => exact ih _ (negotiationStep_playerCash_nonneg s e h0)

theorem applyReveals_patience (cd : CustomerData) (tags : Tags) :
    (applyReveals cd tags).1.patience = cd.patience ∧
      (applyReveals cd tags).1.currentPatience = cd.currentPatience := by
  unfold applyReveals
  simp only
  split_ifs <;> exact ⟨rfl, rfl⟩

theorem revealUpdate_currentCustomer (s : GameState) (c : Session) (tags : Tags) :
    (revealUpdate s c tags).1.currentCustomer = some (revealUpdate s c tags).2 := by
  unfold revealUpdate
  simp only
  split <;> rfl

theorem revealUpdate_patience (s : GameState) (c : Session) (tags : Tags) :
    (revealUpdate s c tags).2.customerData.patience = c.customerData.patience ∧
      (revealUpdate s c tags).2.customerData.currentPatience = c.customerData.currentPatience := by
  unfold revealUpdate
  exact applyReveals_patience c.customerData tags

theorem patienceUpdate_currentCustomer (s : GameState) (c : Session) (tags : Tags)
    (text remark : List Char) (hc : s.currentCustomer = some c) :
    (patienceUpdate s c tags text remark).1.currentCustomer =
      some (patienceUpdate s c tags text remark).2.1 := by
  unfold patienceUpdate
  split
  · exact hc
  · simp only
    split <;> simp

theorem patienceUpdate_patience (s : GameState) (c : Session) (tags : Tags)
    (text remark : List Char) :
    (patienceUpdate s c tags text remark).2.1.customerData.patience = c.customerData.patience ∧
      (patienceUpdate s c tags text remark).2.1.customerData.currentPatience =
        patienceAfter c.customerData.currentPatience tags := by
  unfold patienceUpdate patienceAfter
  cases numberTag tags "PATIENCE" with
  | none => exact ⟨rfl, rfl⟩
  | some d =>
    simp only
    split <;> exact ⟨rfl, rfl⟩

theorem sellerPriceUpdate_currentCustomer (s : GameState) (c : Session) (tags : Tags)
    (hc : s.currentCustomer = some c) :
    (sellerPriceUpdate s c tags).1.currentCustomer = some (sellerPriceUpdate s c tags).2 ∧
      (sellerPriceUpdate s c tags).2.customerData = c.customerData := by
  unfold sellerPriceUpdate
  split
  · exact ⟨rfl, rfl⟩
  · exact ⟨hc, rfl⟩

theorem buyerPriceUpdate_currentCustomer (s : GameState) (c : Session) (tags : Tags)
    (hc : s.currentCustomer = some c) :
    (buyerPriceUpdate s c tags).1.currentCustomer = some (buyerPriceUpdate s c tags).2 ∧
      (buyerPriceUpdate s c tags).2.customerData = c.customerData := by
  unfold buyerPriceUpdate
  split
  · exact ⟨rfl, rfl⟩
  · exact ⟨hc, rfl⟩

theorem sellerAcceptUpdate_currentCustomer (s : GameState) (c : Session) (tags : Tags)
    (text : List Char) :
    (sellerAcceptUpdate s c tags text).1.currentCustomer = none ∨
      (sellerAcceptUpdate s c tags text).1.currentCustomer = s.currentCustomer := by
  unfold sellerAcceptUpdate
  split
  · split
    · rcases finalizeDeal_currentCustomer
        ((s.emit (Effect.addDialogueLog (Speaker.customer c.customerData.name)
          (LogLine.text text))).emit (Effect.showMessage (Message.dealAgreed (by assumption))))
        (by assumption) with h | h
      · left; exact h
      · right; simpa using h
    · right; rfl
  · right; rfl

theorem buyerAcceptUpdate_currentCustomer (s : GameState) (c : Session) (tags : Tags)
    (text : List Char) :
    (buyerAcceptUpdate s c tags text).1.currentCustomer = none ∨
      (buyerAcceptUpdate s c tags text).1.currentCustomer = s.currentCustomer := by
  unfold buyerAcceptUpdate
  split
  · rcases finalizeSale_currentCustomer
        ((s.emit (Effect.addDialogueLog (Speaker.customer c.customerData.name)
          (LogLine.text text))).emit (Effect.showMessage (Message.saleAgreed (by assumption))))
        c.itemToSell (by assumption) with h | h
    · left; exact h
    · right; simpa using h
  · right; rfl

/-- After the tags of a response have been handled the session is over or its customer has the
starting patience it had and the current patience `patienceAfter` gives. -/
theorem tagUpdates_patience (s : GameState) (c : Session) (tags : Tags)
    (text remark : List Char) (c' : Session)
    (h : (tagUpdates s c tags text remark).1.currentCustomer = some c') :
    c'.customerData.patience = c.customerData.patience ∧
      c'.customerData.currentPatience = patienceAfter c.customerData.currentPatience tags := by
  have hr := revealUpdate_currentCustomer s c tags
  have hrp := revealUpdate_patience s c tags
  have hp := patienceUpdate_currentCustomer _ _ tags text remark hr
  have hpp := patienceUpdate_patience (revealUpdate s c tags).1 (revealUpdate s c tags).2 tags
    text remark
  rw [hrp.1, hrp.2] at hpp
  unfold tagUpdates at h
  simp only at h
  split at h
  · split at h
    · unfold sellerUpdate at h
      simp only at h
      have h1 := sellerPriceUpdate_currentCustomer _ _ tags hp
      rcases sellerAcceptUpdate_currentCustomer
        (sellerPriceUpdate (patienceUpdate (revealUpdate s c tags).1 (revealUpdate s c tags).2
          tags text remark).1 (patienceUpdate (revealUpdate s c tags).1
          (revealUpdate s c tags).2 tags text remark).2.1 tags).1
        (sellerPriceUpdate (patienceUpdate (revealUpdate s c tags).1 (revealUpdate s c tags).2
          tags text remark).1 (patienceUpdate (revealUpdate s c tags).1
          (revealUpdate s c tags).2 tags text remark).2.1 tags).2 tags text with h3 | h3
      · rw [h3] at h; cases h
      · rw [h3, h1.1] at h
        simp only [Option.some.injEq] at h
        rw [← h, h1.2]
        exact hpp
    · unfold buyerUpdate at h
      simp only at h
      have h1 := buyerPriceUpdate_currentCustomer _ _ tags hp
      rcases buyerAcceptUpdate_currentCustomer
        (buyerPriceUpdate (patienceUpdate (revealUpdate s c tags).1 (revealUpdate s c tags).2
          tags text remark).1 (patienceUpdate (revealUpdate s c tags).1
          (revealUpdate s c tags).2 tags text remark).2.1 tags).1
        (buyerPriceUpdate (patienceUpdate (revealUpdate s c tags).1 (revealUpdate s c tags).2
          tags text remark).1 (patienceUpdate (revealUpdate s c tags).1
          (revealUpdate s c tags).2 tags text remark).2.1 tags).2 tags text with h3 | h3
      · rw [h3] at h; cases h
      · rw [h3, h1.1] at h
        simp only [Option.some.injEq] at h
        rw [← h, h1.2]
        exact hpp
  · rw [hp] at h
    simp only [Option.some.injEq] at h
    rw [← h]
    exact hpp

@[simp]
theorem processPlayerTurnSend_currentCustomer (s : GameState) (t : List Char) :
    (processPlayerTurnSend s t).currentCustomer = s.currentCustomer := by
  unfold processPlayerTurnSend
  split
  · rfl
  · split <;> rfl

theorem processPlayerTurnReceive_patience (s : GameState) (c c' : Session)
    (r : Option (List Char)) (k : List Char) (hc : s.currentCustomer = some c)
    (h : (processPlayerTurnReceive s r k).currentCustomer = some c') :
    c'.customerData.patience = c.customerData.patience ∧
      c'.customerData.currentPatience =
        patienceAfter c.customerData.currentPatience (parseTags (r.getD [])) := by
  unfold processPlayerTurnReceive at h
  rw [hc] at h
  simp only at h
  split at h
  · rename_i ch more
    simp only [finishTurn_currentCustomer] at h
    exact tagUpdates_patience _ _ _ _ _ _ h
  · rename_i hne
    simp only [emit_currentCustomer, hc, Option.some.injEq] at h
    subst h
    have hr : parseTags (r.getD []) = [] := by
      cases r with
      | none => rfl
      | some text =>
        cases text with
        | nil => rfl
        | cons ch more => exact absurd rfl (hne ch more)
    rw [hr]
    exact ⟨rfl, rfl⟩

/-- A turn that is handled leaves the session over, or its customer with the same starting
patience and with the current patience `patienceAfter` gives. -/
theorem processPlayerTurn_patience (s : GameState) (c c' : Session) (t : List Char)
    (r : Option (List Char)) (k : List Char) (hc : s.currentCustomer = some c)
    (hth : s.isLLMThinking = false)
    (h : (processPlayerTurn s t r k).currentCustomer = some c') :
    c'.customerData.patience = c.customerData.patience ∧
      c'.customerData.currentPatience =
        patienceAfter c.customerData.currentPatience (parseTags (r.getD [])) := by
  unfold processPlayerTurn at h
  rw [hc] at h
  simp only [hth, Bool.false_eq_true, if_false] at h
  exact processPlayerTurnReceive_patience _ c c' r k (by simpa using hc) h

theorem patienceAfter_bounds (text : List Char) (previous : Int) (h0 : 0 ≤ previous) :
    0 ≤ patienceAfter previous (parseTags text) ∧
      patienceAfter previous (parseTags text) ≤ previous := by
  unfold patienceAfter
  cases h : numberTag (parseTags text) "PATIENCE" with
  | none => exact ⟨h0, le_refl _⟩
  | some d =>
    have hr := (numberTag_parseTags_rule h).2.1 rfl
    simp only
    constructor
    · exact le_max_left _ _
    · apply max_le h0
      omega

theorem handleAcceptPrice_currentCustomer (s : GameState) (k : List Char) :
    (handleAcceptPrice s k).currentCustomer = none ∨
      (handleAcceptPrice s k).currentCustomer = s.currentCustomer := by
  unfold handleAcceptPrice
  split
  · right; rfl
  · split
    · right; rfl
    · split
      · split
        · right; rfl
        · split
          · right; rfl
          · split
            · simp only
              split
              · rename_i hcust
                rcases finalizeDeal_currentCustomer _ _ with h | h
                · left; exact h
                · right; rw [h]; simp
              · right; simp
            · right; rfl
      · split
        · right; rfl
        · split
          · right; rfl
          · simp only
            split
            · rcases finalizeSale_currentCustomer _ _ _ with h | h
              · left; exact h
              · right; rw [h]; simp
            · right; simp

@[simp]
theorem handleEndNegotiation_currentCustomer (s : GameState) (k : List Char) :
    (handleEndNegotiation s k).currentCustomer = s.currentCustomer := by
  unfold handleEndNegotiation
  split
  · rfl
  · split
    · rfl
    · simp only
      split <;> simp

theorem fireTimer_currentCustomer (s : GameState) (i : Nat) :
    (fireTimer s i).currentCustomer = none ∨ (fireTimer s i).currentCustomer = s.currentCustomer := by
  unfold fireTimer
  split
  · right; rfl
  · simp only
    split
    · left; simp
    · right; rfl

theorem processPlayerTurn_of_guard (s : GameState) (t : List Char) (r : Option (List Char))
    (k : List Char) (h : s.currentCustomer = none ∨ s.isLLMThinking = true) :
    processPlayerTurn s t r k = s := by
  unfold processPlayerTurn
  split
  · rfl
  · rename_i c hc
    rcases h with h | h
    · rw [h] at hc; cases hc
    · simp [h]

theorem PatienceWithin_of_eq {start : Int} {s s' : GameState} (h : PatienceWithin start s)
    (he : s'.currentCustomer = none ∨ s'.currentCustomer = s.currentCustomer) :
    PatienceWithin start s' := by
  intro c hc
  rcases he with he | he
  · rw [he] at hc; cases hc
  · exact h c (he ▸ hc)

theorem negotiationStep_patienceWithin (start : Int) (s : GameState) (e : NegotiationEvent)
    (h : PatienceWithin start s) : PatienceWithin start (negotiationStep s e) := by
  cases e with
  | playerTurn t r k =>
    simp only [negotiationStep]
    cases hc : s.currentCustomer with
    | none =>
      rw [processPlayerTurn_of_guard s t r k (Or.inl hc)]
      exact h
    | some c =>
      by_cases hth : s.isLLMThinking = true
      · rw [processPlayerTurn_of_guard s t r k (Or.inr hth)]
        exact h
      · have hth' : s.isLLMThinking = false := by simpa using hth
        intro c' hc'
        obtain ⟨h1, h2⟩ := processPlayerTurn_patience s c c' t r k hc hth' hc'
        obtain ⟨g1, g2, g3⟩ := h c hc
        have hb := patienceAfter_bounds (r.getD []) c.customerData.currentPatience g2
        rw [h1, h2]
        exact ⟨g1, hb.1, le_trans hb.2 g3⟩
  | acceptClick k =>
    exact PatienceWithin_of_eq h (handleAcceptPrice_currentCustomer s k)
  | endClick k =>
    exact PatienceWithin_of_eq h (Or.inr (handleEndNegotiation_currentCustomer s k))
  | timerFires i =>
    exact PatienceWithin_of_eq h (fireTimer_currentCustomer s i)

theorem foldl_negotiationStep_patienceWithin (start : Int) (events : List NegotiationEvent)
    (s : GameState) (h : PatienceWithin start s) :
    PatienceWithin start (events.foldl negotiationStep s) := by
  induction events generalizing s with
  | nil => exact h
  | cons e es ih => exact ih _ (negotiationStep_patienceWithin start s e h)

/-- Claim C5.  Throughout a session the current patience stays between 0 and the starting
patience: from any state whose customer has `0 ≤ currentPatience ≤ patience` (in particular a
newly generated customer, for whom the two are equal), after any sequence of negotiation steps
the customer, if the session is still there, has the same starting patience and a current
patience between 0 and it.  A turn that is handled sets the current patience to
`max 0 (previous + delta)` when the response has an accepted PATIENCE tag and leaves it alone
otherwise. -/
theorem currentPatience_stays_within_bounds :
    (∀ (s : GameState) (c : Session) (events : List NegotiationEvent),
      s.currentCustomer = some c →
      0 ≤ c.customerData.currentPatience →
      c.customerData.currentPatience ≤ c.customerData.patience →
      ∀ c', (events.foldl negotiationStep s).currentCustomer = some c' →
        c'.customerData.patience = c.customerData.patience ∧
        0 ≤ c'.customerData.currentPatience ∧
        c'.customerData.currentPatience ≤ c.customerData.patience) ∧
    (∀ (s : GameState) (c c' : Session) (t : List Char) (r : Option (List Char))
        (k : List Char),
      s.currentCustomer = some c → s.isLLMThinking = false →
      (processPlayerTurn s t r k).currentCustomer = some c' →
      c'.customerData.currentPatience =
        match numberTag (parseTags (r.getD [])) "PATIENCE" with
        | some delta => max 0 (c.customerData.currentPatience + delta)
        | none => c.customerData.currentPatience) := by
  constructor
  · intro s c events hc h0 h1 c' hc'
    apply foldl_negotiationStep_patienceWithin c.customerData.patience events s _ c' hc'
    intro c0 hc0
    rw [hc] at hc0
    simp only [Option.some.injEq] at hc0
    subst hc0
    exact ⟨rfl, h0, h1⟩
  · intro s c c' t r k hc hth h
    exact (processPlayerTurn_patience s c c' t r k hc hth h).2

theorem currentPatience_stays_within_bounds_witness :
    (sellerState 50).currentCustomer = some sampleSeller ∧
    (List.foldl negotiationStep (sellerState 50)
      [NegotiationEvent.playerTurn "How about 60?".toList
        (some "Hmm. [PATIENCE: -5] [PRICE_ASK: 130]".toList) "Bye".toList]).currentCustomer =
      some { sampleSeller with
        customerData := { sampleSellerData with currentPatience := 5 }
        currentAskingPrice := some 130 } ∧
    (60 : Int) = 60 ∧ (0 : Int) ≤ 5 ∧ (5 : Int) ≤ 60 ∧
    (5 : Int) = max 0 (10 + (-5)) :=
  have h1 : (sellerState 50).currentCustomer = some sampleSeller := rfl
  have h2 : (List.foldl negotiationStep (sellerState 50)
      [NegotiationEvent.playerTurn "How about 60?".toList
        (some "Hmm. [PATIENCE: -5] [PRICE_ASK: 130]".toList) "Bye".toList]).currentCustomer =
      some { sampleSeller with
        customerData := { sampleSellerData with currentPatience := 5 }
        currentAskingPrice := some 130 } := by decide
  have h3 := currentPatience_stays_within_bounds.1 (sellerState 50) sampleSeller
    [NegotiationEvent.playerTurn "How about 60?".toList
      (some "Hmm. [PATIENCE: -5] [PRICE_ASK: 130]".toList) "Bye".toList] h1 (by decide)
    (by decide) _ h2
  have h4 := currentPatience_stays_within_bounds.2 (sellerState 50) sampleSeller _
    "How about 60?".toList (some "Hmm. [PATIENCE: -5] [PRICE_ASK: 130]".toList) "Bye".toList
    h1 rfl h2
  ⟨h1, h2, h3.1, h3.2.1, h3.2.2, h4⟩

theorem remarkRequests_append (l l' : List Effect) :
    remarkRequests (l ++ l') = remarkRequests l ++ remarkRequests l' := by
  induction l with
  | nil => rfl
  | cons e l ih =>
    cases e <;> simp [remarkRequests, ih]

theorem SameLedger.refl (s : GameState) : SameLedger s s :=
  ⟨rfl, rfl, rfl, rfl, rfl, rfl, [], by simp, rfl⟩

theorem SameLedger.trans {s s' s'' : GameState} (h : SameLedger s s') (h' : SameLedger s' s'') :
    SameLedger s s'' := by
  obtain ⟨a1, a2, a3, a4, a5, a6, l, a7, a8⟩ := h
  obtain ⟨b1, b2, b3, b4, b5, b6, l', b7, b8⟩ := h'
  refine ⟨b1.trans a1, b2.trans a2, b3.trans a3, b4.trans a4, b5.trans a5, b6.trans a6,
    l ++ l', ?_, ?_⟩
  · rw [b7, a7, List.append_assoc]
  · rw [remarkRequests_append, a8, b8]; rfl

theorem processPlayerTurnSend_sameLedger (s : GameState) (t : List Char) :
    SameLedger s (processPlayerTurnSend s t) := by
  unfold processPlayerTurnSend
  split
  · exact SameLedger.refl s
  · split
    · exact SameLedger.refl s
    · rename_i c _ _
      refine ⟨rfl, rfl, rfl, rfl, rfl, rfl,
        [Effect.addDialogueLog Speaker.player (LogLine.text t),
         Effect.updateButtonStates s.currentCustomerType false false
           (s.currentCustomerType == some CustomerType.seller && !s.appraisalUsedThisTurn),
         Effect.showMessage Message.waitingForResponse,
         Effect.callGeminiApi (s.conversationHistory ++ [Turn.user t]) c.systemPrompt], ?_, rfl⟩
      simp [GameState.emit]

theorem turnStart_sameLedger (s : GameState) (t text : List Char) :
    SameLedger s (turnStart s t text) := by
  obtain ⟨a1, a2, a3, a4, a5, a6, l, a7, a8⟩ := processPlayerTurnSend_sameLedger s t
  exact ⟨a1, a2, a3, a4, a5, a6, l, a7, a8⟩

theorem turnStart_currentCustomer (s : GameState) (t text : List Char) :
    (turnStart s t text).currentCustomer = s.currentCustomer := by
  unfold turnStart
  simp

theorem processPlayerTurn_eq (s : GameState) (c : Session) (t : List Char) (ch : Char)
    (more k : List Char) (hc : s.currentCustomer = some c) (hth : s.isLLMThinking = false) :
    processPlayerTurn s t (some (ch :: more)) k =
      finishTurn (tagUpdates (turnStart s t (ch :: more)) c (parseTags (ch :: more))
        (ch :: more) k) (ch :: more) := by
  unfold processPlayerTurn
  rw [hc]
  simp only [hth, Bool.false_eq_true, if_false]
  unfold processPlayerTurnReceive
  rw [processPlayerTurnSend_currentCustomer, hc]
  rfl

theorem revealUpdate_sameLedger (s : GameState) (c : Session) (tags : Tags) :
    SameLedger s (revealUpdate s c tags).1 := by
  unfold revealUpdate
  simp only
  split
  · exact ⟨rfl, rfl, rfl, rfl, rfl, rfl, _, rfl, rfl⟩
  · exact ⟨rfl, rfl, rfl, rfl, rfl, rfl, [], by simp, rfl⟩

theorem revealUpdate_items (s : GameState) (c : Session) (tags : Tags) :
    (revealUpdate s c tags).2.itemData = c.itemData ∧
      (revealUpdate s c tags).2.itemToSell = c.itemToSell := by
  unfold revealUpdate
  exact ⟨rfl, rfl⟩

theorem patienceUpdate_of_keeps (s : GameState) (c : Session) (tags : Tags)
    (text remark : List Char) (hk : KeepsPatience c tags) :
    (patienceUpdate s c tags text remark).2.2 = false ∧
    SameLedger s (patienceUpdate s c tags text remark).1 ∧
    (patienceUpdate s c tags text remark).2.1.itemData = c.itemData ∧
    (patienceUpdate s c tags text remark).2.1.itemToSell = c.itemToSell := by
  cases h : numberTag tags "PATIENCE" with
  | none =>
    unfold patienceUpdate
    rw [h]
    exact ⟨rfl, SameLedger.refl s, rfl, rfl⟩
  | some d =>
    have hpos := hk d h
    have hmax : ¬ max 0 (c.customerData.currentPatience + d) ≤ 0 := by
      rw [max_eq_right (by omega)]
      omega
    have e : patienceUpdate s c tags text remark =
        (({ s with currentCustomer := some { c with customerData :=
              { c.customerData with
                currentPatience := max 0 (c.customerData.currentPatience + d) } } }).emit
            (Effect.updatePatienceDisplay (max 0 (c.customerData.currentPatience + d))),
          { c with customerData :=
              { c.customerData with
                currentPatience := max 0 (c.customerData.currentPatience + d) } }, false) := by
      unfold patienceUpdate
      rw [h]
      simp only [hmax, if_false]
    rw [e]
    exact ⟨rfl, ⟨rfl, rfl, rfl, rfl, rfl, rfl, _, rfl, rfl⟩, rfl, rfl⟩

theorem sellerPriceUpdate_sameLedger (s : GameState) (c : Session) (tags : Tags) :
    SameLedger s (sellerPriceUpdate s c tags).1 ∧
    (sellerPriceUpdate s c tags).2.itemData = c.itemData ∧
    (sellerPriceUpdate s c tags).2.itemToSell = c.itemToSell := by
  unfold sellerPriceUpdate
  split
  · exact ⟨⟨rfl, rfl, rfl, rfl, rfl, rfl, _, rfl, rfl⟩, rfl, rfl⟩
  · exact ⟨SameLedger.refl s, rfl, rfl⟩

theorem buyerPriceUpdate_sameLedger (s : GameState) (c : Session) (tags : Tags) :
    SameLedger s (buyerPriceUpdate s c tags).1 ∧
    (buyerPriceUpdate s c tags).2.itemData = c.itemData ∧
    (buyerPriceUpdate s c tags).2.itemToSell = c.itemToSell := by
  unfold buyerPriceUpdate
  split
  · exact ⟨⟨rfl, rfl, rfl, rfl, rfl, rfl, _, rfl, rfl⟩, rfl, rfl⟩
  · exact ⟨SameLedger.refl s, rfl, rfl⟩

/-- In a turn that keeps the patience positive, the state before the acceptance tag is looked at
has the ledger of the start of the turn and holds the session with its items. -/
theorem beforeAccept_spec (s : GameState) (c : Session) (tags : Tags) (text remark : List Char)
    (hk : KeepsPatience c tags) :
    SameLedger s (beforeAccept s c tags text remark).1 ∧
    (beforeAccept s c tags text remark).1.currentCustomer =
      some (beforeAccept s c tags text remark).2 ∧
    (beforeAccept s c tags text remark).2.itemData = c.itemData ∧
    (beforeAccept s c tags text remark).2.itemToSell = c.itemToSell := by
  have hr := revealUpdate_currentCustomer s c tags
  have hrl := revealUpdate_sameLedger s c tags
  have hri := revealUpdate_items s c tags
  have hrp := revealUpdate_patience s c tags
  have hk' : KeepsPatience (revealUpdate s c tags).2 tags := by
    intro d hd
    rw [hrp.2]
    exact hk d hd
  obtain ⟨_, hpl, hpi1, hpi2⟩ := patienceUpdate_of_keeps (revealUpdate s c tags).1
    (revealUpdate s c tags).2 tags text remark hk'
  have hp := patienceUpdate_currentCustomer _ _ tags text remark hr
  unfold beforeAccept
  simp only
  split
  · obtain ⟨h1, h2, h3⟩ := sellerPriceUpdate_sameLedger
      (patienceUpdate (revealUpdate s c tags).1 (revealUpdate s c tags).2 tags text remark).1
      (patienceUpdate (revealUpdate s c tags).1 (revealUpdate s c tags).2 tags text remark).2.1
      tags
    exact ⟨(hrl.trans hpl).trans h1, (sellerPriceUpdate_currentCustomer _ _ tags hp).1,
      by rw [h2, hpi1, hri.1], by rw [h3, hpi2, hri.2]⟩
  · obtain ⟨h1, h2, h3⟩ := buyerPriceUpdate_sameLedger
      (patienceUpdate (revealUpdate s c tags).1 (revealUpdate s c tags).2 tags text remark).1
      (patienceUpdate (revealUpdate s c tags).1 (revealUpdate s c tags).2 tags text remark).2.1
      tags
    exact ⟨(hrl.trans hpl).trans h1, (buyerPriceUpdate_currentCustomer _ _ tags hp).1,
      by rw [h2, hpi1, hri.1], by rw [h3, hpi2, hri.2]⟩

theorem tagUpdates_of_keeps (s : GameState) (c : Session) (tags : Tags) (text remark : List Char)
    (hk : KeepsPatience c tags) :
    tagUpdates s c tags text remark =
      if s.currentCustomerType = some CustomerType.seller then
        sellerAcceptUpdate (beforeAccept s c tags text remark).1
          (beforeAccept s c tags text remark).2 tags text
      else
        buyerAcceptUpdate (beforeAccept s c tags text remark).1
          (beforeAccept s c tags text remark).2 tags text := by
  have hrl := revealUpdate_sameLedger s c tags
  have hrp := revealUpdate_patience s c tags
  have hk' : KeepsPatience (revealUpdate s c tags).2 tags := by
    intro d hd
    rw [hrp.2]
    exact hk d hd
  obtain ⟨hflag, hpl, _, _⟩ := patienceUpdate_of_keeps (revealUpdate s c tags).1
    (revealUpdate s c tags).2 tags text remark hk'
  have htype := (hrl.trans hpl).2.2.1
  unfold tagUpdates beforeAccept
  simp only [hflag, Bool.not_false, if_true, htype]
  by_cases hs : s.currentCustomerType = some CustomerType.seller
  · simp [hs, sellerUpdate]
  · simp [hs, buyerUpdate]

theorem finalizeDeal_seller (s : GameState) (c : Session) (item : ItemData) (p : Int)
    (hc : s.currentCustomer = some c) (ht : s.currentCustomerType = some CustomerType.seller)
    (hi : c.itemData = some item) :
    (finalizeDeal s p).playerCash = s.playerCash - p ∧
    (finalizeDeal s p).shopInventory = s.shopInventory ++ [purchasedItemOf item p s.nextRef] ∧
    (finalizeDeal s p).currentCustomer = none := by
  unfold finalizeDeal
  rw [hc]
  simp only [ht, hi]
  refine ⟨?_, ?_, ?_⟩ <;> simp [purchasedItemOf]

theorem findIdx?_split {α : Type} (p : α → Bool) (l : List α) (i : Nat)
    (h : l.findIdx? p = some i) :
    ∃ pre x post, l = pre ++ x :: post ∧ p x = true ∧ (∀ y ∈ pre, p y = false) ∧
      l.eraseIdx i = pre ++ post := by
  induction l generalizing i with
  | nil => simp at h
  | cons a l ih =>
    rw [List.findIdx?_cons] at h
    by_cases hp : p a = true
    · simp only [hp, if_true, Option.some.injEq] at h
      subst h
      exact ⟨[], a, l, rfl, hp, by simp, rfl⟩
    · simp only [hp, if_false, Bool.false_eq_true] at h
      rw [List.findIdx?_succ] at h
      cases hj : l.findIdx? p with
      | none => rw [hj] at h; simp at h
      | some j =>
        rw [hj] at h
        simp only [Option.map_some', Option.some.injEq] at h
        subst h
        obtain ⟨pre, x, post, h1, h2, h3, h4⟩ := ih j hj
        refine ⟨a :: pre, x, post, by rw [h1]; rfl, h2, ?_, by simp [h4]⟩
        intro y hy
        rcases List.mem_cons.mp hy with hy | hy
        · subst hy; simpa using hp
        · exact h3 y hy

theorem finalizeSale_buyer (s : GameState) (c : Session) (target : InventoryItem) (p : Int)
    (hc : s.currentCustomer = some c) (ht : s.currentCustomerType = some CustomerType.buyer)
    (hin : ∃ x ∈ s.shopInventory, x.ref = target.ref) :
    (finalizeSale s (some target) p).playerCash = s.playerCash + p ∧
    (∃ pre x post, s.shopInventory = pre ++ x :: post ∧ x.ref = target.ref ∧
      (∀ y ∈ pre, y.ref ≠ target.ref) ∧
      (finalizeSale s (some target) p).shopInventory = pre ++ post) ∧
    (finalizeSale s (some target) p).currentCustomer = none := by
  obtain ⟨x0, hx0, hx0r⟩ := hin
  have hsome : ∃ i, s.shopInventory.findIdx? (fun (item : InventoryItem) => item.ref == target.ref)
      = some i := by
    cases h : s.shopInventory.findIdx? (fun (item : InventoryItem) => item.ref == target.ref) with
    | some i => exact ⟨i, rfl⟩
    | none =>
      rw [List.findIdx?_eq_none_iff] at h
      have := h x0 hx0
      simp [hx0r] at this
  obtain ⟨i, hi⟩ := hsome
  obtain ⟨pre, x, post, h1, h2, h3, h4⟩ := findIdx?_split _ _ _ hi
  unfold finalizeSale
  rw [hc]
  simp only [ht, hi]
  refine ⟨by simp [hi], ⟨pre, x, post, h1, by simpa using h2, ?_, by simp [hi, h4]⟩, by simp⟩
  intro y hy
  simpa using h3 y hy

theorem patienceUpdate_exhausted (s : GameState) (c : Session) (tags : Tags)
    (text remark : List Char) (delta : Int) (ty : CustomerType)
    (hd : numberTag tags "PATIENCE" = some delta)
    (hex : c.customerData.currentPatience + delta ≤ 0)
    (hty : s.currentCustomerType = some ty)
    (hitem : (c.itemData.isSome || c.itemToSell.isSome) = true) :
    (patienceUpdate s c tags text remark).2.2 = true ∧
    (patienceUpdate s c tags text remark).1.currentCustomer =
      some (patienceUpdate s c tags text remark).2.1 ∧
    (patienceUpdate s c tags text remark).2.1.customerData.currentPatience = 0 ∧
    (patienceUpdate s c tags text remark).1.timers =
      s.timers ++ [⟨EndReason.patienceZero, 1500⟩] ∧
    ∃ added, (patienceUpdate s c tags text remark).1.effects = s.effects ++ added ∧
      remarkRequests added = [("patience_zero", none, ty)] := by
  have hmax : max 0 (c.customerData.currentPatience + delta) = 0 := max_eq_left hex
  have e : patienceUpdate s c tags text remark =
      ({ logRemark
          ((((({ s with currentCustomer := some { c with customerData :=
                  { c.customerData with currentPatience := 0 } } }).emit
              (Effect.updatePatienceDisplay 0)).emit
              (Effect.addDialogueLog (Speaker.customer c.customerData.name)
                (LogLine.text text))).emit
              (Effect.showMessage Message.customerLostPatience)).emit
              (Effect.requestRemark "patience_zero" none ty))
          (some remark) with
          timers := s.timers ++ [⟨EndReason.patienceZero, 1500⟩] },
        { c with customerData := { c.customerData with currentPatience := 0 } }, true) := by
    unfold patienceUpdate
    rw [hd]
    simp only [hmax, le_refl, if_true]
    unfold getConcludingRemark
    simp only [emit_currentCustomerType, hty, hitem, if_true, logRemark_timers, emit_timers]
  rw [e]
  refine ⟨rfl, by simp, rfl, rfl, ?_⟩
  simp only
  unfold logRemark
  simp only [emit_currentCustomer]
  by_cases hk : remark.isEmpty = true
  · simp only [hk, if_true]
    refine ⟨[Effect.updatePatienceDisplay 0,
      Effect.addDialogueLog (Speaker.customer c.customerData.name) (LogLine.text text),
      Effect.showMessage Message.customerLostPatience,
      Effect.requestRemark "patience_zero" none ty], ?_, rfl⟩
    simp only [emit_effects, List.append_assoc]
    rfl
  · simp only [hk, if_false]
    refine ⟨[Effect.updatePatienceDisplay 0,
      Effect.addDialogueLog (Speaker.customer c.customerData.name) (LogLine.text text),
      Effect.showMessage Message.customerLostPatience,
      Effect.requestRemark "patience_zero" none ty,
      Effect.addDialogueLog (Speaker.customer c.customerData.name) (LogLine.text remark)],
      ?_, rfl⟩
    simp only [Bool.false_eq_true, if_false, emit_effects, List.append_assoc]
    rfl

/-! ### The four scenarios of a handled turn -/

/-- Claim C6.  In an active session with current patience `p`, a response whose accepted
PATIENCE tag `delta` has `p + delta ≤ 0` makes `processPlayerTurn` set the current patience to
0, request exactly one closing remark, with reason `patience_zero`, and schedule the end of the
session (the timer it adds clears `currentCustomer` when it fires); cash and inventory are
unchanged after the turn and after the timer, whatever other tags the response carries.  The
session is one as `startNewCustomerInteraction` sets it up: the customer type is known and the
session has the item of the seller or the item the buyer wants. -/
theorem patience_exhausted_ends_session (s : GameState) (c : Session) (ty : CustomerType)
    (t : List Char) (ch : Char) (more k : List Char) (delta : Int)
    (hc : s.currentCustomer = some c) (hth : s.isLLMThinking = false)
    (hty : s.currentCustomerType = some ty)
    (hitem : (c.itemData.isSome || c.itemToSell.isSome) = true)
    (hd : numberTag (parseTags (ch :: more)) "PATIENCE" = some delta)
    (hex : c.customerData.currentPatience + delta ≤ 0) :
    (∃ c', (processPlayerTurn s t (some (ch :: more)) k).currentCustomer = some c' ∧
      c'.customerData.currentPatience = 0) ∧
    remarkRequests (processPlayerTurn s t (some (ch :: more)) k).effects =
      remarkRequests s.effects ++ [("patience_zero", none, ty)] ∧
    (processPlayerTurn s t (some (ch :: more)) k).timers =
      s.timers ++ [⟨EndReason.patienceZero, 1500⟩] ∧
    (fireTimer (processPlayerTurn s t (some (ch :: more)) k) s.timers.length).currentCustomer
      = none ∧
    (processPlayerTurn s t (some (ch :: more)) k).playerCash = s.playerCash ∧
    (processPlayerTurn s t (some (ch :: more)) k).shopInventory = s.shopInventory ∧
    (fireTimer (processPlayerTurn s t (some (ch :: more)) k) s.timers.length).playerCash
      = s.playerCash ∧
    (fireTimer (processPlayerTurn s t (some (ch :: more)) k) s.timers.length).shopInventory
      = s.shopInventory := by
  have hS := turnStart_sameLedger s t (ch :: more)
  have hSc : (turnStart s t (ch :: more)).currentCustomer = some c := by
    rw [turnStart_currentCustomer, hc]
  have hrl := revealUpdate_sameLedger (turnStart s t (ch :: more)) c (parseTags (ch :: more))
  have hrp := revealUpdate_patience (turnStart s t (ch :: more)) c (parseTags (ch :: more))
  have hri := revealUpdate_items (turnStart s t (ch :: more)) c (parseTags (ch :: more))
  have hL := hS.trans hrl
  obtain ⟨hflag, hpc, hp0, hpt, added, hpe, hpr⟩ := patienceUpdate_exhausted
    (revealUpdate (turnStart s t (ch :: more)) c (parseTags (ch :: more))).1
    (revealUpdate (turnStart s t (ch :: more)) c (parseTags (ch :: more))).2
    (parseTags (ch :: more)) (ch :: more) k delta ty hd (by rw [hrp.2]; exact hex)
    (by rw [hL.2.2.1, hty]) (by rw [hri.1, hri.2]; exact hitem)
  have hturn : processPlayerTurn s t (some (ch :: more)) k =
      { (patienceUpdate (revealUpdate (turnStart s t (ch :: more)) c
            (parseTags (ch :: more))).1
          (revealUpdate (turnStart s t (ch :: more)) c (parseTags (ch :: more))).2
          (parseTags (ch :: more)) (ch :: more) k).1 with isLLMThinking := false } := by
    rw [processPlayerTurn_eq s c t ch more k hc hth]
    unfold tagUpdates finishTurn
    simp only [hflag, Bool.not_true, Bool.false_eq_true, if_false]
  have hcash : (processPlayerTurn s t (some (ch :: more)) k).playerCash = s.playerCash := by
    rw [hturn]
    simp only [patienceUpdate_playerCash]
    exact hL.1
  have hinv : (processPlayerTurn s t (some (ch :: more)) k).shopInventory = s.shopInventory := by
    rw [hturn]
    simp only [patienceUpdate_shopInventory]
    exact hL.2.1
  have htim : (processPlayerTurn s t (some (ch :: more)) k).timers =
      s.timers ++ [⟨EndReason.patienceZero, 1500⟩] := by
    rw [hturn]
    simp only [hpt]
    rw [hL.2.2.2.2.2.1]
  have hcust : (processPlayerTurn s t (some (ch :: more)) k).currentCustomer =
      some (patienceUpdate (revealUpdate (turnStart s t (ch :: more)) c
            (parseTags (ch :: more))).1
          (revealUpdate (turnStart s t (ch :: more)) c (parseTags (ch :: more))).2
          (parseTags (ch :: more)) (ch :: more) k).2.1 := by
    rw [hturn]
    exact hpc
  have hfire : fireTimer (processPlayerTurn s t (some (ch :: more)) k) s.timers.length =
      endCurrentInteraction
        { processPlayerTurn s t (some (ch :: more)) k with
          timers := (processPlayerTurn s t (some (ch :: more)) k).timers.eraseIdx
            s.timers.length }
        EndReason.patienceZero := by
    unfold fireTimer
    have hget : (processPlayerTurn s t (some (ch :: more)) k).timers.get? s.timers.length =
        some ⟨EndReason.patienceZero, 1500⟩ := by
      rw [htim]
      simp
    rw [hget]
    simp only [hcust]
  refine ⟨⟨_, hcust, hp0⟩, ?_, htim, ?_, hcash, hinv, ?_, ?_⟩
  · rw [hturn]
    simp only [hpe]
    obtain ⟨_, _, _, _, _, _, l, hl, hlr⟩ := hL
    rw [hl, remarkRequests_append, remarkRequests_append, hlr, hpr]
    simp
  · rw [hfire]
    simp
  · rw [hfire]
    simpa using hcash
  · rw [hfire]
    simpa using hinv

theorem patience_exhausted_ends_session_witness :
    numberTag (parseTags ('N' :: "o! [PATIENCE: -15] [ACCEPT_OFFER: 20]".toList)) "PATIENCE"
      = some (-15) ∧
    numberTag (parseTags ('N' :: "o! [PATIENCE: -15] [ACCEPT_OFFER: 20]".toList)) "ACCEPT_OFFER"
      = some 20 ∧
    (10 : Int) + (-15) ≤ 0 ∧
    (∃ c', (processPlayerTurn (sellerState 50) "I give 20".toList
        (some ('N' :: "o! [PATIENCE: -15] [ACCEPT_OFFER: 20]".toList))
        "Goodbye".toList).currentCustomer = some c' ∧
      c'.customerData.currentPatience = 0) ∧
    remarkRequests (processPlayerTurn (sellerState 50) "I give 20".toList
        (some ('N' :: "o! [PATIENCE: -15] [ACCEPT_OFFER: 20]".toList))
        "Goodbye".toList).effects = [("patience_zero", none, CustomerType.seller)] ∧
    (fireTimer (processPlayerTurn (sellerState 50) "I give 20".toList
        (some ('N' :: "o! [PATIENCE: -15] [ACCEPT_OFFER: 20]".toList))
        "Goodbye".toList) 0).currentCustomer = none ∧
    (fireTimer (processPlayerTurn (sellerState 50) "I give 20".toList
        (some ('N' :: "o! [PATIENCE: -15] [ACCEPT_OFFER: 20]".toList))
        "Goodbye".toList) 0).playerCash = 50 ∧
    (fireTimer (processPlayerTurn (sellerState 50) "I give 20".toList
        (some ('N' :: "o! [PATIENCE: -15] [ACCEPT_OFFER: 20]".toList))
        "Goodbye".toList) 0).shopInventory = [] :=
  have h := patience_exhausted_ends_session (sellerState 50) sampleSeller CustomerType.seller
    "I give 20".toList 'N' "o! [PATIENCE: -15] [ACCEPT_OFFER: 20]".toList "Goodbye".toList (-15)
    rfl rfl rfl (by decide) (by decide) (by decide)
  ⟨by decide, by decide, by decide, h.1, h.2.1, h.2.2.2.1, h.2.2.2.2.2.2.1, h.2.2.2.2.2.2.2⟩

theorem sellerAcceptUpdate_unaffordable (s : GameState) (c : Session) (tags : Tags)
    (text : List Char) (a : Int) (ha : numberTag tags "ACCEPT_OFFER" = some a)
    (h : s.playerCash < a) :
    sellerAcceptUpdate s c tags text =
      (((s.emit (Effect.addDialogueLog (Speaker.customer c.customerData.name)
            (LogLine.text text))).emit
          (Effect.addDialogueLog Speaker.player (LogLine.cannotAfford a))).emit
          (Effect.showMessage (Message.cannotAffordOffer a)), c, false) := by
  unfold sellerAcceptUpdate
  rw [ha]
  simp only [ge_iff_le, not_le.mpr h, if_false]

theorem sellerAcceptUpdate_affordable (s : GameState) (c : Session) (tags : Tags)
    (text : List Char) (a : Int) (ha : numberTag tags "ACCEPT_OFFER" = some a)
    (h : a ≤ s.playerCash) :
    sellerAcceptUpdate s c tags text =
      (finalizeDeal
        ((s.emit (Effect.addDialogueLog (Speaker.customer c.customerData.name)
            (LogLine.text text))).emit (Effect.showMessage (Message.dealAgreed a))) a,
        c, true) := by
  unfold sellerAcceptUpdate
  rw [ha]
  simp only [ge_iff_le, h, if_true]

theorem buyerAcceptUpdate_accepted (s : GameState) (c : Session) (tags : Tags)
    (text : List Char) (p : Int) (hp : numberTag tags "ACCEPT_PRICE" = some p) :
    buyerAcceptUpdate s c tags text =
      (finalizeSale
        ((s.emit (Effect.addDialogueLog (Speaker.customer c.customerData.name)
            (LogLine.text text))).emit (Effect.showMessage (Message.saleAgreed p)))
        c.itemToSell p, c, true) := by
  unfold buyerAcceptUpdate
  rw [hp]

theorem finishTurn_effects_continue (s : GameState) (c : Session) (text : List Char) :
    (finishTurn (s, c, false) text).effects =
      s.effects ++
        [Effect.addDialogueLog (Speaker.customer c.customerData.name) (LogLine.text text),
         Effect.updateButtonStates s.currentCustomerType true true
           (s.currentCustomerType == some CustomerType.seller && !s.appraisalUsedThisTurn),
         Effect.hideMessage] := by
  unfold finishTurn
  simp [GameState.emit]

/-- Claim C7.  In a seller session, a response with ACCEPT_OFFER = `a` where the player has less
cash than `a`, and which does not exhaust the patience, leaves cash and inventory unchanged,
keeps the customer (of type seller, with `isLLMThinking` reset and the controls enabled again
by the last `updateButtonStates` call) and adds to the dialogue log the rejection line of the
player. -/
theorem unaffordable_offer_is_rejected (s : GameState) (c : Session) (t : List Char) (ch : Char)
    (more k : List Char) (a : Int)
    (hc : s.currentCustomer = some c) (hth : s.isLLMThinking = false)
    (hty : s.currentCustomerType = some CustomerType.seller)
    (ha : numberTag (parseTags (ch :: more)) "ACCEPT_OFFER" = some a)
    (hcash : s.playerCash < a)
    (hk : KeepsPatience c (parseTags (ch :: more))) :
    (processPlayerTurn s t (some (ch :: more)) k).playerCash = s.playerCash ∧
    (processPlayerTurn s t (some (ch :: more)) k).shopInventory = s.shopInventory ∧
    (∃ c', (processPlayerTurn s t (some (ch :: more)) k).currentCustomer = some c') ∧
    (processPlayerTurn s t (some (ch :: more)) k).currentCustomerType
      = some CustomerType.seller ∧
    (processPlayerTurn s t (some (ch :: more)) k).isLLMThinking = false ∧
    lastButtonStates (processPlayerTurn s t (some (ch :: more)) k).effects =
      some (some CustomerType.seller, true, true, !s.appraisalUsedThisTurn) ∧
    ∃ before after, (processPlayerTurn s t (some (ch :: more)) k).effects =
      s.effects ++ before ++
        Effect.addDialogueLog Speaker.player (LogLine.cannotAfford a) :: after := by
  have hS := turnStart_sameLedger s t (ch :: more)
  have hSc : (turnStart s t (ch :: more)).currentCustomer = some c := by
    rw [turnStart_currentCustomer, hc]
  have hSty : (turnStart s t (ch :: more)).currentCustomerType = some CustomerType.seller := by
    rw [hS.2.2.1, hty]
  obtain ⟨hB, hBc, _, _⟩ := beforeAccept_spec (turnStart s t (ch :: more)) c
    (parseTags (ch :: more)) (ch :: more) k hk
  have hL := hS.trans hB
  have hturn := processPlayerTurn_eq s c t ch more k hc hth
  rw [tagUpdates_of_keeps _ _ _ _ _ hk, if_pos hSty,
    sellerAcceptUpdate_unaffordable _ _ _ _ a ha (by rw [hL.1]; exact hcash)] at hturn
  rw [hturn]
  obtain ⟨h1, h2, h3, _, h5, _, l, hl, _⟩ := hL
  refine ⟨?_, ?_, ?_, ?_, ?_, ?_, ?_⟩
  · simp only [finishTurn_playerCash, emit_playerCash]
    exact h1
  · simp only [finishTurn_shopInventory, emit_shopInventory]
    exact h2
  · simp only [finishTurn_currentCustomer, emit_currentCustomer]
    exact ⟨_, hBc⟩
  · simp only [finishTurn_currentCustomerType, emit_currentCustomerType]
    rw [h3, hty]
  · exact finishTurn_isLLMThinking _ _
  · rw [finishTurn_effects_continue]
    simp only [emit_currentCustomerType, emit_appraisalUsedThisTurn]
    rw [h3, h5, hty]
    simp [lastButtonStates, List.foldl_append]
  · rw [finishTurn_effects_continue]
    refine ⟨l ++ [Effect.addDialogueLog (Speaker.customer
      (beforeAccept (turnStart s t (ch :: more)) c (parseTags (ch :: more)) (ch :: more)
        k).2.customerData.name) (LogLine.text (ch :: more))],
      [Effect.showMessage (Message.cannotAffordOffer a),
       Effect.addDialogueLog (Speaker.customer
        (beforeAccept (turnStart s t (ch :: more)) c (parseTags (ch :: more)) (ch :: more)
          k).2.customerData.name) (LogLine.text (ch :: more)),
       Effect.updateButtonStates (turnStart s t (ch :: more)).currentCustomerType true true
        ((turnStart s t (ch :: more)).currentCustomerType == some CustomerType.seller &&
          !(turnStart s t (ch :: more)).appraisalUsedThisTurn),
       Effect.hideMessage], ?_⟩
    simp only [emit_effects, emit_currentCustomerType, emit_appraisalUsedThisTurn]
    rw [hl, h3, h5, hS.2.2.1, hS.2.2.2.2.1]
    simp only [List.append_assoc, List.cons_append, List.nil_append]

theorem unaffordable_offer_is_rejected_witness :
    (sellerState 50).playerCash < 80 ∧
    (processPlayerTurn (sellerState 50) "I give 80".toList
      (some ('F' :: "ine. [ACCEPT_OFFER: 80]".toList)) "Goodbye".toList).playerCash = 50 ∧
    (processPlayerTurn (sellerState 50) "I give 80".toList
      (some ('F' :: "ine. [ACCEPT_OFFER: 80]".toList)) "Goodbye".toList).shopInventory = [] ∧
    (∃ c', (processPlayerTurn (sellerState 50) "I give 80".toList
      (some ('F' :: "ine. [ACCEPT_OFFER: 80]".toList)) "Goodbye".toList).currentCustomer
        = some c') ∧
    lastButtonStates (processPlayerTurn (sellerState 50) "I give 80".toList
      (some ('F' :: "ine. [ACCEPT_OFFER: 80]".toList)) "Goodbye".toList).effects =
      some (some CustomerType.seller, true, true, true) :=
  have hk : KeepsPatience sampleSeller (parseTags ('F' :: "ine. [ACCEPT_OFFER: 80]".toList)) :=
    fun d hd => by
      have hn : numberTag (parseTags ('F' :: "ine. [ACCEPT_OFFER: 80]".toList)) "PATIENCE"
          = none := by decide
      rw [hn] at hd
      cases hd
  have h := unaffordable_offer_is_rejected (sellerState 50) sampleSeller "I give 80".toList 'F'
    "ine. [ACCEPT_OFFER: 80]".toList "Goodbye".toList 80 rfl rfl rfl (by decide) (by decide) hk
  ⟨by decide, h.1, h.2.1, h.2.2.1, h.2.2.2.2.2.1⟩

/-- Claim C8.  In a seller session, a response with ACCEPT_OFFER = `a` where the player has at
least `a` in cash, and which does not exhaust the patience, finalizes the deal: the cash goes
down by exactly `a`, the inventory is the old one followed by one new object that copies name,
description, condition, rarity, base value, actual value and multipliers of the item of the
seller and has purchase price `a`, and `currentCustomer` is cleared. -/
theorem affordable_offer_finalizes_deal (s : GameState) (c : Session) (item : ItemData)
    (t : List Char) (ch : Char) (more k : List Char) (a : Int)
    (hc : s.currentCustomer = some c) (hth : s.isLLMThinking = false)
    (hty : s.currentCustomerType = some CustomerType.seller)
    (hitem : c.itemData = some item)
    (ha : numberTag (parseTags (ch :: more)) "ACCEPT_OFFER" = some a)
    (hcash : a ≤ s.playerCash)
    (hk : KeepsPatience c (parseTags (ch :: more))) :
    (processPlayerTurn s t (some (ch :: more)) k).playerCash = s.playerCash - a ∧
    (processPlayerTurn s t (some (ch :: more)) k).shopInventory =
      s.shopInventory ++
        [{ ref := s.nextRef
           name := item.name
           description := item.description
           condition := item.condition
           rarity := item.rarity
           purchasePrice := a
           baseValue := item.baseValue
           actualValue := item.actualValue
           conditionMultiplier := item.conditionMultiplier
           rarityMultiplier := item.rarityMultiplier }] ∧
    (processPlayerTurn s t (some (ch :: more)) k).currentCustomer = none := by
  have hS := turnStart_sameLedger s t (ch :: more)
  have hSty : (turnStart s t (ch :: more)).currentCustomerType = some CustomerType.seller := by
    rw [hS.2.2.1, hty]
  obtain ⟨hB, hBc, hBi, _⟩ := beforeAccept_spec (turnStart s t (ch :: more)) c
    (parseTags (ch :: more)) (ch :: more) k hk
  have hL := hS.trans hB
  have hturn := processPlayerTurn_eq s c t ch more k hc hth
  rw [tagUpdates_of_keeps _ _ _ _ _ hk, if_pos hSty,
    sellerAcceptUpdate_affordable _ _ _ _ a ha (by rw [hL.1]; exact hcash)] at hturn
  rw [hturn]
  obtain ⟨h1, h2, h3⟩ := finalizeDeal_seller
    (((beforeAccept (turnStart s t (ch :: more)) c (parseTags (ch :: more)) (ch :: more)
      k).1.emit (Effect.addDialogueLog (Speaker.customer
      (beforeAccept (turnStart s t (ch :: more)) c (parseTags (ch :: more)) (ch :: more)
        k).2.customerData.name) (LogLine.text (ch :: more)))).emit
      (Effect.showMessage (Message.dealAgreed a)))
    (beforeAccept (turnStart s t (ch :: more)) c (parseTags (ch :: more)) (ch :: more) k).2
    item a (by simpa using hBc) (by simp only [emit_currentCustomerType]; rw [hL.2.2.1, hty])
    (by rw [hBi, hitem])
  simp only [finishTurn_playerCash, finishTurn_shopInventory, finishTurn_currentCustomer]
  refine ⟨?_, ?_, h3⟩
  · rw [h1]
    simp only [emit_playerCash]
    rw [hL.1]
  · rw [h2]
    simp only [emit_shopInventory, emit_nextRef]
    rw [hL.2.1, hL.2.2.2.1]
    rfl

theorem affordable_offer_finalizes_deal_witness :
    (80 : Int) ≤ (sellerState 500).playerCash ∧
    (processPlayerTurn (sellerState 500) "I give 80".toList
      (some ('D' :: "eal. [PATIENCE: -5] [ACCEPT_OFFER: 80]".toList))
      "Goodbye".toList).playerCash = 420 ∧
    (processPlayerTurn (sellerState 500) "I give 80".toList
      (some ('D' :: "eal. [PATIENCE: -5] [ACCEPT_OFFER: 80]".toList))
      "Goodbye".toList).shopInventory =
      [{ ref := 0
         name := some "Brass Compass".toList
         description := some "A compass with a cracked lid".toList
         condition := "Perfect"
         rarity := "Common"
         purchasePrice := 80
         baseValue := 100
         actualValue := 100
         conditionMultiplier := 1
         rarityMultiplier := 1 }] ∧
    (processPlayerTurn (sellerState 500) "I give 80".toList
      (some ('D' :: "eal. [PATIENCE: -5] [ACCEPT_OFFER: 80]".toList))
      "Goodbye".toList).currentCustomer = none :=
  have hk : KeepsPatience sampleSeller
      (parseTags ('D' :: "eal. [PATIENCE: -5] [ACCEPT_OFFER: 80]".toList)) :=
    fun d hd => by
      have hn : numberTag (parseTags ('D' :: "eal. [PATIENCE: -5] [ACCEPT_OFFER: 80]".toList))
          "PATIENCE" = some (-5) := by decide
      rw [hn] at hd
      cases hd
      decide
  have h := affordable_offer_finalizes_deal (sellerState 500) sampleSeller sampleItem
    "I give 80".toList 'D' "eal. [PATIENCE: -5] [ACCEPT_OFFER: 80]".toList "Goodbye".toList 80
    rfl rfl rfl rfl (by decide) (by decide) hk
  ⟨by decide, h.1, h.2.1, h.2.2⟩

/-- Claim C9.  In a buyer session whose target item is in the inventory (by identity), a response
with ACCEPT_PRICE = `p` that does not exhaust the patience raises the cash by exactly `p`,
removes from the inventory the first object with the identity of the target and keeps all other
objects in their order, and clears `currentCustomer`. -/
theorem accepted_price_finalizes_sale (s : GameState) (c : Session) (target : InventoryItem)
    (t : List Char) (ch : Char) (more k : List Char) (p : Int)
    (hc : s.currentCustomer = some c) (hth : s.isLLMThinking = false)
    (hty : s.currentCustomerType = some CustomerType.buyer)
    (hitem : c.itemToSell = some target)
    (hin : ∃ x ∈ s.shopInventory, x.ref = target.ref)
    (hp : numberTag (parseTags (ch :: more)) "ACCEPT_PRICE" = some p)
    (hk : KeepsPatience c (parseTags (ch :: more))) :
    (processPlayerTurn s t (some (ch :: more)) k).playerCash = s.playerCash + p ∧
    (∃ pre x post, s.shopInventory = pre ++ x :: post ∧ x.ref = target.ref ∧
      (∀ y ∈ pre, y.ref ≠ target.ref) ∧
      (processPlayerTurn s t (some (ch :: more)) k).shopInventory = pre ++ post) ∧
    (processPlayerTurn s t (some (ch :: more)) k).currentCustomer = none := by
  have hS := turnStart_sameLedger s t (ch :: more)
  have hSty : ¬ (turnStart s t (ch :: more)).currentCustomerType = some CustomerType.seller := by
    rw [hS.2.2.1, hty]
    decide
  obtain ⟨hB, hBc, _, hBi⟩ := beforeAccept_spec (turnStart s t (ch :: more)) c
    (parseTags (ch :: more)) (ch :: more) k hk
  have hL := hS.trans hB
  have hturn := processPlayerTurn_eq s c t ch more k hc hth
  rw [tagUpdates_of_keeps _ _ _ _ _ hk, if_neg hSty,
    buyerAcceptUpdate_accepted _ _ _ _ p hp, hBi, hitem] at hturn
  rw [hturn]
  obtain ⟨h1, ⟨pre, x, post, g1, g2, g3, g4⟩, h3⟩ := finalizeSale_buyer
    (((beforeAccept (turnStart s t (ch :: more)) c (parseTags (ch :: more)) (ch :: more)
      k).1.emit (Effect.addDialogueLog (Speaker.customer
      (beforeAccept (turnStart s t (ch :: more)) c (parseTags (ch :: more)) (ch :: more)
        k).2.customerData.name) (LogLine.text (ch :: more)))).emit
      (Effect.showMessage (Message.saleAgreed p)))
    (beforeAccept (turnStart s t (ch :: more)) c (parseTags (ch :: more)) (ch :: more) k).2
    target p (by simpa using hBc) (by simp only [emit_currentCustomerType]; rw [hL.2.2.1, hty])
    (by simp only [emit_shopInventory]; rw [hL.2.1]; exact hin)
  simp only [finishTurn_playerCash, finishTurn_shopInventory, finishTurn_currentCustomer]
  refine ⟨?_, ⟨pre, x, post, ?_, g2, g3, g4⟩, h3⟩
  · rw [h1]
    simp only [emit_playerCash]
    rw [hL.1]
  · rw [← g1]
    simp only [emit_shopInventory]
    rw [hL.2.1]

theorem accepted_price_finalizes_sale_witness :
    (∃ x ∈ buyerState.shopInventory, x.ref = (stockItem 1 "Silver Ring" 60).ref) ∧
    (processPlayerTurn buyerState "It costs 90".toList
      (some ('A' :: "greed. [ACCEPT_PRICE: 90]".toList)) "Goodbye".toList).playerCash = 140 ∧
    (processPlayerTurn buyerState "It costs 90".toList
      (some ('A' :: "greed. [ACCEPT_PRICE: 90]".toList)) "Goodbye".toList).shopInventory =
      [stockItem 0 "Silver Ring" 60, stockItem 2 "Old Map" 30] ∧
    (processPlayerTurn buyerState "It costs 90".toList
      (some ('A' :: "greed. [ACCEPT_PRICE: 90]".toList)) "Goodbye".toList).currentCustomer
      = none :=
  have hin : ∃ x ∈ buyerState.shopInventory, x.ref = (stockItem 1 "Silver Ring" 60).ref :=
    ⟨stockItem 1 "Silver Ring" 60, by decide, rfl⟩
  have hk : KeepsPatience sampleBuyer (parseTags ('A' :: "greed. [ACCEPT_PRICE: 90]".toList)) :=
    fun d hd => by
      have hn : numberTag (parseTags ('A' :: "greed. [ACCEPT_PRICE: 90]".toList)) "PATIENCE"
          = none := by decide
      rw [hn] at hd
      cases hd
  have h := accepted_price_finalizes_sale buyerState sampleBuyer (stockItem 1 "Silver Ring" 60)
    "It costs 90".toList 'A' "greed. [ACCEPT_PRICE: 90]".toList "Goodbye".toList 90
    rfl rfl rfl rfl hin (by decide) hk
  ⟨hin, h.1, by decide, h.2.2⟩

/-- Claim C10.  The cash of the player never becomes negative through negotiation: from a state
with non-negative cash, after any sequence of negotiation steps (turns with any response,
clicks on the accept button, clicks on the end button, timers firing) the cash is
non-negative. -/
theorem playerCash_never_negative (s : GameState) (events : List NegotiationEvent)
    (h0 : 0 ≤ s.playerCash) : 0 ≤ (events.foldl negotiationStep s).playerCash :=
  foldl_negotiationStep_playerCash_nonneg events s h0

theorem playerCash_never_negative_witness :
    (0 : Int) ≤ (sellerState 150).playerCash ∧
    (0 : Int) ≤ (List.foldl negotiationStep (sellerState 150)
      [NegotiationEvent.playerTurn "How about 200?".toList
         (some "You cannot pay that. [ACCEPT_OFFER: 200]".toList) "Bye".toList,
       NegotiationEvent.acceptClick "Pleasure".toList,
       NegotiationEvent.endClick "Bye".toList,
       NegotiationEvent.timerFires 0]).playerCash :=
  ⟨by decide, playerCash_never_negative (sellerState 150) _ (by decide)⟩

/-! ### The generators -/

theorem mathRound_le_iff (x : Rat) (n : Int) : n ≤ mathRound x ↔ (n : Rat) ≤ x + 1 / 2 := by
  unfold mathRound
  exact Int.le_floor

theorem mathRound_lt_iff (x : Rat) (n : Int) : mathRound x < n ↔ x + 1 / 2 < (n : Rat) := by
  unfold mathRound
  exact Int.floor_lt

theorem mathRound_mono {x y : Rat} (h : x ≤ y) : mathRound x ≤ mathRound y := by
  unfold mathRound
  exact Int.floor_le_floor (by linarith)

theorem mathRound_eq_iff (x : Rat) (n : Int) :
    mathRound x = n ↔ (n : Rat) ≤ x + 1 / 2 ∧ x + 1 / 2 < (n : Rat) + 1 := by
  unfold mathRound
  exact Int.floor_eq_iff

theorem sellerPricing_bounds (actualValue baseValue : Int) (s : Rat) :
    1 ≤ (sellerPricing actualValue baseValue s).1 ∧
      (sellerPricing actualValue baseValue s).1 + 1 ≤ (sellerPricing actualValue baseValue s).2 := by
  simp only [sellerPricing]
  exact ⟨le_max_left _ _, le_max_right _ _⟩

theorem customer_tables_nonempty :
    (personalities.isEmpty || itemThemes.isEmpty || objectTypes.isEmpty) = false := by
  rfl

theorem generateCustomerData_some (itemData : ItemData) (d : SellerDraws) :
    ∃ c, generateCustomerData (some itemData) d = some c ∧
      c.priceSensitivity = d.priceSensitivity * 0.3 + 0.7 ∧
      c.minimumAcceptablePrice =
        some (sellerPricing itemData.actualValue itemData.baseValue c.priceSensitivity).1 ∧
      c.initialAskingPrice =
        some (sellerPricing itemData.actualValue itemData.baseValue c.priceSensitivity).2 ∧
      c.currentAskingPrice = c.initialAskingPrice ∧
      c.currentPatience = c.patience ∧
      c.revealedInfo = { name := false, age := false, occupation := false } := by
  simp only [generateCustomerData, customer_tables_nonempty]
  exact ⟨_, rfl, rfl, rfl, rfl, rfl, rfl, rfl⟩

/-- Claim C11.  For every item record and every draw, `generateCustomerData` returns a seller
whose `minimumAcceptablePrice` is at least 1, whose `initialAskingPrice` is at least
`minimumAcceptablePrice + 1`, and whose `currentAskingPrice` equals its `initialAskingPrice`. -/
theorem generated_seller_price_bounds (itemData : ItemData) (d : SellerDraws) :
    ∃ c m a, generateCustomerData (some itemData) d = some c ∧
      c.minimumAcceptablePrice = some m ∧ c.initialAskingPrice = some a ∧
      c.currentAskingPrice = some a ∧ 1 ≤ m ∧ m + 1 ≤ a := by
  obtain ⟨c, hc, _, hm, ha, hcur, _, _⟩ := generateCustomerData_some itemData d
  refine ⟨c, _, _, hc, hm, ha, ?_, ?_, ?_⟩
  · rw [hcur, ha]
  · exact (sellerPricing_bounds _ _ _).1
  · exact (sellerPricing_bounds _ _ _).2

theorem personalities_nonempty : personalities.isEmpty = false := rfl

theorem buyerPricing_zero (s a b : Rat) : buyerPricing 0 s a b = (1, 1) := by
  have h0 : mathRound 0 = 0 := by
    rw [mathRound_eq_iff]; norm_num
  have h1 : mathRound (9 / 10) = 1 := by
    rw [mathRound_eq_iff]; norm_num
  simp only [buyerPricing, Int.cast_zero, zero_mul, h0]
  norm_num
  rw [h1]

theorem buyerPricingBeforeCheck_zero (s a b : Rat) : buyerPricingBeforeCheck 0 s a b = (1, 1) := by
  have h0 : mathRound 0 = 0 := by
    rw [mathRound_eq_iff]; norm_num
  simp only [buyerPricingBeforeCheck, Int.cast_zero, zero_mul, h0]
  norm_num

theorem buyerSafetyCheck_one_one : buyerSafetyCheck (1, 1) = (1, 1) := by
  have h1 : mathRound (9 / 10) = 1 := by
    rw [mathRound_eq_iff]; norm_num
  simp only [buyerSafetyCheck]
  norm_num
  rw [h1]

theorem buyerPricing_maximum (v : Int) (s a b : Rat) : v + 1 ≤ (buyerPricing v s a b).2 := by
  simp only [buyerPricing]
  exact le_max_left _ _

theorem buyerPricing_offer_lt (v : Int) (s a b : Rat) (hv : 1 ≤ v) :
    (buyerPricing v s a b).1 < (buyerPricing v s a b).2 := by
  have hm := buyerPricing_maximum v s a b
  simp only [buyerPricing] at hm ⊢
  generalize max (v + 1) (mathRound (↑v * (1.0 + (1.0 - s) * 0.8 + a * 0.1))) = m at hm ⊢
  generalize max 1 (mathRound (↑v * (1.0 - (1.0 - s) * 0.6 - b * 0.15))) = o
  have h1 : max 1 (min o (max 1 (m - 1))) ≤ m - 1 := by
    have : max 1 (m - 1) = m - 1 := max_eq_right (by omega)
    rw [this]
    exact max_le (by omega) (min_le_right _ _)
  rw [if_neg (by omega)]
  omega

theorem generateBuyerData_some (itemToSell : InventoryItem) (d : BuyerDraws) :
    ∃ c, generateBuyerData (some itemToSell) d = some c ∧
      c.priceSensitivity = d.priceSensitivity * 0.4 + 0.6 ∧
      c.initialOffer =
        some (buyerPricing itemToSell.actualValue c.priceSensitivity d.maxJitter d.offerJitter).1 ∧
      c.maximumAcceptablePrice =
        some (buyerPricing itemToSell.actualValue c.priceSensitivity d.maxJitter d.offerJitter).2 ∧
      c.currentOffer = c.initialOffer ∧
      c.currentPatience = c.patience ∧
      c.revealedInfo = { name := false, age := false, occupation := false } := by
  simp only [generateBuyerData, personalities_nonempty]
  exact ⟨_, rfl, rfl, rfl, rfl, rfl, rfl, rfl⟩

/-- Claim C12 fails on the code.  For the inventory item `worthlessItem`, whose `actualValue` is
0, and for all draws, `generateBuyerData` returns a buyer whose `initialOffer` and
`maximumAcceptablePrice` are both 1.  Before the safety check the offer and the maximum are both
1, so the statement commented "Ensure offer < max" has not made the offer smaller; the test
`initialOffer >= maximumPrice` of the safety check is true, and its branch, commented "if
somehow initial >= max, set initial lower", sets the offer to `max(1, round(0.9)) = 1` again.
So it is not true that the offer is below the maximum for every item record on which
`generateBuyerData` returns a buyer. -/
theorem buyer_offer_equals_maximum_at_zero_value :
    worthlessItem.actualValue = 0 ∧
    (∀ d : BuyerDraws, ∃ c, generateBuyerData (some worthlessItem) d = some c ∧
      c.initialOffer = some 1 ∧ c.maximumAcceptablePrice = some 1) ∧
    (∀ s a b : Rat, buyerPricingBeforeCheck 0 s a b = (1, 1) ∧
      (buyerPricingBeforeCheck 0 s a b).1 ≥ (buyerPricingBeforeCheck 0 s a b).2 ∧
      buyerSafetyCheck (buyerPricingBeforeCheck 0 s a b) = (1, 1) ∧
      buyerPricing 0 s a b = buyerSafetyCheck (buyerPricingBeforeCheck 0 s a b)) ∧
    ¬ (∀ (itemToSell : InventoryItem) (d : BuyerDraws) (c : CustomerData) (o m : Int),
        generateBuyerData (some itemToSell) d = some c →
        c.initialOffer = some o → c.maximumAcceptablePrice = some m →
        o < m ∧ itemToSell.actualValue + 1 ≤ m) := by
  have key : ∀ d : BuyerDraws, ∃ c, generateBuyerData (some worthlessItem) d = some c ∧
      c.initialOffer = some 1 ∧ c.maximumAcceptablePrice = some 1 := by
    intro d
    obtain ⟨c, hc, _, ho, hm, _⟩ := generateBuyerData_some worthlessItem d
    have hz : worthlessItem.actualValue = 0 := rfl
    rw [hz, buyerPricing_zero] at ho hm
    exact ⟨c, hc, ho, hm⟩
  refine ⟨rfl, key, ?_, ?_⟩
  · intro s a b
    rw [buyerPricingBeforeCheck_zero]
    exact ⟨rfl, le_refl _, buyerSafetyCheck_one_one,
      by rw [buyerPricing_zero, buyerSafetyCheck_one_one]⟩
  · intro h
    obtain ⟨c, hc, ho, hm⟩ := key lowBuyerDraws
    have := (h worthlessItem lowBuyerDraws c 1 1 hc ho hm).1
    omega

/-- The price bounds of a generated buyer that hold on the code: for every inventory item and
every draw, `maximumAcceptablePrice` is at least `actualValue + 1`, and `initialOffer` is below
`maximumAcceptablePrice` when `actualValue` is at least 1. -/
theorem generated_buyer_price_bounds (itemToSell : InventoryItem) (d : BuyerDraws) :
    ∃ c o m, generateBuyerData (some itemToSell) d = some c ∧
      c.initialOffer = some o ∧ c.maximumAcceptablePrice = some m ∧
      itemToSell.actualValue + 1 ≤ m ∧
      (1 ≤ itemToSell.actualValue → o < m) := by
  obtain ⟨c, hc, _, ho, hm, _⟩ := generateBuyerData_some itemToSell d
  exact ⟨c, _, _, hc, ho, hm, buyerPricing_maximum _ _ _ _,
    fun hv => buyerPricing_offer_lt _ _ _ _ hv⟩

theorem generated_buyer_price_bounds_witness :
    ∃ c o m, generateBuyerData (some (stockItem 1 "Silver Ring" 60)) lowBuyerDraws = some c ∧
      c.initialOffer = some o ∧ c.maximumAcceptablePrice = some m ∧ 101 ≤ m ∧ o < m := by
  obtain ⟨c, o, m, hc, ho, hm, h1, h2⟩ :=
    generated_buyer_price_bounds (stockItem 1 "Silver Ring" 60) lowBuyerDraws
  exact ⟨c, o, m, hc, ho, hm, h1, h2 (by decide)⟩

/-! ### `generateItem` -/

theorem itemConditions_multiplier (c : String × Rat) (h : c ∈ itemConditions) :
    1 / 4 ≤ c.2 ∧ c.2 ≤ 1 := by
  simp only [itemConditions, List.mem_cons, List.mem_singleton, List.not_mem_nil,
    or_false] at h
  rcases h with h | h | h | h | h | h <;> subst h <;> norm_num

theorem itemRarities_multiplier (r : String × Rat × Rat) (h : r ∈ itemRarities) :
    1 ≤ r.2.1 ∧ r.2.1 ≤ 5 := by
  simp only [itemRarities, List.mem_cons, List.mem_singleton, List.not_mem_nil,
    or_false] at h
  rcases h with h | h | h | h | h <;> subst h <;> norm_num

theorem itemOf_actualValue (baseValue : Int) (cm rm : Rat) (cn rn : String)
    (hb : 10 ≤ baseValue) (hc : 1 / 4 ≤ cm) (hr : 1 ≤ rm) :
    (itemOf baseValue cn cm rn rm).actualValue = mathRound (baseValue * cm * rm) ∧
      1 ≤ (itemOf baseValue cn cm rn rm).actualValue := by
  have hb' : (10 : Rat) ≤ baseValue := by exact_mod_cast hb
  have h1 : (5 / 2 : Rat) ≤ baseValue * cm := by nlinarith
  have h2 : (5 / 2 : Rat) ≤ baseValue * cm * rm := by nlinarith
  have h3 : 1 ≤ mathRound (baseValue * cm * rm) := by
    unfold mathRound
    rw [Int.le_floor]
    push_cast
    linarith
  simp only [itemOf]
  rw [max_eq_right h3]
  exact ⟨rfl, h3⟩

theorem getRandomInt_mem (lo hi : Int) (r : Rat) (h : lo ≤ hi) (hr : IsDraw r) :
    lo ≤ getRandomInt lo hi r ∧ getRandomInt lo hi r ≤ hi := by
  unfold getRandomInt
  have hn : (0 : Rat) < ((hi - lo + 1 : Int) : Rat) := by
    have : (0 : Int) < hi - lo + 1 := by omega
    exact_mod_cast this
  have h0 : 0 ≤ ⌊r * ((hi - lo + 1 : Int) : Rat)⌋ := by
    rw [Int.le_floor]
    push_cast
    have := mul_nonneg hr.1 hn.le
    push_cast at this
    linarith
  have h1 : ⌊r * ((hi - lo + 1 : Int) : Rat)⌋ < hi - lo + 1 := by
    rw [Int.floor_lt]
    have := mul_lt_mul_of_pos_right hr.2 hn
    linarith
  omega

theorem index_some {α : Type} (xs : List α) (i : Int) (h0 : 0 ≤ i) (h1 : i < xs.length) :
    ∃ x, index xs i = some x ∧ x ∈ xs := by
  unfold index
  rw [if_neg (by omega)]
  have hlt : i.toNat < xs.length := by omega
  refine ⟨xs.get ⟨i.toNat, hlt⟩, ?_, List.get_mem _ _ _⟩
  rw [List.get?_eq_get hlt]

theorem weightedScan_some (xs : List (String × Rat × Rat)) :
    ∀ x : Rat, (∀ e ∈ xs, 0 < e.2.2) → 0 ≤ x → x < (xs.map (fun item => item.2.2)).sum →
      ∃ e ∈ xs, weightedScan xs x = some e.1 := by
  induction xs with
  | nil =>
    intro x _ h0 hx
    simp only [List.map_nil, List.sum_nil] at hx
    linarith
  | cons e more ih =>
    intro x hpos h0 hx
    obtain ⟨key, mult, weight⟩ := e
    have hw : 0 < weight := hpos (key, mult, weight) (List.mem_cons_self _ _)
    simp only [weightedScan]
    rw [if_pos hw]
    by_cases hlt : x < weight
    · rw [if_pos hlt]
      exact ⟨(key, mult, weight), List.mem_cons_self _ _, rfl⟩
    · rw [if_neg hlt]
      have hx' : x - weight < (more.map (fun item => item.2.2)).sum := by
        simp only [List.map_cons, List.sum_cons] at hx
        linarith
      obtain ⟨e, he, hs⟩ := ih (x - weight)
        (fun e he => hpos e (List.mem_cons_of_mem _ he)) (by linarith) hx'
      exact ⟨e, List.mem_cons_of_mem _ he, hs⟩

theorem itemRarities_totalWeight : (itemRarities.map (fun item => item.2.2)).sum = 100 := by
  simp only [itemRarities, List.map_cons, List.map_nil, List.sum_cons, List.sum_nil]
  norm_num

theorem itemRarities_weight_pos (e : String × Rat × Rat) (h : e ∈ itemRarities) : 0 < e.2.2 := by
  simp only [itemRarities, List.mem_cons, List.mem_singleton, List.not_mem_nil,
    or_false] at h
  rcases h with h | h | h | h | h <;> subst h <;> norm_num

theorem itemRarities_lookup (e : String × Rat × Rat) (h : e ∈ itemRarities) :
    itemRarities.lookup e.1 = some e.2 := by
  simp only [itemRarities, List.mem_cons, List.mem_singleton, List.not_mem_nil,
    or_false] at h
  rcases h with h | h | h | h | h <;> subst h <;> rfl

theorem getWeightedRandomKey_itemRarities (r rFallback : Rat) (hr : IsDraw r) :
    ∃ e ∈ itemRarities, getWeightedRandomKey itemRarities r rFallback = some e.1 := by
  obtain ⟨e, he, hs⟩ := weightedScan_some itemRarities (r * 100) itemRarities_weight_pos
    (by have := hr.1; linarith) (by rw [itemRarities_totalWeight]; have := hr.2; linarith)
  refine ⟨e, he, ?_⟩
  simp only [getWeightedRandomKey, itemRarities_totalWeight]
  rw [if_neg (by norm_num), hs]

theorem generateItem_some (d : ItemDraws) (hb : IsDraw d.baseValue) (hc : IsDraw d.condition)
    (hr : IsDraw d.rarity) :
    ∃ baseValue c r, 10 ≤ baseValue ∧ baseValue ≤ 500 ∧ c ∈ itemConditions ∧ r ∈ itemRarities ∧
      generateItem d = some (itemOf baseValue c.1 c.2 r.1 r.2.1) := by
  obtain ⟨hb1, hb2⟩ := getRandomInt_mem 10 500 d.baseValue (by decide) hb
  obtain ⟨hc1, hc2⟩ := getRandomInt_mem 0 ((itemConditions.length : Int) - 1) d.condition
    (by decide) hc
  obtain ⟨c, hci, hcm⟩ := index_some itemConditions _ hc1 (by omega)
  obtain ⟨r, hrm, hrk⟩ := getWeightedRandomKey_itemRarities d.rarity d.rarityFallback hr
  refine ⟨_, c, r, hb1, hb2, hcm, hrm, ?_⟩
  have ht : (itemConditions.isEmpty || itemRarities.isEmpty) = false := rfl
  simp only [generateItem, ht, hci, hrk, itemRarities_lookup r hrm]
  rfl

/-- Claim C13.  For every base value from 10 to 500, every condition of `itemConditions` and
every rarity of `itemRarities`, the item that `generateItem` assembles has
`actualValue = round(baseValue × conditionMultiplier × rarityMultiplier)` and `actualValue ≥ 1`:
the floor `Math.max(1, ·)` does not change the rounded product.  For all draws `generateItem`
returns such an item. -/
theorem generated_item_value_is_rounded_product :
    (∀ (baseValue : Int) (c : String × Rat) (r : String × Rat × Rat),
      10 ≤ baseValue → baseValue ≤ 500 → c ∈ itemConditions → r ∈ itemRarities →
      (itemOf baseValue c.1 c.2 r.1 r.2.1).actualValue = mathRound (baseValue * c.2 * r.2.1) ∧
      1 ≤ (itemOf baseValue c.1 c.2 r.1 r.2.1).actualValue) ∧
    (∀ d : ItemDraws, IsDraw d.baseValue → IsDraw d.condition → IsDraw d.rarity →
      ∃ item, generateItem d = some item ∧
        10 ≤ item.baseValue ∧ item.baseValue ≤ 500 ∧
        (item.condition, item.conditionMultiplier) ∈ itemConditions ∧
        (∃ w, (item.rarity, item.rarityMultiplier, w) ∈ itemRarities) ∧
        item.actualValue =
          mathRound (item.baseValue * item.conditionMultiplier * item.rarityMultiplier) ∧
        1 ≤ item.actualValue) := by
  constructor
  · intro baseValue c r hb _ hc hr
    exact itemOf_actualValue baseValue c.2 r.2.1 c.1 r.1 hb (itemConditions_multiplier c hc).1
      (itemRarities_multiplier r hr).1
  · intro d hb hc hr
    obtain ⟨baseValue, c, r, hb1, hb2, hcm, hrm, hg⟩ := generateItem_some d hb hc hr
    have hv := itemOf_actualValue baseValue c.2 r.2.1 c.1 r.1 hb1
      (itemConditions_multiplier c hcm).1 (itemRarities_multiplier r hrm).1
    exact ⟨_, hg, hb1, hb2, hcm, ⟨r.2.2, hrm⟩, hv.1, hv.2⟩

theorem isDraw_zero : IsDraw 0 := ⟨le_refl 0, by norm_num⟩

theorem generated_item_value_is_rounded_product_witness :
    ((itemOf 100 "Regular" 0.75 "Uncommon" 1.5).actualValue = mathRound (100 * 0.75 * 1.5) ∧
      1 ≤ (itemOf 100 "Regular" 0.75 "Uncommon" 1.5).actualValue) ∧
    ∃ item, generateItem firstItemDraws = some item ∧ 1 ≤ item.actualValue := by
  refine ⟨?_, ?_⟩
  · have h := generated_item_value_is_rounded_product.1 100 ("Regular", 0.75)
      ("Uncommon", 1.5, 30) (by decide) (by decide) (by simp [itemConditions])
      (by simp [itemRarities])
    simpa using h
  · obtain ⟨item, h, _, _, _, _, _, h1⟩ :=
      generated_item_value_is_rounded_product.2 firstItemDraws isDraw_zero isDraw_zero isDraw_zero
    exact ⟨item, h, h1⟩

theorem sellerPricing_eq_spec (actualValue baseValue : Int) (s : Rat) :
    sellerPricing actualValue baseValue s =
      (specMinimumPrice actualValue s,
       specAskingPrice (specMinimumPrice actualValue s) baseValue s) := by
  have e1 : (0.95 : Rat) - ((1.0 - s) * 0.5) = 0.95 - (1 - s) * 0.5 := by norm_num
  have e2 : (1.05 : Rat) + (s * 0.45) = 0.05 + s * 0.45 + 1.0 := by norm_num; ring
  simp only [sellerPricing, specMinimumPrice, specAskingPrice, e1, e2]
  generalize max 1 (mathRound (↑actualValue * (0.95 - (1 - s) * 0.5))) = m
  generalize mathRound (↑m * (0.05 + s * 0.45 + 1.0)) = R
  congr 1
  rw [mul_comm baseValue 5, mul_comm m 3]
  omega

/-- Claim C14.  For every item and every price sensitivity `s`, `generateCustomerData` returns
`minimumAcceptablePrice = max(1, round(actualValue × (0.95 − (1 − s) × 0.5)))` and
`initialAskingPrice = max(min(round(minimum × (0.05 + s × 0.45 + 1.0)), 5 × baseValue,
3 × minimum), minimum + 1)`: the floor that the code applies before the cap as well does not
change the result.  Scenario A: base value 100 with multipliers 0.75 and 1.5 gives the actual
value 113; with `s = 1` the minimum is 107, the markup multiplier is 1.5, the cap is
`min(500, 321) = 321`, and the asking price, 161, is above 107. -/
theorem seller_prices_follow_spec_formulas :
    (∀ (actualValue baseValue : Int) (s : Rat),
      sellerPricing actualValue baseValue s =
        (specMinimumPrice actualValue s,
         specAskingPrice (specMinimumPrice actualValue s) baseValue s)) ∧
    (∀ (itemData : ItemData) (d : SellerDraws),
      ∃ c, generateCustomerData (some itemData) d = some c ∧
        c.priceSensitivity = d.priceSensitivity * 0.3 + 0.7 ∧
        c.minimumAcceptablePrice =
          some (specMinimumPrice itemData.actualValue c.priceSensitivity) ∧
        c.initialAskingPrice =
          some (specAskingPrice (specMinimumPrice itemData.actualValue c.priceSensitivity)
            itemData.baseValue c.priceSensitivity)) ∧
    (itemOf 100 "Regular" 0.75 "Uncommon" 1.5).actualValue = 113 ∧
    sellerPricing 113 100 1 = (107, 161) ∧
    (1.05 : Rat) + 1 * 0.45 = 1.5 ∧
    min ((100 : Int) * 5) (107 * 3) = 321 := by
  have hA : mathRound ((100 : Int) * (0.75 : Rat) * 1.5) = 113 := by
    rw [mathRound_eq_iff]; norm_num
  have hm : mathRound (((113 : Int) : Rat) * (0.95 - (1 - 1) * 0.5)) = 107 := by
    rw [mathRound_eq_iff]; norm_num
  have hR : mathRound (((107 : Int) : Rat) * (0.05 + 1 * 0.45 + 1.0)) = 161 := by
    rw [mathRound_eq_iff]; norm_num
  refine ⟨sellerPricing_eq_spec, ?_, ?_, ?_, by norm_num, by decide⟩
  · intro itemData d
    obtain ⟨c, hc, hs, hmin, hask, _⟩ := generateCustomerData_some itemData d
    rw [sellerPricing_eq_spec] at hmin hask
    exact ⟨c, hc, hs, hmin, hask⟩
  · simp only [itemOf, hA]
    decide
  · rw [sellerPricing_eq_spec]
    have h1 : specMinimumPrice 113 1 = 107 := by
      simp only [specMinimumPrice, hm]
      decide
    rw [h1]
    simp only [specAskingPrice, hR]
    decide

/-! ### The session after a handled response -/

theorem patienceUpdate_session (s : GameState) (c : Session) (tags : Tags)
    (text remark : List Char) :
    (patienceUpdate s c tags text remark).2.1 =
      { c with customerData :=
        { c.customerData with
          currentPatience := patienceAfter c.customerData.currentPatience tags } } := by
  unfold patienceUpdate patienceAfter
  cases numberTag tags "PATIENCE" with
  | none => rfl
  | some d =>
    simp only
    split <;> rfl

theorem revealUpdate_session (s : GameState) (c : Session) (tags : Tags) :
    (revealUpdate s c tags).2 = { c with customerData := (applyReveals c.customerData tags).1 } := by
  unfold revealUpdate
  rfl

theorem sellerPriceUpdate_session (s : GameState) (c : Session) (tags : Tags) :
    (sellerPriceUpdate s c tags).2 =
      { c with currentAskingPrice :=
        match numberTag tags "PRICE_ASK" with
        | some ask => some ask
        | none => c.currentAskingPrice } := by
  unfold sellerPriceUpdate
  cases numberTag tags "PRICE_ASK" <;> rfl

theorem buyerPriceUpdate_session (s : GameState) (c : Session) (tags : Tags) :
    (buyerPriceUpdate s c tags).2 =
      { c with currentOffer :=
        match numberTag tags "PRICE_OFFER" with
        | some offer => some offer
        | none => c.currentOffer } := by
  unfold buyerPriceUpdate
  cases numberTag tags "PRICE_OFFER" <;> rfl

/-- After the tags of a response have been handled the session is over, or its customer is the
one the patience block left, with the price or the offer of the response if the block of the
customer type has run. -/
theorem tagUpdates_session (s : GameState) (c : Session) (tags : Tags)
    (text remark : List Char) (c' : Session)
    (h : (tagUpdates s c tags text remark).1.currentCustomer = some c') :
    c' = (patienceUpdate (revealUpdate s c tags).1 (revealUpdate s c tags).2 tags text remark).2.1 ∨
    c' = (sellerPriceUpdate
      (patienceUpdate (revealUpdate s c tags).1 (revealUpdate s c tags).2 tags text remark).1
      (patienceUpdate (revealUpdate s c tags).1 (revealUpdate s c tags).2 tags text remark).2.1
      tags).2 ∨
    c' = (buyerPriceUpdate
      (patienceUpdate (revealUpdate s c tags).1 (revealUpdate s c tags).2 tags text remark).1
      (patienceUpdate (revealUpdate s c tags).1 (revealUpdate s c tags).2 tags text remark).2.1
      tags).2 := by
  have hr := revealUpdate_currentCustomer s c tags
  have hp := patienceUpdate_currentCustomer _ _ tags text remark hr
  unfold tagUpdates at h
  simp only at h
  split at h
  · split at h
    · unfold sellerUpdate at h
      simp only at h
      have h1 := sellerPriceUpdate_currentCustomer _ _ tags hp
      rcases sellerAcceptUpdate_currentCustomer
        (sellerPriceUpdate (patienceUpdate (revealUpdate s c tags).1 (revealUpdate s c tags).2
          tags text remark).1 (patienceUpdate (revealUpdate s c tags).1
          (revealUpdate s c tags).2 tags text remark).2.1 tags).1
        (sellerPriceUpdate (patienceUpdate (revealUpdate s c tags).1 (revealUpdate s c tags).2
          tags text remark).1 (patienceUpdate (revealUpdate s c tags).1
          (revealUpdate s c tags).2 tags text remark).2.1 tags).2 tags text with h3 | h3
      · rw [h3] at h; cases h
      · rw [h3, h1.1] at h
        simp only [Option.some.injEq] at h
        right; left; exact h.symm
    · unfold buyerUpdate at h
      simp only at h
      have h1 := buyerPriceUpdate_currentCustomer _ _ tags hp
      rcases buyerAcceptUpdate_currentCustomer
        (buyerPriceUpdate (patienceUpdate (revealUpdate s c tags).1 (revealUpdate s c tags).2
          tags text remark).1 (patienceUpdate (revealUpdate s c tags).1
          (revealUpdate s c tags).2 tags text remark).2.1 tags).1
        (buyerPriceUpdate (patienceUpdate (revealUpdate s c tags).1 (revealUpdate s c tags).2
          tags text remark).1 (patienceUpdate (revealUpdate s c tags).1
          (revealUpdate s c tags).2 tags text remark).2.1 tags).2 tags text with h3 | h3
      · rw [h3] at h; cases h
      · rw [h3, h1.1] at h
        simp only [Option.some.injEq] at h
        right; right; exact h.symm
  · rw [hp] at h
    simp only [Option.some.injEq] at h
    left; exact h.symm

theorem applyReveals_patience_eq (cd : CustomerData) (tags : Tags) :
    (applyReveals cd tags).1.currentPatience = cd.currentPatience :=
  (applyReveals_patience cd tags).2

/-- The customer a handled response leaves, if the session is not over: `customerData` is what
`customerDataAfter` gives, the item and the system prompt are kept, and the asking price and the
offer are kept or taken from the PRICE_ASK and PRICE_OFFER tags. -/
theorem tagUpdates_customer (s : GameState) (c : Session) (tags : Tags)
    (text remark : List Char) (c' : Session)
    (h : (tagUpdates s c tags text remark).1.currentCustomer = some c') :
    c'.customerData = customerDataAfter c.customerData tags ∧
    (c'.currentAskingPrice = c.currentAskingPrice ∨
      ∃ v, numberTag tags "PRICE_ASK" = some v ∧ c'.currentAskingPrice = some v) ∧
    (c'.currentOffer = c.currentOffer ∨
      ∃ v, numberTag tags "PRICE_OFFER" = some v ∧ c'.currentOffer = some v) := by
  have hcd : (patienceUpdate (revealUpdate s c tags).1 (revealUpdate s c tags).2 tags text
      remark).2.1 = { c with customerData := customerDataAfter c.customerData tags } := by
    rw [patienceUpdate_session, revealUpdate_session]
    simp only [customerDataAfter, applyReveals_patience_eq]
  rcases tagUpdates_session s c tags text remark c' h with h1 | h1 | h1
  · rw [h1, hcd]
    exact ⟨rfl, Or.inl rfl, Or.inl rfl⟩
  · rw [h1, sellerPriceUpdate_session, hcd]
    refine ⟨rfl, ?_, Or.inl rfl⟩
    cases hn : numberTag tags "PRICE_ASK" with
    | none => left; rfl
    | some v => right; exact ⟨v, rfl, rfl⟩
  · rw [h1, buyerPriceUpdate_session, hcd]
    refine ⟨rfl, Or.inl rfl, ?_⟩
    cases hn : numberTag tags "PRICE_OFFER" with
    | none => left; rfl
    | some v => right; exact ⟨v, rfl, rfl⟩

theorem customerDataAfter_nil (cd : CustomerData) : customerDataAfter cd [] = cd := by
  rfl

theorem processPlayerTurnReceive_customer (s : GameState) (c c' : Session)
    (r : Option (List Char)) (k : List Char) (hc : s.currentCustomer = some c)
    (h : (processPlayerTurnReceive s r k).currentCustomer = some c') :
    c'.customerData = customerDataAfter c.customerData (parseTags (r.getD [])) ∧
    (c'.currentAskingPrice = c.currentAskingPrice ∨
      ∃ v, numberTag (parseTags (r.getD [])) "PRICE_ASK" = some v ∧
        c'.currentAskingPrice = some v) ∧
    (c'.currentOffer = c.currentOffer ∨
      ∃ v, numberTag (parseTags (r.getD [])) "PRICE_OFFER" = some v ∧
        c'.currentOffer = some v) := by
  unfold processPlayerTurnReceive at h
  rw [hc] at h
  simp only at h
  split at h
  · rename_i ch more
    simp only [finishTurn_currentCustomer] at h
    exact tagUpdates_customer _ _ _ _ _ _ h
  · rename_i hne
    simp only [emit_currentCustomer, hc, Option.some.injEq] at h
    subst h
    have hr : parseTags (r.getD []) = [] := by
      cases r with
      | none => rfl
      | some text =>
        cases text with
        | nil => rfl
        | cons ch more => exact absurd rfl (hne ch more)
    rw [hr]
    exact ⟨rfl, Or.inl rfl, Or.inl rfl⟩

/-- A turn that is handled leaves the session over, or its customer as `tagUpdates_customer`
says. -/
theorem processPlayerTurn_customer (s : GameState) (c c' : Session) (t : List Char)
    (r : Option (List Char)) (k : List Char) (hc : s.currentCustomer = some c)
    (hth : s.isLLMThinking = false)
    (h : (processPlayerTurn s t r k).currentCustomer = some c') :
    c'.customerData = customerDataAfter c.customerData (parseTags (r.getD [])) ∧
    (c'.currentAskingPrice = c.currentAskingPrice ∨
      ∃ v, numberTag (parseTags (r.getD [])) "PRICE_ASK" = some v ∧
        c'.currentAskingPrice = some v) ∧
    (c'.currentOffer = c.currentOffer ∨
      ∃ v, numberTag (parseTags (r.getD [])) "PRICE_OFFER" = some v ∧
        c'.currentOffer = some v) := by
  unfold processPlayerTurn at h
  rw [hc] at h
  simp only [hth, Bool.false_eq_true, if_false] at h
  exact processPlayerTurnReceive_customer _ c c' r k (by simpa using hc) h

/-- A property of the customer that every handled turn keeps, for the turns that satisfy `ok`,
is kept by every negotiation step. -/
theorem negotiationStep_customer_invariant (Q : Session → Prop) (ok : NegotiationEvent → Prop)
    (hturn : ∀ (s : GameState) (c c' : Session) (t : List Char) (r : Option (List Char))
      (k : List Char), s.currentCustomer = some c → s.isLLMThinking = false →
      ok (NegotiationEvent.playerTurn t r k) →
      (processPlayerTurn s t r k).currentCustomer = some c' → Q c → Q c')
    (s : GameState) (e : NegotiationEvent) (he : ok e)
    (h : ∀ c, s.currentCustomer = some c → Q c) :
    ∀ c, (negotiationStep s e).currentCustomer = some c → Q c := by
  have keep : ∀ s' : GameState,
      (s'.currentCustomer = none ∨ s'.currentCustomer = s.currentCustomer) →
      ∀ c, s'.currentCustomer = some c → Q c := by
    intro s' hs c hc
    rcases hs with hs | hs
    · rw [hs] at hc; cases hc
    · exact h c (hs ▸ hc)
  cases e with
  | playerTurn t r k =>
    simp only [negotiationStep]
    cases hc : s.currentCustomer with
    | none =>
      rw [processPlayerTurn_of_guard s t r k (Or.inl hc)]
      exact h
    | some c =>
      by_cases hth : s.isLLMThinking = true
      · rw [processPlayerTurn_of_guard s t r k (Or.inr hth)]
        exact h
      · have hth' : s.isLLMThinking = false := by simpa using hth
        intro c' hc'
        exact hturn s c c' t r k hc hth' he hc' (h c hc)
  | acceptClick k => exact keep _ (handleAcceptPrice_currentCustomer s k)
  | endClick k => exact keep _ (Or.inr (handleEndNegotiation_currentCustomer s k))
  | timerFires i => exact keep _ (fireTimer_currentCustomer s i)

theorem foldl_negotiationStep_customer_invariant (Q : Session → Prop)
    (ok : NegotiationEvent → Prop)
    (hturn : ∀ (s : GameState) (c c' : Session) (t : List Char) (r : Option (List Char))
      (k : List Char), s.currentCustomer = some c → s.isLLMThinking = false →
      ok (NegotiationEvent.playerTurn t r k) →
      (processPlayerTurn s t r k).currentCustomer = some c' → Q c → Q c')
    (events : List NegotiationEvent) (s : GameState) (he : ∀ e ∈ events, ok e)
    (h : ∀ c, s.currentCustomer = some c → Q c) :
    ∀ c, (events.foldl negotiationStep s).currentCustomer = some c → Q c := by
  induction events generalizing s with
  | nil => exact h
  | cons e es ih =>
    exact ih _ (fun e' he' => he e' (List.mem_cons_of_mem _ he'))
      (negotiationStep_customer_invariant Q ok hturn s e (he e (List.mem_cons_self _ _)) h)

/-- What `applyReveals` leaves: a flag is set when it was set or its tag is truthy, and a field
takes the value of its tag only when the tag is truthy and the flag was not set. -/
theorem applyReveals_spec (cd : CustomerData) (tags : Tags) :
    (applyReveals cd tags).1 =
      { cd with
        name := if truthy (Tags.get tags "REVEALED_NAME") && !cd.revealedInfo.name
          then Tags.get tags "REVEALED_NAME" else cd.name
        age := if truthy (Tags.get tags "REVEALED_AGE") && !cd.revealedInfo.age
          then Tags.get tags "REVEALED_AGE" else cd.age
        occupation :=
          if truthy (Tags.get tags "REVEALED_OCCUPATION") && !cd.revealedInfo.occupation
          then Tags.get tags "REVEALED_OCCUPATION" else cd.occupation
        revealedInfo :=
          { name := cd.revealedInfo.name || truthy (Tags.get tags "REVEALED_NAME")
            age := cd.revealedInfo.age || truthy (Tags.get tags "REVEALED_AGE")
            occupation :=
              cd.revealedInfo.occupation || truthy (Tags.get tags "REVEALED_OCCUPATION") } } := by
  obtain ⟨n, a, o, p, ith, pa, cp, ps, mn, ia, ca, io, mx, co, ⟨rn, ra, ro⟩⟩ := cd
  unfold applyReveals
  cases h1 : truthy (Tags.get tags "REVEALED_NAME") <;>
    cases h2 : truthy (Tags.get tags "REVEALED_AGE") <;>
    cases h3 : truthy (Tags.get tags "REVEALED_OCCUPATION") <;>
    cases rn <;> cases ra <;> cases ro <;> simp

theorem customerDataAfter_spec (cd : CustomerData) (tags : Tags) :
    (customerDataAfter cd tags).revealedInfo =
        { name := cd.revealedInfo.name || truthy (Tags.get tags "REVEALED_NAME")
          age := cd.revealedInfo.age || truthy (Tags.get tags "REVEALED_AGE")
          occupation :=
            cd.revealedInfo.occupation || truthy (Tags.get tags "REVEALED_OCCUPATION") } ∧
      (customerDataAfter cd tags).name =
        (if truthy (Tags.get tags "REVEALED_NAME") && !cd.revealedInfo.name
          then Tags.get tags "REVEALED_NAME" else cd.name) ∧
      (customerDataAfter cd tags).age =
        (if truthy (Tags.get tags "REVEALED_AGE") && !cd.revealedInfo.age
          then Tags.get tags "REVEALED_AGE" else cd.age) ∧
      (customerDataAfter cd tags).occupation =
        (if truthy (Tags.get tags "REVEALED_OCCUPATION") && !cd.revealedInfo.occupation
          then Tags.get tags "REVEALED_OCCUPATION" else cd.occupation) ∧
      (customerDataAfter cd tags).minimumAcceptablePrice = cd.minimumAcceptablePrice := by
  unfold customerDataAfter
  rw [applyReveals_spec]
  exact ⟨rfl, rfl, rfl, rfl, rfl⟩

theorem flagsKept_refl (r : RevealedInfo) : FlagsKept r r := ⟨id, id, id⟩

theorem flagsKept_trans {a b c : RevealedInfo} (h1 : FlagsKept a b) (h2 : FlagsKept b c) :
    FlagsKept a c :=
  ⟨fun h => h2.1 (h1.1 h), fun h => h2.2.1 (h1.2.1 h), fun h => h2.2.2 (h1.2.2 h)⟩

theorem customerDataAfter_flagsKept (cd : CustomerData) (tags : Tags) :
    FlagsKept cd.revealedInfo (customerDataAfter cd tags).revealedInfo := by
  rw [(customerDataAfter_spec cd tags).1]
  refine ⟨fun h => ?_, fun h => ?_, fun h => ?_⟩ <;> simp [h]

/-- Claim C16.  Within a session each flag of `revealedInfo` is monotone: from any state with a
customer (in particular the state the handling of the first response leaves), after any
sequence of negotiation steps the customer, if the session is still there, has every flag set
that was set before, whatever the tags of the responses.  A handled turn sets a flag exactly
when it was set or the response carries a truthy tag for it. -/
theorem revealedInfo_flags_never_revert :
    (∀ (s : GameState) (c c' : Session) (events : List NegotiationEvent),
      s.currentCustomer = some c →
      (events.foldl negotiationStep s).currentCustomer = some c' →
      FlagsKept c.customerData.revealedInfo c'.customerData.revealedInfo) ∧
    (∀ (s : GameState) (c c' : Session) (t : List Char) (r : Option (List Char))
        (k : List Char),
      s.currentCustomer = some c → s.isLLMThinking = false →
      (processPlayerTurn s t r k).currentCustomer = some c' →
      c'.customerData.revealedInfo =
        { name := c.customerData.revealedInfo.name ||
            truthy (Tags.get (parseTags (r.getD [])) "REVEALED_NAME")
          age := c.customerData.revealedInfo.age ||
            truthy (Tags.get (parseTags (r.getD [])) "REVEALED_AGE")
          occupation := c.customerData.revealedInfo.occupation ||
            truthy (Tags.get (parseTags (r.getD [])) "REVEALED_OCCUPATION") }) := by
  constructor
  · intro s c c' events hc hc'
    refine foldl_negotiationStep_customer_invariant
      (fun x => FlagsKept c.customerData.revealedInfo x.customerData.revealedInfo)
      (fun _ => True) ?_ events s (fun _ _ => trivial) ?_ c' hc'
    · intro s0 c0 c1 t r k h0 hth _ h1 hq
      have := (processPlayerTurn_customer s0 c0 c1 t r k h0 hth h1).1
      rw [this]
      exact flagsKept_trans hq (customerDataAfter_flagsKept _ _)
    · intro c0 hc0
      rw [hc] at hc0
      cases hc0
      exact flagsKept_refl _
  · intro s c c' t r k hc hth hc'
    rw [(processPlayerTurn_customer s c c' t r k hc hth hc').1]
    exact (customerDataAfter_spec _ _).1

theorem revealedInfo_flags_never_revert_witness :
    (sellerState 50).currentCustomer = some sampleSeller ∧
    (List.foldl negotiationStep (sellerState 50)
      [NegotiationEvent.playerTurn "Who are you?".toList
        (some "None of your business. [PRICE_ASK: 140]".toList) "Bye".toList]).currentCustomer =
      some { sampleSeller with currentAskingPrice := some 140 } ∧
    FlagsKept sampleSeller.customerData.revealedInfo
      ({ sampleSeller with currentAskingPrice := some 140 } : Session).customerData.revealedInfo :=
  have h1 : (sellerState 50).currentCustomer = some sampleSeller := rfl
  have h2 : (List.foldl negotiationStep (sellerState 50)
      [NegotiationEvent.playerTurn "Who are you?".toList
        (some "None of your business. [PRICE_ASK: 140]".toList) "Bye".toList]).currentCustomer =
      some { sampleSeller with currentAskingPrice := some 140 } := by decide
  ⟨h1, h2, revealedInfo_flags_never_revert.1 (sellerState 50) sampleSeller _ _ h1 h2⟩

/-- Claim C17 fails as stated.  The sample seller has revealed the name Mara.  A response with
the tag `[REVEALED_NAME: Alice]` is parsed to the name Alice, and after the turn the flag is
still set but the stored name is still Mara: the new value is not written. -/
theorem repeated_reveal_keeps_value_counterexample :
    (sellerState 100).currentCustomer = some sampleSeller ∧
    sampleSeller.customerData.revealedInfo.name = true ∧
    sampleSeller.customerData.name = some (TagValue.str "Mara".toList) ∧
    Tags.get (parseTags "I am [REVEALED_NAME: Alice]".toList) "REVEALED_NAME" =
      some (TagValue.str "Alice".toList) ∧
    (processPlayerTurn (sellerState 100) "Who are you?".toList
      (some "I am [REVEALED_NAME: Alice]".toList) []).currentCustomer = some sampleSeller := by
  decide

/-- Claim C17 as amended.  When a response is handled by `processPlayerTurn` and the session
goes on, a field of `revealedInfo` whose flag is already set keeps its flag and the stored name,
age or occupation keeps its value, whatever REVEALED tag the response carries: the guard
`!revealedInfo.x` skips the assignment. -/
theorem repeated_reveal_keeps_flag_and_value (s : GameState) (c c' : Session) (t : List Char)
    (r : Option (List Char)) (k : List Char)
    (hc : s.currentCustomer = some c) (hth : s.isLLMThinking = false)
    (hc' : (processPlayerTurn s t r k).currentCustomer = some c') :
    (c.customerData.revealedInfo.name = true →
      c'.customerData.revealedInfo.name = true ∧ c'.customerData.name = c.customerData.name) ∧
    (c.customerData.revealedInfo.age = true →
      c'.customerData.revealedInfo.age = true ∧ c'.customerData.age = c.customerData.age) ∧
    (c.customerData.revealedInfo.occupation = true →
      c'.customerData.revealedInfo.occupation = true ∧
        c'.customerData.occupation = c.customerData.occupation) := by
  have h := (processPlayerTurn_customer s c c' t r k hc hth hc').1
  obtain ⟨h0, h1, h2, h3, _⟩ := customerDataAfter_spec c.customerData (parseTags (r.getD []))
  rw [h, h0, h1, h2, h3]
  refine ⟨fun hf => ?_, fun hf => ?_, fun hf => ?_⟩ <;> simp [hf]

theorem repeated_reveal_keeps_flag_and_value_witness :
    (sellerState 100).currentCustomer = some sampleSeller ∧
    sampleSeller.customerData.revealedInfo.name = true ∧
    (processPlayerTurn (sellerState 100) "Who are you?".toList
      (some "I am [REVEALED_NAME: Alice]".toList) []).currentCustomer = some sampleSeller ∧
    sampleSeller.customerData.revealedInfo.name = true ∧
    sampleSeller.customerData.name = sampleSeller.customerData.name :=
  have h1 : (sellerState 100).currentCustomer = some sampleSeller := rfl
  have h2 : (processPlayerTurn (sellerState 100) "Who are you?".toList
      (some "I am [REVEALED_NAME: Alice]".toList) []).currentCustomer = some sampleSeller := by
    decide
  have h3 : sampleSeller.customerData.revealedInfo.name = true := rfl
  ⟨h1, h3, h2, (repeated_reveal_keeps_flag_and_value (sellerState 100) sampleSeller sampleSeller
    "Who are you?".toList (some "I am [REVEALED_NAME: Alice]".toList) [] h1 rfl h2).1 h3⟩

/-! ### The first response -/

theorem startNewCustomerInteractionReceive_seller (s : GameState) (c : Session)
    (customerBaseData : CustomerData) (ch : Char) (more : List Char) (itemData : ItemData)
    (hc : s.currentCustomer = some c) (ht : s.currentCustomerType = some CustomerType.seller)
    (hi : c.itemData = some itemData) :
    (startNewCustomerInteractionReceive s customerBaseData (some (ch :: more))).currentCustomer =
      some { c with
        customerData := firstTurnReveals c.customerData (parseTags (ch :: more))
        currentAskingPrice :=
          tagOrInitial (parseTags (ch :: more)) "PRICE_ASK" c.customerData.initialAskingPrice
        itemData := some (namedItem itemData (parseTags (ch :: more))) } := by
  unfold startNewCustomerInteractionReceive handleFirstResponse
  simp only [hc, emit_currentCustomerType, ht, beq_self_eq_true, if_true]
  unfold firstTurnSeller
  simp only [hi]
  simp only [emit_currentCustomer, tagOrInitial, namedItem]
  cases textTag (parseTags (ch :: more)) "ITEM_NAME" <;>
    cases textTag (parseTags (ch :: more)) "ITEM_DESC" <;>
    cases numberTag (parseTags (ch :: more)) "PRICE_ASK" <;> rfl

theorem startNewCustomerInteractionReceive_buyer (s : GameState) (c : Session)
    (customerBaseData : CustomerData) (ch : Char) (more : List Char)
    (hc : s.currentCustomer = some c) (ht : s.currentCustomerType = some CustomerType.buyer) :
    (startNewCustomerInteractionReceive s customerBaseData (some (ch :: more))).currentCustomer =
      some { c with
        customerData := firstTurnReveals c.customerData (parseTags (ch :: more))
        currentOffer :=
          tagOrInitial (parseTags (ch :: more)) "PRICE_OFFER" customerBaseData.initialOffer } := by
  unfold startNewCustomerInteractionReceive handleFirstResponse
  simp only [hc, emit_currentCustomerType, ht]
  unfold firstTurnBuyer
  simp only [emit_currentCustomer, tagOrInitial]
  cases numberTag (parseTags (ch :: more)) "PRICE_OFFER" <;> rfl

/-! ### The setup of a session -/

theorem chooseCustomerType_buyer_iff (shopInventory : List InventoryItem) (r : Rat) :
    chooseCustomerType shopInventory r = CustomerType.buyer ↔
      2 ≤ shopInventory.length ∧ r < 1 / 2 := by
  unfold chooseCustomerType
  have e : (0.5 : Rat) = 1 / 2 := by norm_num
  rw [e]
  by_cases h1 : shopInventory.length ≥ 2
  · by_cases h2 : r < 1 / 2
    · simp [h1, h2]
    · simp [h1, h2]
  · simp only [h1, if_false]
    constructor
    · intro h; cases h
    · intro h; exact h.1.elim

theorem startPreamble_fields (s : GameState) (d : StartDraws) :
    (startPreamble s d).currentCustomerType =
        some (chooseCustomerType s.shopInventory d.customerType) ∧
      (startPreamble s d).currentCustomer = s.currentCustomer ∧
      (startPreamble s d).shopInventory = s.shopInventory ∧
      (startPreamble s d).playerCash = s.playerCash ∧
      (startPreamble s d).isLLMThinking = true :=
  ⟨rfl, rfl, rfl, rfl, rfl⟩

/-- What a successful setup stores: a session around the generated customer, with the item of
the seller or the item the buyer wants, and the flag and the customer type as they were. -/
theorem prepareSession_ok (s s1 : GameState) (d : StartDraws) (customerBaseData : CustomerData)
    (h : prepareSession s d = Except.ok (s1, customerBaseData)) :
    s1.isLLMThinking = s.isLLMThinking ∧ s1.currentCustomerType = s.currentCustomerType ∧
    s1.playerCash = s.playerCash ∧ s1.shopInventory = s.shopInventory ∧
    ∃ c, s1.currentCustomer = some c ∧ c.customerData = customerBaseData ∧
      c.currentAskingPrice = orNull customerBaseData.initialAskingPrice ∧
      c.currentOffer = orNull customerBaseData.initialOffer ∧
      ((s.currentCustomerType = some CustomerType.seller ∧
          ∃ itemData, generateItem d.item = some itemData ∧ c.itemData = some itemData ∧
            generateCustomerData (some itemData) d.seller = some customerBaseData) ∨
        (s.currentCustomerType ≠ some CustomerType.seller ∧
          ∃ itemToSell, itemToSell ∈ s.shopInventory ∧ c.itemToSell = some itemToSell ∧
            c.itemData = none ∧
            generateBuyerData (some itemToSell) d.buyer = some customerBaseData)) := by
  unfold prepareSession at h
  split at h
  · rename_i hty
    have hty' : s.currentCustomerType = some CustomerType.seller := by simpa using hty
    split at h
    · cases h
    · rename_i itemData hitem
      split at h
      · cases h
      · rename_i cbd hcbd
        simp only at h
        split at h
        · cases h
        · simp only [Except.ok.injEq, Prod.mk.injEq] at h
          obtain ⟨h1, h2⟩ := h
          subst h1 h2
          refine ⟨rfl, rfl, rfl, rfl, _, rfl, rfl, rfl, rfl, Or.inl ⟨hty', itemData, hitem, rfl, hcbd⟩⟩
  · rename_i hty
    have hty' : s.currentCustomerType ≠ some CustomerType.seller := by simpa using hty
    split at h
    · cases h
    · split at h
      · cases h
      · rename_i itemToSell hsel
        split at h
        · cases h
        · rename_i cbd hcbd
          simp only at h
          split at h
          · cases h
          · simp only [Except.ok.injEq, Prod.mk.injEq] at h
            obtain ⟨h1, h2⟩ := h
            subst h1 h2
            have hmem : itemToSell ∈ s.shopInventory := by
              unfold index at hsel
              split at hsel
              · cases hsel
              · exact List.get?_mem hsel
            refine ⟨?_, ?_, ?_, ?_, ?_⟩
            · rfl
            · rfl
            · rfl
            · rfl
            · refine ⟨_, rfl, ?_, ?_, ?_, ?_⟩
              · rfl
              · rfl
              · rfl
              · right
                exact ⟨hty', itemToSell, hmem, rfl, rfl, hcbd⟩

theorem prepareSession_not_inventoryEmpty (s : GameState) (d : StartDraws) :
    prepareSession (startPreamble s d) d ≠ Except.error SetupError.inventoryEmpty := by
  intro h
  unfold prepareSession at h
  split at h
  · split at h
    · cases h
    · split at h
      · cases h
      · simp only at h
        split at h <;> cases h
  · rename_i hty
    rw [(startPreamble_fields s d).1] at hty
    have hb : chooseCustomerType s.shopInventory d.customerType = CustomerType.buyer := by
      cases hch : chooseCustomerType s.shopInventory d.customerType with
      | seller => rw [hch] at hty; exact absurd rfl hty
      | buyer => rfl
    have hlen := ((chooseCustomerType_buyer_iff _ _).1 hb).1
    rw [(startPreamble_fields s d).2.2.1] at h
    split at h
    · omega
    · split at h
      · cases h
      · split at h
        · cases h
        · simp only at h
          split at h <;> cases h

theorem catchSetupError_currentCustomer (s : GameState) (e : SetupError) :
    (catchSetupError s e).currentCustomer = none := by
  unfold catchSetupError
  simp only
  split
  · simp
  · rename_i h
    simpa using h

theorem catchSetupError_isLLMThinking (s : GameState) (e : SetupError) :
    (catchSetupError s e).isLLMThinking = false := by
  unfold catchSetupError
  simp only
  split
  · unfold endCurrentInteraction
    simp only
    split_ifs <;> rfl
  · rfl

/-- The first part of `startNewCustomerInteraction` either makes the call, with the session
stored and the flag set, or ends in the `catch` block, with no session and the flag reset. -/
theorem startNewCustomerInteractionSend_cases (s : GameState) (d : StartDraws) :
    (∃ s1 customerBaseData,
      prepareSession (startPreamble s d) d = Except.ok (s1, customerBaseData) ∧
      startNewCustomerInteractionSend s d = (s1, some customerBaseData)) ∨
    (∃ e, startNewCustomerInteractionSend s d = (catchSetupError (startPreamble s d) e, none)) := by
  unfold startNewCustomerInteractionSend
  simp only
  cases h : prepareSession (startPreamble s d) d with
  | ok p => left; exact ⟨p.1, p.2, rfl, rfl⟩
  | error e => right; exact ⟨e, rfl⟩

theorem startNewCustomerInteractionReceive_none (s : GameState)
    (customerBaseData : CustomerData) (r : Option (List Char))
    (hr : ∀ ch more, r ≠ some (ch :: more)) :
    (startNewCustomerInteractionReceive s customerBaseData r).currentCustomer = none := by
  unfold startNewCustomerInteractionReceive handleFirstResponse
  cases r with
  | none => exact catchSetupError_currentCustomer _ _
  | some text =>
    cases text with
    | nil => exact catchSetupError_currentCustomer _ _
    | cons ch more => exact absurd rfl (hr ch more)

theorem currentCustomerType_cases (t : CustomerType) :
    t = CustomerType.seller ∨ t = CustomerType.buyer := by
  cases t
  · left; rfl
  · right; rfl

/-- The session a call of `startNewCustomerInteraction` leaves, if it leaves one: the setup has
succeeded, the first response is a text, and the session is the one the setup stored with the
reveals, the price or the offer, and the item names of the first response. -/
theorem startNewCustomerInteraction_customer (s : GameState) (d : StartDraws)
    (r : Option (List Char)) (c' : Session) (hth : s.isLLMThinking = false)
    (h : (startNewCustomerInteraction s d r).currentCustomer = some c') :
    ∃ s1 customerBaseData c ch more,
      prepareSession (startPreamble s d) d = Except.ok (s1, customerBaseData) ∧
      s1.currentCustomer = some c ∧ r = some (ch :: more) ∧
      c'.customerData = firstTurnReveals c.customerData (parseTags (ch :: more)) ∧
      ((s1.currentCustomerType = some CustomerType.seller ∧
          c'.currentAskingPrice =
            tagOrInitial (parseTags (ch :: more)) "PRICE_ASK" c.customerData.initialAskingPrice) ∨
        (s1.currentCustomerType = some CustomerType.buyer ∧
          c'.currentOffer =
            tagOrInitial (parseTags (ch :: more)) "PRICE_OFFER" customerBaseData.initialOffer)) := by
  unfold startNewCustomerInteraction at h
  simp only [hth, Bool.false_eq_true, if_false] at h
  rcases startNewCustomerInteractionSend_cases s d with ⟨s1, cbd, hp, hs⟩ | ⟨e, hs⟩
  · rw [hs] at h
    simp only at h
    obtain ⟨_, hty, _, _, c, hc, hcd, _, _, hkind⟩ := prepareSession_ok _ s1 d cbd hp
    cases r with
    | none =>
      rw [startNewCustomerInteractionReceive_none s1 cbd none (by intro _ _ h; cases h)] at h
      cases h
    | some text =>
      cases text with
      | nil =>
        rw [startNewCustomerInteractionReceive_none s1 cbd (some [])
          (by intro _ _ h; cases h)] at h
        cases h
      | cons ch more =>
        refine ⟨s1, cbd, c, ch, more, hp, hc, rfl, ?_⟩
        rcases hkind with ⟨hsel, itemData, _, hitem, _⟩ | ⟨hne, _⟩
        · have ht : s1.currentCustomerType = some CustomerType.seller := by rw [hty]; exact hsel
          rw [startNewCustomerInteractionReceive_seller s1 c cbd ch more itemData hc ht hitem] at h
          simp only [Option.some.injEq] at h
          subst h
          exact ⟨rfl, Or.inl ⟨ht, rfl⟩⟩
        · have ht : s1.currentCustomerType = some CustomerType.buyer := by
            rw [hty, (startPreamble_fields s d).1] at *
            rcases currentCustomerType_cases (chooseCustomerType s.shopInventory d.customerType)
              with hk | hk
            · rw [hk] at hne; exact absurd rfl hne
            · rw [hk]
          rw [startNewCustomerInteractionReceive_buyer s1 c cbd ch more hc ht] at h
          simp only [Option.some.injEq] at h
          subst h
          exact ⟨rfl, Or.inr ⟨ht, rfl⟩⟩
  · rw [hs] at h
    simp only at h
    rw [catchSetupError_currentCustomer] at h
    cases h

theorem numeric_key_not_text (text : List Char) (key : String) (t : List Char)
    (hk : key ∈ numericTags) : Tags.get (parseTags text) key ≠ some (TagValue.str t) := by
  intro h
  have := parseTags_entryValid text _ (Tags.mem_of_get h)
  exact this hk

theorem tagOrInitial_spec (text : List Char) (key : String) (initial : Option Int)
    (hk : key ∈ numericTags) :
    (∀ v, Tags.get (parseTags text) key = some (TagValue.num v) →
      tagOrInitial (parseTags text) key initial = some v) ∧
    (Tags.get (parseTags text) key = none →
      tagOrInitial (parseTags text) key initial = initial) ∧
    ((∃ v, Tags.get (parseTags text) key = some (TagValue.num v)) ∨
      Tags.get (parseTags text) key = none) := by
  refine ⟨?_, ?_, ?_⟩
  · intro v h
    simp [tagOrInitial, numberTag, h]
  · intro h
    simp [tagOrInitial, numberTag, h]
  · cases h : Tags.get (parseTags text) key with
    | none => right; rfl
    | some x =>
      cases x with
      | str t => exact absurd h (numeric_key_not_text text key t hk)
      | num v => left; exact ⟨v, rfl⟩

theorem firstTurnReveals_fields (cd : CustomerData) (tags : Tags) :
    (firstTurnReveals cd tags).revealedInfo =
        { name := truthy (Tags.get tags "REVEALED_NAME")
          age := truthy (Tags.get tags "REVEALED_AGE")
          occupation := truthy (Tags.get tags "REVEALED_OCCUPATION") } ∧
      (firstTurnReveals cd tags).minimumAcceptablePrice = cd.minimumAcceptablePrice ∧
      (firstTurnReveals cd tags).initialAskingPrice = cd.initialAskingPrice ∧
      (firstTurnReveals cd tags).initialOffer = cd.initialOffer :=
  ⟨rfl, rfl, rfl, rfl⟩

/-- Claim C18.  When the setup of `startNewCustomerInteraction` has made the first call and the
call resolves to a text, the session goes on: each flag of `revealedInfo` is set exactly when
the first response carries a truthy tag for it; for a seller `currentAskingPrice` is the value of
the PRICE_ASK tag if the response has one and the generated `initialAskingPrice` otherwise; for
a buyer `currentOffer` is the value of the PRICE_OFFER tag if the response has one and the
generated `initialOffer` otherwise.  (A PRICE_ASK or PRICE_OFFER entry of `parseTags` is always
a number.) -/
theorem first_response_initialises_session (s s1 : GameState) (d : StartDraws)
    (customerBaseData : CustomerData) (ch : Char) (more : List Char)
    (hth : s.isLLMThinking = false)
    (hs : startNewCustomerInteractionSend s d = (s1, some customerBaseData)) :
    ∃ c', (startNewCustomerInteraction s d (some (ch :: more))).currentCustomer = some c' ∧
      c'.customerData.revealedInfo =
        { name := truthy (Tags.get (parseTags (ch :: more)) "REVEALED_NAME")
          age := truthy (Tags.get (parseTags (ch :: more)) "REVEALED_AGE")
          occupation := truthy (Tags.get (parseTags (ch :: more)) "REVEALED_OCCUPATION") } ∧
      ((s1.currentCustomerType = some CustomerType.seller ∧
          (∀ v, Tags.get (parseTags (ch :: more)) "PRICE_ASK" = some (TagValue.num v) →
            c'.currentAskingPrice = some v) ∧
          (Tags.get (parseTags (ch :: more)) "PRICE_ASK" = none →
            c'.currentAskingPrice = customerBaseData.initialAskingPrice) ∧
          ((∃ v, Tags.get (parseTags (ch :: more)) "PRICE_ASK" = some (TagValue.num v)) ∨
            Tags.get (parseTags (ch :: more)) "PRICE_ASK" = none)) ∨
        (s1.currentCustomerType = some CustomerType.buyer ∧
          (∀ v, Tags.get (parseTags (ch :: more)) "PRICE_OFFER" = some (TagValue.num v) →
            c'.currentOffer = some v) ∧
          (Tags.get (parseTags (ch :: more)) "PRICE_OFFER" = none →
            c'.currentOffer = customerBaseData.initialOffer) ∧
          ((∃ v, Tags.get (parseTags (ch :: more)) "PRICE_OFFER" = some (TagValue.num v)) ∨
            Tags.get (parseTags (ch :: more)) "PRICE_OFFER" = none))) := by
  rcases startNewCustomerInteractionSend_cases s d with ⟨s1', cbd', hp, hs'⟩ | ⟨e, hs'⟩
  · rw [hs] at hs'
    simp only [Prod.mk.injEq, Option.some.injEq] at hs'
    obtain ⟨e1, e2⟩ := hs'
    subst e1 e2
    obtain ⟨_, hty, _, _, c, hc, hcd, _, _, hkind⟩ := prepareSession_ok _ s1 d customerBaseData hp
    have hrun : startNewCustomerInteraction s d (some (ch :: more)) =
        startNewCustomerInteractionReceive s1 customerBaseData (some (ch :: more)) := by
      unfold startNewCustomerInteraction
      simp only [hth, Bool.false_eq_true, if_false, hs]
    rw [hrun]
    rcases hkind with ⟨hsel, itemData, _, hitem, _⟩ | ⟨hne, _⟩
    · have ht : s1.currentCustomerType = some CustomerType.seller := by rw [hty]; exact hsel
      rw [startNewCustomerInteractionReceive_seller s1 c customerBaseData ch more itemData hc ht
        hitem]
      refine ⟨_, rfl, rfl, Or.inl ⟨ht, ?_⟩⟩
      simp only [hcd]
      exact tagOrInitial_spec (ch :: more) "PRICE_ASK" customerBaseData.initialAskingPrice
        (by decide)
    · have ht : s1.currentCustomerType = some CustomerType.buyer := by
        rw [hty, (startPreamble_fields s d).1] at *
        rcases currentCustomerType_cases (chooseCustomerType s.shopInventory d.customerType)
          with hk | hk
        · rw [hk] at hne; exact absurd rfl hne
        · rw [hk]
      rw [startNewCustomerInteractionReceive_buyer s1 c customerBaseData ch more hc ht]
      refine ⟨_, rfl, rfl, Or.inr ⟨ht, ?_⟩⟩
      exact tagOrInitial_spec (ch :: more) "PRICE_OFFER" customerBaseData.initialOffer
        (by decide)
  · rw [hs] at hs'
    simp only [Prod.mk.injEq] at hs'
    exact absurd hs'.2 (by simp)

/-- Claim C19.  For every inventory and every draw `r`, the customer type chosen by
`startNewCustomerInteraction` is `buyer` if and only if the inventory has at least 2 items and
`r < 0.5`; with fewer than 2 items it is `seller`.  The setup never throws the error
"Cannot generate buyer: Inventory is empty." -/
theorem buyer_chosen_iff_two_items_and_low_draw :
    (∀ (shopInventory : List InventoryItem) (r : Rat),
      chooseCustomerType shopInventory r = CustomerType.buyer ↔
        2 ≤ shopInventory.length ∧ r < 1 / 2) ∧
    (∀ (shopInventory : List InventoryItem) (r : Rat),
      shopInventory.length < 2 → chooseCustomerType shopInventory r = CustomerType.seller) ∧
    (∀ (s : GameState) (d : StartDraws),
      (startPreamble s d).currentCustomerType =
        some (chooseCustomerType s.shopInventory d.customerType)) ∧
    (∀ (s : GameState) (d : StartDraws),
      prepareSession (startPreamble s d) d ≠ Except.error SetupError.inventoryEmpty) := by
  refine ⟨chooseCustomerType_buyer_iff, ?_, fun s d => rfl, prepareSession_not_inventoryEmpty⟩
  intro inv r h
  rcases currentCustomerType_cases (chooseCustomerType inv r) with hk | hk
  · exact hk
  · have := ((chooseCustomerType_buyer_iff inv r).1 hk).1
    omega

theorem orNull_of_pos (a : Int) (h : 0 < a) : orNull (some a) = some a := by
  unfold orNull
  simp only
  rw [if_neg (by omega)]

/-- Claim C15 fails as stated.  The sample seller has the minimum price 95 and asks 143.  After
a turn whose response carries `[PRICE_ASK: 50]` the session goes on with the asking price 50,
which is below the minimum. -/
theorem asking_price_below_minimum_counterexample :
    (sellerState 100).currentCustomer = some sampleSeller ∧
    sampleSeller.customerData.minimumAcceptablePrice = some 95 ∧
    sampleSeller.currentAskingPrice = some 143 ∧
    (processPlayerTurn (sellerState 100) "Too much".toList
      (some "Fine. [PRICE_ASK: 50]".toList) []).currentCustomer =
      some { sampleSeller with currentAskingPrice := some 50 } ∧
    ¬ AskingAtLeast 95 (processPlayerTurn (sellerState 100) "Too much".toList
      (some "Fine. [PRICE_ASK: 50]".toList) []) := by
  have h : (processPlayerTurn (sellerState 100) "Too much".toList
      (some "Fine. [PRICE_ASK: 50]".toList) []).currentCustomer =
      some { sampleSeller with currentAskingPrice := some 50 } := by decide
  refine ⟨rfl, rfl, rfl, h, ?_⟩
  intro hq
  obtain ⟨_, a, ha, hle⟩ := hq _ h
  simp only [Option.some.injEq] at ha
  omega

theorem processPlayerTurn_askingAtLeast (m : Int) (s : GameState) (c c' : Session)
    (t : List Char) (r : Option (List Char)) (k : List Char)
    (hc : s.currentCustomer = some c) (hth : s.isLLMThinking = false)
    (hok : AsksAtLeast m (NegotiationEvent.playerTurn t r k))
    (hc' : (processPlayerTurn s t r k).currentCustomer = some c')
    (hq : c.customerData.minimumAcceptablePrice = some m ∧
      ∃ a, c.currentAskingPrice = some a ∧ m ≤ a) :
    c'.customerData.minimumAcceptablePrice = some m ∧
      ∃ a, c'.currentAskingPrice = some a ∧ m ≤ a := by
  obtain ⟨h1, h2, _⟩ := processPlayerTurn_customer s c c' t r k hc hth hc'
  constructor
  · rw [h1, (customerDataAfter_spec _ _).2.2.2.2]
    exact hq.1
  · rcases h2 with h2 | ⟨v, hv, h2⟩
    · rw [h2]; exact hq.2
    · exact ⟨v, h2, hok v hv⟩

/-- Claim C15 as amended.  In a seller session `currentAskingPrice` is not below
`minimumAcceptablePrice` after the first response and after every later response handled by
`processPlayerTurn`, as long as every PRICE_ASK value the responses carry is not below the
minimum: the controller takes the value of the tag as it is.  After a first response without
PRICE_ASK the asking price is the generated one, above the minimum. -/
theorem asking_price_at_least_minimum_when_tags_are :
    (∀ (m : Int) (s : GameState) (events : List NegotiationEvent),
      AskingAtLeast m s → (∀ e ∈ events, AsksAtLeast m e) →
      AskingAtLeast m (events.foldl negotiationStep s)) ∧
    (∀ (s : GameState) (d : StartDraws) (r : Option (List Char)) (c' : Session) (m : Int),
      s.isLLMThinking = false →
      (startNewCustomerInteraction s d r).currentCustomer = some c' →
      c'.customerData.minimumAcceptablePrice = some m →
      (∀ v, numberTag (parseTags (r.getD [])) "PRICE_ASK" = some v → m ≤ v) →
      AskingAtLeast m (startNewCustomerInteraction s d r)) := by
  constructor
  · intro m s events hs hev
    exact foldl_negotiationStep_customer_invariant
      (fun x => x.customerData.minimumAcceptablePrice = some m ∧
        ∃ a, x.currentAskingPrice = some a ∧ m ≤ a)
      (AsksAtLeast m)
      (fun s0 c0 c1 t r k h0 hth hok h1 hq =>
        processPlayerTurn_askingAtLeast m s0 c0 c1 t r k h0 hth hok h1 hq)
      events s hev hs
  · intro s d r c' m hth hc' hm htag c'' hc''
    rw [hc'] at hc''
    simp only [Option.some.injEq] at hc''
    subst hc''
    refine ⟨hm, ?_⟩
    obtain ⟨s1, cbd, c, ch, more, hp, hc, hr, hcd, hkind⟩ :=
      startNewCustomerInteraction_customer s d r c' hth hc'
    obtain ⟨_, hty, _, _, c0, hc0, hcd0, _, _, hgen⟩ := prepareSession_ok _ s1 d cbd hp
    rw [hc] at hc0
    simp only [Option.some.injEq] at hc0
    subst hc0
    rw [hcd, (firstTurnReveals_fields _ _).2.1, hcd0] at hm
    rcases hgen with ⟨hsl, itemData, _, _, hg⟩ | ⟨_, itemToSell, _, _, _, hg⟩
    · obtain ⟨cg, hcg, _, hmin, hask, _⟩ := generateCustomerData_some itemData d.seller
      rw [hg] at hcg
      simp only [Option.some.injEq] at hcg
      subst hcg
      rw [hmin] at hm
      simp only [Option.some.injEq] at hm
      have hb := (sellerPricing_bounds itemData.actualValue itemData.baseValue
        cbd.priceSensitivity).2
      rcases hkind with ⟨_, hask'⟩ | ⟨hbuy, _⟩
      · rw [hask', hcd0]
        subst hr
        simp only [Option.getD_some] at htag
        unfold tagOrInitial
        cases hn : numberTag (parseTags (ch :: more)) "PRICE_ASK" with
        | some v => exact ⟨v, rfl, htag v hn⟩
        | none => exact ⟨_, hask, by omega⟩
      · rw [hty, hsl] at hbuy
        cases hbuy
    · have hnone : cbd.minimumAcceptablePrice = none := by
        unfold generateBuyerData at hg
        simp only [personalities_nonempty] at hg
        simp only [Bool.false_eq_true, if_false, Option.some.injEq] at hg
        rw [← hg]
      rw [hnone] at hm
      cases hm

theorem generateCustomerData_personality (itemData : ItemData) (d : SellerDraws)
    (c : CustomerData) (h : generateCustomerData (some itemData) d = some c)
    (hd : IsDraw d.personality) :
    c.personality.isSome = true ∧ c.itemThemeHint.isSome = true := by
  simp only [generateCustomerData, customer_tables_nonempty] at h
  simp only [Bool.false_eq_true, if_false, Option.some.injEq] at h
  subst h
  simp only [Option.isSome_some, and_true]
  obtain ⟨h0, h1⟩ := getRandomInt_mem 0 ((personalities.length : Int) - 1) d.personality
    (by decide) hd
  obtain ⟨x, hx, _⟩ := index_some personalities _ h0 (by omega)
  rw [hx]
  rfl

theorem sellerPrompt_nonempty : (trim sellerPromptOpening.toList).isEmpty = false := by
  decide

theorem buyerPrompt_nonempty : (trim buyerPromptOpening.toList).isEmpty = false := by
  decide

/-- With draws in `[0, 1)` the setup of a seller session succeeds. -/
theorem prepareSession_seller_succeeds (s : GameState) (d : StartDraws)
    (ht : s.currentCustomerType = some CustomerType.seller)
    (h1 : IsDraw d.item.baseValue) (h2 : IsDraw d.item.condition) (h3 : IsDraw d.item.rarity)
    (h4 : IsDraw d.seller.personality) :
    ∃ s1 customerBaseData, prepareSession s d = Except.ok (s1, customerBaseData) := by
  obtain ⟨b, c, r, _, _, _, _, hitem⟩ := generateItem_some d.item h1 h2 h3
  obtain ⟨cbd, hcbd, _, hmin, hask, _⟩ :=
    generateCustomerData_some (itemOf b c.1 c.2 r.1 r.2.1) d.seller
  obtain ⟨hp, hh⟩ := generateCustomerData_personality _ _ _ hcbd h4
  have hprompt : (constructCustomerPrompt (some cbd) (some (itemOf b c.1 c.2 r.1 r.2.1))).isEmpty
      = false := by
    unfold constructCustomerPrompt
    simp only [hmin, hask, Option.isNone_some, Bool.or_false]
    have e1 : cbd.personality.isNone = false := by
      cases hx : cbd.personality with
      | none => rw [hx] at hp; cases hp
      | some _ => rfl
    have e2 : cbd.itemThemeHint.isNone = false := by
      cases hx : cbd.itemThemeHint with
      | none => rw [hx] at hh; cases hh
      | some _ => rfl
    simp only [e1, e2, Bool.or_self, Bool.false_eq_true, if_false]
    exact sellerPrompt_nonempty
  unfold prepareSession
  simp only [ht, beq_self_eq_true, if_true, hitem, hcbd, hprompt, Bool.false_eq_true, if_false]
  exact ⟨_, _, rfl⟩

theorem startNewCustomerInteractionSend_idle :
    ∃ s1 customerBaseData,
      startNewCustomerInteractionSend idleState firstStartDraws = (s1, some customerBaseData) := by
  obtain ⟨s1, cbd, h⟩ := prepareSession_seller_succeeds (startPreamble idleState firstStartDraws)
    firstStartDraws rfl isDraw_zero isDraw_zero isDraw_zero isDraw_zero
  refine ⟨s1, cbd, ?_⟩
  unfold startNewCustomerInteractionSend
  simp only [h]

theorem first_response_initialises_session_witness :
    idleState.isLLMThinking = false ∧
    ∃ s1 customerBaseData c',
      startNewCustomerInteractionSend idleState firstStartDraws = (s1, some customerBaseData) ∧
      (startNewCustomerInteraction idleState firstStartDraws
        (some ('H' :: "ello. [PRICE_ASK: 150]".toList))).currentCustomer = some c' ∧
      c'.customerData.revealedInfo = { name := false, age := false, occupation := false } := by
  refine ⟨rfl, ?_⟩
  obtain ⟨s1, cbd, hs⟩ := startNewCustomerInteractionSend_idle
  obtain ⟨c', h1, h2, _⟩ := first_response_initialises_session idleState s1 firstStartDraws cbd
    'H' "ello. [PRICE_ASK: 150]".toList rfl hs
  refine ⟨s1, cbd, c', hs, h1, ?_⟩
  rw [h2]
  decide

theorem buyer_chosen_iff_two_items_and_low_draw_witness :
    chooseCustomerType [] (1 / 4) = CustomerType.seller ∧
    chooseCustomerType [stockItem 0 "Silver Ring" 60, stockItem 1 "Old Map" 30] (1 / 4) =
      CustomerType.buyer :=
  ⟨buyer_chosen_iff_two_items_and_low_draw.2.1 [] (1 / 4) (by decide),
   (buyer_chosen_iff_two_items_and_low_draw.1 _ _).2 ⟨by decide, by norm_num⟩⟩

theorem asking_price_at_least_minimum_when_tags_are_witness :
    AskingAtLeast 95 (sellerState 100) ∧
    AskingAtLeast 95 (List.foldl negotiationStep (sellerState 100)
      [NegotiationEvent.playerTurn "Too much".toList (some "Fine. [PRICE_ASK: 130]".toList) []]) := by
  have h0 : AskingAtLeast 95 (sellerState 100) := by
    intro c hc
    have : c = sampleSeller := by
      have h : (sellerState 100).currentCustomer = some sampleSeller := rfl
      rw [h] at hc
      exact (Option.some.inj hc).symm
    subst this
    exact ⟨rfl, 143, rfl, by decide⟩
  refine ⟨h0, asking_price_at_least_minimum_when_tags_are.1 95 (sellerState 100) _ h0 ?_⟩
  intro e he
  simp only [List.mem_singleton] at he
  subst he
  intro v hv
  have hn : numberTag (parseTags ((some "Fine. [PRICE_ASK: 130]".toList).getD [])) "PRICE_ASK"
      = some 130 := by decide
  rw [hn] at hv
  simp only [Option.some.injEq] at hv
  omega

/-! ### One call of the model at a time -/

theorem processPlayerTurnReceive_isLLMThinking (s : GameState) (r : Option (List Char))
    (k : List Char) : (processPlayerTurnReceive s r k).isLLMThinking = false := by
  unfold processPlayerTurnReceive
  split
  · rfl
  · split
    · exact finishTurn_isLLMThinking _ _
    · rfl

theorem endCurrentInteraction_isLLMThinking (s : GameState) (reason : EndReason) :
    (endCurrentInteraction s reason).isLLMThinking = false := by
  unfold endCurrentInteraction
  simp only
  split_ifs <;> rfl

theorem finalizeDeal_isLLMThinking (s : GameState) (p : Int) (h : s.isLLMThinking = false) :
    (finalizeDeal s p).isLLMThinking = false := by
  unfold finalizeDeal
  split
  · simpa using h
  · split
    · exact endCurrentInteraction_isLLMThinking _ _
    · simpa using h

theorem finalizeSale_isLLMThinking (s : GameState) (sold : Option InventoryItem) (p : Int)
    (h : s.isLLMThinking = false) : (finalizeSale s sold p).isLLMThinking = false := by
  unfold finalizeSale
  split
  · exact endCurrentInteraction_isLLMThinking _ _
  · simpa using h

@[simp]
theorem getConcludingRemark_isLLMThinking (s : GameState) (b : Bool) (r : String)
    (p : Option Int) (t : Option CustomerType) (k : List Char) :
    (getConcludingRemark s b r p t k).1.isLLMThinking = s.isLLMThinking := by
  unfold getConcludingRemark
  split
  · split <;> simp
  · rfl

@[simp]
theorem logRemark_isLLMThinking (s : GameState) (r : Option (List Char)) :
    (logRemark s r).isLLMThinking = s.isLLMThinking := by
  unfold logRemark
  split
  · split <;> simp
  · rfl

theorem handleAcceptPrice_isLLMThinking (s : GameState) (k : List Char)
    (h : s.isLLMThinking = false) : (handleAcceptPrice s k).isLLMThinking = false := by
  unfold handleAcceptPrice
  split
  · exact h
  · split
    · exact h
    · split
      · split
        · simpa using h
        · split
          · simpa using h
          · split
            · simp only
              split
              · exact finalizeDeal_isLLMThinking _ _ rfl
              · rfl
            · simpa using h
      · split
        · simpa using h
        · split
          · simpa using h
          · simp only
            split
            · exact finalizeSale_isLLMThinking _ _ _ rfl
            · rfl

theorem handleEndNegotiation_isLLMThinking (s : GameState) (k : List Char)
    (h : s.isLLMThinking = false) : (handleEndNegotiation s k).isLLMThinking = false := by
  unfold handleEndNegotiation
  split
  · exact h
  · split
    · exact h
    · simp only
      split <;> simp

theorem handleAcceptPrice_of_thinking (s : GameState) (k : List Char)
    (h : s.isLLMThinking = true) : handleAcceptPrice s k = s := by
  unfold handleAcceptPrice
  split
  · rfl
  · simp [h]

theorem handleEndNegotiation_of_thinking (s : GameState) (k : List Char)
    (h : s.isLLMThinking = true) : handleEndNegotiation s k = s := by
  unfold handleEndNegotiation
  split
  · rfl
  · simp [h]

theorem handleAcceptPriceToRemark_of_thinking (s : GameState) (h : s.isLLMThinking = true) :
    handleAcceptPriceToRemark s = none := by
  unfold handleAcceptPriceToRemark
  split
  · rfl
  · simp [h]

theorem handleEndNegotiationToRemark_of_thinking (s : GameState) (h : s.isLLMThinking = true) :
    handleEndNegotiationToRemark s = none := by
  unfold handleEndNegotiationToRemark
  split
  · rfl
  · simp [h]

theorem getConcludingRemark_called (s : GameState) (b : Bool) (r : String)
    (p : Option Int) (t : Option CustomerType) (k : List Char)
    (h : (getConcludingRemark s b r p t k).2.isSome = true) :
    ∃ e, e.isModelCall = true ∧ (getConcludingRemark s b r p t k).1.effects = s.effects ++ [e] := by
  cases t with
  | none => cases h
  | some ty =>
    cases b with
    | false => cases h
    | true => exact ⟨Effect.requestRemark r p ty, rfl, rfl⟩

theorem handleAcceptPriceToRemark_some (s s' : GameState) (p : Pending)
    (h : handleAcceptPriceToRemark s = some (s', p)) :
    s'.isLLMThinking = true ∧ ∃ e, e.isModelCall = true ∧ s'.effects.getLast? = some e := by
  unfold handleAcceptPriceToRemark at h
  split at h
  · cases h
  · split at h
    · cases h
    · split at h
      · split at h
        · cases h
        · split at h
          · cases h
          · split at h
            · simp only at h
              split at h
              · rename_i x hx
                simp only [Option.some.injEq, Prod.mk.injEq] at h
                obtain ⟨h1, _⟩ := h
                subst h1
                obtain ⟨e, he, hl⟩ := getConcludingRemark_called _ _ _ _ _ _
                  (by rw [hx]; rfl)
                refine ⟨by simp, e, he, ?_⟩
                rw [hl]
                simp
              · cases h
            · cases h
      · split at h
        · cases h
        · split at h
          · cases h
          · simp only at h
            split at h
            · rename_i x hx
              simp only [Option.some.injEq, Prod.mk.injEq] at h
              obtain ⟨h1, _⟩ := h
              subst h1
              obtain ⟨e, he, hl⟩ := getConcludingRemark_called _ _ _ _ _ _
                (by rw [hx]; rfl)
              refine ⟨by simp, e, he, ?_⟩
              rw [hl]
              simp
            · cases h

theorem handleEndNegotiationToRemark_some (s s' : GameState)
    (h : handleEndNegotiationToRemark s = some s') :
    s'.isLLMThinking = true ∧ ∃ e, e.isModelCall = true ∧ s'.effects.getLast? = some e := by
  unfold handleEndNegotiationToRemark at h
  split at h
  · cases h
  · split at h
    · cases h
    · simp only at h
      split at h
      · rename_i x hx
        simp only [Option.some.injEq] at h
        subst h
        obtain ⟨e, he, hl⟩ := getConcludingRemark_called _ _ _ _ _ _ (by rw [hx]; rfl)
        refine ⟨by simp, e, he, ?_⟩
        rw [hl]
        simp
      · cases h

theorem patienceBlockToRemark_some (s s' : GameState) (c : Session) (tags : Tags)
    (text : List Char) (h : patienceBlockToRemark s c tags text = some s') :
    s'.isLLMThinking = s.isLLMThinking ∧
      ∃ e, e.isModelCall = true ∧ s'.effects.getLast? = some e := by
  unfold patienceBlockToRemark at h
  split at h
  · cases h
  · simp only at h
    split at h
    · split at h
      · rename_i x hx
        simp only [Option.some.injEq] at h
        subst h
        obtain ⟨e, he, hl⟩ := getConcludingRemark_called _ _ _ _ _ _ (by rw [hx]; rfl)
        refine ⟨by simp, e, he, ?_⟩
        rw [hl]
        simp
      · cases h
    · cases h

theorem processPlayerTurnToRemark_some (s s' : GameState) (r : Option (List Char))
    (h : processPlayerTurnToRemark s r = some s') :
    s'.isLLMThinking = s.isLLMThinking ∧
      ∃ e, e.isModelCall = true ∧ s'.effects.getLast? = some e := by
  unfold processPlayerTurnToRemark at h
  split at h
  · simp only at h
    obtain ⟨h1, h2⟩ := patienceBlockToRemark_some _ _ _ _ _ h
    refine ⟨?_, h2⟩
    rw [h1]
    unfold revealUpdate
    simp only
    split <;> simp
  · cases h

theorem emit_getLast (s : GameState) (e : Effect) : (s.emit e).effects.getLast? = some e := by
  simp [GameState.emit]

theorem processPlayerTurnSend_started (s : GameState) (c : Session) (t : List Char)
    (hc : s.currentCustomer = some c) (hth : s.isLLMThinking = false) :
    (processPlayerTurnSend s t).isLLMThinking = true ∧
      ∃ e, e.isModelCall = true ∧ (processPlayerTurnSend s t).effects.getLast? = some e := by
  unfold processPlayerTurnSend
  rw [hc]
  simp only [hth, Bool.false_eq_true, if_false]
  exact ⟨rfl, Effect.callGeminiApi (s.conversationHistory ++ [Turn.user t]) c.systemPrompt, rfl,
    by simp [GameState.emit]⟩

theorem prepareSession_started (s s1 : GameState) (d : StartDraws) (cbd : CustomerData)
    (h : prepareSession s d = Except.ok (s1, cbd)) :
    ∃ e, e.isModelCall = true ∧ s1.effects.getLast? = some e := by
  unfold prepareSession at h
  split at h
  · split at h
    · cases h
    · split at h
      · cases h
      · simp only at h
        split at h
        · cases h
        · simp only [Except.ok.injEq, Prod.mk.injEq] at h
          obtain ⟨h1, _⟩ := h
          subst h1
          refine ⟨_, ?_, emit_getLast _ _⟩
          rfl
  · split at h
    · cases h
    · split at h
      · cases h
      · split at h
        · cases h
        · simp only at h
          split at h
          · cases h
          · simp only [Except.ok.injEq, Prod.mk.injEq] at h
            obtain ⟨h1, _⟩ := h
            subst h1
            refine ⟨_, ?_, emit_getLast _ _⟩
            rfl

theorem startNewCustomerInteractionSend_started (s s1 : GameState) (d : StartDraws)
    (cbd : CustomerData) (h : startNewCustomerInteractionSend s d = (s1, some cbd)) :
    s1.isLLMThinking = true ∧ ∃ e, e.isModelCall = true ∧ s1.effects.getLast? = some e := by
  rcases startNewCustomerInteractionSend_cases s d with ⟨s1', cbd', hp, hs⟩ | ⟨e, hs⟩
  · rw [h] at hs
    simp only [Prod.mk.injEq, Option.some.injEq] at hs
    obtain ⟨e1, e2⟩ := hs
    subst e1 e2
    obtain ⟨hf, _⟩ := prepareSession_ok _ s1 d cbd hp
    exact ⟨by rw [hf]; rfl, prepareSession_started _ _ _ _ hp⟩
  · rw [h] at hs
    simp only [Prod.mk.injEq] at hs
    exact absurd hs.2 (by simp)

theorem startNewCustomerInteractionSend_none (s s1 : GameState) (d : StartDraws)
    (h : startNewCustomerInteractionSend s d = (s1, none)) : s1.isLLMThinking = false := by
  rcases startNewCustomerInteractionSend_cases s d with ⟨s1', cbd', hp, hs⟩ | ⟨e, hs⟩
  · rw [h] at hs
    simp only [Prod.mk.injEq] at hs
    exact absurd hs.2 (by simp)
  · rw [h] at hs
    simp only [Prod.mk.injEq] at hs
    rw [hs.1]
    exact catchSetupError_isLLMThinking _ _

theorem startNewCustomerInteractionReceive_isLLMThinking (s : GameState) (cbd : CustomerData)
    (r : Option (List Char)) : (startNewCustomerInteractionReceive s cbd r).isLLMThinking = false := by
  unfold startNewCustomerInteractionReceive
  simp only
  split
  · rename_i s' h
    unfold handleFirstResponse at h
    split at h
    · split at h
      · simp only at h
        split at h
        · split at h
          · rename_i s2 h2
            simp only [Prod.mk.injEq, and_true] at h
            subst h
            unfold firstTurnSeller at h2
            simp only at h2
            split at h2
            · simp only [Prod.mk.injEq, and_true] at h2
              subst h2
              rfl
            · split at h2
              · simp at h2
              · simp only [Prod.mk.injEq, and_true] at h2
                subst h2
                rfl
          · simp at h
        · simp only [Prod.mk.injEq, and_true] at h
          subst h
          rfl
      · simp at h
    · simp at h
  · exact catchSetupError_isLLMThinking _ _

theorem pending_of_get? (ps : List Pending) (i : Nat) (p : Pending) (hlen : ps.length ≤ 1)
    (h : ps.get? i = some p) : ps = [p] ∧ ps.eraseIdx i = [] := by
  match ps, i with
  | [], _ => cases h
  | [q], 0 =>
    simp only [List.get?_cons_zero, Option.some.injEq] at h
    subst h
    exact ⟨rfl, rfl⟩
  | [q], i + 1 => cases h
  | _ :: _ :: _, _ => simp at hlen

/-- A click on a button of one of the four handlers while the flag is set makes no call. -/
theorem asyncStep_guard (σ : AsyncState) (e : AsyncEvent) (he : e.startsHandler = true)
    (hth : σ.game.isLLMThinking = true) :
    (asyncStep σ e).pending = σ.pending ∧
      modelCalls (asyncStep σ e).game.effects = modelCalls σ.game.effects ∧
      (asyncStep σ e).game.isLLMThinking = true := by
  cases e with
  | newCustomerClick d =>
    have e1 : asyncStep σ (AsyncEvent.newCustomerClick d) =
        { σ with game := σ.game.emit (Effect.showMessage Message.pleaseWait) } := by
      simp only [asyncStep, hth, if_true]
    rw [e1]
    refine ⟨rfl, ?_, by simpa using hth⟩
    simp [modelCalls, GameState.emit, Effect.isModelCall]
  | sendMessage t =>
    have e1 : asyncStep σ (AsyncEvent.sendMessage t) = σ := by
      simp only [asyncStep]
      split
      · rfl
      · simp only [hth, if_true]
    rw [e1]
    exact ⟨rfl, rfl, hth⟩
  | acceptClick =>
    have e1 : asyncStep σ AsyncEvent.acceptClick = σ := by
      simp only [asyncStep, handleAcceptPriceToRemark_of_thinking _ hth,
        handleAcceptPrice_of_thinking _ _ hth]
    rw [e1]
    exact ⟨rfl, rfl, hth⟩
  | endClick =>
    have e1 : asyncStep σ AsyncEvent.endClick = σ := by
      simp only [asyncStep, handleEndNegotiationToRemark_of_thinking _ hth,
        handleEndNegotiation_of_thinking _ _ hth]
    rw [e1]
    exact ⟨rfl, rfl, hth⟩
  | loadClick => cases he
  | timerFires i => cases he
  | responseArrives i r => cases he
  | remarkArrives i k => cases he

/-- A click on a button of one of the four handlers while the flag is not set either makes no
call and leaves the flag unset, or makes one call, the last effect of the step, with the flag
set. -/
theorem asyncStep_start (σ : AsyncState) (e : AsyncEvent) (he : e.startsHandler = true)
    (hth : σ.game.isLLMThinking = false) :
    ((asyncStep σ e).pending = σ.pending ∧ (asyncStep σ e).game.isLLMThinking = false) ∨
    (∃ p, (asyncStep σ e).pending = σ.pending ++ [p] ∧
      (asyncStep σ e).game.isLLMThinking = true ∧
      ∃ call, call.isModelCall = true ∧ (asyncStep σ e).game.effects.getLast? = some call) := by
  cases e with
  | newCustomerClick d =>
    simp only [asyncStep, hth, Bool.false_eq_true, if_false]
    split
    · rename_i s cbd hs
      right
      exact ⟨_, rfl, startNewCustomerInteractionSend_started _ _ _ _ hs⟩
    · rename_i s hs
      left
      exact ⟨rfl, startNewCustomerInteractionSend_none _ _ _ hs⟩
  | sendMessage t =>
    simp only [asyncStep]
    split
    · left; exact ⟨rfl, hth⟩
    · rename_i c hc
      simp only [hth, Bool.false_eq_true, if_false]
      right
      exact ⟨_, rfl, processPlayerTurnSend_started _ c t hc hth⟩
  | acceptClick =>
    simp only [asyncStep]
    split
    · rename_i s p hs
      right
      exact ⟨_, rfl, handleAcceptPriceToRemark_some _ _ _ hs⟩
    · left
      exact ⟨rfl, handleAcceptPrice_isLLMThinking _ _ hth⟩
  | endClick =>
    simp only [asyncStep]
    split
    · rename_i s hs
      right
      exact ⟨_, rfl, handleEndNegotiationToRemark_some _ _ hs⟩
    · left
      exact ⟨rfl, handleEndNegotiation_isLLMThinking _ _ hth⟩
  | loadClick => cases he
  | timerFires i => cases he
  | responseArrives i r => cases he
  | remarkArrives i k => cases he

theorem resumeAcceptRemark_isLLMThinking (s : GameState) (price : Int) (t : CustomerType)
    (k : List Char) : (resumeAcceptRemark s price t k).isLLMThinking = false := by
  unfold resumeAcceptRemark
  simp only
  split
  · split
    · exact finalizeDeal_isLLMThinking _ _ rfl
    · exact finalizeSale_isLLMThinking _ _ _ rfl
  · rfl

theorem resumeEndRemark_isLLMThinking (s : GameState) (k : List Char) :
    (resumeEndRemark s k).isLLMThinking = false := by
  unfold resumeEndRemark
  simp only
  split <;> simp

theorem asyncStep_oneCall (σ : AsyncState) (e : AsyncEvent) (h : OneCall σ)
    (hq : Undisturbed σ e) : OneCall (asyncStep σ e) := by
  obtain ⟨hlen, hflag⟩ := h
  by_cases hs : e.startsHandler = true
  · by_cases hth : σ.game.isLLMThinking = true
    · obtain ⟨h1, _, h3⟩ := asyncStep_guard σ e hs hth
      exact ⟨by rw [h1]; exact hlen, fun _ => h3⟩
    · have hth' : σ.game.isLLMThinking = false := by simpa using hth
      have hnil : σ.pending = [] := by
        by_contra hne
        rw [hflag hne] at hth'
        cases hth'
      rcases asyncStep_start σ e hs hth' with ⟨h1, _⟩ | ⟨p, h1, h2, _⟩
      · rw [OneCall, h1, hnil]
        exact ⟨by simp, fun hne => absurd rfl hne⟩
      · rw [OneCall, h1, hnil]
        exact ⟨by simp, fun _ => h2⟩
  · cases e with
    | newCustomerClick d => exact absurd rfl hs
    | sendMessage t => exact absurd rfl hs
    | acceptClick => exact absurd rfl hs
    | endClick => exact absurd rfl hs
    | loadClick =>
      have hnil : σ.pending = [] := hq
      simp only [asyncStep, OneCall, hnil]
      exact ⟨by simp, fun hne => absurd rfl hne⟩
    | timerFires i =>
      have hnil : σ.pending = [] := hq
      simp only [asyncStep, OneCall, hnil]
      exact ⟨by simp, fun hne => absurd rfl hne⟩
    | responseArrives i r =>
      simp only [asyncStep]
      split
      · rename_i cbd hg
        obtain ⟨_, h2⟩ := pending_of_get? _ _ _ hlen hg
        simp only [OneCall, h2]
        exact ⟨by simp, fun hne => absurd rfl hne⟩
      · rename_i hg
        obtain ⟨h1, h2⟩ := pending_of_get? _ _ _ hlen hg
        have hth : σ.game.isLLMThinking = true := hflag (by rw [h1]; simp)
        split
        · rename_i s p hr
          simp only [OneCall, h2, List.nil_append, List.length_singleton, le_refl, true_and]
          intro _
          unfold resumeTurnResponse at hr
          split at hr
          · rename_i s' hs'
            simp only [Prod.mk.injEq] at hr
            rw [← hr.1, (processPlayerTurnToRemark_some _ _ _ hs').1]
            exact hth
          · simp at hr
        · simp only [OneCall, h2]
          exact ⟨by simp, fun hne => absurd rfl hne⟩
      · exact ⟨hlen, hflag⟩
    | remarkArrives i k =>
      simp only [asyncStep]
      split
      · rename_i hg
        obtain ⟨_, h2⟩ := pending_of_get? _ _ _ hlen hg
        simp only [OneCall, h2]
        exact ⟨by simp, fun hne => absurd rfl hne⟩
      · rename_i hg
        obtain ⟨_, h2⟩ := pending_of_get? _ _ _ hlen hg
        simp only [OneCall, h2]
        exact ⟨by simp, fun hne => absurd rfl hne⟩
      · rename_i hg
        obtain ⟨_, h2⟩ := pending_of_get? _ _ _ hlen hg
        simp only [OneCall, h2]
        exact ⟨by simp, fun hne => absurd rfl hne⟩
      · exact ⟨hlen, hflag⟩

theorem foldl_asyncStep_oneCall (events : List AsyncEvent) (σ : AsyncState) (h : OneCall σ)
    (hq : UndisturbedRun σ events) : OneCall (events.foldl asyncStep σ) := by
  induction events generalizing σ with
  | nil => exact h
  | cons e es ih => exact ih _ (asyncStep_oneCall σ e h hq.1) hq.2

/-! ### The handlers run as one step are the two parts run one after the other -/

theorem handleEndNegotiation_split (s : GameState) (k : List Char) :
    (∀ s', handleEndNegotiationToRemark s = some s' →
      handleEndNegotiation s k = resumeEndRemark s' k) ∧
    (handleEndNegotiationToRemark s = none →
      handleEndNegotiation s k = handleEndNegotiation s []) := by
  unfold handleEndNegotiationToRemark handleEndNegotiation resumeEndRemark
  cases hc : s.currentCustomer with
  | none => exact ⟨fun s' h => (by cases h), fun _ => (by trivial)⟩
  | some c =>
    cases hth : s.isLLMThinking with
    | true => exact ⟨fun s' h => (by simp at h), fun _ => (by trivial)⟩
    | false =>
      cases hty : s.currentCustomerType with
      | none =>
        simp only [Bool.false_eq_true, if_false, emit_currentCustomerType, hty,
          getConcludingRemark]
        exact ⟨fun s' h => (by cases h), fun _ => (by trivial)⟩
      | some ty =>
        cases hb : (c.itemData.isSome || c.itemToSell.isSome) with
        | false =>
          simp only [Bool.false_eq_true, if_false, emit_currentCustomerType, hty,
            getConcludingRemark, hb]
          exact ⟨fun s' h => (by cases h), fun _ => (by trivial)⟩
        | true =>
          simp only [Bool.false_eq_true, if_false, emit_currentCustomerType, hty,
            getConcludingRemark, hb, if_true]
          refine ⟨fun s' h => ?_, fun h => by cases h⟩
          simp only [Option.some.injEq] at h
          subst h
          rfl

theorem handleAcceptPrice_split (s : GameState) (k : List Char) :
    (∀ s' price customerType,
      handleAcceptPriceToRemark s = some (s', Pending.acceptRemark price customerType) →
      handleAcceptPrice s k = resumeAcceptRemark s' price customerType k) ∧
    (handleAcceptPriceToRemark s = none → handleAcceptPrice s k = handleAcceptPrice s []) := by
  unfold handleAcceptPriceToRemark handleAcceptPrice resumeAcceptRemark
  cases hc : s.currentCustomer with
  | none => exact ⟨fun s' _ _ h => (by cases h), fun _ => (by trivial)⟩
  | some c =>
    cases hth : s.isLLMThinking with
    | true => exact ⟨fun s' _ _ h => (by simp at h), fun _ => (by trivial)⟩
    | false =>
      simp only [Bool.false_eq_true, if_false]
      by_cases hty : (s.currentCustomerType == some CustomerType.seller) = true
      · simp only [hty, if_true]
        cases ha : c.currentAskingPrice with
        | none => exact ⟨fun s' _ _ h => (by cases h), fun _ => (by trivial)⟩
        | some a =>
          simp only
          by_cases h0 : a ≤ 0
          · simp only [h0, if_true]
            exact ⟨fun s' _ _ h => (by cases h), fun _ => (by trivial)⟩
          · simp only [h0, if_false]
            by_cases h1 : s.playerCash ≥ a
            · simp only [h1, if_true]
              cases hb : c.itemData.isSome with
              | false =>
                simp only [getConcludingRemark, hb, Bool.false_eq_true, if_false]
                exact ⟨fun s' _ _ h => (by cases h), fun _ => (by trivial)⟩
              | true =>
                simp only [getConcludingRemark, hb, if_true]
                refine ⟨fun s' p t h => ?_, fun h => (by cases h)⟩
                simp only [Option.some.injEq, Prod.mk.injEq, Pending.acceptRemark.injEq] at h
                obtain ⟨e1, e2, e3⟩ := h
                subst e1 e2 e3
                simp only [logRemark_currentCustomer, emit_currentCustomer, hc]
            · simp only [h1, if_false]
              exact ⟨fun s' _ _ h => (by cases h), fun _ => (by trivial)⟩
      · simp only [hty, Bool.false_eq_true, if_false]
        cases ha : c.currentOffer with
        | none => exact ⟨fun s' _ _ h => (by cases h), fun _ => (by trivial)⟩
        | some a =>
          simp only
          by_cases h0 : a ≤ 0
          · simp only [h0, if_true]
            exact ⟨fun s' _ _ h => (by cases h), fun _ => (by trivial)⟩
          · simp only [h0, if_false]
            cases hb : c.itemToSell.isSome with
            | false =>
              simp only [getConcludingRemark, hb, Bool.false_eq_true, if_false]
              exact ⟨fun s' _ _ h => (by cases h), fun _ => (by trivial)⟩
            | true =>
              simp only [getConcludingRemark, hb, if_true]
              refine ⟨fun s' p t h => ?_, fun h => (by cases h)⟩
              simp only [Option.some.injEq, Prod.mk.injEq, Pending.acceptRemark.injEq] at h
              obtain ⟨e1, e2, e3⟩ := h
              subst e1 e2 e3
              simp only [logRemark_currentCustomer, emit_currentCustomer, hc]

theorem patienceUpdate_split (s : GameState) (c : Session) (tags : Tags) (text k : List Char) :
    (∀ s', patienceBlockToRemark s c tags text = some s' →
      (patienceUpdate s c tags text k).1 =
        { logRemark s' (some k) with
          timers := (logRemark s' (some k)).timers ++ [⟨EndReason.patienceZero, 1500⟩] } ∧
      (patienceUpdate s c tags text k).2.2 = true) ∧
    (patienceBlockToRemark s c tags text = none →
      patienceUpdate s c tags text k = patienceUpdate s c tags text []) := by
  unfold patienceBlockToRemark patienceUpdate
  cases hn : numberTag tags "PATIENCE" with
  | none => exact ⟨fun s' h => (by cases h), fun _ => (by trivial)⟩
  | some delta =>
    simp only
    by_cases hz : max 0 (c.customerData.currentPatience + delta) ≤ 0
    · simp only [hz, if_true, emit_currentCustomerType]
      cases hty : s.currentCustomerType with
      | none =>
        simp only [getConcludingRemark]
        exact ⟨fun s' h => (by cases h), fun _ => (by trivial)⟩
      | some ty =>
        cases hb : (c.itemData.isSome || c.itemToSell.isSome) with
        | false =>
          simp only [getConcludingRemark, hb, Bool.false_eq_true, if_false]
          exact ⟨fun s' h => (by cases h), fun _ => (by trivial)⟩
        | true =>
          simp only [getConcludingRemark, hb, if_true]
          refine ⟨fun s' h => ?_, fun h => (by cases h)⟩
          simp only [Option.some.injEq] at h
          subst h
          exact ⟨rfl, trivial⟩
    · simp only [hz, if_false]
      exact ⟨fun s' h => (by cases h), fun _ => (by trivial)⟩

/-- The second part of `processPlayerTurn` run as one step is the part up to the `await` of
`getConcludingRemark` followed by the part after it, and does not read the remark when that
`await` is not reached. -/
theorem processPlayerTurnReceive_split (s : GameState) (r : Option (List Char))
    (k : List Char) :
    (∀ s', processPlayerTurnToRemark s r = some s' →
      processPlayerTurnReceive s r k = resumePatienceRemark s' k) ∧
    (processPlayerTurnToRemark s r = none →
      processPlayerTurnReceive s r k = processPlayerTurnReceive s r []) := by
  unfold processPlayerTurnToRemark processPlayerTurnReceive tagUpdates
  cases hc : s.currentCustomer with
  | none => exact ⟨fun s' h => (by cases h), fun _ => (by trivial)⟩
  | some c =>
    cases r with
    | none => exact ⟨fun s' h => (by cases h), fun _ => (by trivial)⟩
    | some text =>
      cases text with
      | nil => exact ⟨fun s' h => (by cases h), fun _ => (by trivial)⟩
      | cons ch more =>
        simp only
        generalize revealUpdate _ c (parseTags (ch :: more)) = R
        obtain ⟨g1, g2⟩ := patienceUpdate_split R.1 R.2 (parseTags (ch :: more)) (ch :: more) k
        constructor
        · intro s' h
          obtain ⟨e1, e2⟩ := g1 s' h
          unfold finishTurn resumePatienceRemark
          simp only [e2, Bool.not_true, Bool.false_eq_true, if_false, e1]
        · intro h
          simp only [g2 h]

/-- Claim C20 fails as stated.  The sample seller is active and no call is outstanding.  The
player sends a message: the call of `processPlayerTurn` is outstanding and the flag is set.  The
player clicks the load button: `loadGame` ends the session through `endCurrentInteraction`,
which resets the flag while the call is still outstanding.  A click on the new-customer button
then passes the guard and makes a second call: two calls are outstanding. -/
theorem flag_cleared_while_call_outstanding_counterexample :
    OneCall activePage ∧
    (asyncStep activePage (AsyncEvent.sendMessage "Hello".toList)).pending =
      [Pending.turnResponse] ∧
    (asyncStep activePage (AsyncEvent.sendMessage "Hello".toList)).game.isLLMThinking = true ∧
    (List.foldl asyncStep activePage
      [AsyncEvent.sendMessage "Hello".toList, AsyncEvent.loadClick]).pending =
      [Pending.turnResponse] ∧
    (List.foldl asyncStep activePage
      [AsyncEvent.sendMessage "Hello".toList, AsyncEvent.loadClick]).game.isLLMThinking = false ∧
    ¬ OneCall (List.foldl asyncStep activePage
      [AsyncEvent.sendMessage "Hello".toList, AsyncEvent.loadClick]) ∧
    ∃ customerBaseData, (List.foldl asyncStep activePage
      [AsyncEvent.sendMessage "Hello".toList, AsyncEvent.loadClick,
       AsyncEvent.newCustomerClick firstStartDraws]).pending =
      [Pending.turnResponse, Pending.firstResponse customerBaseData] := by
  have h0 : OneCall activePage := ⟨by decide, fun h => absurd rfl h⟩
  have h1 : (asyncStep activePage (AsyncEvent.sendMessage "Hello".toList)).pending =
      [Pending.turnResponse] := by decide
  have h2 : (asyncStep activePage (AsyncEvent.sendMessage "Hello".toList)).game.isLLMThinking =
      true := by decide
  have h3 : (List.foldl asyncStep activePage
      [AsyncEvent.sendMessage "Hello".toList, AsyncEvent.loadClick]).pending =
      [Pending.turnResponse] := by decide
  have h4 : (List.foldl asyncStep activePage
      [AsyncEvent.sendMessage "Hello".toList, AsyncEvent.loadClick]).game.isLLMThinking =
      false := by decide
  refine ⟨h0, h1, h2, h3, h4, ?_, ?_⟩
  · intro h
    have := h.2 (by rw [h3]; simp)
    rw [h4] at this
    cases this
  · have h5 : (List.foldl asyncStep activePage
        [AsyncEvent.sendMessage "Hello".toList, AsyncEvent.loadClick]).game.currentCustomerType =
        none := by decide
    have h6 : (List.foldl asyncStep activePage
        [AsyncEvent.sendMessage "Hello".toList, AsyncEvent.loadClick]).game.shopInventory =
        [] := by decide
    obtain ⟨s1, cbd, hp⟩ := prepareSession_seller_succeeds
      (startPreamble (List.foldl asyncStep activePage
        [AsyncEvent.sendMessage "Hello".toList, AsyncEvent.loadClick]).game firstStartDraws)
      firstStartDraws
      (by rw [(startPreamble_fields _ _).1, h6]; rfl)
      isDraw_zero isDraw_zero isDraw_zero isDraw_zero
    refine ⟨cbd, ?_⟩
    have hs : startNewCustomerInteractionSend (List.foldl asyncStep activePage
        [AsyncEvent.sendMessage "Hello".toList, AsyncEvent.loadClick]).game firstStartDraws =
        (s1, some cbd) := by
      unfold startNewCustomerInteractionSend
      simp only [hp]
    have e : List.foldl asyncStep activePage
        [AsyncEvent.sendMessage "Hello".toList, AsyncEvent.loadClick,
         AsyncEvent.newCustomerClick firstStartDraws] =
        asyncStep (List.foldl asyncStep activePage
          [AsyncEvent.sendMessage "Hello".toList, AsyncEvent.loadClick])
          (AsyncEvent.newCustomerClick firstStartDraws) := rfl
    rw [e]
    simp only [asyncStep, h4, Bool.false_eq_true, if_false, hs, h3]
    rfl

/-- Claim C20 as amended.  Each of `startNewCustomerInteraction`, `processPlayerTurn`,
`handleAcceptPrice` and `handleEndNegotiation` makes no call of the model when it is started
while `isLLMThinking` is set; started while the flag is not set, it either makes no call and
leaves the flag unset or reaches its call with the flag set; and as long as
`endCurrentInteraction` is not run by the load button or by a timer while a call is outstanding,
at most one call is outstanding and the flag is set while it is. -/
theorem one_call_outstanding_when_undisturbed :
    (∀ (σ : AsyncState) (e : AsyncEvent),
      e.startsHandler = true → σ.game.isLLMThinking = true →
      (asyncStep σ e).pending = σ.pending ∧
        modelCalls (asyncStep σ e).game.effects = modelCalls σ.game.effects) ∧
    (∀ (σ : AsyncState) (e : AsyncEvent),
      e.startsHandler = true → σ.game.isLLMThinking = false →
      ((asyncStep σ e).pending = σ.pending ∧ (asyncStep σ e).game.isLLMThinking = false) ∨
      (∃ p, (asyncStep σ e).pending = σ.pending ++ [p] ∧
        (asyncStep σ e).game.isLLMThinking = true ∧
        ∃ call, call.isModelCall = true ∧
          (asyncStep σ e).game.effects.getLast? = some call)) ∧
    (∀ (σ : AsyncState) (events : List AsyncEvent),
      OneCall σ → UndisturbedRun σ events → OneCall (events.foldl asyncStep σ)) := by
  refine ⟨?_, asyncStep_start, fun σ events h hq => foldl_asyncStep_oneCall events σ h hq⟩
  intro σ e he hth
  obtain ⟨h1, h2, _⟩ := asyncStep_guard σ e he hth
  exact ⟨h1, h2⟩

theorem one_call_outstanding_when_undisturbed_witness :
    OneCall activePage ∧
    UndisturbedRun activePage
      [AsyncEvent.sendMessage "Hello".toList,
       AsyncEvent.responseArrives 0 (some "Hi. [PRICE_ASK: 140]".toList),
       AsyncEvent.loadClick] ∧
    OneCall (List.foldl asyncStep activePage
      [AsyncEvent.sendMessage "Hello".toList,
       AsyncEvent.responseArrives 0 (some "Hi. [PRICE_ASK: 140]".toList),
       AsyncEvent.loadClick]) := by
  have h0 : OneCall activePage := ⟨by decide, fun h => absurd rfl h⟩
  have hq : UndisturbedRun activePage
      [AsyncEvent.sendMessage "Hello".toList,
       AsyncEvent.responseArrives 0 (some "Hi. [PRICE_ASK: 140]".toList),
       AsyncEvent.loadClick] := by
    refine ⟨trivial, trivial, ?_, trivial⟩
    show (asyncStep (asyncStep activePage (AsyncEvent.sendMessage "Hello".toList))
      (AsyncEvent.responseArrives 0 (some "Hi. [PRICE_ASK: 140]".toList))).pending = []
    decide
  exact ⟨h0, hq, one_call_outstanding_when_undisturbed.2.2 activePage _ h0 hq⟩

/-! ### The appraisal flag -/

@[simp]
theorem getConcludingRemark_appraisalUsedThisTurn (s : GameState) (b : Bool) (r : String)
    (fp : Option Int) (t : Option CustomerType) (k : List Char) :
    (getConcludingRemark s b r fp t k).1.appraisalUsedThisTurn = s.appraisalUsedThisTurn := by
  unfold getConcludingRemark
  split
  · split <;> rfl
  · rfl

@[simp]
theorem logRemark_appraisalUsedThisTurn (s : GameState) (r : Option (List Char)) :
    (logRemark s r).appraisalUsedThisTurn = s.appraisalUsedThisTurn := by
  unfold logRemark
  split
  · split <;> rfl
  · rfl

@[simp]
theorem patienceUpdate_appraisalUsedThisTurn (s : GameState) (c : Session) (tags : Tags)
    (text remark : List Char) :
    (patienceUpdate s c tags text remark).1.appraisalUsedThisTurn = s.appraisalUsedThisTurn := by
  unfold patienceUpdate
  split
  · rfl
  · simp only
    split <;> simp

@[simp]
theorem sellerPriceUpdate_appraisalUsedThisTurn (s : GameState) (c : Session) (tags : Tags) :
    (sellerPriceUpdate s c tags).1.appraisalUsedThisTurn = s.appraisalUsedThisTurn := by
  unfold sellerPriceUpdate
  split <;> rfl

@[simp]
theorem buyerPriceUpdate_appraisalUsedThisTurn (s : GameState) (c : Session) (tags : Tags) :
    (buyerPriceUpdate s c tags).1.appraisalUsedThisTurn = s.appraisalUsedThisTurn := by
  unfold buyerPriceUpdate
  split <;> rfl

@[simp]
theorem revealUpdate_appraisalUsedThisTurn (s : GameState) (c : Session) (tags : Tags) :
    (revealUpdate s c tags).1.appraisalUsedThisTurn = s.appraisalUsedThisTurn := by
  unfold revealUpdate
  simp only
  split <;> rfl

@[simp]
theorem finishTurn_appraisalUsedThisTurn (q : GameState × Session × Bool) (text : List Char) :
    (finishTurn q text).appraisalUsedThisTurn = q.1.appraisalUsedThisTurn := by
  unfold finishTurn
  simp only
  split <;> rfl

@[simp]
theorem processPlayerTurnSend_appraisalUsedThisTurn (s : GameState) (t : List Char) :
    (processPlayerTurnSend s t).appraisalUsedThisTurn = s.appraisalUsedThisTurn := by
  unfold processPlayerTurnSend
  split
  · rfl
  · split <;> rfl

theorem finalizeDeal_appraisalKept (s : GameState) (p : Int) :
    (finalizeDeal s p).currentCustomer = none ∨
      (finalizeDeal s p).appraisalUsedThisTurn = s.appraisalUsedThisTurn := by
  unfold finalizeDeal
  split
  · right; rfl
  · split
    · left; simp
    · right; rfl

theorem finalizeSale_appraisalKept (s : GameState) (sold : Option InventoryItem) (p : Int) :
    (finalizeSale s sold p).currentCustomer = none ∨
      (finalizeSale s sold p).appraisalUsedThisTurn = s.appraisalUsedThisTurn := by
  unfold finalizeSale
  split
  · left; simp
  · right; rfl

theorem finalizeDeal_appraisalKept_of (s s1 : GameState) (p : Int)
    (h : s1.appraisalUsedThisTurn = s.appraisalUsedThisTurn) :
    (finalizeDeal s1 p).currentCustomer = none ∨
      (finalizeDeal s1 p).appraisalUsedThisTurn = s.appraisalUsedThisTurn := by
  rw [← h]
  exact finalizeDeal_appraisalKept s1 p

theorem finalizeSale_appraisalKept_of (s s1 : GameState) (sold : Option InventoryItem) (p : Int)
    (h : s1.appraisalUsedThisTurn = s.appraisalUsedThisTurn) :
    (finalizeSale s1 sold p).currentCustomer = none ∨
      (finalizeSale s1 sold p).appraisalUsedThisTurn = s.appraisalUsedThisTurn := by
  rw [← h]
  exact finalizeSale_appraisalKept s1 sold p

theorem sellerAcceptUpdate_appraisalKept (s : GameState) (c : Session) (tags : Tags)
    (text : List Char) :
    (sellerAcceptUpdate s c tags text).1.currentCustomer = none ∨
      (sellerAcceptUpdate s c tags text).1.appraisalUsedThisTurn = s.appraisalUsedThisTurn := by
  unfold sellerAcceptUpdate
  split
  · split
    · simp only
      rcases finalizeDeal_appraisalKept
        ((s.emit (Effect.addDialogueLog (Speaker.customer c.customerData.name)
          (LogLine.text text))).emit (Effect.showMessage (Message.dealAgreed (by assumption))))
        (by assumption) with h | h
      · left; exact h
      · right; rw [h]; rfl
    · right; rfl
  · right; rfl

theorem buyerAcceptUpdate_appraisalKept (s : GameState) (c : Session) (tags : Tags)
    (text : List Char) :
    (buyerAcceptUpdate s c tags text).1.currentCustomer = none ∨
      (buyerAcceptUpdate s c tags text).1.appraisalUsedThisTurn = s.appraisalUsedThisTurn := by
  unfold buyerAcceptUpdate
  split
  · simp only
    rcases finalizeSale_appraisalKept
      ((s.emit (Effect.addDialogueLog (Speaker.customer c.customerData.name)
        (LogLine.text text))).emit (Effect.showMessage (Message.saleAgreed (by assumption))))
      c.itemToSell (by assumption) with h | h
    · left; exact h
    · right; rw [h]; rfl
  · right; rfl

theorem tagUpdates_appraisalKept (s : GameState) (c : Session) (tags : Tags)
    (text remark : List Char) :
    (tagUpdates s c tags text remark).1.currentCustomer = none ∨
      (tagUpdates s c tags text remark).1.appraisalUsedThisTurn = s.appraisalUsedThisTurn := by
  unfold tagUpdates
  simp only
  split
  · split
    · unfold sellerUpdate
      rcases sellerAcceptUpdate_appraisalKept
        (sellerPriceUpdate (patienceUpdate (revealUpdate s c tags).1 (revealUpdate s c tags).2
          tags text remark).1 (patienceUpdate (revealUpdate s c tags).1 (revealUpdate s c tags).2
          tags text remark).2.1 tags).1
        (sellerPriceUpdate (patienceUpdate (revealUpdate s c tags).1 (revealUpdate s c tags).2
          tags text remark).1 (patienceUpdate (revealUpdate s c tags).1 (revealUpdate s c tags).2
          tags text remark).2.1 tags).2 tags text with h | h
      · left; exact h
      · right; rw [h]; simp
    · unfold buyerUpdate
      rcases buyerAcceptUpdate_appraisalKept
        (buyerPriceUpdate (patienceUpdate (revealUpdate s c tags).1 (revealUpdate s c tags).2
          tags text remark).1 (patienceUpdate (revealUpdate s c tags).1 (revealUpdate s c tags).2
          tags text remark).2.1 tags).1
        (buyerPriceUpdate (patienceUpdate (revealUpdate s c tags).1 (revealUpdate s c tags).2
          tags text remark).1 (patienceUpdate (revealUpdate s c tags).1 (revealUpdate s c tags).2
          tags text remark).2.1 tags).2 tags text with h | h
      · left; exact h
      · right; rw [h]; simp
  · right; simp

theorem processPlayerTurnReceive_appraisalKept (s : GameState) (r : Option (List Char))
    (k : List Char) :
    (processPlayerTurnReceive s r k).currentCustomer = none ∨
      (processPlayerTurnReceive s r k).appraisalUsedThisTurn = s.appraisalUsedThisTurn := by
  unfold processPlayerTurnReceive
  split
  · left; simpa
  · split
    · simp only [finishTurn_currentCustomer, finishTurn_appraisalUsedThisTurn]
      exact tagUpdates_appraisalKept _ _ _ _ _
    · right; rfl

theorem processPlayerTurn_appraisalKept (s : GameState) (t : List Char)
    (r : Option (List Char)) (k : List Char) :
    (processPlayerTurn s t r k).currentCustomer = none ∨
      (processPlayerTurn s t r k).appraisalUsedThisTurn = s.appraisalUsedThisTurn := by
  unfold processPlayerTurn
  split
  · right; rfl
  · split
    · right; rfl
    · rcases processPlayerTurnReceive_appraisalKept (processPlayerTurnSend s t) r k with h | h
      · left; exact h
      · right; rw [h]; simp

theorem handleAcceptPrice_appraisalKept (s : GameState) (k : List Char) :
    (handleAcceptPrice s k).currentCustomer = none ∨
      (handleAcceptPrice s k).appraisalUsedThisTurn = s.appraisalUsedThisTurn := by
  unfold handleAcceptPrice
  split
  · right; rfl
  · split
    · right; rfl
    · split
      · split
        · right; rfl
        · split
          · right; rfl
          · split
            · simp only
              split
              · apply finalizeDeal_appraisalKept_of
                simp
              · right; simp
            · right; rfl
      · split
        · right; rfl
        · split
          · right; rfl
          · simp only
            split
            · apply finalizeSale_appraisalKept_of
              simp
            · right; simp

@[simp]
theorem handleEndNegotiation_appraisalUsedThisTurn (s : GameState) (k : List Char) :
    (handleEndNegotiation s k).appraisalUsedThisTurn = s.appraisalUsedThisTurn := by
  unfold handleEndNegotiation
  split
  · rfl
  · split
    · rfl
    · simp only
      split <;> simp

theorem fireTimer_appraisalKept (s : GameState) (i : Nat) :
    (fireTimer s i).currentCustomer = none ∨
      (fireTimer s i).appraisalUsedThisTurn = s.appraisalUsedThisTurn := by
  unfold fireTimer
  split
  · right; rfl
  · simp only
    split
    · left; simp
    · right; rfl

theorem appraisalRefused_of_used (s : GameState) (h : s.appraisalUsedThisTurn = true) :
    appraisalRefused s = s.emit (Effect.showMessage Message.appraiseOnce) := by
  unfold appraisalRefused
  rw [if_pos h]

theorem handleAppraiseItem_of_used (s : GameState) (d : AppraisalDraws)
    (h : s.appraisalUsedThisTurn = true) :
    handleAppraiseItem s d = s.emit (Effect.showMessage Message.appraiseOnce) := by
  unfold handleAppraiseItem
  split
  · exact appraisalRefused_of_used s h
  · rw [if_pos (by simp [h])]
    exact appraisalRefused_of_used s h

theorem handleAppraiseItem_first (s : GameState) (c : Session) (itemData : ItemData)
    (d : AppraisalDraws) (ht : s.currentCustomerType = some CustomerType.seller)
    (hc : s.currentCustomer = some c) (hi : c.itemData = some itemData)
    (hl : s.isLLMThinking = false) (hu : s.appraisalUsedThisTurn = false) :
    handleAppraiseItem s d =
      { s with
        appraisalUsedThisTurn := true
        effects := s.effects ++
          [Effect.disableAppraiseButton,
           Effect.displayAppraisalInfo (appraise itemData d),
           Effect.addDialogueLog Speaker.system (LogLine.appraisal (appraise itemData d)),
           Effect.showMessage Message.appraisalComplete,
           Effect.updateButtonStates (some CustomerType.seller) true true false] } := by
  obtain ⟨cash, inv, ty, cust, hist, think, used, nr, tm, eff⟩ := s
  simp only at ht hc hl hu
  subst ht hc hl hu
  simp [handleAppraiseItem, hi, GameState.emit]

theorem handleAppraiseItem_currentCustomer (s : GameState) (d : AppraisalDraws) :
    (handleAppraiseItem s d).currentCustomer = s.currentCustomer := by
  unfold handleAppraiseItem appraisalRefused
  split
  · split_ifs <;> rfl
  · split_ifs
    · rfl
    · rfl
    · rfl
    · split <;> rfl

theorem sessionStep_currentCustomer_none (s : GameState) (e : SessionEvent)
    (h : s.currentCustomer = none) : (sessionStep s e).currentCustomer = none := by
  cases e with
  | negotiation e =>
    cases e with
    | playerTurn t r k =>
      show (processPlayerTurn s t r k).currentCustomer = none
      rw [processPlayerTurn_of_guard s t r k (Or.inl h)]
      exact h
    | acceptClick k =>
      show (handleAcceptPrice s k).currentCustomer = none
      unfold handleAcceptPrice
      rw [h]
      exact h
    | endClick k =>
      show (handleEndNegotiation s k).currentCustomer = none
      unfold handleEndNegotiation
      rw [h]
      exact h
    | timerFires i =>
      show (fireTimer s i).currentCustomer = none
      rcases fireTimer_currentCustomer s i with h' | h'
      · exact h'
      · rw [h', h]
  | appraiseClick d =>
    show (handleAppraiseItem s d).currentCustomer = none
    rw [handleAppraiseItem_currentCustomer, h]

theorem sessionStep_appraisalKept (s : GameState) (e : SessionEvent)
    (h : s.appraisalUsedThisTurn = true) :
    (sessionStep s e).currentCustomer = none ∨
      (sessionStep s e).appraisalUsedThisTurn = true := by
  rw [← h]
  cases e with
  | negotiation e =>
    cases e with
    | playerTurn t r k => exact processPlayerTurn_appraisalKept s t r k
    | acceptClick k => exact handleAcceptPrice_appraisalKept s k
    | endClick k => exact Or.inr (handleEndNegotiation_appraisalUsedThisTurn s k)
    | timerFires i => exact fireTimer_appraisalKept s i
  | appraiseClick d =>
    right
    show (handleAppraiseItem s d).appraisalUsedThisTurn = s.appraisalUsedThisTurn
    rw [handleAppraiseItem_of_used s d h]
    rfl

theorem foldl_sessionStep_appraisalKept (es : List SessionEvent) :
    ∀ s : GameState, s.currentCustomer = none ∨ s.appraisalUsedThisTurn = true →
      (es.foldl sessionStep s).currentCustomer = none ∨
        (es.foldl sessionStep s).appraisalUsedThisTurn = true := by
  induction es with
  | nil => intro s h; exact h
  | cons e es ih =>
    intro s h
    rw [List.foldl_cons]
    apply ih
    rcases h with h | h
    · exact Or.inl (sessionStep_currentCustomer_none s e h)
    · exact sessionStep_appraisalKept s e h

/-- Claim C21.  After a successful call of `handleAppraiseItem` (a seller with an item, no call
of the model under way, the appraisal not used yet), whatever its three draws: the flag
`appraisalUsedThisTurn` is set and the results are shown once; and after any events of the
session (turns, clicks on accept, end or appraise, timers) that leave the session running, a
further call of `handleAppraiseItem` changes no variable: the state is the same but for the
message "You can only appraise once per customer." in the trace, with no appraisal result.  A
step of the session leaves a set flag set unless the session ends, and the flag is reset by
`endCurrentInteraction` and at the start of `startNewCustomerInteraction`. -/
theorem appraisal_is_idempotent :
    (∀ (s : GameState) (c : Session) (itemData : ItemData) (d1 d2 : AppraisalDraws)
        (es : List SessionEvent),
      s.currentCustomerType = some CustomerType.seller → s.currentCustomer = some c →
      c.itemData = some itemData → s.isLLMThinking = false → s.appraisalUsedThisTurn = false →
      handleAppraiseItem s d1 =
        { s with
          appraisalUsedThisTurn := true
          effects := s.effects ++
            [Effect.disableAppraiseButton,
             Effect.displayAppraisalInfo (appraise itemData d1),
             Effect.addDialogueLog Speaker.system (LogLine.appraisal (appraise itemData d1)),
             Effect.showMessage Message.appraisalComplete,
             Effect.updateButtonStates (some CustomerType.seller) true true false] } ∧
      ((es.foldl sessionStep (handleAppraiseItem s d1)).currentCustomer ≠ none →
        (es.foldl sessionStep (handleAppraiseItem s d1)).appraisalUsedThisTurn = true ∧
        handleAppraiseItem (es.foldl sessionStep (handleAppraiseItem s d1)) d2 =
          { es.foldl sessionStep (handleAppraiseItem s d1) with
            effects := (es.foldl sessionStep (handleAppraiseItem s d1)).effects ++
              [Effect.showMessage Message.appraiseOnce] })) ∧
    (∀ (s : GameState) (e : SessionEvent), s.appraisalUsedThisTurn = true →
      (sessionStep s e).currentCustomer = none ∨ (sessionStep s e).appraisalUsedThisTurn = true) ∧
    (∀ (s : GameState) (reason : EndReason),
      (endCurrentInteraction s reason).appraisalUsedThisTurn = false) ∧
    (∀ (s : GameState) (d : StartDraws), (startPreamble s d).appraisalUsedThisTurn = false) := by
  refine ⟨?_, sessionStep_appraisalKept, ?_, fun s d => rfl⟩
  · intro s c itemData d1 d2 es ht hc hi hl hu
    have h1 := handleAppraiseItem_first s c itemData d1 ht hc hi hl hu
    refine ⟨h1, ?_⟩
    intro hn
    have hflag : (handleAppraiseItem s d1).appraisalUsedThisTurn = true := by rw [h1]
    rcases foldl_sessionStep_appraisalKept es _ (Or.inr hflag) with h | h
    · exact absurd h hn
    · exact ⟨h, handleAppraiseItem_of_used _ d2 h⟩
  · intro s reason
    unfold endCurrentInteraction
    simp only
    split_ifs <;> rfl

theorem appraisal_is_idempotent_witness :
    (handleAppraiseItem (sellerState 100) luckyAppraisal).appraisalUsedThisTurn = true ∧
    handleAppraiseItem
        ([SessionEvent.negotiation (NegotiationEvent.playerTurn "Too much".toList
            (some "Fine. [PRICE_ASK: 130]".toList) [])].foldl sessionStep
          (handleAppraiseItem (sellerState 100) luckyAppraisal)) unluckyAppraisal =
      { [SessionEvent.negotiation (NegotiationEvent.playerTurn "Too much".toList
            (some "Fine. [PRICE_ASK: 130]".toList) [])].foldl sessionStep
          (handleAppraiseItem (sellerState 100) luckyAppraisal) with
        effects :=
          ([SessionEvent.negotiation (NegotiationEvent.playerTurn "Too much".toList
            (some "Fine. [PRICE_ASK: 130]".toList) [])].foldl sessionStep
          (handleAppraiseItem (sellerState 100) luckyAppraisal)).effects ++
            [Effect.showMessage Message.appraiseOnce] } := by
  obtain ⟨h1, h2⟩ := appraisal_is_idempotent.1 (sellerState 100) sampleSeller sampleItem
    luckyAppraisal unluckyAppraisal
    [SessionEvent.negotiation (NegotiationEvent.playerTurn "Too much".toList
      (some "Fine. [PRICE_ASK: 130]".toList) [])] rfl rfl rfl rfl rfl
  refine ⟨by rw [h1], (h2 ?_).2⟩
  decide

/-! ### A turn whose call of the model returns `null` -/

theorem processPlayerTurn_null (s : GameState) (c : Session) (t k : List Char)
    (hc : s.currentCustomer = some c) (ht : s.isLLMThinking = false) :
    processPlayerTurn s t none k =
      { s with
        conversationHistory := s.conversationHistory ++ [Turn.user t]
        effects := s.effects ++
          [Effect.addDialogueLog Speaker.player (LogLine.text t),
           Effect.updateButtonStates s.currentCustomerType false false
             (s.currentCustomerType == some CustomerType.seller && !s.appraisalUsedThisTurn),
           Effect.showMessage Message.waitingForResponse,
           Effect.callGeminiApi (s.conversationHistory ++ [Turn.user t]) c.systemPrompt,
           Effect.showMessage Message.troubleResponding,
           Effect.updateButtonStates s.currentCustomerType true true
             (s.currentCustomerType == some CustomerType.seller &&
               !s.appraisalUsedThisTurn)] } := by
  obtain ⟨cash, inv, ty, cust, hist, think, used, nr, tm, eff⟩ := s
  simp only at hc ht
  subst hc ht
  simp [processPlayerTurn, processPlayerTurnSend, processPlayerTurnReceive, GameState.emit]

/-- Claim C22.  When the call of the model in `processPlayerTurn` returns `null`, the session
stays as it was: the current customer (with its current price or offer, its patience and its
revealed info), the customer type, `playerCash` and `shopInventory` are unchanged,
`isLLMThinking` is cleared, and the last call of `updateButtonStates` enables the message and
end controls again (the appraise button when the customer is a seller and the appraisal has
not been used).  The state after the turn is the state before it with the message of the player
appended to `conversationHistory` and a longer trace. -/
theorem null_response_keeps_session (s : GameState) (c : Session) (t k : List Char)
    (hc : s.currentCustomer = some c) (ht : s.isLLMThinking = false) :
    (processPlayerTurn s t none k).currentCustomer = some c ∧
    (processPlayerTurn s t none k).currentCustomerType = s.currentCustomerType ∧
    (processPlayerTurn s t none k).playerCash = s.playerCash ∧
    (processPlayerTurn s t none k).shopInventory = s.shopInventory ∧
    (processPlayerTurn s t none k).isLLMThinking = false ∧
    lastButtonStates (processPlayerTurn s t none k).effects =
      some (s.currentCustomerType, true, true,
        s.currentCustomerType == some CustomerType.seller && !s.appraisalUsedThisTurn) ∧
    (processPlayerTurn s t none k).conversationHistory =
      s.conversationHistory ++ [Turn.user t] ∧
    processPlayerTurn s t none k =
      { s with
        conversationHistory := s.conversationHistory ++ [Turn.user t]
        effects := (processPlayerTurn s t none k).effects } := by
  have h := processPlayerTurn_null s c t k hc ht
  refine ⟨?_, ?_, ?_, ?_, ?_, ?_, ?_, ?_⟩
  · rw [h]; exact hc
  · rw [h]
  · rw [h]
  · rw [h]
  · rw [h]; exact ht
  · rw [h]
    simp [lastButtonStates, List.foldl_append]
  · rw [h]
  · rw [h]

theorem null_response_keeps_session_witness :
    (processPlayerTurn (sellerState 100) "Fifty?".toList none []).currentCustomer =
      some sampleSeller ∧
    (processPlayerTurn (sellerState 100) "Fifty?".toList none []).playerCash = 100 ∧
    (processPlayerTurn (sellerState 100) "Fifty?".toList none []).isLLMThinking = false ∧
    lastButtonStates (processPlayerTurn (sellerState 100) "Fifty?".toList none []).effects =
      some (some CustomerType.seller, true, true, true) ∧
    (processPlayerTurn (sellerState 100) "Fifty?".toList none []).conversationHistory =
      [Turn.model "Hello [PRICE_ASK: 143]".toList, Turn.user "Fifty?".toList] :=
  have h := null_response_keeps_session (sellerState 100) sampleSeller "Fifty?".toList [] rfl rfl
  ⟨h.1, h.2.2.1, h.2.2.2.2.1, h.2.2.2.2.2.1, h.2.2.2.2.2.2.1⟩

/-! ### The prompt builders -/

theorem Property.isUndefined_iff {α : Type} (p : Property α) :
    p.isUndefined = true ↔ p = Property.undefined := by
  cases p <;> simp [Property.isUndefined]

theorem constructCustomerPromptOn_eq_nil (customerData : Option CustomerFields)
    (itemData : Option ItemFields) :
    constructCustomerPromptOn customerData itemData = [] ↔
      (customerData = none ∨
        ∃ cd, customerData = some cd ∧
          (cd.personality = Property.undefined ∨ cd.initialAskingPrice = Property.undefined ∨
            cd.minimumAcceptablePrice = Property.undefined ∨ cd.patience = Property.undefined ∨
            cd.itemThemeHint = Property.undefined)) ∨
      (itemData = none ∨
        ∃ item, itemData = some item ∧
          (item.condition = Property.undefined ∨ item.rarity = Property.undefined)) := by
  have hne : trim sellerPromptOpening.toList ≠ [] := by
    intro h
    have := sellerPrompt_nonempty
    rw [h] at this
    cases this
  unfold constructCustomerPromptOn
  generalize trim sellerPromptOpening.toList = prompt at hne
  cases customerData with
  | none => simp
  | some cd =>
    cases itemData with
    | none => simp
    | some item =>
      simp only [Bool.or_eq_true, Property.isUndefined_iff]
      split_ifs with h1 h2
      · simp only [true_iff]
        left; right
        exact ⟨_, rfl, by tauto⟩
      · simp only [true_iff]
        right; right
        exact ⟨_, rfl, h2⟩
      · simp only [hne, false_iff]
        rintro ((h | ⟨cd', hcd, h⟩) | (h | ⟨item', hitem, h⟩))
        · cases h
        · cases hcd
          exact h1 (by tauto)
        · cases h
        · cases hitem
          exact h2 h

theorem Property.truthy_eq_false (p : Property (List Char)) :
    p.truthy = false ↔ p = Property.undefined ∨ p = Property.null ∨ p = Property.value [] := by
  cases p with
  | undefined => simp [Property.truthy]
  | null => simp [Property.truthy]
  | value t => cases t <;> simp [Property.truthy]

theorem constructBuyerPromptOn_eq_nil (customerData : Option CustomerFields)
    (itemToSell : Option ItemFields) :
    constructBuyerPromptOn customerData itemToSell = [] ↔
      (customerData = none ∨
        ∃ cd, customerData = some cd ∧
          (cd.personality = Property.undefined ∨ cd.initialOffer = Property.undefined ∨
            cd.maximumAcceptablePrice = Property.undefined ∨ cd.patience = Property.undefined)) ∨
      (itemToSell = none ∨
        ∃ item, itemToSell = some item ∧
          (item.name.truthy = false ∨ item.description.truthy = false ∨
            item.condition.truthy = false ∨ item.rarity.truthy = false)) := by
  have hne : trim buyerPromptOpening.toList ≠ [] := by
    intro h
    have := buyerPrompt_nonempty
    rw [h] at this
    cases this
  unfold constructBuyerPromptOn
  generalize trim buyerPromptOpening.toList = prompt at hne
  cases customerData with
  | none => simp
  | some cd =>
    cases itemToSell with
    | none => simp
    | some item =>
      simp only [Bool.or_eq_true, Property.isUndefined_iff, Bool.not_eq_true']
      split_ifs with h1 h2
      · simp only [true_iff]
        left; right
        exact ⟨_, rfl, by tauto⟩
      · simp only [true_iff]
        right; right
        exact ⟨_, rfl, by tauto⟩
      · simp only [hne, false_iff]
        rintro ((h | ⟨cd', hcd, h⟩) | (h | ⟨item', hitem, h⟩))
        · cases h
        · cases hcd
          exact h1 (by tauto)
        · cases h
        · cases hitem
          exact h2 (by tauto)

theorem isEmpty_iff_data (t : String) : t.isEmpty = true ↔ t.data = [] := by
  rw [String.isEmpty_iff]
  constructor
  · intro h
    rw [h]
  · intro h
    exact String.ext h

theorem constructCustomerPrompt_eq_on (customerData : Option CustomerData)
    (itemData : Option ItemData) :
    constructCustomerPrompt customerData itemData =
      constructCustomerPromptOn (customerData.map CustomerData.fields)
        (itemData.map ItemData.fields) := by
  unfold constructCustomerPrompt constructCustomerPromptOn
  generalize trim sellerPromptOpening.toList = prompt
  cases customerData with
  | none => cases itemData <;> rfl
  | some cd =>
    cases itemData with
    | none =>
      simp only [Option.map_some', Option.map_none']
      split_ifs <;> rfl
    | some item =>
      obtain ⟨n, a, o, p, h, pa, cp, ps, mn, ia, ca, io, mx, co, ri⟩ := cd
      cases p <;> cases h <;> cases mn <;> cases ia <;>
        simp [CustomerData.fields, ItemData.fields, Property.ofOption, Property.isUndefined]

theorem truthyText_eq (x : Option (List Char)) :
    truthyText x = (Property.ofNullable x).truthy := by
  cases x <;> rfl

theorem constructBuyerPrompt_eq_on (customerData : Option CustomerData)
    (itemToSell : Option InventoryItem) :
    constructBuyerPrompt customerData itemToSell =
      constructBuyerPromptOn (customerData.map CustomerData.fields)
        (itemToSell.map InventoryItem.fields) := by
  unfold constructBuyerPrompt constructBuyerPromptOn
  generalize trim buyerPromptOpening.toList = prompt
  cases customerData with
  | none => cases itemToSell <;> rfl
  | some cd =>
    cases itemToSell with
    | none =>
      simp only [Option.map_some', Option.map_none']
      split_ifs <;> rfl
    | some item =>
      obtain ⟨n, a, o, p, h, pa, cp, ps, mn, ia, ca, io, mx, co, ri⟩ := cd
      cases p <;> cases io <;> cases mx <;>
        simp [CustomerData.fields, InventoryItem.fields, Property.ofOption,
          Property.isUndefined, truthyText_eq, Property.truthy, isEmpty_iff_data]

theorem modelCalls_emit (s : GameState) (e : Effect) (h : e.isModelCall = false) :
    modelCalls (s.emit e).effects = modelCalls s.effects := by
  simp [modelCalls, GameState.emit, List.filter_append, h]

theorem endCurrentInteraction_modelCalls (s : GameState) (r : EndReason) :
    modelCalls (endCurrentInteraction s r).effects = modelCalls s.effects := by
  unfold endCurrentInteraction
  simp only
  split_ifs <;> simp [modelCalls, GameState.emit, List.filter_append, Effect.isModelCall]

theorem catchSetupError_modelCalls (s : GameState) (e : SetupError) :
    modelCalls (catchSetupError s e).effects = modelCalls s.effects := by
  unfold catchSetupError
  simp only
  split
  · rw [endCurrentInteraction_modelCalls]
    simp [modelCalls, GameState.emit, List.filter_append, Effect.isModelCall]
  · simp [modelCalls, GameState.emit, List.filter_append, Effect.isModelCall]

theorem startPreamble_modelCalls (s : GameState) (d : StartDraws) :
    modelCalls (startPreamble s d).effects = modelCalls s.effects := by
  simp [startPreamble, modelCalls, GameState.emit, List.filter_append, Effect.isModelCall]

theorem startNewCustomerInteraction_of_error (s : GameState) (d : StartDraws)
    (firstResponse : Option (List Char)) (e : SetupError) (hl : s.isLLMThinking = false)
    (h : prepareSession (startPreamble s d) d = Except.error e) :
    startNewCustomerInteractionSend s d = (catchSetupError (startPreamble s d) e, none) ∧
    startNewCustomerInteraction s d firstResponse = catchSetupError (startPreamble s d) e ∧
    modelCalls (startNewCustomerInteraction s d firstResponse).effects = modelCalls s.effects := by
  have h1 : startNewCustomerInteractionSend s d = (catchSetupError (startPreamble s d) e, none) := by
    unfold startNewCustomerInteractionSend
    simp only [h]
  have h2 : startNewCustomerInteraction s d firstResponse =
      catchSetupError (startPreamble s d) e := by
    unfold startNewCustomerInteraction
    rw [if_neg (by simp [hl]), h1]
  refine ⟨h1, h2, ?_⟩
  rw [h2, catchSetupError_modelCalls, startPreamble_modelCalls]

theorem prepareSession_sellerPrompt_empty (s : GameState) (d : StartDraws) (itemData : ItemData)
    (customerBaseData : CustomerData)
    (ht : chooseCustomerType s.shopInventory d.customerType = CustomerType.seller)
    (hi : generateItem d.item = some itemData)
    (hc : generateCustomerData (some itemData) d.seller = some customerBaseData)
    (hp : constructCustomerPrompt (some customerBaseData) (some itemData) = []) :
    prepareSession (startPreamble s d) d = Except.error SetupError.failedSellerPrompt := by
  have hty : (startPreamble s d).currentCustomerType = some CustomerType.seller := by
    rw [(startPreamble_fields s d).1, ht]
  unfold prepareSession
  rw [if_pos (by rw [hty]; rfl)]
  simp only [hi, hc, hp]
  rfl

theorem prepareSession_buyerPrompt_empty (s : GameState) (d : StartDraws)
    (itemToSell : InventoryItem) (customerBaseData : CustomerData)
    (ht : chooseCustomerType s.shopInventory d.customerType = CustomerType.buyer)
    (hi : index s.shopInventory ⌊d.itemToSell * (s.shopInventory.length : Rat)⌋ =
      some itemToSell)
    (hc : generateBuyerData (some itemToSell) d.buyer = some customerBaseData)
    (hp : constructBuyerPrompt (some customerBaseData) (some itemToSell) = []) :
    prepareSession (startPreamble s d) d = Except.error SetupError.failedBuyerPrompt := by
  have hty : (startPreamble s d).currentCustomerType = some CustomerType.buyer := by
    rw [(startPreamble_fields s d).1, ht]
  have hinv : (startPreamble s d).shopInventory = s.shopInventory := (startPreamble_fields s d).2.2.1
  have hlen : s.shopInventory.length ≠ 0 := by
    have := (chooseCustomerType_buyer_iff s.shopInventory d.customerType).1 ht
    omega
  unfold prepareSession
  rw [if_neg (by rw [hty]; decide), hinv, if_neg hlen]
  simp only [hi, hc, hp]
  rfl

/-- Claim C23.  `constructCustomerPrompt` returns the empty string exactly when the customer
record is missing or lacks (`undefined`) personality, initialAskingPrice,
minimumAcceptablePrice, patience or itemThemeHint, or the item record is missing or lacks
condition or rarity.  `constructBuyerPrompt` returns the empty string exactly when the customer
record is missing or lacks personality, initialOffer, maximumAcceptablePrice or patience, or the
item is missing or its name, description, condition or rarity is empty or absent.  On the
records of the program the builders are these functions.  When the builder returns the empty
string in `startNewCustomerInteraction`, the setup fails with "Failed to construct seller
prompt." or "Failed to construct buyer prompt.", no call is awaited, and the trace gets no call
of the model. -/
theorem prompt_builders_empty_iff_missing :
    (∀ (customerData : Option CustomerFields) (itemData : Option ItemFields),
      constructCustomerPromptOn customerData itemData = [] ↔
        (customerData = none ∨
          ∃ cd, customerData = some cd ∧
            (cd.personality = Property.undefined ∨ cd.initialAskingPrice = Property.undefined ∨
              cd.minimumAcceptablePrice = Property.undefined ∨
              cd.patience = Property.undefined ∨ cd.itemThemeHint = Property.undefined)) ∨
        (itemData = none ∨
          ∃ item, itemData = some item ∧
            (item.condition = Property.undefined ∨ item.rarity = Property.undefined))) ∧
    (∀ (customerData : Option CustomerFields) (itemToSell : Option ItemFields),
      constructBuyerPromptOn customerData itemToSell = [] ↔
        (customerData = none ∨
          ∃ cd, customerData = some cd ∧
            (cd.personality = Property.undefined ∨ cd.initialOffer = Property.undefined ∨
              cd.maximumAcceptablePrice = Property.undefined ∨
              cd.patience = Property.undefined)) ∨
        (itemToSell = none ∨
          ∃ item, itemToSell = some item ∧
            (item.name.EmptyOrAbsent ∨ item.description.EmptyOrAbsent ∨
              item.condition.EmptyOrAbsent ∨ item.rarity.EmptyOrAbsent))) ∧
    (∀ (customerData : Option CustomerData) (itemData : Option ItemData),
      constructCustomerPrompt customerData itemData =
        constructCustomerPromptOn (customerData.map CustomerData.fields)
          (itemData.map ItemData.fields)) ∧
    (∀ (customerData : Option CustomerData) (itemToSell : Option InventoryItem),
      constructBuyerPrompt customerData itemToSell =
        constructBuyerPromptOn (customerData.map CustomerData.fields)
          (itemToSell.map InventoryItem.fields)) ∧
    (∀ (s : GameState) (d : StartDraws) (firstResponse : Option (List Char))
        (itemData : ItemData) (customerBaseData : CustomerData),
      s.isLLMThinking = false →
      chooseCustomerType s.shopInventory d.customerType = CustomerType.seller →
      generateItem d.item = some itemData →
      generateCustomerData (some itemData) d.seller = some customerBaseData →
      constructCustomerPrompt (some customerBaseData) (some itemData) = [] →
      prepareSession (startPreamble s d) d = Except.error SetupError.failedSellerPrompt ∧
      (startNewCustomerInteractionSend s d).2 = none ∧
      modelCalls (startNewCustomerInteraction s d firstResponse).effects =
        modelCalls s.effects) ∧
    (∀ (s : GameState) (d : StartDraws) (firstResponse : Option (List Char))
        (itemToSell : InventoryItem) (customerBaseData : CustomerData),
      s.isLLMThinking = false →
      chooseCustomerType s.shopInventory d.customerType = CustomerType.buyer →
      index s.shopInventory ⌊d.itemToSell * (s.shopInventory.length : Rat)⌋ = some itemToSell →
      generateBuyerData (some itemToSell) d.buyer = some customerBaseData →
      constructBuyerPrompt (some customerBaseData) (some itemToSell) = [] →
      prepareSession (startPreamble s d) d = Except.error SetupError.failedBuyerPrompt ∧
      (startNewCustomerInteractionSend s d).2 = none ∧
      modelCalls (startNewCustomerInteraction s d firstResponse).effects =
        modelCalls s.effects) := by
  refine ⟨constructCustomerPromptOn_eq_nil, ?_, constructCustomerPrompt_eq_on,
    constructBuyerPrompt_eq_on, ?_, ?_⟩
  · intro customerData itemToSell
    rw [constructBuyerPromptOn_eq_nil]
    simp only [Property.truthy_eq_false, Property.EmptyOrAbsent]
  · intro s d firstResponse itemData customerBaseData hl ht hi hc hp
    have he := prepareSession_sellerPrompt_empty s d itemData customerBaseData ht hi hc hp
    obtain ⟨h1, _, h3⟩ := startNewCustomerInteraction_of_error s d firstResponse _ hl he
    refine ⟨he, ?_, h3⟩
    rw [h1]
  · intro s d firstResponse itemToSell customerBaseData hl ht hi hc hp
    have he := prepareSession_buyerPrompt_empty s d itemToSell customerBaseData ht hi hc hp
    obtain ⟨h1, _, h3⟩ := startNewCustomerInteraction_of_error s d firstResponse _ hl he
    refine ⟨he, ?_, h3⟩
    rw [h1]

theorem prompt_builders_empty_iff_missing_witness :
    namelessItem ∈ namelessStock.shopInventory ∧ namelessItem.name = none ∧
    prepareSession (startPreamble namelessStock firstStartDraws) firstStartDraws =
      Except.error SetupError.failedBuyerPrompt ∧
    modelCalls (startNewCustomerInteraction namelessStock firstStartDraws
      (some "Hello".toList)).effects = [] := by
  obtain ⟨cbd, hc, _⟩ := generateBuyerData_some namelessItem lowBuyerDraws
  have ht : chooseCustomerType namelessStock.shopInventory firstStartDraws.customerType =
      CustomerType.buyer :=
    (chooseCustomerType_buyer_iff _ _).2 ⟨by decide, by simp [firstStartDraws]⟩
  have hi : index namelessStock.shopInventory
      ⌊firstStartDraws.itemToSell * (namelessStock.shopInventory.length : Rat)⌋ =
        some namelessItem := by
    have : ⌊firstStartDraws.itemToSell * (namelessStock.shopInventory.length : Rat)⌋ = 0 := by
      simp [firstStartDraws]
    rw [this]
    rfl
  have hp : constructBuyerPrompt (some cbd) (some namelessItem) = [] := by
    rw [constructBuyerPrompt_eq_on, constructBuyerPromptOn_eq_nil]
    right; right
    exact ⟨_, rfl, Or.inl rfl⟩
  obtain ⟨h1, _, h3⟩ := prompt_builders_empty_iff_missing.2.2.2.2.2 namelessStock firstStartDraws
    (some "Hello".toList) namelessItem cbd rfl ht hi hc hp
  refine ⟨by simp [namelessStock], rfl, h1, ?_⟩
  rw [h3]
  rfl

/-! ### The weighted choice of a rarity -/

theorem weightedScan_itemRarities (x : Rat) (h1 : x < 100) :
    weightedScan itemRarities x =
      some (if x < 40 then "Common" else if x < 70 then "Uncommon" else if x < 90 then "Rare"
        else if x < 98 then "Unique" else "Legendary") := by
  simp only [itemRarities, weightedScan]
  have p40 : (40 : Rat) > 0 := by norm_num
  have p30 : (30 : Rat) > 0 := by norm_num
  have p20 : (20 : Rat) > 0 := by norm_num
  have p8 : (8 : Rat) > 0 := by norm_num
  have p2 : (2 : Rat) > 0 := by norm_num
  rw [if_pos p40, if_pos p30, if_pos p20, if_pos p8, if_pos p2]
  by_cases a : x < 40
  · rw [if_pos a, if_pos a]
  · rw [if_neg a, if_neg a]
    by_cases b : x < 70
    · rw [if_pos b, if_pos (by linarith)]
    · rw [if_neg b, if_neg (by linarith)]
      by_cases c : x < 90
      · rw [if_pos c, if_pos (by linarith)]
      · rw [if_neg c, if_neg (by linarith)]
        by_cases d : x < 98
        · rw [if_pos d, if_pos (by linarith)]
        · rw [if_neg d, if_neg (by linarith), if_pos (by linarith)]

theorem getWeightedRandomKey_eq_scan (r rFallback : Rat) (hr : IsDraw r) :
    getWeightedRandomKey itemRarities r rFallback = weightedScan itemRarities (r * 100) := by
  have h := weightedScan_itemRarities (r * 100) (by have := hr.2; linarith)
  simp only [getWeightedRandomKey, itemRarities_totalWeight]
  rw [if_neg (by norm_num), h]

/-- Claim C24.  For every draw `r` in `[0, 1)`, `getWeightedRandomKey(itemRarities)` returns
Common when `100r < 40`, Uncommon when `40 ≤ 100r < 70`, Rare when `70 ≤ 100r < 90`, Unique when
`90 ≤ 100r < 98` and Legendary when `98 ≤ 100r < 100`.  The total weight is 100, the loop itself
returns the key (its result is not `none`, so the uniform choice after the loop is not reached
and the draw `rFallback` is not read), the result is never `null`, and `generateItem` returns an
item, of the rarity chosen, for all draws. -/
theorem rarity_follows_weight_thresholds :
    (itemRarities.map (fun item => item.2.2)).sum = 100 ∧
    (∀ r rFallback : Rat, IsDraw r →
      (100 * r < 40 → getWeightedRandomKey itemRarities r rFallback = some "Common") ∧
      (40 ≤ 100 * r → 100 * r < 70 →
        getWeightedRandomKey itemRarities r rFallback = some "Uncommon") ∧
      (70 ≤ 100 * r → 100 * r < 90 →
        getWeightedRandomKey itemRarities r rFallback = some "Rare") ∧
      (90 ≤ 100 * r → 100 * r < 98 →
        getWeightedRandomKey itemRarities r rFallback = some "Unique") ∧
      (98 ≤ 100 * r → 100 * r < 100 →
        getWeightedRandomKey itemRarities r rFallback = some "Legendary") ∧
      weightedScan itemRarities (r * 100) ≠ none ∧
      getWeightedRandomKey itemRarities r rFallback = weightedScan itemRarities (r * 100) ∧
      getWeightedRandomKey itemRarities r rFallback ≠ none) ∧
    (∀ d : ItemDraws, IsDraw d.baseValue → IsDraw d.condition → IsDraw d.rarity →
      ∃ item, generateItem d = some item ∧
        some item.rarity = getWeightedRandomKey itemRarities d.rarity d.rarityFallback) := by
  refine ⟨itemRarities_totalWeight, ?_, ?_⟩
  · intro r rFallback hr
    have hs := weightedScan_itemRarities (r * 100) (by have := hr.2; linarith)
    have hg := getWeightedRandomKey_eq_scan r rFallback hr
    rw [hg, hs]
    refine ⟨?_, ?_, ?_, ?_, ?_, ?_, rfl, ?_⟩
    · intro h
      rw [if_pos (by linarith)]
    · intro h1 h2
      rw [if_neg (by linarith), if_pos (by linarith)]
    · intro h1 h2
      rw [if_neg (by linarith), if_neg (by linarith), if_pos (by linarith)]
    · intro h1 h2
      rw [if_neg (by linarith), if_neg (by linarith), if_neg (by linarith), if_pos (by linarith)]
    · intro h1 h2
      rw [if_neg (by linarith), if_neg (by linarith), if_neg (by linarith), if_neg (by linarith)]
    · exact Option.some_ne_none _
    · exact Option.some_ne_none _
  · intro d hb hc hr
    obtain ⟨baseValue, c, e, _, _, _, he, hg⟩ := generateItem_some d hb hc hr
    refine ⟨_, hg, ?_⟩
    have ht : (itemConditions.isEmpty || itemRarities.isEmpty) = false := rfl
    cases hk : getWeightedRandomKey itemRarities d.rarity d.rarityFallback with
    | none =>
      simp only [generateItem, ht, hk] at hg
      cases hi : index itemConditions (getRandomInt 0 ((itemConditions.length : Int) - 1)
        d.condition) <;> rw [hi] at hg <;> simp at hg
    | some key =>
      simp only [generateItem, ht, hk] at hg
      cases hi : index itemConditions (getRandomInt 0 ((itemConditions.length : Int) - 1)
        d.condition) with
      | none => rw [hi] at hg; simp at hg
      | some cc =>
        rw [hi] at hg
        cases hl : itemRarities.lookup key with
        | none => simp [hl] at hg
        | some rr =>
          simp only [hl, Bool.false_eq_true, if_false, Option.some.injEq] at hg
          rw [← hg]
          rfl

theorem rarity_follows_weight_thresholds_witness :
    getWeightedRandomKey itemRarities (1 / 2) 0 = some "Uncommon" ∧
    getWeightedRandomKey itemRarities (99 / 100) 0 = some "Legendary" :=
  ⟨(rarity_follows_weight_thresholds.2.1 (1 / 2) 0 ⟨by norm_num, by norm_num⟩).2.1
      (by norm_num) (by norm_num),
   (rarity_follows_weight_thresholds.2.1 (99 / 100) 0 ⟨by norm_num, by norm_num⟩).2.2.2.2.1
      (by norm_num) (by norm_num)⟩

/-! ### The prices of a seller and the price sensitivity -/

theorem mathRound_le_of_le (x : Rat) (n : Int) (h : x ≤ n) : mathRound x ≤ n := by
  have : mathRound x < n + 1 := by
    rw [mathRound_lt_iff]
    push_cast
    linarith
  omega

theorem sellerPricing_mono (actualValue baseValue : Int) (s1 s2 : Rat) (hv : 0 ≤ actualValue)
    (h1 : 7 / 10 ≤ s1) (h12 : s1 ≤ s2) :
    (sellerPricing actualValue baseValue s1).1 ≤ (sellerPricing actualValue baseValue s2).1 ∧
      (sellerPricing actualValue baseValue s1).2 ≤ (sellerPricing actualValue baseValue s2).2 := by
  have hv' : (0 : Rat) ≤ actualValue := by exact_mod_cast hv
  have hR : mathRound (actualValue * (0.95 - ((1.0 - s1) * 0.5))) ≤
      mathRound (actualValue * (0.95 - ((1.0 - s2) * 0.5))) := by
    apply mathRound_mono
    apply mul_le_mul_of_nonneg_left _ hv'
    linarith
  have hm : max 1 (mathRound (actualValue * (0.95 - ((1.0 - s1) * 0.5)))) ≤
      max 1 (mathRound (actualValue * (0.95 - ((1.0 - s2) * 0.5)))) :=
    max_le_max (le_refl 1) hR
  have hpos : 1 ≤ max 1 (mathRound (actualValue * (0.95 - ((1.0 - s1) * 0.5)))) :=
    le_max_left _ _
  simp only [sellerPricing]
  generalize max 1 (mathRound (actualValue * (0.95 - ((1.0 - s1) * 0.5)))) = m1 at hm hpos ⊢
  generalize max 1 (mathRound (actualValue * (0.95 - ((1.0 - s2) * 0.5)))) = m2 at hm ⊢
  have hm1 : (1 : Rat) ≤ m1 := by exact_mod_cast hpos
  have hm' : (m1 : Rat) ≤ m2 := by exact_mod_cast hm
  have hA : mathRound (m1 * (1.05 + (s1 * 0.45))) ≤ mathRound (m2 * (1.05 + (s2 * 0.45))) := by
    apply mathRound_mono
    apply mul_le_mul hm' (by linarith) (by linarith) (by linarith)
  generalize mathRound (m1 * (1.05 + (s1 * 0.45))) = A1 at hA ⊢
  generalize mathRound (m2 * (1.05 + (s2 * 0.45))) = A2 at hA ⊢
  refine ⟨hm, ?_⟩
  omega

/-- Claim C26.  For every item with `actualValue ≥ 0` and every two price sensitivities
`s1 ≤ s2` from 0.7 up, the `minimumPrice` and the `askingPrice` that `generateCustomerData`
computes with `s2` are each at least those it computes with `s1`; so for two calls whose draws of
the sensitivity are `r1 ≤ r2`, the seller of the second has the higher or equal
`minimumAcceptablePrice` and `initialAskingPrice`. -/
theorem sensitive_seller_asks_more :
    (∀ (actualValue baseValue : Int) (s1 s2 : Rat), 0 ≤ actualValue →
      7 / 10 ≤ s1 → s1 ≤ s2 → s2 ≤ 1 →
      (sellerPricing actualValue baseValue s1).1 ≤ (sellerPricing actualValue baseValue s2).1 ∧
      (sellerPricing actualValue baseValue s1).2 ≤ (sellerPricing actualValue baseValue s2).2) ∧
    (∀ (itemData : ItemData) (d1 d2 : SellerDraws), 0 ≤ itemData.actualValue →
      IsDraw d1.priceSensitivity → IsDraw d2.priceSensitivity →
      d1.priceSensitivity ≤ d2.priceSensitivity →
      ∃ c1 c2 m1 m2 a1 a2,
        generateCustomerData (some itemData) d1 = some c1 ∧
        generateCustomerData (some itemData) d2 = some c2 ∧
        c1.priceSensitivity ≤ c2.priceSensitivity ∧
        c1.minimumAcceptablePrice = some m1 ∧ c2.minimumAcceptablePrice = some m2 ∧
        c1.initialAskingPrice = some a1 ∧ c2.initialAskingPrice = some a2 ∧
        m1 ≤ m2 ∧ a1 ≤ a2) := by
  constructor
  · intro actualValue baseValue s1 s2 hv h1 h12 _
    exact sellerPricing_mono actualValue baseValue s1 s2 hv h1 h12
  · intro itemData d1 d2 hv h1 _ h12
    obtain ⟨c1, hc1, hs1, hm1, ha1, _⟩ := generateCustomerData_some itemData d1
    obtain ⟨c2, hc2, hs2, hm2, ha2, _⟩ := generateCustomerData_some itemData d2
    have hs : c1.priceSensitivity ≤ c2.priceSensitivity := by
      rw [hs1, hs2]
      linarith
    have h7 : 7 / 10 ≤ c1.priceSensitivity := by
      rw [hs1]
      have := h1.1
      linarith
    have hmono := sellerPricing_mono itemData.actualValue itemData.baseValue _ _ hv h7 hs
    exact ⟨c1, c2, _, _, _, _, hc1, hc2, hs, hm1, hm2, ha1, ha2, hmono.1, hmono.2⟩

theorem sensitive_seller_asks_more_witness :
    (sellerPricing 113 100 (7 / 10)).1 ≤ (sellerPricing 113 100 1).1 ∧
    (sellerPricing 113 100 (7 / 10)).2 ≤ (sellerPricing 113 100 1).2 :=
  sensitive_seller_asks_more.1 113 100 (7 / 10) 1 (by decide) (le_refl _) (by norm_num)
    (le_refl _)

/-! ### The cap on the asking price -/

theorem itemOf_actualValue_le (baseValue : Int) (cm rm : Rat) (cn rn : String)
    (hb : 10 ≤ baseValue) (hc0 : 1 / 4 ≤ cm) (hc : cm ≤ 1) (hr0 : 1 ≤ rm) (hr : rm ≤ 5) :
    (itemOf baseValue cn cm rn rm).actualValue ≤ 5 * baseValue := by
  rw [(itemOf_actualValue baseValue cm rm cn rn hb hc0 hr0).1]
  apply mathRound_le_of_le
  have hb' : (10 : Rat) ≤ baseValue := by exact_mod_cast hb
  push_cast
  have h1 : (baseValue : Rat) * cm ≤ baseValue := by nlinarith
  have h2 : (0 : Rat) ≤ baseValue * cm := by nlinarith
  nlinarith

theorem sellerPricing_floor_within_cap (actualValue baseValue : Int) (s : Rat)
    (hb : 10 ≤ baseValue) (h0 : 0 ≤ actualValue) (hv : actualValue ≤ 5 * baseValue)
    (hs : s ≤ 1) :
    (sellerPricing actualValue baseValue s).1 + 1 ≤
      min (baseValue * 5) ((sellerPricing actualValue baseValue s).1 * 3) := by
  have hb' : (10 : Rat) ≤ baseValue := by exact_mod_cast hb
  have h0' : (0 : Rat) ≤ actualValue := by exact_mod_cast h0
  have hv' : (actualValue : Rat) ≤ 5 * baseValue := by exact_mod_cast hv
  have hR : mathRound (actualValue * (0.95 - ((1.0 - s) * 0.5))) < baseValue * 5 := by
    rw [mathRound_lt_iff]
    push_cast
    have hk : (0.95 : Rat) - ((1.0 - s) * 0.5) ≤ 19 / 20 := by
      norm_num
      linarith
    have : (actualValue : Rat) * (0.95 - ((1.0 - s) * 0.5)) ≤ actualValue * (19 / 20) :=
      mul_le_mul_of_nonneg_left hk h0'
    linarith
  simp only [sellerPricing]
  generalize mathRound (actualValue * (0.95 - ((1.0 - s) * 0.5))) = R at hR ⊢
  omega

theorem sellerPricing_le_cap (actualValue baseValue : Int) (s : Rat)
    (h : (sellerPricing actualValue baseValue s).1 + 1 ≤
      min (baseValue * 5) ((sellerPricing actualValue baseValue s).1 * 3)) :
    (sellerPricing actualValue baseValue s).2 ≤
      min (baseValue * 5) ((sellerPricing actualValue baseValue s).1 * 3) := by
  simp only [sellerPricing] at h ⊢
  generalize max 1 (mathRound (actualValue * (0.95 - ((1.0 - s) * 0.5)))) = m at h ⊢
  generalize mathRound (m * (1.05 + (s * 0.45))) = A
  omega

/-- Claim C28.  For every item that `generateItem` can produce (a base value from 10 to 500, a
condition of `itemConditions`, a rarity of `itemRarities`) and every price sensitivity from 0.7
to 1.0, the asking price of the seller is at most `min(5 × baseValue, 3 × minimumPrice)`: the
floor `minimumPrice + 1` is itself within the cap, so the last statement on `askingPrice` does
not lift it above the cap.  For all draws, `generateItem` and `generateCustomerData` return an
item and a seller with `initialAskingPrice ≤ min(5 × baseValue, 3 × minimumAcceptablePrice)`. -/
theorem asking_price_within_cap :
    (∀ (baseValue : Int) (c : String × Rat) (r : String × Rat × Rat) (s : Rat),
      10 ≤ baseValue → baseValue ≤ 500 → c ∈ itemConditions → r ∈ itemRarities →
      7 / 10 ≤ s → s ≤ 1 →
      (sellerPricing (itemOf baseValue c.1 c.2 r.1 r.2.1).actualValue baseValue s).1 + 1 ≤
        min (5 * baseValue)
          (3 * (sellerPricing (itemOf baseValue c.1 c.2 r.1 r.2.1).actualValue baseValue s).1) ∧
      (sellerPricing (itemOf baseValue c.1 c.2 r.1 r.2.1).actualValue baseValue s).2 ≤
        min (5 * baseValue)
          (3 * (sellerPricing (itemOf baseValue c.1 c.2 r.1 r.2.1).actualValue baseValue s).1)) ∧
    (∀ (di : ItemDraws) (ds : SellerDraws),
      IsDraw di.baseValue → IsDraw di.condition → IsDraw di.rarity →
      IsDraw ds.priceSensitivity →
      ∃ item customer m a, generateItem di = some item ∧
        generateCustomerData (some item) ds = some customer ∧
        customer.minimumAcceptablePrice = some m ∧ customer.initialAskingPrice = some a ∧
        a ≤ min (5 * item.baseValue) (3 * m)) := by
  have key : ∀ (baseValue : Int) (c : String × Rat) (r : String × Rat × Rat) (s : Rat),
      10 ≤ baseValue → c ∈ itemConditions → r ∈ itemRarities → s ≤ 1 →
      (sellerPricing (itemOf baseValue c.1 c.2 r.1 r.2.1).actualValue baseValue s).1 + 1 ≤
        min (5 * baseValue)
          (3 * (sellerPricing (itemOf baseValue c.1 c.2 r.1 r.2.1).actualValue baseValue s).1) ∧
      (sellerPricing (itemOf baseValue c.1 c.2 r.1 r.2.1).actualValue baseValue s).2 ≤
        min (5 * baseValue)
          (3 * (sellerPricing (itemOf baseValue c.1 c.2 r.1 r.2.1).actualValue baseValue s).1) := by
    intro baseValue c r s hb hc hr hs
    have hcm := itemConditions_multiplier c hc
    have hrm := itemRarities_multiplier r hr
    have h1 := (itemOf_actualValue baseValue c.2 r.2.1 c.1 r.1 hb hcm.1 hrm.1).2
    have h5 := itemOf_actualValue_le baseValue c.2 r.2.1 c.1 r.1 hb hcm.1 hcm.2 hrm.1 hrm.2
    have hf := sellerPricing_floor_within_cap
      (itemOf baseValue c.1 c.2 r.1 r.2.1).actualValue baseValue s hb (by omega) h5 hs
    have hc := sellerPricing_le_cap _ _ _ hf
    rw [mul_comm 5 baseValue, mul_comm 3]
    exact ⟨hf, hc⟩
  constructor
  · intro baseValue c r s hb _ hc hr _ hs
    exact key baseValue c r s hb hc hr hs
  · intro di ds hb hc hr hs
    obtain ⟨baseValue, c, r, hb1, _, hcm, hrm, hg⟩ := generateItem_some di hb hc hr
    obtain ⟨customer, hcu, hsens, hm, ha, _⟩ :=
      generateCustomerData_some (itemOf baseValue c.1 c.2 r.1 r.2.1) ds
    have hs1 : customer.priceSensitivity ≤ 1 := by
      rw [hsens]
      have := hs.2
      linarith
    have hk := (key baseValue c r customer.priceSensitivity hb1 hcm hrm hs1).2
    exact ⟨_, customer, _, _, hg, hcu, hm, ha, hk⟩

theorem asking_price_within_cap_witness :
    (sellerPricing (itemOf 100 "Regular" 0.75 "Uncommon" 1.5).actualValue 100 1).2 ≤
      min (5 * 100)
        (3 * (sellerPricing (itemOf 100 "Regular" 0.75 "Uncommon" 1.5).actualValue 100 1).1) := by
  have h := (asking_price_within_cap.1 100 ("Regular", 0.75) ("Uncommon", 1.5, 30) 1
    (by decide) (by decide) (by simp [itemConditions]) (by simp [itemRarities])
    (by norm_num) (le_refl _)).2
  simpa using h

/-! ### The offer of a buyer -/

theorem buyerPricing_eq_check (v : Int) (s a b : Rat) :
    buyerPricing v s a b = buyerSafetyCheck (buyerPricingBeforeCheck v s a b) := rfl

theorem buyerPricingBeforeCheck_spec (v : Int) (s a b : Rat) (hv : 1 ≤ v) :
    (buyerPricingBeforeCheck v s a b).1 =
        min (max 1 (mathRound (v * (1.0 - ((1.0 - s) * 0.6) - (b * 0.15)))))
          ((buyerPricingBeforeCheck v s a b).2 - 1) ∧
      1 ≤ (buyerPricingBeforeCheck v s a b).1 ∧
      (buyerPricingBeforeCheck v s a b).1 ≤ (buyerPricingBeforeCheck v s a b).2 - 1 ∧
      v + 1 ≤ (buyerPricingBeforeCheck v s a b).2 := by
  have hm : v + 1 ≤ max (v + 1) (mathRound (v * (1.0 + ((1.0 - s) * 0.8) + (a * 0.1)))) :=
    le_max_left _ _
  simp only [buyerPricingBeforeCheck]
  generalize max (v + 1) (mathRound (v * (1.0 + ((1.0 - s) * 0.8) + (a * 0.1)))) = m at hm ⊢
  generalize mathRound (v * (1.0 - ((1.0 - s) * 0.6) - (b * 0.15))) = R
  omega

theorem buyerSafetyCheck_of_lt (p : Int × Int) (h : ¬ p.1 ≥ p.2) : buyerSafetyCheck p = p := by
  unfold buyerSafetyCheck
  rw [if_neg h]

/-- Claim C27.  For every integer `actualValue ≥ 1`, every price sensitivity and every draw of
the two jitters, the test `initialOffer >= maximumPrice` of the safety check of
`generateBuyerData` is false, so its branch is not taken, and the offer returned is
`min(max(1, round(actualValue × offerMultiplier)), maximumPrice − 1)`, with
`1 ≤ initialOffer ≤ maximumPrice − 1`.  No bound on the sensitivity or on the jitters is
needed. -/
theorem buyer_safety_branch_never_taken :
    (∀ (v : Int) (s a b : Rat),
      buyerPricing v s a b = buyerSafetyCheck (buyerPricingBeforeCheck v s a b)) ∧
    (∀ (v : Int) (s a b : Rat), 1 ≤ v → 3 / 5 ≤ s → s ≤ 1 → IsDraw a → IsDraw b →
      ¬ (buyerPricingBeforeCheck v s a b).1 ≥ (buyerPricingBeforeCheck v s a b).2 ∧
      buyerPricing v s a b = buyerPricingBeforeCheck v s a b ∧
      (buyerPricing v s a b).1 =
        min (max 1 (mathRound (v * (1.0 - ((1.0 - s) * 0.6) - (b * 0.15)))))
          ((buyerPricing v s a b).2 - 1) ∧
      1 ≤ (buyerPricing v s a b).1 ∧
      (buyerPricing v s a b).1 ≤ (buyerPricing v s a b).2 - 1) ∧
    (∀ (itemToSell : InventoryItem) (d : BuyerDraws), 1 ≤ itemToSell.actualValue →
      IsDraw d.priceSensitivity → IsDraw d.maxJitter → IsDraw d.offerJitter →
      ∃ c o m, generateBuyerData (some itemToSell) d = some c ∧
        c.initialOffer = some o ∧ c.maximumAcceptablePrice = some m ∧
        o = min (max 1 (mathRound (itemToSell.actualValue *
              (1.0 - ((1.0 - c.priceSensitivity) * 0.6) - (d.offerJitter * 0.15))))) (m - 1) ∧
        1 ≤ o ∧ o ≤ m - 1) := by
  have key : ∀ (v : Int) (s a b : Rat), 1 ≤ v →
      ¬ (buyerPricingBeforeCheck v s a b).1 ≥ (buyerPricingBeforeCheck v s a b).2 ∧
      buyerPricing v s a b = buyerPricingBeforeCheck v s a b ∧
      (buyerPricing v s a b).1 =
        min (max 1 (mathRound (v * (1.0 - ((1.0 - s) * 0.6) - (b * 0.15)))))
          ((buyerPricing v s a b).2 - 1) ∧
      1 ≤ (buyerPricing v s a b).1 ∧
      (buyerPricing v s a b).1 ≤ (buyerPricing v s a b).2 - 1 := by
    intro v s a b hv
    obtain ⟨h1, h2, h3, _⟩ := buyerPricingBeforeCheck_spec v s a b hv
    have hn : ¬ (buyerPricingBeforeCheck v s a b).1 ≥ (buyerPricingBeforeCheck v s a b).2 := by
      omega
    have he : buyerPricing v s a b = buyerPricingBeforeCheck v s a b := by
      rw [buyerPricing_eq_check, buyerSafetyCheck_of_lt _ hn]
    rw [he]
    exact ⟨hn, rfl, h1, h2, h3⟩
  refine ⟨buyerPricing_eq_check, ?_, ?_⟩
  · intro v s a b hv _ _ _ _
    exact key v s a b hv
  · intro itemToSell d hv _ _ _
    obtain ⟨c, hc, _, ho, hm, _⟩ := generateBuyerData_some itemToSell d
    obtain ⟨_, _, h1, h2, h3⟩ :=
      key itemToSell.actualValue c.priceSensitivity d.maxJitter d.offerJitter hv
    exact ⟨c, _, _, hc, ho, hm, h1, h2, h3⟩

theorem buyer_safety_branch_never_taken_witness :
    ¬ (buyerPricingBeforeCheck 100 1 0 0).1 ≥ (buyerPricingBeforeCheck 100 1 0 0).2 ∧
    1 ≤ (buyerPricing 100 1 0 0).1 ∧ (buyerPricing 100 1 0 0).1 ≤ (buyerPricing 100 1 0 0).2 - 1 :=
  have h := buyer_safety_branch_never_taken.2.1 100 1 0 0 (by decide) (by norm_num)
    (le_refl _) ⟨le_refl _, by norm_num⟩ ⟨le_refl _, by norm_num⟩
  ⟨h.1, h.2.2.2.1, h.2.2.2.2⟩

/-! ### The offer of a buyer and the price sensitivity -/

theorem buyerPricing_offer_eq (v : Int) (s a b : Rat) (hv : 1 ≤ v) (hs : s ≤ 1) (hb : 0 ≤ b) :
    (buyerPricing v s a b).1 = max 1 (mathRound (v * (1.0 - ((1.0 - s) * 0.6) - (b * 0.15)))) := by
  obtain ⟨h1, h2, h3, h4⟩ := buyerPricingBeforeCheck_spec v s a b hv
  have hn : ¬ (buyerPricingBeforeCheck v s a b).1 ≥ (buyerPricingBeforeCheck v s a b).2 := by
    omega
  rw [buyerPricing_eq_check, buyerSafetyCheck_of_lt _ hn, h1]
  have hv' : (1 : Rat) ≤ v := by exact_mod_cast hv
  have hR : mathRound (v * (1.0 - ((1.0 - s) * 0.6) - (b * 0.15))) ≤ v := by
    apply mathRound_le_of_le
    have hk : (1.0 : Rat) - ((1.0 - s) * 0.6) - (b * 0.15) ≤ 1 := by
      norm_num
      nlinarith
    have := mul_le_mul_of_nonneg_left hk (by linarith : (0 : Rat) ≤ v)
    linarith
  generalize mathRound (v * (1.0 - ((1.0 - s) * 0.6) - (b * 0.15))) = R at hR ⊢
  omega

theorem buyerPricing_offer_mono (v : Int) (s1 s2 a1 a2 b : Rat) (hv : 1 ≤ v) (h12 : s1 ≤ s2)
    (h2 : s2 ≤ 1) (hb : 0 ≤ b) :
    (buyerPricing v s1 a1 b).1 ≤ (buyerPricing v s2 a2 b).1 := by
  rw [buyerPricing_offer_eq v s1 a1 b hv (by linarith) hb,
    buyerPricing_offer_eq v s2 a2 b hv h2 hb]
  apply max_le_max (le_refl 1)
  apply mathRound_mono
  apply mul_le_mul_of_nonneg_left _ (by exact_mod_cast (by omega : (0 : Int) ≤ v))
  linarith

/-- Claim C25 fails on the code.  For the inventory item `stockItem 1 "Silver Ring" 60`, whose
`actualValue` is 100, and jitter draws 0, `generateBuyerData` computes the offer 76 with the
price sensitivity 0.6 and the offer 88 with the price sensitivity 0.8: the more sensitive buyer
starts higher, where the comments of the source say "Higher sensitivity = Starts lower" and
"Sensitive buyers should start lower".  So it is not true that for every `actualValue ≥ 1`, fixed
jitter draws and sensitivities `s1 ≤ s2` in `[0.6, 1.0]` the offer computed with `s2` is at most
the offer computed with `s1`. -/
theorem sensitive_buyer_starts_higher :
    (stockItem 1 "Silver Ring" 60).actualValue = 100 ∧
    ∃ c1 c2, generateBuyerData (some (stockItem 1 "Silver Ring" 60)) lowBuyerDraws = some c1 ∧
      generateBuyerData (some (stockItem 1 "Silver Ring" 60)) keenBuyerDraws = some c2 ∧
      c1.priceSensitivity = 3 / 5 ∧ c2.priceSensitivity = 4 / 5 ∧
      c1.initialOffer = some 76 ∧ c2.initialOffer = some 88 ∧
      ¬ (∀ (v : Int) (s1 s2 a b : Rat), 1 ≤ v → 3 / 5 ≤ s1 → s1 ≤ s2 → s2 ≤ 1 →
          IsDraw a → IsDraw b → (buyerPricing v s2 a b).1 ≤ (buyerPricing v s1 a b).1) := by
  obtain ⟨c1, hc1, hs1, ho1, _⟩ := generateBuyerData_some (stockItem 1 "Silver Ring" 60)
    lowBuyerDraws
  obtain ⟨c2, hc2, hs2, ho2, _⟩ := generateBuyerData_some (stockItem 1 "Silver Ring" 60)
    keenBuyerDraws
  have e1 : c1.priceSensitivity = 3 / 5 := by
    rw [hs1]
    simp only [lowBuyerDraws]
    norm_num
  have e2 : c2.priceSensitivity = 4 / 5 := by
    rw [hs2]
    simp only [keenBuyerDraws]
    norm_num
  have hv : (stockItem 1 "Silver Ring" 60).actualValue = 100 := rfl
  have r1 : mathRound (((100 : Int) : Rat) * (1.0 - ((1.0 - 3 / 5) * 0.6) - (0 * 0.15))) = 76 := by
    rw [mathRound_eq_iff]; norm_num
  have r2 : mathRound (((100 : Int) : Rat) * (1.0 - ((1.0 - 4 / 5) * 0.6) - (0 * 0.15))) = 88 := by
    rw [mathRound_eq_iff]; norm_num
  have p1 : (buyerPricing 100 (3 / 5) 0 0).1 = 76 := by
    rw [buyerPricing_offer_eq 100 (3 / 5) 0 0 (by decide) (by norm_num) (le_refl _), r1]
    rfl
  have p2 : (buyerPricing 100 (4 / 5) 0 0).1 = 88 := by
    rw [buyerPricing_offer_eq 100 (4 / 5) 0 0 (by decide) (by norm_num) (le_refl _), r2]
    rfl
  refine ⟨rfl, c1, c2, hc1, hc2, e1, e2, ?_, ?_, ?_⟩
  · rw [ho1, e1, hv]
    simp only [lowBuyerDraws]
    rw [p1]
  · rw [ho2, e2, hv]
    simp only [keenBuyerDraws]
    rw [p2]
  · intro h
    have := h 100 (3 / 5) (4 / 5) 0 0 (by decide) (le_refl _) (by norm_num) (by norm_num)
      ⟨le_refl _, by norm_num⟩ ⟨le_refl _, by norm_num⟩
    rw [p1, p2] at this
    omega

/-! ### Several occurrences of one tag -/

theorem storeTag_eq_accepted (tags : Tags) (m : TagMatch) :
    storeTag tags m =
      match m.accepted with
      | some v => Tags.set tags m.key v
      | none => tags := by
  rw [storeTag_eq]
  unfold TagMatch.accepted
  by_cases hk : m.key ∈ numericTags
  · rw [if_pos hk, if_pos hk]
    cases numValueOf m.key (trim m.value) with
    | nan => rfl
    | fraction => rfl
    | integer v =>
      by_cases hr : tagRule m.key v
      · simp only [if_pos hr]
      · simp only [if_neg hr]
  · rw [if_neg hk, if_neg hk]

theorem accepted_eq_none_iff (m : TagMatch) : m.accepted = none ↔ violatesRule m := by
  unfold TagMatch.accepted violatesRule
  by_cases hk : m.key ∈ numericTags
  · rw [if_pos hk]
    cases numValueOf m.key (trim m.value) with
    | nan => simp [hk]
    | fraction => simp [hk]
    | integer v =>
      by_cases hr : tagRule m.key v <;> simp [hk, hr]
  · rw [if_neg hk]
    simp [hk]

theorem foldl_storeTag_get (key : String) (ms : List TagMatch) :
    ∀ tags : Tags, Tags.get (ms.foldl storeTag tags) key =
      match lastAccepted ms key with
      | some v => some v
      | none => Tags.get tags key := by
  induction ms with
  | nil => intro tags; rfl
  | cons m ms ih =>
    intro tags
    rw [List.foldl_cons, ih]
    by_cases hk : m.key = key
    · have hf : (m :: ms).filter (fun m => m.key == key) =
          m :: ms.filter (fun m => m.key == key) := by
        rw [List.filter_cons, if_pos (by simp [hk])]
      cases ha : m.accepted with
      | none =>
        have hl : lastAccepted (m :: ms) key = lastAccepted ms key := by
          unfold lastAccepted
          rw [hf, List.filterMap_cons, ha]
        rw [hl, storeTag_eq_accepted, ha]
      | some v =>
        have hl : lastAccepted (m :: ms) key = some ((lastAccepted ms key).getD v) := by
          unfold lastAccepted
          rw [hf, List.filterMap_cons, ha]
          simp only
          rw [List.getLast?_cons]
        rw [hl, storeTag_eq_accepted, ha]
        simp only
        cases lastAccepted ms key with
        | some w => rfl
        | none =>
          simp only [Option.getD_none]
          rw [← hk]
          exact Tags.get_set_self tags m.key v
    · have hf : (m :: ms).filter (fun m => m.key == key) =
          ms.filter (fun m => m.key == key) := by
        rw [List.filter_cons, if_neg (by simp [hk])]
      have hl : lastAccepted (m :: ms) key = lastAccepted ms key := by
        unfold lastAccepted
        rw [hf]
      rw [hl, storeTag_get_of_key_ne tags m key hk]

theorem parseTags_get (text : List Char) (key : String) :
    Tags.get (parseTags text) key = lastAccepted (execAll text) key := by
  rw [parseTags_eq_foldl, foldl_storeTag_get]
  cases lastAccepted (execAll text) key <;> rfl

/-- Claim C29.  For every text and every key, `parseTags` returns under the key the value of the
last occurrence of that tag name that passes validation (and nothing when there is none); an
occurrence that fails validation leaves the mapping as it is, so it neither removes nor replaces
an earlier value.  The text "[PRICE_ASK: 100] [PRICE_ASK: -5]" has two occurrences of PRICE_ASK
and yields PRICE_ASK = 100. -/
theorem last_valid_occurrence_wins :
    (∀ (text : List Char) (key : String),
      Tags.get (parseTags text) key = lastAccepted (execAll text) key) ∧
    (∀ (tags : Tags) (m : TagMatch), m.accepted = none → storeTag tags m = tags) ∧
    execAll "[PRICE_ASK: 100] [PRICE_ASK: -5]".toList =
      [⟨0, "PRICE_ASK".toList, "100".toList⟩, ⟨17, "PRICE_ASK".toList, "-5".toList⟩] ∧
    parseTags "[PRICE_ASK: 100] [PRICE_ASK: -5]".toList = [("PRICE_ASK", TagValue.num 100)] := by
  refine ⟨parseTags_get, ?_, by decide, by decide⟩
  intro tags m h
  rw [storeTag_eq_accepted, h]

theorem last_valid_occurrence_wins_witness :
    storeTag [("PRICE_ASK", TagValue.num 100)] ⟨17, "PRICE_ASK".toList, "-5".toList⟩ =
      [("PRICE_ASK", TagValue.num 100)] :=
  last_valid_occurrence_wins.2.1 _ _ (by decide)

/-! ### The character after the colon of a tag -/

theorem matchSpacesValue_head {cs v rest : List Char} (h : matchSpacesValue cs = some (v, rest)) :
    ∃ c tail, cs = c :: tail ∧ (isWhiteSpace c = true ∨ isDigit c = true ∨ c = '-') := by
  cases cs with
  | nil => simp [matchSpacesValue] at h
  | cons c tail =>
    refine ⟨c, tail, rfl, ?_⟩
    by_cases hw : isWhiteSpace c = true
    · exact Or.inl hw
    · simp only [matchSpacesValue, hw] at h
      have hv : matchValue (c :: tail) = some (v, rest) := by simpa using h
      by_cases hc : (c == '-' || isDigit c || isWhiteSpace c) = true
      · simp only [Bool.or_eq_true, beq_iff_eq] at hc
        tauto
      · simp only [matchValue, hc] at hv
        simp at hv

theorem matchAlternative_head {name input raw v rest : List Char}
    (h : matchAlternative name input = some (raw, v, rest)) :
    ∃ c tail, input = raw ++ ':' :: c :: tail ∧
      (isWhiteSpace c = true ∨ isDigit c = true ∨ c = '-') := by
  unfold matchAlternative at h
  split at h
  · rename_i raw' colon rest' hm
    split at h
    · rename_i hcolon
      split at h
      · rename_i v' after hs
        simp only [Option.some.injEq, Prod.mk.injEq] at h
        obtain ⟨c, tail, hc, hclass⟩ := matchSpacesValue_head hs
        refine ⟨c, tail, ?_, hclass⟩
        have := matchName_append hm
        rw [this, ← h.1, hc]
        simp only [beq_iff_eq] at hcolon
        rw [hcolon]
      · simp at h
    · simp at h
  · simp at h

theorem matchAlternatives_head {names : List (List Char)} {input raw v rest : List Char}
    (h : matchAlternatives names input = some (raw, v, rest)) :
    ∃ c tail, input = raw ++ ':' :: c :: tail ∧
      (isWhiteSpace c = true ∨ isDigit c = true ∨ c = '-') := by
  induction names with
  | nil => simp [matchAlternatives] at h
  | cons name names ih =>
    simp only [matchAlternatives] at h
    split at h
    · rename_i r hr
      simp only [Option.some.injEq] at h
      subst h
      exact matchAlternative_head hr
    · exact ih h

theorem matchTagAt_head {input raw v rest : List Char}
    (h : matchTagAt input = some (raw, v, rest)) :
    ∃ c tail, input = '[' :: (raw ++ ':' :: c :: tail) ∧
      (isWhiteSpace c = true ∨ isDigit c = true ∨ c = '-') := by
  cases input with
  | nil => simp [matchTagAt] at h
  | cons b cs =>
    simp only [matchTagAt] at h
    split at h
    · rename_i hb
      obtain ⟨c, tail, hc, hclass⟩ := matchAlternatives_head h
      simp only [beq_iff_eq] at hb
      exact ⟨c, tail, by rw [hb, hc], hclass⟩
    · simp at h

theorem execFrom_head (text : List Char) (skip idx : Nat) :
    ∀ m ∈ execFrom text skip idx,
      ∃ before c tail, text = before ++ '[' :: (m.name ++ ':' :: c :: tail) ∧
        idx + before.length = m.index ∧
        (isWhiteSpace c = true ∨ isDigit c = true ∨ c = '-') := by
  induction text generalizing skip idx with
  | nil => intro m hm; simp [execFrom] at hm
  | cons b cs ih =>
    have step : ∀ k, ∀ m ∈ execFrom cs k (idx + 1),
        ∃ before c tail, b :: cs = before ++ '[' :: (m.name ++ ':' :: c :: tail) ∧
          idx + before.length = m.index ∧
          (isWhiteSpace c = true ∨ isDigit c = true ∨ c = '-') := by
      intro k m hm
      obtain ⟨before, c, tail, h1, h2, h3⟩ := ih k (idx + 1) m hm
      refine ⟨b :: before, c, tail, by rw [h1]; rfl, ?_, h3⟩
      simp only [List.length_cons]
      omega
    cases skip with
    | succ k => simp only [execFrom]; exact step k
    | zero =>
      simp only [execFrom]
      split
      · rename_i raw v rest hm
        intro m hmem
        rcases List.mem_cons.mp hmem with h | h
        · subst h
          obtain ⟨c, tail, hc, hclass⟩ := matchTagAt_head hm
          exact ⟨[], c, tail, hc, rfl, hclass⟩
        · exact step _ m h
      · exact step 0

theorem lastAccepted_mem {ms : List TagMatch} {key : String} {v : TagValue}
    (h : lastAccepted ms key = some v) : ∃ m ∈ ms, m.key = key ∧ m.accepted = some v := by
  unfold lastAccepted at h
  have hv := List.mem_of_getLast?_eq_some h
  rw [List.mem_filterMap] at hv
  obtain ⟨m, hm, ha⟩ := hv
  rw [List.mem_filter] at hm
  exact ⟨m, hm.1, by simpa using hm.2, ha⟩

/-- Claim C30.  Every occurrence that `parseTags` recognises (every match of `tagRegex`) has, as
the first character after its colon, a white space character, a digit or a hyphen.  So when
`parseTags` returns a value under one of the text keys ITEM_NAME, ITEM_DESC, REVEALED_NAME and
REVEALED_OCCUPATION, the value is the trimmed text of an occurrence of that tag in the text whose
colon is followed by such a character.  "[ITEM_NAME: Rusty Sword]" yields
ITEM_NAME = "Rusty Sword", "[ITEM_NAME:Rusty Sword]" yields no key at all, and
"[ITEM_NAME:3 Swords]" yields ITEM_NAME = "3 Swords". -/
theorem text_tag_needs_space_digit_or_hyphen :
    (∀ (text : List Char) (m : TagMatch), m ∈ execAll text →
      ∃ before c tail, text = before ++ '[' :: (m.name ++ ':' :: c :: tail) ∧
        before.length = m.index ∧
        (isWhiteSpace c = true ∨ isDigit c = true ∨ c = '-')) ∧
    (∀ (text : List Char) (key : String) (v : TagValue),
      key ∈ ["ITEM_NAME", "ITEM_DESC", "REVEALED_NAME", "REVEALED_OCCUPATION"] →
      Tags.get (parseTags text) key = some v →
      ∃ m ∈ execAll text, String.mk (toUpperCase m.name) = key ∧
        v = TagValue.str (trim m.value) ∧
        ∃ before c tail, text = before ++ '[' :: (m.name ++ ':' :: c :: tail) ∧
          before.length = m.index ∧
          (isWhiteSpace c = true ∨ isDigit c = true ∨ c = '-')) ∧
    parseTags "[ITEM_NAME: Rusty Sword]".toList =
      [("ITEM_NAME", TagValue.str "Rusty Sword".toList)] ∧
    parseTags "[ITEM_NAME:Rusty Sword]".toList = [] ∧
    parseTags "[ITEM_NAME:3 Swords]".toList = [("ITEM_NAME", TagValue.str "3 Swords".toList)] := by
  have h1 : ∀ (text : List Char) (m : TagMatch), m ∈ execAll text →
      ∃ before c tail, text = before ++ '[' :: (m.name ++ ':' :: c :: tail) ∧
        before.length = m.index ∧
        (isWhiteSpace c = true ∨ isDigit c = true ∨ c = '-') := by
    intro text m hm
    obtain ⟨before, c, tail, e, hi, hc⟩ := execFrom_head text 0 0 m hm
    exact ⟨before, c, tail, e, by omega, hc⟩
  refine ⟨h1, ?_, by decide, by decide, by decide⟩
  intro text key v hk hv
  rw [parseTags_get] at hv
  obtain ⟨m, hm, hkey, ha⟩ := lastAccepted_mem hv
  have hn : m.key ∉ numericTags := by
    rw [hkey]
    simp only [List.mem_cons, List.mem_singleton, List.not_mem_nil, or_false] at hk
    rcases hk with h | h | h | h <;> subst h <;> decide
  refine ⟨m, hm, hkey, ?_, h1 text m hm⟩
  unfold TagMatch.accepted at ha
  rw [if_neg hn] at ha
  exact (Option.some.inj ha).symm

theorem text_tag_needs_space_digit_or_hyphen_witness :
    ∃ m ∈ execAll "[ITEM_NAME: Rusty Sword]".toList,
      String.mk (toUpperCase m.name) = "ITEM_NAME" ∧
      TagValue.str "Rusty Sword".toList = TagValue.str (trim m.value) ∧
      ∃ before c tail,
        "[ITEM_NAME: Rusty Sword]".toList = before ++ '[' :: (m.name ++ ':' :: c :: tail) ∧
        before.length = m.index ∧
        (isWhiteSpace c = true ∨ isDigit c = true ∨ c = '-') :=
  text_tag_needs_space_digit_or_hyphen.2.1 "[ITEM_NAME: Rusty Sword]".toList "ITEM_NAME"
    (TagValue.str "Rusty Sword".toList) (by decide) (by decide)

end PawnShop
